import Mathlib

/-!
# The C++ front end of qhull: `libqhullcpp/Qhull.cpp` over `libqhull.h`

A shallow embedding of class `orgQhull::Qhull` (constructors, `runQhull`,
`area`, `volume`, `defineVertexNeighborFacets`, `outputQhull`, `prepareVoronoi`,
`feasiblePoint`, `inputOrigin`, `initializeFeasiblePoint`), of the constants of
`libqhull.h` it relies on and of the macros `otherfacet_`, `getid_`,
`FORALLfacets` and `FORALLvertices` of `libqhull.h`.

Conventions of the embedding

* A method of `Qhull` that mutates the object and may throw becomes a function
  from the object to the object as the method leaves it, paired with the
  exception thrown (if any) or the value returned.
* `setjmp`/`longjmp` error exits of the C library become the `QhExit.errexit`
  constructor; `QH_TRY_` catches it and yields the status.
* The routines of the repository whose sources are outside `Qhull.cpp` and
  `libqhull.h` (`qh_initflags`, `qh_qhull`, `qh_getarea`, ...) are fields of a
  structure `QhLib`, a parameter of every embedded method.
* Every call of such a routine is recorded, with its arguments, in the field
  `calls` of the object; nothing but the call sites of the embedded code writes
  to it, so it tells which routines a method invoked and in which order.
* `realT` is modelled by exact rationals: the embedded code only stores,
  copies and compares coordinates.
* Linked lists (`qh.facet_list`, `qh.vertex_list`) are Lean lists whose last
  element is the sentinel; the empty list is the NULL pointer.
* The hull computation itself (`qh_init_B`, `qh_qhull`) is outside the two
  files.  Where a property of its result is stated, the computation is the one
  modelled from the specification (`specLib`); every definition of that model
  says so in its comment.
-/

namespace orgQhull

/-! ## Basic types of `libqhull.h` -/

/-- Type `realT` of user.h (a `double`), as exact rationals. -/
abbrev realT := Rat

/-- Type `coordT` (libqhull.h:74). -/
abbrev coordT := realT

/-- Class `Coordinates`: a `std::vector<coordT>`. -/
abbrev Coordinates := List coordT

/-- A NUL-terminated C string, without its terminator. -/
abbrev cstring := List Char

/-- A `pointT *` to an array of coordinates: the address it holds and the
cells found there.  Two pointers to the same array have the same address. -/
structure pointArray where
  addr : Nat := 0
  cells : List coordT := []
  deriving DecidableEq, Repr

/-! ## Exit status codes (libqhull.h:164-173) -/

/-- Code `qh_ERRnone`: no error occurred during qhull. -/
def qh_ERRnone : Int := 0
/-- Code `qh_ERRinput`: input inconsistency. -/
def qh_ERRinput : Int := 1
/-- Code `qh_ERRsingular`: singular input data. -/
def qh_ERRsingular : Int := 2
/-- Code `qh_ERRprec`: precision error. -/
def qh_ERRprec : Int := 3
/-- Code `qh_ERRmem`: insufficient memory. -/
def qh_ERRmem : Int := 4
/-- Code `qh_ERRqhull`: internal error detected. -/
def qh_ERRqhull : Int := 5
/-- Code `qh_ERRother`: other error detected. -/
def qh_ERRother : Int := 6
/-- Code `qh_ERRtopology`: topology error. -/
def qh_ERRtopology : Int := 7
/-- Code `qh_ERRwide`: wide facet error. -/
def qh_ERRwide : Int := 8
/-- Code `qh_ERRdebug`: qh_errexit from debugging code. -/
def qh_ERRdebug : Int := 9

/-- The ten `qh_ERR...` codes in the order of their definition, with their names. -/
def qh_ERR_table : List (String × Int) :=
  [("qh_ERRnone", qh_ERRnone), ("qh_ERRinput", qh_ERRinput),
   ("qh_ERRsingular", qh_ERRsingular), ("qh_ERRprec", qh_ERRprec),
   ("qh_ERRmem", qh_ERRmem), ("qh_ERRqhull", qh_ERRqhull),
   ("qh_ERRother", qh_ERRother), ("qh_ERRtopology", qh_ERRtopology),
   ("qh_ERRwide", qh_ERRwide), ("qh_ERRdebug", qh_ERRdebug)]

/-- The error kinds of the specification (section 7). -/
inductive ErrorKind where
  | InputError
  | SingularInputError
  | PrecisionError
  | OutOfMemoryError
  | TopologyError
  deriving DecidableEq, Repr

/-- The exit status that reports an error kind: the `qh_ERR...` code whose
comment in libqhull.h describes that kind. -/
def ErrorKind.status : ErrorKind → Int
  | .InputError => qh_ERRinput
  | .SingularInputError => qh_ERRsingular
  | .PrecisionError => qh_ERRprec
  | .OutOfMemoryError => qh_ERRmem
  | .TopologyError => qh_ERRtopology

/-! ## Facets, vertices and the qhull context -/

/-- The fields of `ridgeT` (libqhull.h:360-378) that the macros read; `top` and
`bottom` are `facetT *`, an address or NULL. -/
structure ridgeT where
  vertices : List Nat := []
  top : Option Nat := none
  bottom : Option Nat := none
  id : Nat := 0
  deriving DecidableEq, Repr

/-- The fields of `facetT` (libqhull.h:238-340) that the embedded code reads or
writes, with the sets as lists of ids; `outsideset` holds point ids, the
furthest point last (libqhull.h:286-288); `ridges` holds the explicit ridges of
a facet that is not simplicial (libqhull.h:276-278). -/
structure facetT where
  id : Nat := 0
  vertices : List Nat := []
  neighbors : List Nat := []
  newfacet : Bool := false
  visible : Bool := false
  simplicial : Bool := false
  good : Bool := false
  outsideset : List Nat := []
  ridges : List ridgeT := []
  deriving DecidableEq, Repr

/-- The fields of `vertexT` (libqhull.h:393-410) that the embedded code reads;
`neighbors` is a `setT *`, NULL (`none`) until the neighbor sets are defined;
`point` is the id of the point the vertex refers to. -/
structure vertexT where
  id : Nat := 0
  neighbors : Option (List Nat) := none
  point : Nat := 0
  deriving DecidableEq, Repr

/-- The fields of `qhT` (libqhull.h:484-840) used by `Qhull.cpp`, followed by
the message state that class `QhullQh` adds to it (`hasQhullMessage`,
`qhullMessage`, `clearQhullMessage` in the destructor) and by `memory`, which
stands for everything else the library routines read and write.  The starts
`visible_list` and `newfacet_list` of the sublists of the facet list
(libqhull.h:699-706) are the ids of their first facets, 0 for the sentinel;
`facet_id` and `vertex_id` are the next ids (libqhull.h:725-727); `PREmerge`
and `POSTmerge` select merging during and after the construction
(libqhull.h:537-538). -/
structure QhullQh where
  DELAUNAY : Bool := false
  FORCEoutput : Bool := false
  GOODpoint : Int := 0
  GOODthreshold : Bool := false
  GOODvertex : Int := 0
  HALFspace : Bool := false
  KEEParea : Int := 0
  KEEPmerge : Int := 0
  KEEPminArea : realT := 0
  ONLYgood : Bool := false
  PROJECTdelaunay : Bool := false
  SPLITthresholds : Bool := false
  STOPadd : Int := 0
  STOPcone : Int := 0
  STOPpoint : Int := 0
  VERIFYoutput : Bool := false
  feasible_string : Option cstring := none
  feasible_point : Option (List coordT) := none
  hull_dim : Int := 0
  input_dim : Int := 0
  qhull_command : cstring := []
  rbox_command : cstring := []
  VERTEXneighbors : Bool := false
  facet_list : List facetT := []
  vertex_list : List vertexT := []
  hasAreaVolume : Bool := false
  NOerrexit : Bool := true
  totarea : realT := 0
  totvol : realT := 0
  qhull_status : Int := 0
  qhull_message : cstring := []
  memory : Nat := 0
  RANDOMoutside : Bool := false
  ROTATErandom : Int := 0
  JOGGLEmax : realT := 0
  num_points : Int := 0
  first_point : pointArray := {}
  POINTSmalloc : Bool := false
  interior_point : List coordT := []
  num_facets : Int := 0
  num_vertices : Int := 0
  facet_id : Nat := 1
  vertex_id : Nat := 1
  visible_list : Nat := 0
  newfacet_list : Nat := 0
  PREmerge : Bool := false
  POSTmerge : Bool := false
  deriving DecidableEq

/-- Class `QhullError`: the error code and the message it is built from. -/
structure QhullError where
  code : Int
  message : String := ""
  deriving DecidableEq, Repr

/-- How a `qh_...` routine hands control back: it returns (`ret`), or it calls
`qh_errexit`, which jumps to `qh.errexit` with the exit code (`errexit`). -/
inductive QhExit (σ : Type) where
  | ret (s : σ)
  | errexit (exitcode : Int) (s : σ)
  deriving DecidableEq, Repr

/-- The state carried by an outcome. -/
def QhExit.state {σ : Type} : QhExit σ → σ
  | .ret s => s
  | .errexit _ s => s

/-- Whether the outcome is an error exit. -/
def QhExit.isErrexit {σ : Type} : QhExit σ → Bool
  | .ret _ => false
  | .errexit _ _ => true

/-- Sequencing of C statements: the rest runs only if the first part returns. -/
def QhExit.andThen {σ : Type} (r : QhExit σ) (k : σ → QhExit σ) : QhExit σ :=
  match r with
  | .ret s => k s
  | .errexit e s => .errexit e s

/-- A call made by the embedded code to a routine outside it, with the arguments
passed. -/
inductive QhCall where
  | qh_checkflags (command hiddenflags : cstring)
  | qh_initflags (command : cstring)
  | qh_setfeasible (dim : Int)
  | qh_fprintf (msgcode : Int)
  | qh_errexit (exitcode : Int)
  | qh_malloc (size : Nat)
  | qh_sethalfspace_all (dim count : Int) (halfspaces : pointArray) (feasible : Option (List coordT))
  | qh_init_B (points : pointArray) (numpoints dim : Int) (ismalloc : Bool)
  | qh_qhull
  | qh_check_output
  | qh_prepare_output
  | qh_check_points
  | qh_getarea (facetlist : List facetT)
  | qh_vertexneighbors
  | qh_produce_output2
  | qh_clear_outputflags
  | qh_initqhull_outputflags
  | initializeFeasiblePoint (hulldim : Int)
  | qh_markvoronoi (facetlist : List facetT) (printall : Bool)
  | qh_order_vertexneighbors (vertex : Nat)
  | qh_settempfree
  deriving DecidableEq, Repr

/-! ## The class `Qhull` and the routines it calls -/

/-- Class `Qhull` (its data members are initialised at Qhull.cpp:42-45), with the
record `calls` of the routines invoked on its behalf. -/
structure Qhull where
  qh_qh : QhullQh := {}
  origin_point : Coordinates := []
  run_called : Bool := false
  feasible_point : Coordinates := []
  calls : List QhCall := []
  deriving DecidableEq

/-- Class `RboxPoints`, as far as `runQhull` reads it (Qhull.cpp:282). -/
structure RboxPoints where
  comment : cstring := []
  dimension : Int := 0
  count : Int := 0
  coordinates : pointArray := {}
  deriving DecidableEq, Repr

/-- Size of a `coordT` (a `double`) in bytes. -/
def sizeof_coordT : Nat := 8

/-- The routines, constants and inline members that `Qhull.cpp` uses and that
are defined outside `Qhull.cpp` and `libqhull.h`.  A routine that may call
`qh_errexit` yields a `QhExit`. -/
structure QhLib where
  /-- Constant `QH_TRY_ERROR` of QhullQh.h. -/
  QH_TRY_ERROR : Int
  /-- Constant `REALmax` of user.h. -/
  REALmax : realT
  /-- The byte offset `s2-s` of the `qhT` base inside a `QhullQh` (Qhull.cpp:85-90). -/
  qhT_offset : Int
  /-- The context built by `new QhullQh`. -/
  newQhullQh : QhullQh
  /-- Member `Qhull::initialized()` of Qhull.h. -/
  initialized : Qhull → Bool
  /-- Member `QhullQh::maybeThrowQhullMessage(exitCode)`: the context as it
  leaves it and the `QhullError` it throws, if any. -/
  maybeThrowQhullMessage : QhullQh → Int → QhullQh × Option QhullError
  qh_checkflags : QhullQh → cstring → cstring → QhExit QhullQh
  qh_initflags : QhullQh → cstring → QhExit QhullQh
  qh_setfeasible : QhullQh → Int → QhExit QhullQh
  /-- The effect of `qh_fprintf(qh, qh->ferr, msgcode, ...)` on the context. -/
  qh_fprintf : QhullQh → Int → QhullQh
  /-- The effect of `qh_errexit(qh, exitcode, NULL, NULL)` on the context before it jumps. -/
  qh_errexit : QhullQh → Int → QhullQh
  /-- The block `qh_malloc(size)` returns: NULL, or the cells it holds before they are written. -/
  qh_malloc : QhullQh → Nat → Option (List coordT)
  /-- A block of `size` bytes holds `size / sizeof(coordT)` coordinates. -/
  qh_malloc_cells : ∀ qh size block, qh_malloc qh size = some block →
    block.length = size / sizeof_coordT
  qh_sethalfspace_all : QhullQh → Int → Int → pointArray → Option (List coordT) → QhExit QhullQh
  /-- The array `qh_sethalfspace_all` returns. -/
  qh_sethalfspace_all_result : QhullQh → Int → Int → pointArray → Option (List coordT) → pointArray
  qh_init_B : QhullQh → pointArray → Int → Int → Bool → QhExit QhullQh
  qh_qhull : QhullQh → QhExit QhullQh
  qh_check_output : QhullQh → QhExit QhullQh
  qh_prepare_output : QhullQh → QhExit QhullQh
  qh_check_points : QhullQh → QhExit QhullQh
  qh_getarea : QhullQh → List facetT → QhExit QhullQh
  qh_vertexneighbors : QhullQh → QhExit QhullQh
  qh_produce_output2 : QhullQh → QhExit QhullQh
  qh_clear_outputflags : QhullQh → QhExit QhullQh
  qh_initqhull_outputflags : QhullQh → QhExit QhullQh
  /-- The effect of `qh_markvoronoi(qh, facetlist, NULL, printall, ...)` on the context. -/
  qh_markvoronoi : QhullQh → List facetT → Bool → QhExit QhullQh
  /-- The effect of `qh_order_vertexneighbors(qh, vertex)`, for the vertex with the given id. -/
  qh_order_vertexneighbors : QhullQh → Nat → QhExit QhullQh
  qh_settempfree : QhullQh → QhExit QhullQh

/-- Global `s_unsupported_options` (Qhull.cpp:36). -/
def s_unsupported_options : cstring := " Fd TI ".toList

/-- Global `s_not_output_options` (Qhull.cpp:37). -/
def s_not_output_options : cstring :=
  " Fd TI A C d E H P Qa Qb QbB Qbb Qc Qf Qg Qi Qm QJ Qr QR Qs Qt Qv Qx Qz Q0 Q1 Q2 Q3 Q4 Q5 Q6 Q7 Q8 Q9 Q10 Q11 Q15 R TA Tc TC TM TP TR Tv TV TW U v V W ".toList

/-- Conversion `static_cast<size_t>(int)` for a 64-bit `size_t`. -/
def size_t (x : Int) : Nat := (x % 2 ^ 64).toNat

/-- The value `setjmp` returns when `longjmp(env, val)` jumps to it. -/
def setjmp_value (val : Int) : Int := if val = 0 then 1 else val

/-- C library `strncat(dest, src, n)`: at most `n` characters of `src` are appended. -/
def strncat (dest src : cstring) (n : Nat) : cstring := dest ++ src.take n

/-- A call `routine(qh_qh, ...)` of a library routine on the context of the
object: the call is recorded and the routine acts on `qh_qh`. -/
def Qhull.invoke (q : Qhull) (c : QhCall) (routine : QhullQh → QhExit QhullQh) : QhExit Qhull :=
  match routine q.qh_qh with
  | .ret qh => .ret { q with qh_qh := qh, calls := q.calls ++ [c] }
  | .errexit e qh => .errexit e { q with qh_qh := qh, calls := q.calls ++ [c] }

/-- A call `qh_fprintf(qh_qh, qh_qh->ferr, msgcode, ...)`. -/
def Qhull.qh_fprintf (L : QhLib) (q : Qhull) (msgcode : Int) : Qhull :=
  { q with qh_qh := L.qh_fprintf q.qh_qh msgcode, calls := q.calls ++ [.qh_fprintf msgcode] }

/-- A call `qh_errexit(qh_qh, exitcode, NULL, NULL)`: it does not return. -/
def Qhull.qh_errexit (L : QhLib) (q : Qhull) (exitcode : Int) : QhExit Qhull :=
  .errexit exitcode
    { q with qh_qh := L.qh_errexit q.qh_qh exitcode, calls := q.calls ++ [.qh_errexit exitcode] }

/-- Macro `QH_TRY_(qh_qh){ body }`, in the expansion given at Qhull.cpp:302-311:
the state after the block and `QH_TRY_status`. -/
def Qhull.QH_TRY_ (L : QhLib) (q : Qhull) (body : Qhull → QhExit Qhull) : Qhull × Int :=
  let q1 : Qhull :=
    if q.qh_qh.NOerrexit then { q with qh_qh := { q.qh_qh with NOerrexit := false } } else q
  let QH_TRY_status : Int := if q.qh_qh.NOerrexit then 0 else L.QH_TRY_ERROR
  if QH_TRY_status = 0 then
    match body q1 with
    | .ret q2 => (q2, 0)
    | .errexit exitcode q2 => (q2, setjmp_value exitcode)
  else (q1, QH_TRY_status)

/-- The statement `qh_qh->NOerrexit= true;` that follows every `QH_TRY_` block. -/
def Qhull.setNOerrexit (q : Qhull) : Qhull :=
  { q with qh_qh := { q.qh_qh with NOerrexit := true } }

/-- The call `qh_qh->maybeThrowQhullMessage(QH_TRY_status);` that ends a method. -/
def Qhull.maybeThrowQhullMessage (L : QhLib) (q : Qhull) (QH_TRY_status : Int) :
    Qhull × Option QhullError :=
  let r := L.maybeThrowQhullMessage q.qh_qh QH_TRY_status
  ({ q with qh_qh := r.1 }, r.2)

/-- Member `allocateQhullQh` (Qhull.cpp:79-92).  `QHULL_LIB_CHECK` ends the
process when the library does not fit the headers; the embedding covers the
runs in which it passes. -/
def Qhull.allocateQhullQh (L : QhLib) (q : Qhull) : Qhull × Option QhullError :=
  let q1 := { q with qh_qh := L.newQhullQh }
  if L.qhT_offset ≠ 0 then
    (q1, some ⟨10074, "Qhull error: QhullQh at a different address than base type QhT (%d bytes).  Please report compiler to qhull.org"⟩)
  else (q1, none)

/-- Member `checkIfQhullInitialized` (Qhull.cpp:109-115): the error it throws, if any. -/
def Qhull.checkIfQhullInitialized (L : QhLib) (q : Qhull) : Option QhullError :=
  if !L.initialized q then
    some ⟨10023, "Qhull error: checkIfQhullInitialized failed.  Call runQhull() first."⟩
  else none

/-- Reading `n` consecutive cells `*p++` of an array; `none` if the array ends before. -/
def readCoordinates : List coordT → Nat → Option (List coordT)
  | _, 0 => some []
  | [], _ + 1 => none
  | c :: p, n + 1 => (readCoordinates p n).map (c :: ·)

/-- Modelled from the spec: `Coordinates::append(int pointDimension, coordT *c)` is
defined in Coordinates.cpp, outside the sources at hand; it appends the
`pointDimension` coordinates found at `c`, none if `pointDimension` is not positive. -/
def Coordinates_append (result : Coordinates) (pointDimension : Int) (c : List coordT) :
    Option Coordinates :=
  (readCoordinates c pointDimension.toNat).map (result ++ ·)

/-- Modelled from the spec: `Qhull::setFeasiblePoint(c)` is defined in Qhull.h,
outside the sources at hand; it stores `c` in the member `feasible_point`
that `feasiblePoint` and `initializeFeasiblePoint` read. -/
def Qhull.setFeasiblePoint (q : Qhull) (c : Coordinates) : Qhull :=
  { q with feasible_point := c }

/-- Member `feasiblePoint` (Qhull.cpp:117-129), a `const` member: its result,
`none` if it reads beyond the block `qh.feasible_point`. -/
def Qhull.feasiblePoint (q : Qhull) : Option Coordinates :=
  match q.qh_qh.feasible_point with
  | some p => Coordinates_append [] q.qh_qh.hull_dim p
  | none => some q.feasible_point

/-- The loop `for(p= feasible_point.begin(); p<feasible_point.end(); p++) *t++= *p;`
(Qhull.cpp:368-372): `block` is the array written, `t` the index of the next
cell written. -/
def copyCoordinates (block : List coordT) (t : Nat) : List coordT → List coordT
  | [] => block
  | p :: rest => copyCoordinates (block.set t p) (t + 1) rest

/-- Member `initializeFeasiblePoint` (Qhull.cpp:346-374), called inside the
`QH_TRY_` block of `runQhull`. -/
def Qhull.initializeFeasiblePoint (L : QhLib) (q0 : Qhull) (hulldim : Int) : QhExit Qhull :=
  let q : Qhull := { q0 with calls := q0.calls ++ [.initializeFeasiblePoint hulldim] }
  if q.qh_qh.feasible_string.isSome then
    q.invoke (.qh_setfeasible hulldim) (fun qh => L.qh_setfeasible qh hulldim)
  else if q.feasible_point.isEmpty then
    (q.qh_fprintf L 6209).qh_errexit L qh_ERRmem
  else if q.feasible_point.length ≠ size_t hulldim then
    (q.qh_fprintf L 6210).qh_errexit L qh_ERRmem
  else
    let size : Nat := (size_t hulldim * sizeof_coordT) % 2 ^ 64
    let block := L.qh_malloc q.qh_qh size
    let q1 : Qhull :=
      { q with qh_qh := { q.qh_qh with feasible_point := block },
               calls := q.calls ++ [.qh_malloc size] }
    match block with
    | none => (q1.qh_fprintf L 6042).qh_errexit L qh_ERRmem
    | some t =>
      let feasible_point : List coordT := copyCoordinates t 0 q1.feasible_point
      .ret { q1 with qh_qh := { q1.qh_qh with feasible_point := some feasible_point } }

/-- Member `area` (Qhull.cpp:142-153). -/
def Qhull.area (L : QhLib) (q : Qhull) : Qhull × Except QhullError realT :=
  match q.checkIfQhullInitialized L with
  | some e => (q, .error e)
  | none =>
    if !q.qh_qh.hasAreaVolume then
      let r := q.QH_TRY_ L (fun q =>
        q.invoke (.qh_getarea q.qh_qh.facet_list) (fun qh => L.qh_getarea qh qh.facet_list))
      match r.1.setNOerrexit.maybeThrowQhullMessage L r.2 with
      | (q2, some e) => (q2, .error e)
      | (q2, none) => (q2, .ok q2.qh_qh.totarea)
    else (q, .ok q.qh_qh.totarea)

/-- Member `volume` (Qhull.cpp:155-166). -/
def Qhull.volume (L : QhLib) (q : Qhull) : Qhull × Except QhullError realT :=
  match q.checkIfQhullInitialized L with
  | some e => (q, .error e)
  | none =>
    if !q.qh_qh.hasAreaVolume then
      let r := q.QH_TRY_ L (fun q =>
        q.invoke (.qh_getarea q.qh_qh.facet_list) (fun qh => L.qh_getarea qh qh.facet_list))
      match r.1.setNOerrexit.maybeThrowQhullMessage L r.2 with
      | (q2, some e) => (q2, .error e)
      | (q2, none) => (q2, .ok q2.qh_qh.totvol)
    else (q, .ok q.qh_qh.totvol)

/-- Member `defineVertexNeighborFacets` (Qhull.cpp:170-183). -/
def Qhull.defineVertexNeighborFacets (L : QhLib) (q : Qhull) : Qhull × Option QhullError :=
  match q.checkIfQhullInitialized L with
  | some e => (q, some e)
  | none =>
    if !q.qh_qh.hasAreaVolume then
      let r := q.QH_TRY_ L (fun q => q.invoke .qh_vertexneighbors L.qh_vertexneighbors)
      r.1.setNOerrexit.maybeThrowQhullMessage L r.2
    else (q, none)

/-- Member `outputQhull()` (Qhull.cpp:213-222). -/
def Qhull.outputQhull (L : QhLib) (q : Qhull) : Qhull × Option QhullError :=
  match q.checkIfQhullInitialized L with
  | some e => (q, some e)
  | none =>
    let r := q.QH_TRY_ L (fun q => q.invoke .qh_produce_output2 L.qh_produce_output2)
    r.1.setNOerrexit.maybeThrowQhullMessage L r.2

/-- Modelled from the spec: macro `FORALLfacet_(facetlist)` is defined in poly.h,
outside the sources at hand; libqhull.h:867-880 gives it as the form of
`FORALLfacets`, `for (facet= list; facet && facet->next; facet= facet->next)`,
for a given list.  The body, here an update of the facet, runs for every
element that has a successor. -/
def FORALLfacet_ (body : facetT → facetT) : List facetT → List facetT
  | [] => []
  | [facet_tail] => [facet_tail]
  | facet :: next :: rest => body facet :: FORALLfacet_ body (next :: rest)

/-- The condition of Qhull.cpp:238-239. -/
def QhullQh.keepsFacets (L : QhLib) (qh : QhullQh) : Bool :=
  decide (qh.KEEPminArea < L.REALmax / 2) || decide (qh.KEEParea ≠ 0) || decide (qh.KEEPmerge ≠ 0)
    || decide (qh.GOODvertex ≠ 0) || decide (qh.GOODpoint ≠ 0) || qh.GOODthreshold
    || qh.SPLITthresholds

/-- The condition of Qhull.cpp:248 and Qhull.cpp:333. -/
def QhullQh.verifiesPoints (qh : QhullQh) : Bool :=
  qh.VERIFYoutput && !qh.FORCEoutput && decide (qh.STOPadd = 0) && decide (qh.STOPcone = 0)
    && decide (qh.STOPpoint = 0)

/-- The statements of Qhull.cpp:240-245, run when `keepsFacets` holds. -/
def Qhull.outputQhull_goodFacets (L : QhLib) (q : Qhull) : QhExit Qhull :=
  let q1 : Qhull := { q with qh_qh := { q.qh_qh with ONLYgood := false } }
  let facet_list : List facetT :=
    FORALLfacet_ (fun facet => { facet with good := true }) q1.qh_qh.facet_list
  let q2 : Qhull := { q1 with qh_qh := { q1.qh_qh with facet_list := facet_list } }
  q2.invoke .qh_prepare_output L.qh_prepare_output

/-- The block guarded by `QH_TRY_` in `outputQhull(outputflags)` (Qhull.cpp:232-250);
`s` points into `qh.qhull_command`, past the terminator found at entry. -/
def Qhull.outputQhull_try (L : QhLib) (command : cstring) (q : Qhull) : QhExit Qhull :=
  (q.invoke .qh_clear_outputflags L.qh_clear_outputflags).andThen fun q =>
  let s : Nat := q.qh_qh.qhull_command.length + 1
  let qhull_command : cstring :=
    strncat q.qh_qh.qhull_command command (256 - q.qh_qh.qhull_command.length - 1)
  let q : Qhull := { q with qh_qh := { q.qh_qh with qhull_command := qhull_command } }
  (q.invoke (.qh_checkflags command s_not_output_options)
    (fun qh => L.qh_checkflags qh command s_not_output_options)).andThen fun q =>
  (q.invoke (.qh_initflags (q.qh_qh.qhull_command.drop s))
    (fun qh => L.qh_initflags qh (qh.qhull_command.drop s))).andThen fun q =>
  (q.invoke .qh_initqhull_outputflags L.qh_initqhull_outputflags).andThen fun q =>
  (if q.qh_qh.keepsFacets L then q.outputQhull_goodFacets L else .ret q).andThen fun q =>
  (q.invoke .qh_produce_output2 L.qh_produce_output2).andThen fun q =>
  if q.qh_qh.verifiesPoints then q.invoke .qh_check_points L.qh_check_points else .ret q

/-- Member `outputQhull(const char *outputflags)` (Qhull.cpp:224-254). -/
def Qhull.outputQhull_flags (L : QhLib) (q : Qhull) (outputflags : cstring) :
    Qhull × Option QhullError :=
  match q.checkIfQhullInitialized L with
  | some e => (q, some e)
  | none =>
    let command : cstring := " ".toList ++ outputflags
    let r := q.QH_TRY_ L (Qhull.outputQhull_try L command)
    r.1.setNOerrexit.maybeThrowQhullMessage L r.2

/-- Constant `qh_ALL` (libqhull.h:151). -/
def qh_ALL : Bool := true

/-- The loop `FORALLvertices{ qh_order_vertexneighbors(qh, vertex); }` of
Qhull.cpp:270-272 over the vertex list: the body runs for every vertex that has
a successor, until a call takes the error exit. -/
def Qhull.prepareVoronoi_vertices (L : QhLib) : List vertexT → Qhull → QhExit Qhull
  | [], q => .ret q
  | [_], q => .ret q
  | vertex :: next :: rest, q =>
    (q.invoke (.qh_order_vertexneighbors vertex.id)
      (fun qh => L.qh_order_vertexneighbors qh vertex.id)).andThen
      (Qhull.prepareVoronoi_vertices L (next :: rest))

/-- The block guarded by `QH_TRY_` in `prepareVoronoi` (Qhull.cpp:262-274).
`facetList().first().getFacetT()` is the head of `qh.facet_list`. -/
def Qhull.prepareVoronoi_try (L : QhLib) (q : Qhull) : QhExit Qhull :=
  (q.invoke (.qh_markvoronoi q.qh_qh.facet_list (!qh_ALL))
    (fun qh => L.qh_markvoronoi qh qh.facet_list (!qh_ALL))).andThen fun q =>
  (Qhull.prepareVoronoi_vertices L q.qh_qh.vertex_list q).andThen fun q =>
  q.invoke .qh_settempfree L.qh_settempfree

/-- Member `prepareVoronoi(isLower, voronoiVertexCount)` (Qhull.cpp:258-276).
The values stored through the two pointers are those that `qh_markvoronoi`
reports; they are not part of the object. -/
def Qhull.prepareVoronoi (L : QhLib) (q : Qhull) : Qhull × Option QhullError :=
  let r := q.QH_TRY_ L (Qhull.prepareVoronoi_try L)
  r.1.setNOerrexit.maybeThrowQhullMessage L r.2

/-- The statements of Qhull.cpp:313-319. -/
def Qhull.runQhull_flags (L : QhLib) (command inputComment2 : cstring) (q : Qhull) :
    QhExit Qhull :=
  (q.invoke (.qh_checkflags command s_unsupported_options)
    (fun qh => L.qh_checkflags qh command s_unsupported_options)).andThen fun q =>
  (q.invoke (.qh_initflags command) (fun qh => L.qh_initflags qh command)).andThen fun q =>
  let rbox_command : cstring := strncat [] inputComment2 (256 - 1)
  let q : Qhull := { q with qh_qh := { q.qh_qh with rbox_command := rbox_command } }
  .ret (if q.qh_qh.DELAUNAY then { q with qh_qh := { q.qh_qh with PROJECTdelaunay := true } }
        else q)

/-- The statements of Qhull.cpp:329-335, from `qh_init_B` on. -/
def Qhull.runQhull_build (L : QhLib) (q : Qhull) (newPoints : pointArray)
    (pointCount newDimension : Int) (newIsMalloc : Bool) : QhExit Qhull :=
  (q.invoke (.qh_init_B newPoints pointCount newDimension newIsMalloc)
    (fun qh => L.qh_init_B qh newPoints pointCount newDimension newIsMalloc)).andThen fun q =>
  (q.invoke .qh_qhull L.qh_qhull).andThen fun q =>
  (q.invoke .qh_check_output L.qh_check_output).andThen fun q =>
  (q.invoke .qh_prepare_output L.qh_prepare_output).andThen fun q =>
  if q.qh_qh.verifiesPoints then q.invoke .qh_check_points L.qh_check_points else .ret q

/-- The statements of Qhull.cpp:324-335 when `qh.HALFspace` is set; `pointDimension`
is an `int` and `--newDimension` is taken without overflow. -/
def Qhull.runQhull_halfspace (L : QhLib) (q : Qhull) (pointDimension pointCount : Int)
    (pointCoordinates : pointArray) : QhExit Qhull :=
  let newDimension : Int := pointDimension - 1
  (q.initializeFeasiblePoint L newDimension).andThen fun q =>
  let newPoints : pointArray := L.qh_sethalfspace_all_result q.qh_qh pointDimension pointCount
    pointCoordinates q.qh_qh.feasible_point
  (q.invoke
    (.qh_sethalfspace_all pointDimension pointCount pointCoordinates q.qh_qh.feasible_point)
    (fun qh => L.qh_sethalfspace_all qh pointDimension pointCount pointCoordinates
      qh.feasible_point)).andThen fun q =>
  q.runQhull_build L newPoints pointCount newDimension true

/-- The block guarded by `QH_TRY_` in `runQhull` (Qhull.cpp:312-336). -/
def Qhull.runQhull_try (L : QhLib) (command inputComment2 : cstring)
    (pointDimension pointCount : Int) (pointCoordinates : pointArray) (q : Qhull) :
    QhExit Qhull :=
  (q.runQhull_flags L command inputComment2).andThen fun q =>
  if q.qh_qh.HALFspace then q.runQhull_halfspace L pointDimension pointCount pointCoordinates
  else q.runQhull_build L pointCoordinates pointCount pointDimension false

/-- The loop `for(int k= ...; k--; ) origin_point << 0.0;` (Qhull.cpp:338-340), run `k` times. -/
def appendOrigin : Nat → Coordinates → Coordinates
  | 0, origin_point => origin_point
  | k + 1, origin_point => appendOrigin k (origin_point ++ [0])

/-- Member `runQhull(inputComment2, pointDimension, pointCount, pointCoordinates,
qhullCommand2)` (Qhull.cpp:289-342).  The counter `k` is a 32-bit `int` that
starts at `qh.hull_dim` and is decremented until it is zero. -/
def Qhull.runQhull (L : QhLib) (q : Qhull) (inputComment2 : cstring)
    (pointDimension pointCount : Int) (pointCoordinates : pointArray)
    (qhullCommand2 : cstring) : Qhull × Option QhullError :=
  if q.run_called then
    (q, some ⟨10027, "Qhull error: runQhull called twice.  Only one call allowed."⟩)
  else
    let q1 : Qhull := { q with run_called := true }
    let command : cstring := "qhull ".toList ++ qhullCommand2
    let r := q1.QH_TRY_ L
      (Qhull.runQhull_try L command inputComment2 pointDimension pointCount pointCoordinates)
    let q2 : Qhull := r.1.setNOerrexit
    let q3 : Qhull :=
      { q2 with origin_point := appendOrigin (q2.qh_qh.hull_dim % 2 ^ 32).toNat q2.origin_point }
    q3.maybeThrowQhullMessage L r.2

/-- Member `runQhull(rboxPoints, qhullCommand2)` (Qhull.cpp:279-283). -/
def Qhull.runQhull_rbox (L : QhLib) (q : Qhull) (rboxPoints : RboxPoints)
    (qhullCommand2 : cstring) : Qhull × Option QhullError :=
  q.runQhull L rboxPoints.comment rboxPoints.dimension rboxPoints.count rboxPoints.coordinates
    qhullCommand2

/-- The data members as the initialiser lists of the three constructors leave
them (Qhull.cpp:42-45), before `allocateQhullQh` replaces the null `qh_qh`. -/
def Qhull.members : Qhull :=
  { qh_qh := {}, origin_point := [], run_called := false, feasible_point := [], calls := [] }

/-- Constructor `Qhull()` (Qhull.cpp:40-48): the object built, or the error thrown. -/
def Qhull.Qhull_default (L : QhLib) : Except QhullError Qhull :=
  match Qhull.members.allocateQhullQh L with
  | (_, some e) => .error e
  | (q, none) => .ok q

/-- Constructor `Qhull(rboxPoints, qhullCommand2)` (Qhull.cpp:54-63). -/
def Qhull.Qhull_rbox (L : QhLib) (rboxPoints : RboxPoints) (qhullCommand2 : cstring) :
    Except QhullError Qhull :=
  match Qhull.members.allocateQhullQh L with
  | (_, some e) => .error e
  | (q, none) =>
    match q.runQhull_rbox L rboxPoints qhullCommand2 with
    | (_, some e) => .error e
    | (q1, none) => .ok q1

/-- Constructor `Qhull(inputComment2, pointDimension, pointCount, pointCoordinates,
qhullCommand2)` (Qhull.cpp:68-77). -/
def Qhull.Qhull_points (L : QhLib) (inputComment2 : cstring) (pointDimension pointCount : Int)
    (pointCoordinates : pointArray) (qhullCommand2 : cstring) : Except QhullError Qhull :=
  match Qhull.members.allocateQhullQh L with
  | (_, some e) => .error e
  | (q, none) =>
    match q.runQhull L inputComment2 pointDimension pointCount pointCoordinates qhullCommand2 with
    | (_, some e) => .error e
    | (q1, none) => .ok q1

/-! ## Sequences of calls on one object -/

/-- A call of a public member of `Qhull` embedded above, with its arguments. -/
inductive Op where
  | runQhull (inputComment2 : cstring) (pointDimension pointCount : Int)
      (pointCoordinates : pointArray) (qhullCommand2 : cstring)
  | runQhull_rbox (rboxPoints : RboxPoints) (qhullCommand2 : cstring)
  | setFeasiblePoint (c : Coordinates)
  | feasiblePoint
  | area
  | volume
  | defineVertexNeighborFacets
  | outputQhull
  | outputQhull_flags (outputflags : cstring)
  | prepareVoronoi
  deriving DecidableEq, Repr

/-- The object after a call, whether the call returned or threw. -/
def Qhull.step (L : QhLib) (q : Qhull) : Op → Qhull
  | .runQhull c d n p cmd => (q.runQhull L c d n p cmd).1
  | .runQhull_rbox r cmd => (q.runQhull_rbox L r cmd).1
  | .setFeasiblePoint c => q.setFeasiblePoint c
  | .feasiblePoint => q
  | .area => (q.area L).1
  | .volume => (q.volume L).1
  | .defineVertexNeighborFacets => (q.defineVertexNeighborFacets L).1
  | .outputQhull => (q.outputQhull L).1
  | .outputQhull_flags f => (q.outputQhull_flags L f).1
  | .prepareVoronoi => (q.prepareVoronoi L).1

/-- The object after a sequence of calls. -/
def Qhull.steps (L : QhLib) (q : Qhull) (ops : List Op) : Qhull :=
  ops.foldl (Qhull.step L) q

/-! ## An instance of the library -/

/-- Modelled from the spec: the neighbor sets of the vertices ("set of incident
facets, maintained lazily", section 3; "neighbors: set of adjacent facets (only
if qh.VERTEXneighbors)", libqhull.h:388).  `qh_vertexneighbors` is defined in
poly2_r.c, outside the sources at hand: once `qh.VERTEXneighbors` is set the
sets are maintained and the routine has nothing to do; otherwise every vertex
of a facet that is not visible gets the facets it belongs to, and the flag
is set. -/
def sample_vertexneighbors (qh : QhullQh) : QhExit QhullQh :=
  if qh.VERTEXneighbors then .ret qh
  else
    let facets := qh.facet_list.filter (fun f => !f.visible)
    let incident (v : vertexT) : List Nat :=
      (facets.filter (fun f => f.vertices.contains v.id)).map (fun f => f.id)
    let vertex_list := qh.vertex_list.map (fun v =>
      if facets.any (fun f => f.vertices.contains v.id) then
        { v with neighbors := some (incident v) }
      else v)
    .ret { qh with vertex_list := vertex_list, VERTEXneighbors := true }

/-- Modelled from the spec: errors surface to the caller as a tagged error and
none is downgraded to a success (section 7).  `maybeThrowQhullMessage` is
defined in QhullQh.cpp, outside the sources at hand: it throws the pending
status of the context, or else the exit code, when one of them is not
`qh_ERRnone`, and clears the message state; otherwise it changes nothing. -/
def sample_maybeThrowQhullMessage (qh : QhullQh) (exitCode : Int) : QhullQh × Option QhullError :=
  let status : Int := if qh.qhull_status = qh_ERRnone then exitCode else qh.qhull_status
  if status ≠ qh_ERRnone then
    ({ qh with qhull_status := qh_ERRnone, qhull_message := [] },
      some ⟨status, String.mk qh.qhull_message⟩)
  else (qh, none)

/-- Modelled from the spec: an instance of the routines that are outside the
sources at hand, used to evaluate the embedded members on concrete objects.
Each routine does the least its name and the comments of libqhull.h say:
`qh_getarea` defines `totarea` and `totvol` (here one unit per facet) and sets
`hasAreaVolume` (libqhull.h:747); `qh_init_B` sets the dimensions
(libqhull.h:606-607); `qh_initflags` sets `HALFspace` on an option `H`
(libqhull.h:511); `qh_fprintf` records the code of an error message;
`qh_errexit` closes the `QH_TRY_` block; `qh_malloc` succeeds; the other
routines return without a change. -/
def sampleLib : QhLib where
  QH_TRY_ERROR := 10071
  REALmax := 10 ^ 308
  qhT_offset := 0
  newQhullQh := {}
  initialized := fun q => decide (0 < q.qh_qh.hull_dim)
  maybeThrowQhullMessage := sample_maybeThrowQhullMessage
  qh_checkflags := fun qh _ _ => .ret qh
  qh_initflags := fun qh command =>
    .ret { qh with qhull_command := command, HALFspace := command.contains 'H' }
  qh_setfeasible := fun qh dim =>
    .ret { qh with feasible_point := some (List.replicate dim.toNat 0) }
  qh_fprintf := fun qh msgcode =>
    if qh.qhull_status = qh_ERRnone ∧ 6000 ≤ msgcode ∧ msgcode < 7000 then
      { qh with qhull_status := msgcode }
    else qh
  qh_errexit := fun qh _ => { qh with NOerrexit := true }
  qh_malloc := fun _ size => some (List.replicate (size / sizeof_coordT) 0)
  qh_malloc_cells := by
    intro qh size block h
    simp only [Option.some.injEq] at h
    rw [← h, List.length_replicate]
  qh_sethalfspace_all := fun qh _ _ _ _ => .ret qh
  qh_sethalfspace_all_result := fun _ dim count halfspaces _ =>
    { addr := halfspaces.addr + 1,
      cells := List.replicate (count.toNat * (dim.toNat - 1)) 0 }
  qh_init_B := fun qh _ _ dim _ => .ret { qh with hull_dim := dim, input_dim := dim }
  qh_qhull := fun qh => .ret qh
  qh_check_output := fun qh => .ret qh
  qh_prepare_output := fun qh => .ret qh
  qh_check_points := fun qh => .ret qh
  qh_getarea := fun qh facetlist =>
    .ret { qh with hasAreaVolume := true, totarea := (facetlist.length - 1 : Nat),
                   totvol := (facetlist.length - 1 : Nat) }
  qh_vertexneighbors := sample_vertexneighbors
  qh_produce_output2 := fun qh => .ret qh
  qh_clear_outputflags := fun qh => .ret qh
  qh_initqhull_outputflags := fun qh => .ret qh
  qh_markvoronoi := fun qh _ _ => .ret qh
  qh_order_vertexneighbors := fun qh _ => .ret qh
  qh_settempfree := fun qh => .ret qh

/-- The same library with an allocator that is out of memory. -/
def sampleLib_nomem : QhLib :=
  { sampleLib with
    qh_malloc := fun _ _ => none
    qh_malloc_cells := by intro qh size block h; cases h }

/-- A triangle: three facets (edges) `f1 f2 f3` and the sentinel, three vertices
`v1 v2 v3` and the sentinel, before any neighbor set is defined. -/
def triangle_qh : QhullQh :=
  { hull_dim := 2, input_dim := 2,
    facet_list := [{ id := 1, vertices := [2, 1], neighbors := [2, 3], simplicial := true },
                   { id := 2, vertices := [3, 2], neighbors := [3, 1], simplicial := true },
                   { id := 3, vertices := [3, 1], neighbors := [2, 1], simplicial := true },
                   { id := 0 }],
    vertex_list := [{ id := 1 }, { id := 2 }, { id := 3 }, { id := 0 }] }

/-- A `Qhull` object whose run produced the triangle. -/
def triangle : Qhull :=
  { qh_qh := triangle_qh, origin_point := [0, 0], run_called := true }

/-- The data members of the object other than the context `qh_qh` (and the
record of calls): `origin_point`, `run_called`, `feasible_point`. -/
def Qhull.data (q : Qhull) : Coordinates × Bool × Coordinates :=
  (q.origin_point, q.run_called, q.feasible_point)

/-- The outcome with the state transformed. -/
def QhExit.map {σ τ : Type} (f : σ → τ) : QhExit σ → QhExit τ
  | .ret s => .ret (f s)
  | .errexit e s => .errexit e (f s)

/-- An object after a halfspace run in dimension 2: the context holds a block of
three coordinates, the object still holds the point given to `setFeasiblePoint`. -/
def feasible_sample : Qhull :=
  { qh_qh := { feasible_point := some [5, 6, 7], hull_dim := 2, HALFspace := true },
    run_called := true, feasible_point := [1, 2] }

/-- The state in which the `QH_TRY_` block of a first call of `runQhull` starts:
`run_called` is set (Qhull.cpp:298) and `QH_TRY_` has cleared `qh.NOerrexit`. -/
def Qhull.runQhull_entry (q : Qhull) : Qhull :=
  { q with run_called := true, qh_qh := { q.qh_qh with NOerrexit := false } }

/-- The routines that `runQhull` calls after `initializeFeasiblePoint`, and
`maybeThrowQhullMessage`, leave `qh.feasible_point` as it is. -/
def QhLib.keepsFeasiblePoint (L : QhLib) : Prop :=
  (∀ qh d n h f, (L.qh_sethalfspace_all qh d n h f).state.feasible_point = qh.feasible_point)
  ∧ (∀ qh p n d m, (L.qh_init_B qh p n d m).state.feasible_point = qh.feasible_point)
  ∧ (∀ qh, (L.qh_qhull qh).state.feasible_point = qh.feasible_point)
  ∧ (∀ qh, (L.qh_check_output qh).state.feasible_point = qh.feasible_point)
  ∧ (∀ qh, (L.qh_prepare_output qh).state.feasible_point = qh.feasible_point)
  ∧ (∀ qh, (L.qh_check_points qh).state.feasible_point = qh.feasible_point)
  ∧ (∀ qh status, (L.maybeThrowQhullMessage qh status).1.feasible_point = qh.feasible_point)

/-- The exit code of an error exit. -/
def QhExit.exitcode? {σ : Type} : QhExit σ → Option Int
  | .ret _ => none
  | .errexit e _ => some e

/-- A fresh object to which the feasible point `(1, 2)` was given. -/
def halfspace_object : Qhull := Qhull.members.setFeasiblePoint [1, 2]

/-- The state in which a first `runQhull` of `halfspace_object` with option `H`
reaches Qhull.cpp:323. -/
def halfspace_at323 (L : QhLib) : Qhull :=
  (halfspace_object.runQhull_entry.runQhull_flags L ("qhull ".toList ++ "H".toList) []).state

/-- Whether the call is one of the two overloads of `runQhull`. -/
def Op.isRunQhull : Op → Bool
  | .runQhull _ _ _ _ _ => true
  | .runQhull_rbox _ _ => true
  | _ => false

/-! ## Macros of `libqhull.h` -/

/-- Macro `otherfacet_(ridge, facet)` (libqhull.h:852-853). -/
def otherfacet_ (ridge : ridgeT) (facet : Option Nat) : Option Nat :=
  if ridge.top = facet then ridge.bottom else ridge.top

/-- Enumerators `qh_IDnone`, `qh_IDinterior`, `qh_IDunknown` of `qh_pointT`
(libqhull.h:92-96). -/
def qh_IDnone : Int := -3
/-- Enumerator `qh_IDinterior`. -/
def qh_IDinterior : Int := -2
/-- Enumerator `qh_IDunknown`. -/
def qh_IDunknown : Int := -1

/-- Conversion `(int)` of an `unsigned int` on a machine with 32-bit
two's-complement integers. -/
def int_of_unsigned (u : Nat) : Int :=
  if u % 2 ^ 32 < 2 ^ 31 then ((u % 2 ^ 32 : Nat) : Int) else ((u % 2 ^ 32 : Nat) : Int) - 2 ^ 32

/-- Macro `getid_(p)` (libqhull.h:863), `((p) ? (int)((p)->id) : qh_IDunknown)`:
`p` points to a facet, ridge or vertex, whose field `id` is read by `id`. -/
def getid_ {α : Type} (id : α → Nat) (p : Option α) : Int :=
  match p with
  | some object => int_of_unsigned (id object)
  | none => qh_IDunknown

/-- Macro `FORALLfacets { body }` (libqhull.h:880),
`for (facet=qh facet_list; facet && facet->next; facet=facet->next)`.
`next` reads the field `next` of the facet at an address, `body` is the effect
of one run of the body, for the facet given, on whatever the body writes.
Every test of the loop condition uses one unit of `fuel`; the result is `none`
if the fuel is used up before the loop ends. -/
def FORALLfacets {σ : Type} (next : Nat → Option Nat) (body : σ → Nat → σ) :
    Nat → Option Nat → σ → Option σ
  | 0, _, _ => none
  | _ + 1, none, s => some s
  | fuel + 1, some facet, s =>
    match next facet with
    | none => some s
    | some facet' => FORALLfacets next body fuel (some facet') (body s facet)

/-- Macro `FORALLvertices { body }` (libqhull.h:919),
`for (vertex=qh vertex_list; vertex && vertex->next; vertex= vertex->next)`,
read as `FORALLfacets` is. -/
def FORALLvertices {σ : Type} (next : Nat → Option Nat) (body : σ → Nat → σ) :
    Nat → Option Nat → σ → Option σ
  | 0, _, _ => none
  | _ + 1, none, s => some s
  | fuel + 1, some vertex, s =>
    match next vertex with
    | none => some s
    | some vertex' => FORALLvertices next body fuel (some vertex') (body s vertex)

/-- A list in memory: from the address `first`, the fields `next` lead through
the elements `elements`, in this order, to the sentinel `tail`, whose `next`
is NULL. -/
def isList (next : Nat → Option Nat) : Nat → List Nat → Nat → Bool
  | first, [], tail => first == tail && (next tail).isNone
  | first, element :: elements, tail =>
    first == element &&
      match next element with
      | some second => isList next second elements tail
      | none => false

/-- A memory holding the facet list `1 → 2 → 3 → 0` with sentinel 0. -/
def sample_next : Nat → Option Nat
  | 1 => some 2
  | 2 => some 3
  | 3 => some 0
  | _ => none

/-- The statements of Qhull.cpp:232-237 of `outputQhull(outputflags)`: the output
flags are cleared and the new ones parsed. -/
def Qhull.outputQhull_parse (L : QhLib) (command : cstring) (q : Qhull) : QhExit Qhull :=
  (q.invoke .qh_clear_outputflags L.qh_clear_outputflags).andThen fun q =>
  let s : Nat := q.qh_qh.qhull_command.length + 1
  let qhull_command : cstring :=
    strncat q.qh_qh.qhull_command command (256 - q.qh_qh.qhull_command.length - 1)
  let q : Qhull := { q with qh_qh := { q.qh_qh with qhull_command := qhull_command } }
  (q.invoke (.qh_checkflags command s_not_output_options)
    (fun qh => L.qh_checkflags qh command s_not_output_options)).andThen fun q =>
  (q.invoke (.qh_initflags (q.qh_qh.qhull_command.drop s))
    (fun qh => L.qh_initflags qh (qh.qhull_command.drop s))).andThen fun q =>
  q.invoke .qh_initqhull_outputflags L.qh_initqhull_outputflags

/-- The statements of Qhull.cpp:247-250 of `outputQhull(outputflags)`. -/
def Qhull.outputQhull_produce (L : QhLib) (q : Qhull) : QhExit Qhull :=
  (q.invoke .qh_produce_output2 L.qh_produce_output2).andThen fun q =>
  if q.qh_qh.verifiesPoints then q.invoke .qh_check_points L.qh_check_points else .ret q

/-- A context after `qh_initqhull_outputflags` with option `PA2` (`KEEParea`):
the triangle, no facet marked good. -/
def keeparea_sample : Qhull :=
  { triangle with qh_qh := { triangle_qh with KEEParea := 2, KEEPminArea := 10 ^ 308,
                                              ONLYgood := true } }

/-- Whether the call is a call of `qh_init_B`. -/
def QhCall.is_qh_init_B : QhCall → Bool
  | .qh_init_B _ _ _ _ => true
  | _ => false

/-- A fresh object, before a run on four points of the plane. -/
def square_points : pointArray :=
  { addr := 4096, cells := [0, 0, 1, 0, 1, 1, 0, 1] }

/-- Class `QhullPoint` as far as `inputOrigin` uses it: `point_coordinates` is
the pointer to the first coordinate, given here by the cells that are stored
from that address on, and `point_dimension` is the number of coordinates the
point claims. -/
structure QhullPoint where
  point_coordinates : Coordinates := []
  point_dimension : Int := 0
  deriving DecidableEq, Repr

/-- Modelled from the spec: the inline member `origin()` is declared in Qhull.h,
which is not among the sources.  It is taken as the claim on `inputOrigin`
describes it: the point whose coordinates are the storage of `origin_point`,
with the dimension of the hull. -/
def Qhull.origin (q : Qhull) : QhullPoint :=
  { point_coordinates := q.origin_point, point_dimension := q.qh_qh.hull_dim }

/-- Modelled from the spec: the setter `QhullPoint::setDimension` is declared in
QhullPoint.h, which is not among the sources; it stores the dimension. -/
def QhullPoint.setDimension (p : QhullPoint) (arrayDimension : Int) : QhullPoint :=
  { p with point_dimension := arrayDimension }

/-- Member `inputOrigin` (Qhull.cpp:131-138). -/
def Qhull.inputOrigin (q : Qhull) : QhullPoint :=
  let result := q.origin
  result.setDimension q.qh_qh.input_dim

/-- The `k`-th coordinate of a point, `none` when no coordinate is stored there. -/
def QhullPoint.coordinate (p : QhullPoint) (k : Nat) : Option coordT :=
  p.point_coordinates.get? k

/-- The sample library for a run in which one coordinate of the input is
projected away (option `Qb0:0B0:0`): `qh_init_B` leaves `qh.hull_dim` one less
than `qh.input_dim`. -/
def sampleLib_project : QhLib :=
  { sampleLib with
    qh_init_B := fun qh _ _ dim _ => .ret { qh with input_dim := dim, hull_dim := dim - 1 } }

/-- Four points of the plane `z = 0` in 3-d. -/
def flat_points : pointArray :=
  { addr := 4096, cells := [0, 0, 0, 1, 0, 0, 1, 1, 0, 0, 1, 0] }

/-! ## The hull computation, modelled from the specification

`qh_init_B` and `qh_qhull` are defined in global_r.c and libqhull_r.c, which are
not among the sources at hand.  The definitions of this section follow the
specification (sections 3, 4.1, 4.2, 4.4 and 7) and the comments of
`libqhull.h`. -/

/-- Modelled from the spec: what the specification leaves to the option parser
(section 1, out of scope), to the steps `FindHorizon`, `BuildCone`,
`MergeIfNeeded` and `Attach` of one incorporation (sections 4.2 and 4.3), to the
random perturbation of a rerun (section 4.4) and to the configured bounds
(section 6).  These parts of the library are not among the sources; they are
parameters of the model. -/
structure SpecKernel where
  /-- The option parser `qh_initflags`. -/
  initflags : QhullQh → cstring → QhExit QhullQh
  /-- Whether a dimension is a "wrong dimension" (section 7, `InputError`). -/
  wrong_dimension : Int → Bool
  /-- The lifted points of a Delaunay triangulation (section 3, "projected points"). -/
  projectinput : pointArray → Int → Int → pointArray
  /-- One incorporation of the point `p` above the facet with id `facet`. -/
  addpoint : QhullQh → Nat → Nat → QhExit QhullQh
  /-- The bounded number of incorporations before the error controller is triggered. -/
  max_steps : Nat
  /-- The bounded number of perturbed reruns. -/
  max_attempts : Nat
  /-- The input joggled for the rerun `attempt`, from the seed and `qh.JOGGLEmax`. -/
  joggle : Int → Nat → realT → pointArray → pointArray
  /-- The random number drawn at a step, from the seed. -/
  random : Int → Nat → Nat

/-- Modelled from the spec: the determinant of the `n` by `n` matrix with the
given rows, by expansion along the first row.  The geometry kernel (geom_r.c)
is not among the sources; the specification asks for `D` affinely independent
points (section 4.1). -/
def spec_det : Nat → List (List realT) → realT
  | 0, _ => 1
  | _ + 1, [] => 0
  | n + 1, row :: rows =>
    ((List.range (n + 1)).map fun j =>
      (-1) ^ j * row.getD j 0 * spec_det n (rows.map fun r => r.eraseIdx j)).sum

/-- Modelled from the spec: the point with id `i` of an array of points of
dimension `dim` ("a fixed-length coordinate vector", section 3). -/
def spec_point (dim : Nat) (points : pointArray) (i : Nat) : List coordT :=
  (points.cells.drop (i * dim)).take dim

/-- The difference of two coordinate vectors. -/
def spec_sub (p q : List coordT) : List coordT :=
  List.zipWith (fun a b => a - b) p q

/-- Modelled from the spec: whether the points with the given ids form a
non-degenerate simplex, one that does not lie in a lower-dimensional subspace
(sections 4.2 and 7): the differences to the first point are linearly
independent.  The arithmetic is exact, so the roundoff bound is zero. -/
def spec_nondegenerate (dim : Nat) (points : pointArray) : List Nat → Bool
  | [] => false
  | p0 :: rest =>
    decide (spec_det dim
      (rest.map fun p => spec_sub (spec_point dim points p) (spec_point dim points p0)) ≠ 0)

/-- Modelled from the spec: the interior reference point, the centroid of the
simplex (section 4.2). -/
def spec_centroid (dim : Nat) (points : pointArray) (simplex : List Nat) : List coordT :=
  (List.range dim).map fun j =>
    (simplex.map fun p => (spec_point dim points p).getD j 0).sum / (simplex.length : realT)

/-- Modelled from the spec: the signed distance of the point `x` to the
hyperplane through the points `facet_points`, oriented so that the interior
point has negative distance (section 4.1).  The normal is not scaled to unit
length, which exact rational arithmetic cannot do; the sign of the distance
and the order of the distances to one facet are those of the unit normal. -/
def spec_distplane (dim : Nat) (facet_points : List (List coordT)) (interior x : List coordT) :
    realT :=
  match facet_points with
  | [] => 0
  | q0 :: rest =>
    let side (y : List coordT) : realT :=
      spec_det dim ((rest.map fun q => spec_sub q q0) ++ [spec_sub y q0])
    if side interior < 0 then side x else - side x

/-- Modelled from the spec: the vertices of the initial simplex, one for each
of its points, with increasing ids from 1 in the order of insertion, followed
by the sentinel (section 3). -/
def spec_simplex_vertices (simplex : List Nat) : List vertexT :=
  ((List.range simplex.length).map fun k =>
    ({ id := k + 1, point := simplex.getD k 0 } : vertexT)) ++ [{ id := 0 }]

/-- Modelled from the spec: the facet of the initial simplex that omits the
vertex with id `k + 1`.  Its vertices are the other vertices, inverse sorted
by id (libqhull.h:272); it is simplicial and its `k`th neighbor is opposite its
`k`th vertex (invariant 2 of section 3, libqhull.h:282-284), which is the facet
that omits that vertex. -/
def spec_simplex_facet (size k : Nat) : facetT :=
  let vertices := ((List.range size).reverse.filter fun j => j != k).map fun j => j + 1
  { id := k + 1, vertices := vertices, neighbors := vertices, simplicial := true }

/-- Modelled from the spec: the `D+1` facets of the initial simplex, followed
by the dummy tail of the facet list (sections 3 and 4.2). -/
def spec_simplex_facets (size : Nat) : List facetT :=
  ((List.range size).map fun k => spec_simplex_facet size k) ++ [{ id := 0 }]

/-- Modelled from the spec: a point joins an outside set; the furthest point of
the set stays last (libqhull.h:286-287). -/
def spec_addoutside (dist : Nat → realT) (outsideset : List Nat) (p : Nat) : List Nat :=
  match outsideset.getLast? with
  | none => [p]
  | some furthest =>
    if dist furthest < dist p then outsideset ++ [p] else outsideset.dropLast ++ [p, furthest]

/-- Modelled from the spec: a point is put into the outside set of the first
facet of the list that it is outside of, by signed distance; a point outside of
no facet is interior and is in no set (section 4.2 and invariant 5). -/
def spec_partitionpoint (dist : facetT → Nat → realT) (p : Nat) : List facetT → List facetT
  | [] => []
  | [facet_tail] => [facet_tail]
  | facet :: next :: rest =>
    if 0 < dist facet p then
      { facet with outsideset := spec_addoutside (dist facet) facet.outsideset p } :: next :: rest
    else facet :: spec_partitionpoint dist p (next :: rest)

/-- Modelled from the spec: state `InitialSimplex` of the builder (section
4.2).  With too few points the computation ends with `InputError`; the search
goes through all points (exhaustive mode) for `D+1` points that form a
non-degenerate simplex and ends with `SingularInputError` when there are none
(section 7); otherwise the `D+1` facets and vertices of the simplex are built
and the remaining points are partitioned into the outside sets. -/
def spec_initialhull (qh : QhullQh) : QhExit QhullQh :=
  let dim := qh.hull_dim.toNat
  let numpoints := qh.num_points.toNat
  if numpoints < dim + 1 then .errexit qh_ERRinput qh
  else
    match ((List.range numpoints).sublistsLen (dim + 1)).find?
        (spec_nondegenerate dim qh.first_point) with
    | none => .errexit qh_ERRsingular qh
    | some simplex =>
      let interior := spec_centroid dim qh.first_point simplex
      let dist (facet : facetT) (p : Nat) : realT :=
        spec_distplane dim
          (facet.vertices.map fun v => spec_point dim qh.first_point (simplex.getD (v - 1) 0))
          interior (spec_point dim qh.first_point p)
      let remaining := (List.range numpoints).filter fun p => !simplex.contains p
      .ret { qh with
        interior_point := interior
        vertex_list := spec_simplex_vertices simplex
        facet_list := remaining.foldl (fun facets p => spec_partitionpoint dist p facets)
          (spec_simplex_facets simplex.length)
        num_vertices := simplex.length
        num_facets := simplex.length
        facet_id := simplex.length + 1
        vertex_id := simplex.length + 1 }

/-- Modelled from the spec: the choice of the main loop, a facet with a
non-empty outside set and a point of it (section 4.2): the first such facet and
its furthest point, or with randomized tie-breaking (`qh.RANDOMoutside`,
libqhull.h:565) a random outside point. -/
def spec_nextpoint (K : SpecKernel) (random : Bool) (seed : Int) (step : Nat)
    (facet_list : List facetT) : Option (Nat × Nat) :=
  if random then
    let candidates := (facet_list.map fun f => f.outsideset.map fun p => (f.id, p)).flatten
    candidates.get? (K.random seed step % candidates.length)
  else
    (facet_list.find? fun f => !f.outsideset.isEmpty).bind fun f =>
      f.outsideset.getLast?.map fun p => (f.id, p)

/-- Modelled from the spec: the main loop of the builder (section 4.2).  It
ends when no facet retains a non-empty outside set; after the bounded number of
incorporations the error controller is triggered with `PrecisionError`. -/
def spec_buildhull (K : SpecKernel) (random : Bool) (seed : Int) : Nat → QhullQh → QhExit QhullQh
  | 0, qh =>
    match spec_nextpoint K random seed 0 qh.facet_list with
    | none => .ret qh
    | some _ => .errexit qh_ERRprec qh
  | steps + 1, qh =>
    match spec_nextpoint K random seed (steps + 1) qh.facet_list with
    | none => .ret qh
    | some (facet, p) => (K.addpoint qh facet p).andThen (spec_buildhull K random seed steps)

/-- Modelled from the spec: one run of the builder from the checkpoint, on the
input as given (attempt 0) or on the joggled input of a rerun (section 4.4). -/
def spec_attempt (K : SpecKernel) (random : Bool) (seed : Int) (checkpoint : QhullQh)
    (attempt : Nat) : QhExit QhullQh :=
  let qh : QhullQh :=
    if attempt = 0 then checkpoint
    else { checkpoint with
      first_point := K.joggle seed attempt checkpoint.JOGGLEmax checkpoint.first_point }
  (spec_initialhull qh).andThen (spec_buildhull K random seed K.max_steps)

/-- Modelled from the spec: on a fatal failure the controller unwinds the
partially built graph and returns the tagged error, not a partially valid hull
(section 4.4). -/
def spec_unwind : QhExit QhullQh → QhExit QhullQh
  | .ret qh => .ret qh
  | .errexit exitcode qh =>
    .errexit exitcode
      { qh with facet_list := [], vertex_list := [], num_facets := 0, num_vertices := 0 }

/-- Modelled from the spec: the error controller (sections 4.4 and 7).  With
joggle-retry enabled, `SingularInputError` and `PrecisionError` trigger a
perturbed rerun from the checkpoint while reruns remain; every other failure
surfaces to the caller. -/
def spec_rerun (K : SpecKernel) (random : Bool) (seed : Int) (joggle : Bool)
    (checkpoint : QhullQh) : Nat → Nat → QhExit QhullQh
  | 0, attempt => spec_unwind (spec_attempt K random seed checkpoint attempt)
  | remaining + 1, attempt =>
    match spec_attempt K random seed checkpoint attempt with
    | .ret qh => .ret qh
    | .errexit exitcode qh =>
      if joggle && (exitcode == qh_ERRsingular || exitcode == qh_ERRprec) then
        spec_rerun K random seed joggle checkpoint remaining (attempt + 1)
      else spec_unwind (.errexit exitcode qh)

/-- Modelled from the spec: the seed of the random choices.  By libqhull.h:569
option `QRn` fixes the seed, except for `n = -1` and `n = 0`, which take the
time; `clock` is the time at which the computation runs. -/
def spec_seed (clock : Int) (qh : QhullQh) : Int :=
  if qh.ROTATErandom = -1 ∨ qh.ROTATErandom = 0 then clock else qh.ROTATErandom

/-- Modelled from the spec: `qh_qhull`, the whole computation under the error
controller.  Joggle-retry is enabled by `qh.JOGGLEmax` (libqhull.h:750), tested
like `qh.KEEPminArea` at Qhull.cpp:238. -/
def spec_qhull (K : SpecKernel) (clock : Int) (REALmax : realT) (qh : QhullQh) :
    QhExit QhullQh :=
  let joggle : Bool := decide (qh.JOGGLEmax < REALmax / 2)
  spec_rerun K qh.RANDOMoutside (spec_seed clock qh) joggle qh
    (if joggle then K.max_attempts else 0) 0

/-- Modelled from the spec: `qh_init_B`, which takes the input (section 6): the
array of the caller is referenced, not copied (section 3), and the dimensions
are set (libqhull.h:606-610).  A wrong dimension is an `InputError` (section
7); for a Delaunay triangulation the points are lifted, which adds a
coordinate (section 3, libqhull.h:558). -/
def spec_init_B (K : SpecKernel) (qh : QhullQh) (points : pointArray) (numpoints dim : Int)
    (ismalloc : Bool) : QhExit QhullQh :=
  if K.wrong_dimension dim then .errexit qh_ERRinput qh
  else if qh.DELAUNAY && qh.PROJECTdelaunay then
    .ret { qh with first_point := K.projectinput points numpoints dim, num_points := numpoints,
                   hull_dim := dim + 1, input_dim := dim, POINTSmalloc := true }
  else
    .ret { qh with first_point := points, num_points := numpoints, hull_dim := dim,
                   input_dim := dim, POINTSmalloc := ismalloc }

/-- Modelled from the spec: the library with the hull computation of the
specification.  A computation that runs at time `clock` parses the options with
`K.initflags`; the other routines are those of `sampleLib`. -/
def specLib (K : SpecKernel) (clock : Int) : QhLib :=
  { sampleLib with
    qh_initflags := K.initflags
    qh_init_B := spec_init_B K
    qh_qhull := spec_qhull K clock sampleLib.REALmax }

/-- A kernel for runs that need no incorporation: the parser accepts every
command and changes nothing, dimensions below 2 are wrong, and the other parts
do nothing. -/
def sampleKernel : SpecKernel where
  initflags := fun qh _ => .ret qh
  wrong_dimension := fun dim => decide (dim < 2)
  projectinput := fun points _ _ => points
  addpoint := fun qh _ _ => .ret qh
  max_steps := 0
  max_attempts := 0
  joggle := fun _ _ _ points => points
  random := fun _ _ => 0

/-- A fresh object whose context has joggle-retry disabled and a fixed seed:
`qh.JOGGLEmax` is `REALmax` until option `QJn` sets it. -/
def fresh_object : Qhull :=
  { Qhull.members with qh_qh := { JOGGLEmax := sampleLib.REALmax, ROTATErandom := -2147483648 } }

/-- Three points of the plane that are not on a line. -/
def triangle_points : pointArray := { addr := 4096, cells := [0, 0, 1, 0, 0, 1] }

/-- Three points on the line `y = x`. -/
def collinear_points : pointArray := { addr := 4096, cells := [0, 0, 1, 1, 2, 2] }

/-- The options of the context that select a randomized computation and its
seed: `qh.RANDOMoutside`, `qh.JOGGLEmax` and `qh.ROTATErandom`. -/
def QhullQh.randomOptions (qh : QhullQh) : Bool × realT × Int :=
  (qh.RANDOMoutside, qh.JOGGLEmax, qh.ROTATErandom)

/-- A kernel whose joggle depends on the seed: with seed 1 a rerun gets the
corners of a triangle, with any other seed three points of a line. -/
def joggleKernel : SpecKernel :=
  { sampleKernel with
    max_attempts := 1
    joggle := fun seed _ _ _ =>
      if seed = 1 then { addr := 8192, cells := [0, 0, 1, 0, 0, 1] }
      else { addr := 8192, cells := [0, 0, 1, 1, 2, 2] } }

/-- A fresh object with joggle-retry enabled (option `QJ`) and the time as the
seed (option `QR-1`). -/
def joggle_object : Qhull :=
  { Qhull.members with qh_qh := { JOGGLEmax := 0, ROTATErandom := -1 } }

/-- Whether the entry of the record is an execution of `initializeFeasiblePoint`. -/
def QhCall.is_initializeFeasiblePoint : QhCall → Bool
  | .initializeFeasiblePoint _ => true
  | _ => false

/-- Whether the entry of the record is a call of `qh_malloc`. -/
def QhCall.is_qh_malloc : QhCall → Bool
  | .qh_malloc _ => true
  | _ => false

/-- How often `initializeFeasiblePoint` was executed on behalf of the object. -/
def Qhull.initializations (q : Qhull) : Nat :=
  q.calls.countP QhCall.is_initializeFeasiblePoint

/-- How often the wrapper allocated a block for `qh.feasible_point` (the call of
`qh_malloc` at Qhull.cpp:363 is the only one of `Qhull.cpp`). -/
def Qhull.allocations (q : Qhull) : Nat :=
  q.calls.countP QhCall.is_qh_malloc

/-- The two objects record the same number of executions of
`initializeFeasiblePoint` and of allocations. -/
def Qhull.sameCounts (a b : Qhull) : Prop :=
  b.initializations = a.initializations ∧ b.allocations = a.allocations

/-! ## One incorporation step, modelled from the specification

The steps `FindHorizon`, `BuildCone`, `MergeIfNeeded` and `Attach` of section
4.2, with the merge execution and the removal of redundant facets of section
4.3.  The routines (`qh_findhorizon`, `qh_makenewfacets`, `qh_matchnewfacets`,
`qh_attachnewfacets`, `qh_partitionvisible`, `qh_deletevisible`,
`qh_makeridges`, `qh_mergefacet`, `qh_willdelete`, `qh_removefacet`,
`qh_appendfacet`, `qh_prependfacet` of libqhull_r.c, poly_r.c, poly2_r.c and
merge_r.c) are not among the sources at hand.  Which facets are merged is a
matter of the tolerances of section 4.3; it is a parameter of the model
(`SpecMerge`).  A simplicial facet keeps its ridges implicit, also towards a
neighbor that is not simplicial, where the ridge is explicit.  A merge takes
the union of the vertices of the two facets, so a degenerate facet, one with
fewer than `D` vertices, does not arise; the repair of a ridge shared by more
than two new facets is not modelled, such a ridge is a `TopologyError`. -/

/-- The facet with the given id among the facets of a list. -/
def spec_facet (facets : List facetT) (id : Nat) : Option facetT :=
  facets.find? fun f => f.id == id

/-- The id of the point that the vertex with id `v` refers to (libqhull.h:396). -/
def spec_vertexpoint (vertex_list : List vertexT) (v : Nat) : Nat :=
  ((vertex_list.find? fun w => w.id == v).map fun w => w.point).getD 0

/-- Modelled from the spec: the points that define the hyperplane of a facet
(section 4.1): those of its first `qh.hull_dim` vertices.  For a simplicial
facet these are all its vertices; the exact arithmetic of the model fits no
hyperplane to more points. -/
def spec_facetpoints (qh : QhullQh) (facet : facetT) : List (List coordT) :=
  (facet.vertices.take qh.hull_dim.toNat).map fun v =>
    spec_point qh.hull_dim.toNat qh.first_point (spec_vertexpoint qh.vertex_list v)

/-- Modelled from the spec: the signed distance of the point with id `p` to the
hyperplane of a facet, negative on the side of the interior point (section
4.1), scaled by the length of the normal as in `spec_distplane`. -/
def spec_facetdist (qh : QhullQh) (facet : facetT) (p : Nat) : realT :=
  spec_distplane qh.hull_dim.toNat (spec_facetpoints qh facet) qh.interior_point
    (spec_point qh.hull_dim.toNat qh.first_point p)

/-- Modelled from the spec: the square of the length of the normal by which
`spec_distplane` is scaled: its coordinates are the values of the determinant
on the unit vectors. -/
def spec_normsq (dim : Nat) (facet_points : List (List coordT)) : realT :=
  match facet_points with
  | [] => 0
  | q0 :: rest =>
    ((List.range dim).map fun j =>
      (spec_det dim ((rest.map fun q => spec_sub q q0)
        ++ [(List.range dim).map fun i => if i = j then 1 else 0])) ^ 2).sum

/-- Modelled from the spec: whether the point `p`, outside of both facets, is
further from the facet `a` than from the facet `b`, by the distance to the unit
hyperplanes (section 4.2, "the furthest qualifying one"). -/
def spec_further (qh : QhullQh) (a b : facetT) (p : Nat) : Bool :=
  decide ((spec_facetdist qh b p) ^ 2 * spec_normsq qh.hull_dim.toNat (spec_facetpoints qh a)
    < (spec_facetdist qh a p) ^ 2 * spec_normsq qh.hull_dim.toNat (spec_facetpoints qh b))

/-- Modelled from the spec: the depth-first walk of `FindHorizon` over the
neighbors (section 4.2).  A facet is visible if the point is strictly outside
it; the walk goes on through the neighbors of a visible facet and yields the
ids of the visible facets in the order in which they are found. -/
def spec_findhorizon_walk (outside : Nat → Bool) (neighbors : Nat → List Nat) :
    Nat → List Nat → List Nat → List Nat
  | 0, _, visible => visible
  | _ + 1, [], visible => visible
  | fuel + 1, facet :: stack, visible =>
    if visible.contains facet || !outside facet then
      spec_findhorizon_walk outside neighbors fuel stack visible
    else spec_findhorizon_walk outside neighbors fuel (neighbors facet ++ stack) (visible ++ [facet])

/-- Modelled from the spec: the visible set of `FindHorizon` for the point `p`
(section 4.2), found from the facet with id `facet`, as the ids of the visible
facets.  The roundoff bound is zero in exact arithmetic. -/
def spec_visible (qh : QhullQh) (facet p : Nat) : List Nat :=
  let facets := qh.facet_list.dropLast
  spec_findhorizon_walk
    (fun f => match spec_facet facets f with
      | some g => decide (0 < spec_facetdist qh g p)
      | none => false)
    (fun f => ((spec_facet facets f).map fun g => g.neighbors).getD [])
    (facets.length * (qh.hull_dim.toNat + 1) + 1) [facet] []

/-- Modelled from the spec: a facet found visible is marked `visible` and moved
to the end of the facet list, in front of the sentinel ("qh_findhorizon sets
visible_list at end of facet_list", libqhull.h:703). -/
def spec_appendvisible (facet_list : List facetT) (id : Nat) : List facetT :=
  match spec_facet facet_list.dropLast id with
  | none => facet_list
  | some facet =>
    facet_list.dropLast.filter (fun f => f.id != id) ++ [{ facet with visible := true }]
      ++ facet_list.getLast?.toList

/-- Modelled from the spec: `FindHorizon` (section 4.2).  The visible facets
are moved to the end of the facet list, where `qh.visible_list` starts; no
facet is new yet, so `qh.newfacet_list` is the sentinel (libqhull.h:699-703). -/
def spec_findhorizon (qh : QhullQh) (facet p : Nat) : QhullQh :=
  let visible := spec_visible qh facet p
  { qh with
    facet_list := visible.foldl spec_appendvisible qh.facet_list
    visible_list := visible.headD 0
    newfacet_list := 0 }

/-- Modelled from the spec: the explicit ridges of a facet (libqhull.h:276-278,
"qh_makeridges() converts simplicial facets by creating ridges prior to
merging"): for a simplicial facet the ridge opposite its `k`th vertex, shared
with its `k`th neighbor (libqhull.h:282), is created and the facet is no longer
simplicial.  Ridge ids and orientation are not modelled. -/
def spec_makeridges (facet : facetT) : facetT :=
  if facet.simplicial then
    { facet with
      simplicial := false
      ridges := (List.range facet.neighbors.length).map fun k =>
        ({ vertices := facet.vertices.eraseIdx k, top := some facet.id,
           bottom := some (facet.neighbors.getD k 0) } : ridgeT) }
  else facet

/-- Whether the facet across the ridge from `facet` is one of `facets`. -/
def spec_across (facets : List Nat) (ridge : ridgeT) (facet : Nat) : Bool :=
  match otherfacet_ ridge (some facet) with
  | some other => facets.contains other
  | none => false

/-- The ridge with the facet across from `facet` replaced: the counterpart of
`otherfacet_` (libqhull.h:852). -/
def spec_setother (ridge : ridgeT) (facet : Nat) (other : Option Nat) : ridgeT :=
  if ridge.top = some facet then { ridge with bottom := other } else { ridge with top := other }

/-- Modelled from the spec: the horizon ridges (section 4.2), each given by the
facet that is not visible and the vertices of the ridge.  For a simplicial
facet the ridge opposite its `k`th vertex is shared with its `k`th neighbor
(libqhull.h:282-283) and holds its other vertices; for a facet that is not
simplicial the ridges are explicit (libqhull.h:276).  An entry is the id of the
horizon facet and the vertices of the ridge. -/
def spec_horizon (facets : List facetT) : List (Nat × List Nat) :=
  let visible := (facets.filter fun f => f.visible).map fun f => f.id
  ((facets.filter fun f => !f.visible).map fun horizon =>
    if horizon.simplicial then
      ((List.range horizon.neighbors.length).filter fun k =>
          visible.contains (horizon.neighbors.getD k 0)).map fun k =>
        (horizon.id, horizon.vertices.eraseIdx k)
    else
      (horizon.ridges.filter fun r => spec_across visible r horizon.id).map fun r =>
        (horizon.id, r.vertices)).flatten

/-- Modelled from the spec: the new facet of `BuildCone` for the `i`th horizon
ridge: it spans the new vertex `apex` and the vertices of the ridge, the apex
first (libqhull.h:273), and its first neighbor is the horizon facet
(libqhull.h:283-284).  Its id is the next id of `qh.facet_id`. -/
def spec_newfacet (facet_id apex i : Nat) (ridge : Nat × List Nat) : facetT :=
  { id := facet_id + i, vertices := apex :: ridge.2, neighbors := [ridge.1], simplicial := true,
    newfacet := true }

/-- Modelled from the spec: the new facets of `BuildCone`, one for each horizon
ridge of the facets `facets`, not yet linked to each other. -/
def spec_makenewfacets (facets : List facetT) (facet_id apex : Nat) : List facetT :=
  (List.range (spec_horizon facets).length).map fun i =>
    spec_newfacet facet_id apex i ((spec_horizon facets).getD i (0, []))

/-- Modelled from the spec: the new facet opposite the vertex `r` of the new
facet `facet`: the one new facet that holds every other vertex of `facet` and
not `r`.  There is none if no new facet or more than one qualifies (a ridge
shared by more than two facets, a "dupridge"). -/
def spec_opposite (newfacets : List facetT) (facet : facetT) (r : Nat) : Option facetT :=
  match newfacets.filter fun other =>
      (facet.vertices.all fun v => v == r || other.vertices.contains v)
        && !other.vertices.contains r with
  | [other] => some other
  | _ => none

/-- Modelled from the spec: "link new facets to each other" (section 4.2): the
neighbor of a new facet opposite each vertex of its ridge. -/
def spec_matchnewfacets (newfacets : List facetT) (facet : facetT) : facetT :=
  { facet with
    neighbors := facet.neighbors ++ facet.vertices.tail.map fun r =>
      ((spec_opposite newfacets facet r).map fun other => other.id).getD 0 }

/-- The id of the new facet built on a ridge of the horizon facet `facet`. -/
def spec_newfacet_on (newfacets : List facetT) (facet : Nat) (ridge : List Nat) : Option Nat :=
  (newfacets.find? fun n =>
    n.neighbors.head? == some facet && n.vertices.tail == ridge).map fun n => n.id

/-- Modelled from the spec: "link new facets ... to horizon neighbors" (section
4.2): in a facet that is not visible every visible neighbor is replaced by the
new facet built on the ridge they share, at its place among the neighbors of a
simplicial facet; in a facet that is not simplicial the visible neighbors are
dropped from the neighbor set, the new facets built on its ridges are added,
and its ridges are attached to them. -/
def spec_attachhorizon (visible : List Nat) (newfacets : List facetT) (facet : facetT) :
    facetT :=
  if facet.visible then facet
  else if facet.simplicial then
    { facet with
      neighbors := (List.range facet.neighbors.length).map fun k =>
        if visible.contains (facet.neighbors.getD k 0) then
          (spec_newfacet_on newfacets facet.id (facet.vertices.eraseIdx k)).getD 0
        else facet.neighbors.getD k 0 }
  else
    { facet with
      neighbors := (facet.neighbors.filter fun g => !visible.contains g)
        ++ ((newfacets.filter fun n => n.neighbors.head? == some facet.id).map fun n => n.id)
      ridges := facet.ridges.map fun r =>
        if spec_across visible r facet.id then
          spec_setother r facet.id (spec_newfacet_on newfacets facet.id r.vertices)
        else r }

/-- Modelled from the spec: `BuildCone` (section 4.2) for the point `p`, after
`FindHorizon`.  A vertex is created for the point, one new facet for each
horizon ridge, appended to the facet list in front of the sentinel, where
`qh.newfacet_list` starts (libqhull.h:699); the new facets are linked to each
other and to the horizon facets.  A new facet without its neighbor opposite a
vertex is a `TopologyError` (section 7). -/
def spec_makecone (qh : QhullQh) (p : Nat) : QhExit QhullQh :=
  let facets := qh.facet_list.dropLast
  let visible := (facets.filter fun f => f.visible).map fun f => f.id
  let newfacets := spec_makenewfacets facets qh.facet_id qh.vertex_id
  if newfacets.all fun n => n.vertices.tail.all fun r => (spec_opposite newfacets n r).isSome then
    .ret { qh with
      facet_list := facets.map (spec_attachhorizon visible newfacets)
        ++ newfacets.map (spec_matchnewfacets newfacets) ++ qh.facet_list.getLast?.toList
      vertex_list := qh.vertex_list.dropLast ++ [{ id := qh.vertex_id, point := p }]
        ++ qh.vertex_list.getLast?.toList
      newfacet_list := ((newfacets.head?).map fun n => n.id).getD 0
      visible_list := if qh.visible_list = 0 then
          ((newfacets.head?).map fun n => n.id).getD 0 else qh.visible_list
      facet_id := qh.facet_id + newfacets.length
      vertex_id := qh.vertex_id + 1
      num_facets := qh.num_facets + newfacets.length
      num_vertices := qh.num_vertices + 1 }
  else .errexit qh_ERRtopology qh

/-- Modelled from the spec: the merge policy of section 4.3, a parameter of the
model.  `nonconvex` is the convexity test together with the selection policy:
it yields the next pair of neighboring facets to merge, the facet to absorb
first and the facet that survives second, or nothing when no pair is pending;
`max_merges` is the merge budget of section 7. -/
structure SpecMerge where
  nonconvex : QhullQh → Option (Nat × Nat)
  max_merges : Nat

/-- The facets of the facet list that are not visible, without the sentinel. -/
def QhullQh.live (qh : QhullQh) : List facetT :=
  qh.facet_list.dropLast.filter fun f => !f.visible

/-- The facets of the facet list from the facet with the given id on, as a loop
`for (facet= first; facet; facet= facet->next)` meets them. -/
def QhullQh.facetsFrom (qh : QhullQh) (id : Nat) : List facetT :=
  qh.facet_list.dropWhile fun f => f.id != id

/-- Modelled from the spec: a facet is taken out of the facet list; a list that
starts at it starts at the next facet (`qh_removefacet`). -/
def spec_removefacet (qh : QhullQh) (id : Nat) : QhullQh :=
  let next := (((qh.facetsFrom id).tail.head?).map fun f => f.id).getD 0
  { qh with
    facet_list := qh.facet_list.dropLast.filter (fun f => f.id != id)
      ++ qh.facet_list.getLast?.toList
    visible_list := if qh.visible_list = id then next else qh.visible_list
    newfacet_list := if qh.newfacet_list = id then next else qh.newfacet_list }

/-- Modelled from the spec: a facet is put in front of the visible list
("qh_willdelete prepends to visible_list", libqhull.h:704). -/
def spec_prependvisible (qh : QhullQh) (facet : facetT) : QhullQh :=
  { qh with
    facet_list := (qh.facet_list.takeWhile fun f => f.id != qh.visible_list) ++ [facet]
      ++ qh.facetsFrom qh.visible_list
    visible_list := facet.id }

/-- Modelled from the spec: a facet is put at the end of the facet list, in
front of the sentinel (`qh_appendfacet`); a list that starts at the sentinel
starts at the facet. -/
def spec_appendfacet (qh : QhullQh) (facet : facetT) : QhullQh :=
  { qh with
    facet_list := qh.facet_list.dropLast ++ [facet] ++ qh.facet_list.getLast?.toList
    visible_list := if qh.visible_list = 0 then facet.id else qh.visible_list
    newfacet_list := if qh.newfacet_list = 0 then facet.id else qh.newfacet_list }

/-- Modelled from the spec: the facet with the given id becomes visible and
moves to the front of the visible list (`qh_willdelete`, libqhull.h:704, 306;
section 3: a facet "transitions to visible ... when merged away"). -/
def spec_willdelete (qh : QhullQh) (id : Nat) : QhullQh :=
  match spec_facet qh.facet_list.dropLast id with
  | none => qh
  | some facet => spec_prependvisible (spec_removefacet qh id) { facet with visible := true }

/-- Modelled from the spec: the facet with the given id moves to the end of the
facet list as a new facet (libqhull.h:305: `newfacet` is "true if facet on
qh.newfacet_list (new ... or merged)"). -/
def spec_tonewfacet (qh : QhullQh) (id : Nat) : QhullQh :=
  match spec_facet qh.facet_list.dropLast id with
  | none => qh
  | some facet => spec_appendfacet (spec_removefacet qh id) { facet with newfacet := true }

/-- A reference to the facet `facet1` becomes a reference to `facet2`. -/
def spec_replace (facet1 facet2 id : Nat) : Nat :=
  if id = facet1 then facet2 else id

/-- The ridge with the facet `facet1` replaced by `facet2` on both sides. -/
def spec_rewire_ridge (facet1 facet2 : Nat) (ridge : ridgeT) : ridgeT :=
  { ridge with
    top := ridge.top.map (spec_replace facet1 facet2)
    bottom := ridge.bottom.map (spec_replace facet1 facet2) }

/-- Modelled from the spec: in a facet other than the two that merge, the facet
that is absorbed is replaced by the one that survives, at its place among the
neighbors of a simplicial facet, in the neighbor set of another facet and in
the ridges. -/
def spec_rewire (facet1 facet2 : Nat) (facet : facetT) : facetT :=
  { facet with
    neighbors :=
      if facet.simplicial then facet.neighbors.map (spec_replace facet1 facet2)
      else (facet.neighbors.map (spec_replace facet1 facet2)).dedup
    ridges := facet.ridges.map (spec_rewire_ridge facet1 facet2) }

/-- Modelled from the spec: the facet that survives a merge (section 4.3,
"union their vertex/ridge/neighbor sets ... drop ridges that become internal
(both sides now the same facet)").  Both facets have explicit ridges
(libqhull.h:278); the vertices stay inverse sorted by id (libqhull.h:272); the
survivor is not simplicial. -/
def spec_mergedfacet (absorbed survivor : facetT) : facetT :=
  { survivor with
    vertices := ((survivor.vertices ++ absorbed.vertices).dedup).insertionSort fun a b => b ≤ a
    neighbors := ((survivor.neighbors ++ absorbed.neighbors).filter fun g =>
      g != absorbed.id && g != survivor.id).dedup
    ridges := ((survivor.ridges ++ absorbed.ridges).map
      (spec_rewire_ridge absorbed.id survivor.id)).filter fun r => r.top != r.bottom
    simplicial := false }

/-- Modelled from the spec: the merge execution of section 4.3: the facet
`facet1` is absorbed into the facet `facet2`.  The survivor takes the union of
the two facets, the other facets refer to it instead of the absorbed facet, the
absorbed facet moves to the visible list and the survivor to the new-facet
list.  The hyperplane of the survivor is that of `spec_facetpoints`. -/
def spec_mergefacet (qh : QhullQh) (facet1 facet2 : Nat) : QhullQh :=
  match spec_facet qh.facet_list.dropLast facet1, spec_facet qh.facet_list.dropLast facet2 with
  | some absorbed, some survivor =>
    let merged := spec_mergedfacet (spec_makeridges absorbed) (spec_makeridges survivor)
    let qh1 : QhullQh :=
      { qh with
        facet_list := qh.facet_list.map fun f =>
          if f.id = facet2 then merged
          else if f.id = facet1 then spec_makeridges absorbed
          else spec_rewire facet1 facet2 f }
    spec_tonewfacet (spec_willdelete qh1 facet1) facet2
  | _, _ => qh

/-- Modelled from the spec: a redundant facet, one "whose vertex set is now a
subset of a neighbor's" (section 4.3), and that neighbor: the first facet that
is not visible with such a neighbor that is not visible. -/
def spec_redundant (qh : QhullQh) : Option (Nat × Nat) :=
  (qh.live.filterMap fun f =>
    (qh.live.find? fun g =>
      g.id != f.id && f.neighbors.contains g.id
        && f.vertices.all fun v => g.vertices.contains v).map fun g => (f.id, g.id)).head?

/-- Modelled from the spec: the removal of the redundant facets (section 4.3):
a redundant facet is removed and its neighbors are re-wired to the neighbor
that holds its vertices, until no facet is redundant; when the budget is
exhausted the computation ends with `PrecisionError` (section 7). -/
def spec_reduce : Nat → QhullQh → QhExit QhullQh
  | 0, qh =>
    match spec_redundant qh with
    | none => .ret qh
    | some _ => .errexit qh_ERRprec qh
  | budget + 1, qh =>
    match spec_redundant qh with
    | none => .ret qh
    | some (facet, neighbor) => spec_reduce budget (spec_mergefacet qh facet neighbor)

/-- Whether a pair of the merge policy can be merged: two different facets of
the facet list that are not visible, the second a neighbor of the first. -/
def spec_mergeable (qh : QhullQh) (facet1 facet2 : Nat) : Bool :=
  facet1 != facet2
    && (qh.live.any fun f => f.id == facet1 && f.neighbors.contains facet2)
    && (qh.live.any fun f => f.id == facet2)

/-- Modelled from the spec: the merges of section 4.3, in the order of the
merge policy, each followed by the removal of the redundant facets ("merges
cascade").  A pair that cannot be merged is an internal error; when the budget
is exhausted with a merge pending the computation ends with `PrecisionError`
(section 7). -/
def spec_mergeloop (M : SpecMerge) : Nat → QhullQh → QhExit QhullQh
  | 0, qh =>
    match M.nonconvex qh with
    | none => .ret qh
    | some _ => .errexit qh_ERRprec qh
  | budget + 1, qh =>
    match M.nonconvex qh with
    | none => .ret qh
    | some (facet1, facet2) =>
      if spec_mergeable qh facet1 facet2 then
        (spec_reduce qh.facet_list.length (spec_mergefacet qh facet1 facet2)).andThen
          (spec_mergeloop M budget)
      else .errexit qh_ERRqhull qh

/-- Modelled from the spec: `MergeIfNeeded` (section 4.2): "if precision
merging is enabled", which is `qh.PREmerge` during the construction
(libqhull.h:538), the merge engine runs on the cone before it is made
permanent. -/
def spec_mergeifneeded (M : SpecMerge) (qh : QhullQh) : QhExit QhullQh :=
  if qh.PREmerge then spec_mergeloop M M.max_merges qh else .ret qh

/-- Modelled from the spec: a point of a deleted facet goes to the outside set
of the new facet it is furthest outside of; outside of no new facet it is
interior and in no set (section 4.2, `Attach`, and invariant 5). -/
def spec_partitionvisible (qh : QhullQh) (facets : List facetT) (q : Nat) : List facetT :=
  match facets.filter fun f =>
      f.newfacet && !f.visible && decide (0 < spec_facetdist qh f q) with
  | [] => facets
  | first :: rest =>
    let best := rest.foldl (fun b f => if spec_further qh f b q then f else b) first
    facets.map fun f =>
      if f.id == best.id then
        { f with outsideset := spec_addoutside (spec_facetdist qh f) f.outsideset q }
      else f

/-- Modelled from the spec: the visible facets are deleted with their orphaned
ridges, the `newfacet` flags are cleared, the vertices that are left in no
facet are deleted (section 3), and the visible list and the new-facet list are
empty again (section 4.2, `Attach`; libqhull.h:707, "qh_deletevisible deletes
the visible facets"). -/
def spec_deletevisible (qh : QhullQh) : QhullQh :=
  let facets := qh.facet_list.dropLast
  let deleted := (facets.filter fun f => f.visible).map fun f => f.id
  let kept := (facets.filter fun f => !f.visible).map fun f =>
    { f with
      newfacet := false
      ridges := f.ridges.filter fun r => !spec_across deleted r f.id }
  let vertices := qh.vertex_list.dropLast.filter fun v =>
    kept.any fun f => f.vertices.contains v.id
  { qh with
    facet_list := kept ++ qh.facet_list.getLast?.toList
    vertex_list := vertices ++ qh.vertex_list.getLast?.toList
    visible_list := 0
    newfacet_list := 0
    num_facets := kept.length
    num_vertices := vertices.length }

/-- Modelled from the spec: `Attach` (section 4.2) for the point `p`.  The
remaining outside points of the visible facets are partitioned among the new
facets, then the visible facets are deleted. -/
def spec_attach (qh : QhullQh) (p : Nat) : QhullQh :=
  let facets := qh.facet_list.dropLast
  let points := ((facets.filter fun f => f.visible).map fun f => f.outsideset).flatten.filter
    fun q => q != p
  spec_deletevisible
    { qh with
      facet_list := points.foldl (spec_partitionvisible qh) facets
        ++ qh.facet_list.getLast?.toList }

/-- Modelled from the spec: one incorporation of the point `p`, chosen from the
outside set of the facet with id `facet` (section 4.2): `FindHorizon`,
`BuildCone`, `MergeIfNeeded` and `Attach`.  A point that is outside of no facet
is retired without a change of the graph. -/
def spec_addpoint (M : SpecMerge) (qh : QhullQh) (facet p : Nat) : QhExit QhullQh :=
  if spec_visible qh facet p = [] then
    .ret { qh with
      facet_list := qh.facet_list.map fun f =>
        { f with outsideset := f.outsideset.filter fun q => q != p } }
  else
    (spec_makecone (spec_findhorizon qh facet p) p).andThen fun qh =>
    (spec_mergeifneeded M qh).andThen fun qh => .ret (spec_attach qh p)

/-- Modelled from the spec: the final post-merge pass of section 4.3, when
`qh.POSTmerge` is set (libqhull.h:537).  Every facet is on the new-facet list
("qh_postmerge sets newfacet_list to facet_list", libqhull.h:700, 706), the
merge engine runs, and the facets merged away are deleted. -/
def spec_postmerge (M : SpecMerge) (qh : QhullQh) : QhExit QhullQh :=
  if qh.POSTmerge then
    let first := ((qh.facet_list.head?).map fun f => f.id).getD 0
    (spec_mergeloop M M.max_merges
      { qh with
        facet_list := (qh.facet_list.dropLast.map fun f => { f with newfacet := true })
          ++ qh.facet_list.getLast?.toList
        visible_list := first
        newfacet_list := first }).andThen fun qh => .ret (spec_deletevisible qh)
  else .ret qh

/-- The merge policy that never merges. -/
def noMerge : SpecMerge := { nonconvex := fun _ => none, max_merges := 0 }

/-- A merge policy for the examples: it reports the facets 4 and 5 as not
convex, as a tolerance that is wide enough does, 4 to be absorbed into 5, as
long as both are facets that are not visible. -/
def sampleMerge : SpecMerge :=
  { nonconvex := fun qh =>
      if (qh.live.any fun f => f.id == 4) && (qh.live.any fun f => f.id == 5) then some (4, 5)
      else none
    max_merges := 8 }

/-- A kernel that incorporates points as the specification describes, with the
merge policy `M`; the parser and the other parts are those of `sampleKernel`. -/
def mergeKernel (M : SpecMerge) : SpecKernel :=
  { sampleKernel with addpoint := spec_addpoint M, max_steps := 64 }

/-- A kernel that incorporates points as the specification describes and never
merges. -/
def coneKernel : SpecKernel := mergeKernel noMerge

/-- A kernel with merging during the construction: its parser sets
`qh.PREmerge`, as the option `C-n` of section 6 does, and its merge policy is
`sampleMerge`. -/
def premergeKernel : SpecKernel :=
  { mergeKernel sampleMerge with initflags := fun qh _ => .ret { qh with PREmerge := true } }

/-- The new-facet list: "list of new facets to end of facet_list"
(libqhull.h:699), from `qh.newfacet_list` up to the sentinel. -/
def QhullQh.newfacets (qh : QhullQh) : List facetT :=
  (qh.facetsFrom qh.newfacet_list).dropLast

/-- The visible list: "list of visible facets preceding newfacet_list, end of
visible list if !facet->visible" (libqhull.h:701-702), from `qh.visible_list`
on. -/
def QhullQh.visibles (qh : QhullQh) : List facetT :=
  (qh.facetsFrom qh.visible_list).takeWhile fun f => f.visible

/-- The layout of the sublists of the facet list (libqhull.h:699-706, 305-306):
the facet list consists of the facets that are neither visible nor new and
then of the facets from `qh.visible_list` on; these are the visible list and
then the facets from `qh.newfacet_list` on; these are the new-facet list and
then the sentinel.  The facets of the visible list are visible, those of the
new-facet list are new and not visible. -/
def QhullQh.sublist_layout (qh : QhullQh) : Prop :=
  qh.facet_list = (qh.facet_list.dropLast.filter fun f => !f.visible && !f.newfacet)
      ++ qh.facetsFrom qh.visible_list
    ∧ qh.facetsFrom qh.visible_list = qh.visibles ++ qh.facetsFrom qh.newfacet_list
    ∧ qh.facetsFrom qh.newfacet_list = qh.newfacets ++ qh.facet_list.getLast?.toList
    ∧ (∀ f ∈ qh.visibles, f.visible = true)
    ∧ (∀ f ∈ qh.newfacets, f.newfacet = true ∧ f.visible = false)

instance (qh : QhullQh) : Decidable qh.sublist_layout := by
  unfold QhullQh.sublist_layout
  infer_instance

/-- The facet list is well formed: it ends with the sentinel, which has id 0
(libqhull.h:695) and no flag, and the facets before it have different ids that
are positive (libqhull.h:295). -/
def QhullQh.facets_listed (qh : QhullQh) : Prop :=
  (qh.facet_list.getLast?.map fun t => (t.id, t.visible, t.newfacet)) = some (0, false, false)
    ∧ (qh.facet_list.dropLast.map fun f => f.id).Nodup
    ∧ ∀ f ∈ qh.facet_list.dropLast, 0 < f.id

instance (qh : QhullQh) : Decidable qh.facets_listed := by
  unfold QhullQh.facets_listed
  infer_instance

/-- The state of the lists during an incorporation: the facet list is well
formed and has the layout of libqhull.h:699-706. -/
def QhullQh.lists_ok (qh : QhullQh) : Prop :=
  qh.facets_listed ∧ qh.sublist_layout

instance (qh : QhullQh) : Decidable qh.lists_ok := by
  unfold QhullQh.lists_ok
  infer_instance

/-- The state of the lists between two incorporations: the facet list is well
formed, the ids are below the next id `qh.facet_id` (libqhull.h:725), and no
facet is visible or new. -/
def QhullQh.lists_clear (qh : QhullQh) : Prop :=
  qh.facets_listed
    ∧ ∀ f ∈ qh.facet_list.dropLast, f.id < qh.facet_id ∧ f.visible = false ∧ f.newfacet = false

instance (qh : QhullQh) : Decidable qh.lists_clear := by
  unfold QhullQh.lists_clear
  infer_instance

/-- The facet list in segments: the facets `A` without a flag, the visible list
`V`, the new-facet list `N` and the sentinel `t`, with `qh.visible_list` and
`qh.newfacet_list` the ids of the first facets from `V` on and from `N` on. -/
def QhullQh.segments (qh : QhullQh) (A V N : List facetT) (t : facetT) : Prop :=
  qh.facet_list = A ++ V ++ N ++ [t]
    ∧ t.id = 0 ∧ t.visible = false ∧ t.newfacet = false
    ∧ ((A ++ V ++ N).map fun f => f.id).Nodup
    ∧ (∀ f ∈ A ++ V ++ N, 0 < f.id)
    ∧ (∀ f ∈ A, f.visible = false ∧ f.newfacet = false)
    ∧ (∀ f ∈ V, f.visible = true)
    ∧ (∀ f ∈ N, f.newfacet = true ∧ f.visible = false)
    ∧ (V ++ N ++ [t]).head?.map (fun f => f.id) = some qh.visible_list
    ∧ (N ++ [t]).head?.map (fun f => f.id) = some qh.newfacet_list

/-- The facet `g` is opposite the `k`th vertex of the facet `f`: it contains
every vertex of `f` except the `k`th (libqhull.h:282). -/
def facetT.opposite (f g : facetT) (k : Nat) : Prop :=
  (∀ v ∈ f.vertices, v ≠ f.vertices.getD k 0 → v ∈ g.vertices)
    ∧ f.vertices.getD k 0 ∉ g.vertices

instance (f g : facetT) (k : Nat) : Decidable (f.opposite g k) := by
  unfold facetT.opposite
  infer_instance

/-- The correspondence of a simplicial facet `f` among the facets `facets` in
dimension `dim`: `dim` vertices, `dim` neighbors, and the `k`th neighbor is a
facet of the list opposite the `k`th vertex (libqhull.h:272-285). -/
def facetT.correspondence (facets : List facetT) (dim : Nat) (f : facetT) : Prop :=
  f.neighbors.length = dim ∧ f.vertices.length = dim
    ∧ ∀ k < dim, ∃ g ∈ facets, g.id = f.neighbors.getD k 0 ∧ f.opposite g k

instance (facets : List facetT) (dim : Nat) (f : facetT) :
    Decidable (f.correspondence facets dim) := by
  unfold facetT.correspondence
  infer_instance

/-- The simplicial-facet correspondence of the facet list (libqhull.h:272-285):
every facet of `FORALLfacets` with `simplicial` set has `qh.hull_dim` neighbors
and vertices, the `k`th neighbor opposite the `k`th vertex. -/
def QhullQh.simplicial_correspondence (qh : QhullQh) : Prop :=
  ∀ f ∈ qh.facet_list.dropLast, f.simplicial = true →
    f.correspondence qh.facet_list.dropLast qh.hull_dim.toNat

instance (qh : QhullQh) : Decidable qh.simplicial_correspondence := by
  unfold QhullQh.simplicial_correspondence
  infer_instance

/-- The explicit ridges of a facet are ridges of it: each has `dim - 1`
different vertices, all of them vertices of the facet (libqhull.h:344, "a ridge
is hull_dim-1 simplex between two neighboring facets"). -/
def facetT.ridges_ok (dim : Nat) (f : facetT) : Prop :=
  ∀ r ∈ f.ridges, r.vertices.Nodup ∧ r.vertices.length + 1 = dim
    ∧ ∀ v ∈ r.vertices, v ∈ f.vertices

instance (dim : Nat) (f : facetT) : Decidable (f.ridges_ok dim) := by
  unfold facetT.ridges_ok
  infer_instance

/-- What is left of the correspondence of a simplicial facet while facets are
merged: `dim` different vertices, `dim` neighbors, and the `k`th neighbor is
another facet of the list that contains every vertex of the facet except
possibly the `k`th. -/
def facetT.attached (facets : List facetT) (dim : Nat) (f : facetT) : Prop :=
  f.vertices.Nodup ∧ f.neighbors.length = dim ∧ f.vertices.length = dim
    ∧ ∀ k < dim, ∃ g ∈ facets, g.id = f.neighbors.getD k 0 ∧ g.id ≠ f.id
        ∧ ∀ v ∈ f.vertices, v ≠ f.vertices.getD k 0 → v ∈ g.vertices

instance (facets : List facetT) (dim : Nat) (f : facetT) :
    Decidable (f.attached facets dim) := by
  unfold facetT.attached
  infer_instance

/-- The state of the facets that are not visible, while facets are merged: the
ids are unique, positive and below the next id `facet_id` (libqhull.h:295,
725), the vertices have ids below the next id `vertex_id` (libqhull.h:727), the
explicit ridges are ridges of their facets, and the simplicial facets are
attached to their neighbors. -/
def facets_wf (dim facet_id vertex_id : Nat) (facets : List facetT) : Prop :=
  (facets.map fun f => f.id).Nodup
    ∧ ∀ f ∈ facets, 0 < f.id ∧ f.id < facet_id ∧ (∀ v ∈ f.vertices, v < vertex_id)
        ∧ f.ridges_ok dim ∧ (f.simplicial = true → f.attached facets dim)

instance (dim facet_id vertex_id : Nat) (facets : List facetT) :
    Decidable (facets_wf dim facet_id vertex_id facets) := by
  unfold facets_wf
  infer_instance

/-- The state of the facets that are not visible when no merge is under way:
the state `facets_wf`, and every simplicial facet has the correspondence of
libqhull.h:272-285. -/
def facets_ok (dim facet_id vertex_id : Nat) (facets : List facetT) : Prop :=
  facets_wf dim facet_id vertex_id facets
    ∧ ∀ f ∈ facets, f.simplicial = true → f.correspondence facets dim

instance (dim facet_id vertex_id : Nat) (facets : List facetT) :
    Decidable (facets_ok dim facet_id vertex_id facets) := by
  unfold facets_ok
  infer_instance

/-- The state of the facet graph between two incorporations: the lists are in
the state `lists_clear` and the facets in the state `facets_ok`.  Facets that
are not simplicial, the results of merges, are part of it. -/
def QhullQh.graph_ok (qh : QhullQh) : Prop :=
  qh.lists_clear
    ∧ facets_ok qh.hull_dim.toNat qh.facet_id qh.vertex_id qh.facet_list.dropLast

instance (qh : QhullQh) : Decidable qh.graph_ok := by
  unfold QhullQh.graph_ok
  infer_instance

/-- The state of the facet graph during the merges of an incorporation: the
lists are in the state `lists_ok`, the ids are below the next id, and the
facets that are not visible are in the state `facets_wf`. -/
def QhullQh.merging_ok (qh : QhullQh) : Prop :=
  qh.lists_ok ∧ (∀ f ∈ qh.facet_list.dropLast, f.id < qh.facet_id)
    ∧ facets_wf qh.hull_dim.toNat qh.facet_id qh.vertex_id qh.live

instance (qh : QhullQh) : Decidable qh.merging_ok := by
  unfold QhullQh.merging_ok
  infer_instance

/-- The state of the facet graph of an incorporation when no merge is under
way, after `BuildCone` and after `MergeIfNeeded`: the state `merging_ok`, and
every simplicial facet that is not visible has the correspondence of
libqhull.h:272-285 among the facets that are not visible. -/
def QhullQh.cone_ok (qh : QhullQh) : Prop :=
  qh.lists_ok ∧ (∀ f ∈ qh.facet_list.dropLast, f.id < qh.facet_id)
    ∧ facets_ok qh.hull_dim.toNat qh.facet_id qh.vertex_id qh.live

instance (qh : QhullQh) : Decidable qh.cone_ok := by
  unfold QhullQh.cone_ok
  infer_instance

/-- A facet without its outside set. -/
def facetT.core (f : facetT) : facetT := { f with outsideset := [] }

/-- The corner `(1, 1)` of the unit square and then its other three corners. -/
def corner_points : pointArray := { addr := 4096, cells := [1, 1, 0, 0, 1, 0, 0, 1] }

/-- The hull of the last three points of `corner_points` as `spec_initialhull`
builds it: the point 0 is in the outside set of facet 1, which omits the
vertex of the origin. -/
def triangle_hull : QhullQh :=
  { JOGGLEmax := sampleLib.REALmax, ROTATErandom := -2147483648, hull_dim := 2, input_dim := 2,
    num_points := 4, first_point := corner_points, interior_point := [1 / 3, 1 / 3],
    vertex_list := [{ id := 1, point := 1 }, { id := 2, point := 2 }, { id := 3, point := 3 },
      { id := 0 }],
    facet_list := [
      { id := 1, vertices := [3, 2], neighbors := [3, 2], simplicial := true, outsideset := [0] },
      { id := 2, vertices := [3, 1], neighbors := [3, 1], simplicial := true },
      { id := 3, vertices := [2, 1], neighbors := [2, 1], simplicial := true }, { id := 0 }],
    num_facets := 3, num_vertices := 3, facet_id := 4, vertex_id := 4 }

/-- The state of `triangle_hull` during the incorporation of the point 0,
after `FindHorizon` and `BuildCone`: facet 1 is visible, facets 4 and 5 are
new. -/
def triangle_cone : QhullQh :=
  { triangle_hull with
    vertex_list := [{ id := 1, point := 1 }, { id := 2, point := 2 }, { id := 3, point := 3 },
      { id := 4, point := 0 }, { id := 0 }],
    facet_list := [
      { id := 2, vertices := [3, 1], neighbors := [3, 4], simplicial := true },
      { id := 3, vertices := [2, 1], neighbors := [2, 5], simplicial := true },
      { id := 1, vertices := [3, 2], neighbors := [3, 2], simplicial := true, outsideset := [0],
        visible := true },
      { id := 4, vertices := [4, 3], neighbors := [2, 5], simplicial := true, newfacet := true },
      { id := 5, vertices := [4, 2], neighbors := [3, 4], simplicial := true, newfacet := true },
      { id := 0 }],
    num_facets := 5, num_vertices := 4, facet_id := 6, vertex_id := 5,
    visible_list := 1, newfacet_list := 4 }

/-- The hull of the four points of `corner_points`, the state of
`triangle_hull` after the incorporation of the point 0. -/
def square_hull : QhullQh :=
  { triangle_hull with
    vertex_list := [{ id := 1, point := 1 }, { id := 2, point := 2 }, { id := 3, point := 3 },
      { id := 4, point := 0 }, { id := 0 }],
    facet_list := [
      { id := 2, vertices := [3, 1], neighbors := [3, 4], simplicial := true },
      { id := 3, vertices := [2, 1], neighbors := [2, 5], simplicial := true },
      { id := 4, vertices := [4, 3], neighbors := [2, 5], simplicial := true },
      { id := 5, vertices := [4, 2], neighbors := [3, 4], simplicial := true },
      { id := 0 }],
    num_facets := 4, num_vertices := 4, facet_id := 6, vertex_id := 5 }

/-- The state of `triangle_hull` with merging during the construction, during
the incorporation of the point 0, after `FindHorizon`, `BuildCone` and the
merge of the new facet 4 into the new facet 5. -/
def triangle_merged : QhullQh :=
  { triangle_cone with
    PREmerge := true
    facet_list := [
      { id := 2, vertices := [3, 1], neighbors := [3, 5], simplicial := true },
      { id := 3, vertices := [2, 1], neighbors := [2, 5], simplicial := true },
      { id := 4, vertices := [4, 3], neighbors := [2, 5], newfacet := true, visible := true,
        ridges := [{ vertices := [3], top := some 4, bottom := some 2 },
          { vertices := [4], top := some 4, bottom := some 5 }] },
      { id := 1, vertices := [3, 2], neighbors := [3, 2], simplicial := true, outsideset := [0],
        visible := true },
      { id := 5, vertices := [4, 3, 2], neighbors := [3, 2], newfacet := true,
        ridges := [{ vertices := [2], top := some 5, bottom := some 3 },
          { vertices := [3], top := some 5, bottom := some 2 }] },
      { id := 0 }],
    visible_list := 4, newfacet_list := 5 }

/-- The hull of the four points of `corner_points` with the two new facets
merged into one facet, which is not simplicial. -/
def merged_hull : QhullQh :=
  { triangle_hull with
    PREmerge := true
    vertex_list := [{ id := 1, point := 1 }, { id := 2, point := 2 }, { id := 3, point := 3 },
      { id := 4, point := 0 }, { id := 0 }],
    facet_list := [
      { id := 2, vertices := [3, 1], neighbors := [3, 5], simplicial := true },
      { id := 3, vertices := [2, 1], neighbors := [2, 5], simplicial := true },
      { id := 5, vertices := [4, 3, 2], neighbors := [3, 2],
        ridges := [{ vertices := [2], top := some 5, bottom := some 3 },
          { vertices := [3], top := some 5, bottom := some 2 }] },
      { id := 0 }],
    num_facets := 3, num_vertices := 4, facet_id := 6, vertex_id := 5 }

/-! ## Lemmas on the building blocks -/

/-- The error thrown by `checkIfQhullInitialized`. -/
def error10023 : QhullError :=
  ⟨10023, "Qhull error: checkIfQhullInitialized failed.  Call runQhull() first."⟩

/-- The error thrown by the guard of `runQhull`. -/
def error10027 : QhullError :=
  ⟨10027, "Qhull error: runQhull called twice.  Only one call allowed."⟩

theorem checkIfQhullInitialized_false (L : QhLib) (q : Qhull) (h : L.initialized q = false) :
    q.checkIfQhullInitialized L = some error10023 := by
  simp [Qhull.checkIfQhullInitialized, h, error10023]

theorem checkIfQhullInitialized_true (L : QhLib) (q : Qhull) (h : L.initialized q = true) :
    q.checkIfQhullInitialized L = none := by
  simp [Qhull.checkIfQhullInitialized, h]

theorem QH_TRY_of_NOerrexit (L : QhLib) (q : Qhull) (body : Qhull → QhExit Qhull)
    (h : q.qh_qh.NOerrexit = true) :
    q.QH_TRY_ L body =
      match body { q with qh_qh := { q.qh_qh with NOerrexit := false } } with
      | .ret q2 => (q2, 0)
      | .errexit exitcode q2 => (q2, setjmp_value exitcode) := by
  simp [Qhull.QH_TRY_, h]

theorem invoke_calls (q : Qhull) (c : QhCall) (routine : QhullQh → QhExit QhullQh) :
    (q.invoke c routine).state.calls = q.calls ++ [c] := by
  unfold Qhull.invoke
  cases routine q.qh_qh <;> rfl

theorem maybeThrowQhullMessage_calls (L : QhLib) (q : Qhull) (status : Int) :
    (q.maybeThrowQhullMessage L status).1.calls = q.calls := rfl

theorem QH_TRY_invoke_calls (L : QhLib) (q : Qhull) (c : Qhull → QhCall)
    (routine : QhullQh → QhExit QhullQh) (h : q.qh_qh.NOerrexit = true) :
    (q.QH_TRY_ L (fun q => q.invoke (c q) routine)).1.calls =
      q.calls ++ [c { q with qh_qh := { q.qh_qh with NOerrexit := false } }] := by
  rw [QH_TRY_of_NOerrexit L q _ h]
  simp only [Qhull.invoke]
  cases routine { q.qh_qh with NOerrexit := false } <;> rfl

/-! ## C10: the exit status codes -/

/-- Claim C10.  The codes `qh_ERRnone` ... `qh_ERRdebug` are exactly the integers
0 through 9 in the order of their definition, they are pairwise distinct, and
`qh_ERRnone` is the only one equal to 0; the codes of the error kinds of the
specification (InputError, SingularInputError, PrecisionError,
OutOfMemoryError, TopologyError) are 1, 2, 3, 4 and 7, distinct from one
another and from the success code. -/
theorem qh_ERR_taxonomy :
    qh_ERR_table.map Prod.snd = [0, 1, 2, 3, 4, 5, 6, 7, 8, 9]
    ∧ (qh_ERR_table.map Prod.snd).Nodup
    ∧ (∀ entry ∈ qh_ERR_table, entry.2 = 0 ↔ entry.1 = "qh_ERRnone")
    ∧ qh_ERRnone = 0
    ∧ [ErrorKind.InputError, .SingularInputError, .PrecisionError, .OutOfMemoryError,
        .TopologyError].map ErrorKind.status = [1, 2, 3, 4, 7]
    ∧ (∀ k k' : ErrorKind, k.status = k'.status → k = k')
    ∧ (∀ k : ErrorKind, k.status ≠ qh_ERRnone) := by
  refine ⟨by decide, by decide, by decide, rfl, by decide, ?_, ?_⟩
  · intro k k'; cases k <;> cases k' <;> decide
  · intro k; cases k <;> decide

/-! ## C2: the guard `checkIfQhullInitialized` -/

/-- Claim C2.  On an object for which `initialized()` is false, each of `area`,
`volume`, `defineVertexNeighborFacets`, `outputQhull()` and
`outputQhull(outputflags)` throws QhullError 10023 ("Call runQhull() first")
and leaves the object as it found it: the context is unchanged and no routine
was invoked (the record of calls is part of the object).  When `initialized()`
is true, `checkIfQhullInitialized` does not throw. -/
theorem checkIfQhullInitialized_guard (L : QhLib) (q : Qhull) :
    (L.initialized q = false →
      q.area L = (q, .error error10023)
      ∧ q.volume L = (q, .error error10023)
      ∧ q.defineVertexNeighborFacets L = (q, some error10023)
      ∧ q.outputQhull L = (q, some error10023)
      ∧ (∀ outputflags, q.outputQhull_flags L outputflags = (q, some error10023))
      ∧ error10023.code = 10023)
    ∧ (L.initialized q = true → q.checkIfQhullInitialized L = none) := by
  refine ⟨fun h => ?_, checkIfQhullInitialized_true L q⟩
  have hc := checkIfQhullInitialized_false L q h
  refine ⟨?_, ?_, ?_, ?_, ?_, rfl⟩
  · simp only [Qhull.area, hc]
  · simp only [Qhull.volume, hc]
  · simp only [Qhull.defineVertexNeighborFacets, hc]
  · simp only [Qhull.outputQhull, hc]
  · intro outputflags
    simp only [Qhull.outputQhull_flags, hc]

/-- Witness of C2: a fresh object is rejected by all five members, the triangle
passes the guard. -/
theorem checkIfQhullInitialized_guard_witness :
    sampleLib.initialized Qhull.members = false
    ∧ Qhull.members.area sampleLib = (Qhull.members, .error error10023)
    ∧ Qhull.members.outputQhull_flags sampleLib "n".toList = (Qhull.members, some error10023)
    ∧ sampleLib.initialized triangle = true
    ∧ triangle.checkIfQhullInitialized sampleLib = none :=
  ⟨rfl, ((checkIfQhullInitialized_guard sampleLib Qhull.members).1 rfl).1,
    ((checkIfQhullInitialized_guard sampleLib Qhull.members).1 rfl).2.2.2.2.1 _,
    rfl, (checkIfQhullInitialized_guard sampleLib triangle).2 rfl⟩

/-! ## C3: area and volume are computed on demand and kept -/

/-- The shared `QH_TRY_` block of `area` and `volume` (Qhull.cpp:146-148, 159-161). -/
theorem area_unfold (L : QhLib) (q : Qhull) (hinit : L.initialized q = true)
    (h : q.qh_qh.hasAreaVolume = false) :
    (q.area L).1 = ((q.QH_TRY_ L (fun q => q.invoke (.qh_getarea q.qh_qh.facet_list)
        (fun qh => L.qh_getarea qh qh.facet_list))).1.setNOerrexit.maybeThrowQhullMessage L
        (q.QH_TRY_ L (fun q => q.invoke (.qh_getarea q.qh_qh.facet_list)
        (fun qh => L.qh_getarea qh qh.facet_list))).2).1
    ∧ ∀ a, (q.area L).2 = .ok a → a = (q.area L).1.qh_qh.totarea := by
  simp only [Qhull.area, checkIfQhullInitialized_true L q hinit, h]
  rcases hmt : Qhull.maybeThrowQhullMessage L _ _ with ⟨q2, _ | e⟩
  · simp
  · simp

theorem volume_unfold (L : QhLib) (q : Qhull) (hinit : L.initialized q = true)
    (h : q.qh_qh.hasAreaVolume = false) :
    (q.volume L).1 = ((q.QH_TRY_ L (fun q => q.invoke (.qh_getarea q.qh_qh.facet_list)
        (fun qh => L.qh_getarea qh qh.facet_list))).1.setNOerrexit.maybeThrowQhullMessage L
        (q.QH_TRY_ L (fun q => q.invoke (.qh_getarea q.qh_qh.facet_list)
        (fun qh => L.qh_getarea qh qh.facet_list))).2).1
    ∧ ∀ v, (q.volume L).2 = .ok v → v = (q.volume L).1.qh_qh.totvol := by
  simp only [Qhull.volume, checkIfQhullInitialized_true L q hinit, h]
  rcases hmt : Qhull.maybeThrowQhullMessage L _ _ with ⟨q2, _ | e⟩
  · simp
  · simp

theorem area_cached (L : QhLib) (q : Qhull) (hinit : L.initialized q = true)
    (h : q.qh_qh.hasAreaVolume = true) : q.area L = (q, .ok q.qh_qh.totarea) := by
  simp [Qhull.area, checkIfQhullInitialized_true L q hinit, h]

theorem volume_cached (L : QhLib) (q : Qhull) (hinit : L.initialized q = true)
    (h : q.qh_qh.hasAreaVolume = true) : q.volume L = (q, .ok q.qh_qh.totvol) := by
  simp [Qhull.volume, checkIfQhullInitialized_true L q hinit, h]

theorem steps_area_volume_cached (L : QhLib) (q : Qhull) (hinit : L.initialized q = true)
    (h : q.qh_qh.hasAreaVolume = true) (ops : List Op)
    (hops : ∀ op ∈ ops, op = Op.area ∨ op = Op.volume) : q.steps L ops = q := by
  induction ops with
  | nil => rfl
  | cons op rest ih =>
    have hstep : q.step L op = q := by
      rcases hops op (List.mem_cons_self _ _) with rfl | rfl
      · simp [Qhull.step, area_cached L q hinit h]
      · simp [Qhull.step, volume_cached L q hinit h]
    have hrest : ∀ op ∈ rest, op = Op.area ∨ op = Op.volume :=
      fun op hop => hops op (List.mem_cons_of_mem _ hop)
    simpa [Qhull.steps, List.foldl_cons, hstep] using ih hrest

/-! ## C4 and C5: `defineVertexNeighborFacets` -/

theorem setjmp_value_ne_zero (val : Int) : setjmp_value val ≠ 0 := by
  unfold setjmp_value
  split
  · decide
  · assumption

/-- With `qh.hasAreaVolume` set, `defineVertexNeighborFacets` returns at once. -/
theorem defineVertexNeighborFacets_hasAreaVolume (L : QhLib) (q : Qhull)
    (hinit : L.initialized q = true) (h : q.qh_qh.hasAreaVolume = true) :
    q.defineVertexNeighborFacets L = (q, none) := by
  simp [Qhull.defineVertexNeighborFacets, checkIfQhullInitialized_true L q hinit, h]

/-- Claim C4, evaluated on the triangle after `area()`.  The object is
initialized and `area()` returned 3; the call of `defineVertexNeighborFacets`
that follows returns normally, leaves the object as it is, invokes no
`qh_vertexneighbors`, and `vertex->neighbors` is still undefined for every
vertex of `qh.vertex_list`.  On the same triangle without `area()` before, the
call does define the neighbor sets. -/
theorem defineVertexNeighborFacets_after_area :
    (triangle.area sampleLib).2 = .ok 3
    ∧ sampleLib.initialized (triangle.area sampleLib).1 = true
    ∧ (triangle.area sampleLib).1.defineVertexNeighborFacets sampleLib
        = ((triangle.area sampleLib).1, none)
    ∧ QhCall.qh_vertexneighbors ∉
        ((triangle.area sampleLib).1.defineVertexNeighborFacets sampleLib).1.calls
    ∧ (∀ vertex ∈
        ((triangle.area sampleLib).1.defineVertexNeighborFacets sampleLib).1.qh_qh.vertex_list,
        vertex.neighbors = none)
    ∧ (triangle.defineVertexNeighborFacets sampleLib).1.qh_qh.vertex_list
        = [{ id := 1, neighbors := some [1, 3] }, { id := 2, neighbors := some [1, 2] },
           { id := 3, neighbors := some [2, 3] }, { id := 0 }] := by
  have h := defineVertexNeighborFacets_hasAreaVolume sampleLib (triangle.area sampleLib).1 rfl rfl
  refine ⟨rfl, rfl, h, ?_, ?_, rfl⟩
  · rw [h]; decide
  · rw [h]; decide

/-- A call on a context whose neighbor sets are maintained changes nothing. -/
theorem defineVertexNeighborFacets_noop (L : QhLib) (s : Qhull)
    (hguard : ∀ qh, qh.VERTEXneighbors = true → L.qh_vertexneighbors qh = .ret qh)
    (hV : s.qh_qh.VERTEXneighbors = true) (hN : s.qh_qh.NOerrexit = true)
    (hmt : L.maybeThrowQhullMessage s.qh_qh 0 = (s.qh_qh, none)) :
    (s.defineVertexNeighborFacets L).1.qh_qh = s.qh_qh
    ∧ (L.initialized s = true → (s.defineVertexNeighborFacets L).2 = none) := by
  unfold Qhull.defineVertexNeighborFacets
  cases hinit : L.initialized s
  · simp [checkIfQhullInitialized_false L s hinit]
  · rw [checkIfQhullInitialized_true L s hinit]
    cases hA : s.qh_qh.hasAreaVolume
    · have hcall : L.qh_vertexneighbors { s.qh_qh with NOerrexit := false }
          = .ret { s.qh_qh with NOerrexit := false } := hguard _ hV
      have hback : ({ ({ s.qh_qh with NOerrexit := false } : QhullQh) with NOerrexit := true }
          : QhullQh) = s.qh_qh := by
        cases hs : s.qh_qh
        rw [hs] at hN
        simp only at hN
        simp [hN]
      simp [QH_TRY_of_NOerrexit L s _ hN, Qhull.invoke, hcall, Qhull.setNOerrexit,
        Qhull.maybeThrowQhullMessage, hback, hmt]
    · simp

theorem QH_TRY_of_not_NOerrexit (L : QhLib) (q : Qhull) (body : Qhull → QhExit Qhull)
    (h : q.qh_qh.NOerrexit = false) :
    q.QH_TRY_ L body =
      if L.QH_TRY_ERROR = 0 then
        match body q with
        | .ret q2 => (q2, 0)
        | .errexit exitcode q2 => (q2, setjmp_value exitcode)
      else (q, L.QH_TRY_ERROR) := by
  simp only [Qhull.QH_TRY_, h, Bool.false_eq_true, if_false]

theorem invoke_qh_qh (q : Qhull) (c : QhCall) (routine : QhullQh → QhExit QhullQh) :
    (q.invoke c routine).state.qh_qh = (routine q.qh_qh).state := by
  unfold Qhull.invoke
  cases routine q.qh_qh <;> rfl

/-- What a `QH_TRY_` block around one library call yields: status 0 and the
context the routine returned, or a status other than 0. -/
theorem QH_TRY_invoke_outcome (L : QhLib) (q : Qhull) (c : QhCall)
    (routine : QhullQh → QhExit QhullQh) :
    (∃ qh qh', routine qh = .ret qh'
        ∧ (q.QH_TRY_ L (fun q => q.invoke c routine)).1.qh_qh = qh'
        ∧ (q.QH_TRY_ L (fun q => q.invoke c routine)).2 = 0)
    ∨ (q.QH_TRY_ L (fun q => q.invoke c routine)).2 ≠ 0 := by
  cases hN : q.qh_qh.NOerrexit
  · rw [QH_TRY_of_not_NOerrexit L q _ hN]
    by_cases hE : L.QH_TRY_ERROR = 0
    · simp only [hE, if_true, Qhull.invoke]
      cases hr : routine q.qh_qh with
      | ret qh' => exact Or.inl ⟨_, _, hr, rfl, rfl⟩
      | errexit e qh' => exact Or.inr (setjmp_value_ne_zero e)
    · simp only [hE, if_false]
      exact Or.inr hE
  · rw [QH_TRY_of_NOerrexit L q _ hN]
    simp only [Qhull.invoke]
    cases hr : routine { q.qh_qh with NOerrexit := false } with
    | ret qh' => exact Or.inl ⟨_, _, hr, rfl, rfl⟩
    | errexit e qh' => exact Or.inr (setjmp_value_ne_zero e)

theorem defineVertexNeighborFacets_unfold (L : QhLib) (q : Qhull)
    (hinit : L.initialized q = true) (h : q.qh_qh.hasAreaVolume = false) :
    q.defineVertexNeighborFacets L =
      (q.QH_TRY_ L (fun q => q.invoke .qh_vertexneighbors L.qh_vertexneighbors)).1.setNOerrexit.maybeThrowQhullMessage
        L (q.QH_TRY_ L (fun q => q.invoke .qh_vertexneighbors L.qh_vertexneighbors)).2 := by
  simp [Qhull.defineVertexNeighborFacets, checkIfQhullInitialized_true L q hinit, h]

/-- Claim C5.  A second call of `defineVertexNeighborFacets`, right after a call
that returned normally, leaves the qh context (facets, vertices, neighbor sets,
flags) exactly as the first call left it, and returns normally if the object is
still initialized.  The routines outside the embedded sources enter through
what they promise: `qh_vertexneighbors` returns at once when
`qh.VERTEXneighbors` is set and sets it when it returns;
`maybeThrowQhullMessage` throws on a status other than 0 and changes nothing
when it does not throw. -/
theorem defineVertexNeighborFacets_twice (L : QhLib) (q : Qhull)
    (hguard : ∀ qh, qh.VERTEXneighbors = true → L.qh_vertexneighbors qh = .ret qh)
    (hset : ∀ qh qh', L.qh_vertexneighbors qh = .ret qh' → qh'.VERTEXneighbors = true)
    (hquiet : ∀ qh, (L.maybeThrowQhullMessage qh 0).2 = none →
      (L.maybeThrowQhullMessage qh 0).1 = qh)
    (hthrow : ∀ qh status, status ≠ 0 → (L.maybeThrowQhullMessage qh status).2 ≠ none)
    (hret : (q.defineVertexNeighborFacets L).2 = none) :
    ((q.defineVertexNeighborFacets L).1.defineVertexNeighborFacets L).1.qh_qh
        = (q.defineVertexNeighborFacets L).1.qh_qh
    ∧ (L.initialized (q.defineVertexNeighborFacets L).1 = true →
        ((q.defineVertexNeighborFacets L).1.defineVertexNeighborFacets L).2 = none) := by
  cases hinit : L.initialized q
  · simp [Qhull.defineVertexNeighborFacets, checkIfQhullInitialized_false L q hinit] at hret
  cases hA : q.qh_qh.hasAreaVolume
  swap
  · rw [defineVertexNeighborFacets_hasAreaVolume L q hinit hA]
    simp only
    rw [defineVertexNeighborFacets_hasAreaVolume L q hinit hA]
    exact ⟨rfl, fun _ => rfl⟩
  rw [defineVertexNeighborFacets_unfold L q hinit hA] at hret ⊢
  rcases QH_TRY_invoke_outcome L q .qh_vertexneighbors L.qh_vertexneighbors with
    ⟨qh, qh', hvn, hstate, hzero⟩ | hne
  · rw [hzero] at hret ⊢
    have hnone : (L.maybeThrowQhullMessage
        (q.QH_TRY_ L (fun q => q.invoke .qh_vertexneighbors L.qh_vertexneighbors)).1.setNOerrexit.qh_qh
        0).2 = none := hret
    have hsame := hquiet _ hnone
    apply defineVertexNeighborFacets_noop L _ hguard
    · show (L.maybeThrowQhullMessage _ 0).1.VERTEXneighbors = true
      rw [hsame]
      show (q.QH_TRY_ L _).1.qh_qh.VERTEXneighbors = true
      rw [hstate]
      exact hset _ _ hvn
    · show (L.maybeThrowQhullMessage _ 0).1.NOerrexit = true
      rw [hsame]
      rfl
    · show L.maybeThrowQhullMessage (L.maybeThrowQhullMessage _ 0).1 0 = ((L.maybeThrowQhullMessage _ 0).1, none)
      rw [hsame]
      exact Prod.ext hsame hnone
  · exact absurd hret (hthrow _ _ hne)
theorem sampleLib_guard (qh : QhullQh) (h : qh.VERTEXneighbors = true) :
    sampleLib.qh_vertexneighbors qh = .ret qh := by
  show sample_vertexneighbors qh = .ret qh
  simp [sample_vertexneighbors, h]

theorem sampleLib_sets (qh qh' : QhullQh) (h : sampleLib.qh_vertexneighbors qh = .ret qh') :
    qh'.VERTEXneighbors = true := by
  change sample_vertexneighbors qh = .ret qh' at h
  unfold sample_vertexneighbors at h
  split at h
  · cases h; assumption
  · cases h; rfl

theorem sampleLib_quiet (qh : QhullQh) (h : (sampleLib.maybeThrowQhullMessage qh 0).2 = none) :
    (sampleLib.maybeThrowQhullMessage qh 0).1 = qh := by
  change (sample_maybeThrowQhullMessage qh 0).2 = none at h
  show (sample_maybeThrowQhullMessage qh 0).1 = qh
  unfold sample_maybeThrowQhullMessage at h ⊢
  by_cases hs : qh.qhull_status = qh_ERRnone
  · simp [hs, qh_ERRnone]
  · simp [hs] at h

theorem sampleLib_throws (qh : QhullQh) (status : Int) (h : status ≠ 0) :
    (sampleLib.maybeThrowQhullMessage qh status).2 ≠ none := by
  show (sample_maybeThrowQhullMessage qh status).2 ≠ none
  unfold sample_maybeThrowQhullMessage
  by_cases hs : qh.qhull_status = qh_ERRnone
  · simp [hs, qh_ERRnone, h]
  · simp [hs]

/-- Witness of C5 on the triangle: the first call defines the neighbor sets and
returns; the second call returns and leaves the context as it is. -/
theorem defineVertexNeighborFacets_twice_witness :
    (triangle.defineVertexNeighborFacets sampleLib).2 = none
    ∧ ((triangle.defineVertexNeighborFacets sampleLib).1.defineVertexNeighborFacets
        sampleLib).1.qh_qh = (triangle.defineVertexNeighborFacets sampleLib).1.qh_qh
    ∧ ((triangle.defineVertexNeighborFacets sampleLib).1.defineVertexNeighborFacets
        sampleLib).2 = none :=
  ⟨rfl,
    (defineVertexNeighborFacets_twice sampleLib triangle sampleLib_guard sampleLib_sets
      sampleLib_quiet sampleLib_throws rfl).1,
    (defineVertexNeighborFacets_twice sampleLib triangle sampleLib_guard sampleLib_sets
      sampleLib_quiet sampleLib_throws rfl).2 rfl⟩

/-! ## The members that only the object owns -/

theorem invoke_data (q : Qhull) (c : QhCall) (routine : QhullQh → QhExit QhullQh) :
    (q.invoke c routine).state.data = q.data := by
  unfold Qhull.invoke
  cases routine q.qh_qh <;> rfl

theorem andThen_data (q : Qhull) (r : QhExit Qhull) (k : Qhull → QhExit Qhull)
    (hr : r.state.data = q.data) (hk : ∀ s, (k s).state.data = s.data) :
    (r.andThen k).state.data = q.data := by
  cases r with
  | ret s => exact (hk s).trans hr
  | errexit e s => exact hr

theorem ite_data (q : Qhull) (b : Bool) (r₁ r₂ : QhExit Qhull)
    (h₁ : r₁.state.data = q.data) (h₂ : r₂.state.data = q.data) :
    (if b then r₁ else r₂).state.data = q.data := by
  cases b <;> simpa

theorem initializeFeasiblePoint_data (L : QhLib) (q : Qhull) (hulldim : Int) :
    (q.initializeFeasiblePoint L hulldim).state.data = q.data := by
  unfold Qhull.initializeFeasiblePoint
  simp only
  split
  · exact invoke_data _ _ _
  · split
    · rfl
    · split
      · rfl
      · split <;> rfl

theorem runQhull_flags_data (L : QhLib) (command inputComment2 : cstring) (q : Qhull) :
    (q.runQhull_flags L command inputComment2).state.data = q.data := by
  unfold Qhull.runQhull_flags
  refine andThen_data q _ _ (invoke_data _ _ _) fun s => ?_
  refine andThen_data s _ _ (invoke_data _ _ _) fun s => ?_
  simp only
  split <;> rfl

theorem runQhull_build_data (L : QhLib) (q : Qhull) (newPoints : pointArray)
    (pointCount newDimension : Int) (newIsMalloc : Bool) :
    (q.runQhull_build L newPoints pointCount newDimension newIsMalloc).state.data = q.data := by
  unfold Qhull.runQhull_build
  refine andThen_data q _ _ (invoke_data _ _ _) fun s => ?_
  refine andThen_data s _ _ (invoke_data _ _ _) fun s => ?_
  refine andThen_data s _ _ (invoke_data _ _ _) fun s => ?_
  refine andThen_data s _ _ (invoke_data _ _ _) fun s => ?_
  exact ite_data s _ _ _ (invoke_data _ _ _) rfl

theorem runQhull_halfspace_data (L : QhLib) (q : Qhull) (pointDimension pointCount : Int)
    (pointCoordinates : pointArray) :
    (q.runQhull_halfspace L pointDimension pointCount pointCoordinates).state.data = q.data := by
  unfold Qhull.runQhull_halfspace
  refine andThen_data q _ _ (initializeFeasiblePoint_data _ _ _) fun s => ?_
  refine andThen_data s _ _ (invoke_data _ _ _) fun s => ?_
  exact runQhull_build_data _ _ _ _ _ _

theorem runQhull_try_data (L : QhLib) (command inputComment2 : cstring)
    (pointDimension pointCount : Int) (pointCoordinates : pointArray) (q : Qhull) :
    (q.runQhull_try L command inputComment2 pointDimension pointCount
      pointCoordinates).state.data = q.data := by
  unfold Qhull.runQhull_try
  refine andThen_data q _ _ (runQhull_flags_data _ _ _ _) fun s => ?_
  exact ite_data s _ _ _ (runQhull_halfspace_data _ _ _ _ _) (runQhull_build_data _ _ _ _ _ _)

theorem outputQhull_try_data (L : QhLib) (command : cstring) (q : Qhull) :
    (q.outputQhull_try L command).state.data = q.data := by
  unfold Qhull.outputQhull_try
  refine andThen_data q _ _ (invoke_data _ _ _) fun s => ?_
  simp only
  refine andThen_data s _ _ (invoke_data _ _ _) fun s => ?_
  refine andThen_data s _ _ (invoke_data _ _ _) fun s => ?_
  refine andThen_data s _ _ (invoke_data _ _ _) fun s => ?_
  refine andThen_data s _ _ (ite_data s _ _ _ (invoke_data _ _ _) rfl) fun s => ?_
  refine andThen_data s _ _ (invoke_data _ _ _) fun s => ?_
  exact ite_data s _ _ _ (invoke_data _ _ _) rfl

theorem QH_TRY_data (L : QhLib) (q : Qhull) (body : Qhull → QhExit Qhull)
    (hbody : ∀ s, (body s).state.data = s.data) : (q.QH_TRY_ L body).1.data = q.data := by
  cases hN : q.qh_qh.NOerrexit
  · rw [QH_TRY_of_not_NOerrexit L q body hN]
    split
    · have := hbody q
      cases hb : body q <;> simp [hb, QhExit.state] at this ⊢ <;> exact this
    · rfl
  · rw [QH_TRY_of_NOerrexit L q body hN]
    have := hbody { q with qh_qh := { q.qh_qh with NOerrexit := false } }
    cases hb : body { q with qh_qh := { q.qh_qh with NOerrexit := false } } <;>
      simp [hb, QhExit.state] at this ⊢ <;> exact this

/-- The tail of every member: `NOerrexit= true` and `maybeThrowQhullMessage`. -/
theorem finish_data (L : QhLib) (q : Qhull) (status : Int) :
    (q.setNOerrexit.maybeThrowQhullMessage L status).1.data = q.data := rfl

theorem area_data (L : QhLib) (q : Qhull) : (q.area L).1.data = q.data := by
  cases hinit : L.initialized q
  · simp [Qhull.area, checkIfQhullInitialized_false L q hinit]
  · cases hA : q.qh_qh.hasAreaVolume
    · rw [(area_unfold L q hinit hA).1, finish_data]
      exact QH_TRY_data L q _ fun s => invoke_data _ _ _
    · rw [area_cached L q hinit hA]

theorem volume_data (L : QhLib) (q : Qhull) : (q.volume L).1.data = q.data := by
  cases hinit : L.initialized q
  · simp [Qhull.volume, checkIfQhullInitialized_false L q hinit]
  · cases hA : q.qh_qh.hasAreaVolume
    · rw [(volume_unfold L q hinit hA).1, finish_data]
      exact QH_TRY_data L q _ fun s => invoke_data _ _ _
    · rw [volume_cached L q hinit hA]

theorem defineVertexNeighborFacets_data (L : QhLib) (q : Qhull) :
    (q.defineVertexNeighborFacets L).1.data = q.data := by
  cases hinit : L.initialized q
  · simp [Qhull.defineVertexNeighborFacets, checkIfQhullInitialized_false L q hinit]
  · cases hA : q.qh_qh.hasAreaVolume
    · rw [defineVertexNeighborFacets_unfold L q hinit hA, finish_data]
      exact QH_TRY_data L q _ fun s => invoke_data _ _ _
    · rw [defineVertexNeighborFacets_hasAreaVolume L q hinit hA]

theorem outputQhull_data (L : QhLib) (q : Qhull) : (q.outputQhull L).1.data = q.data := by
  cases hinit : L.initialized q
  · simp [Qhull.outputQhull, checkIfQhullInitialized_false L q hinit]
  · simp only [Qhull.outputQhull, checkIfQhullInitialized_true L q hinit, finish_data]
    exact QH_TRY_data L q _ fun s => invoke_data _ _ _

theorem outputQhull_flags_data (L : QhLib) (q : Qhull) (outputflags : cstring) :
    (q.outputQhull_flags L outputflags).1.data = q.data := by
  cases hinit : L.initialized q
  · simp [Qhull.outputQhull_flags, checkIfQhullInitialized_false L q hinit]
  · simp only [Qhull.outputQhull_flags, checkIfQhullInitialized_true L q hinit, finish_data]
    exact QH_TRY_data L q _ (outputQhull_try_data L _)

theorem prepareVoronoi_vertices_data (L : QhLib) (vertex_list : List vertexT) (q : Qhull) :
    (Qhull.prepareVoronoi_vertices L vertex_list q).state.data = q.data := by
  induction vertex_list generalizing q with
  | nil => rfl
  | cons vertex rest ih =>
    cases rest with
    | nil => rfl
    | cons next rest =>
      simp only [Qhull.prepareVoronoi_vertices]
      exact andThen_data q _ _ (invoke_data _ _ _) fun s => ih s

theorem prepareVoronoi_try_data (L : QhLib) (q : Qhull) :
    (q.prepareVoronoi_try L).state.data = q.data := by
  unfold Qhull.prepareVoronoi_try
  refine andThen_data q _ _ (invoke_data _ _ _) fun s => ?_
  refine andThen_data s _ _ (prepareVoronoi_vertices_data L _ s) fun s => ?_
  exact invoke_data _ _ _

theorem prepareVoronoi_data (L : QhLib) (q : Qhull) : (q.prepareVoronoi L).1.data = q.data := by
  simp only [Qhull.prepareVoronoi, finish_data]
  exact QH_TRY_data L q _ (prepareVoronoi_try_data L)

/-! ## C1: `runQhull` is entered once -/

theorem runQhull_called (L : QhLib) (q : Qhull) (inputComment2 : cstring)
    (pointDimension pointCount : Int) (pointCoordinates : pointArray) (qhullCommand2 : cstring)
    (h : q.run_called = true) :
    q.runQhull L inputComment2 pointDimension pointCount pointCoordinates qhullCommand2
      = (q, some error10027) := by
  simp [Qhull.runQhull, h, error10027]

theorem runQhull_first (L : QhLib) (q : Qhull) (inputComment2 : cstring)
    (pointDimension pointCount : Int) (pointCoordinates : pointArray) (qhullCommand2 : cstring)
    (h : q.run_called = false) :
    (q.runQhull L inputComment2 pointDimension pointCount pointCoordinates qhullCommand2).1.run_called
      = true
    ∧ ∃ qh status,
      (q.runQhull L inputComment2 pointDimension pointCount pointCoordinates qhullCommand2).2
        = (L.maybeThrowQhullMessage qh status).2 := by
  simp only [Qhull.runQhull, h, Bool.false_eq_true, if_false]
  constructor
  · show (Qhull.QH_TRY_ L _ _).1.data.2.1 = true
    rw [QH_TRY_data L _ _ (runQhull_try_data L _ _ _ _ _)]
    rfl
  · exact ⟨_, _, rfl⟩

theorem runQhull_run_called (L : QhLib) (q : Qhull) (inputComment2 : cstring)
    (pointDimension pointCount : Int) (pointCoordinates : pointArray) (qhullCommand2 : cstring) :
    (q.runQhull L inputComment2 pointDimension pointCount pointCoordinates qhullCommand2).1.run_called
      = true := by
  cases h : q.run_called
  · exact (runQhull_first L q _ _ _ _ _ h).1
  · rw [runQhull_called L q _ _ _ _ _ h]
    exact h

theorem step_run_called (L : QhLib) (q : Qhull) (op : Op) (h : q.run_called = true) :
    (q.step L op).run_called = true := by
  have hd : ∀ s : Qhull, s.data = q.data → s.run_called = true := by
    intro s hs
    have : s.data.2.1 = q.data.2.1 := by rw [hs]
    exact this.trans h
  cases op with
  | runQhull c d n p cmd => exact runQhull_run_called L q c d n p cmd
  | runQhull_rbox r cmd => exact runQhull_run_called L q _ _ _ _ cmd
  | setFeasiblePoint c => exact h
  | feasiblePoint => exact h
  | area => exact hd _ (area_data L q)
  | volume => exact hd _ (volume_data L q)
  | defineVertexNeighborFacets => exact hd _ (defineVertexNeighborFacets_data L q)
  | outputQhull => exact hd _ (outputQhull_data L q)
  | outputQhull_flags f => exact hd _ (outputQhull_flags_data L q f)
  | prepareVoronoi => exact hd _ (prepareVoronoi_data L q)

theorem steps_run_called (L : QhLib) (ops : List Op) (q : Qhull) (h : q.run_called = true) :
    (q.steps L ops).run_called = true := by
  induction ops generalizing q with
  | nil => exact h
  | cons op rest ih => exact ih (q.step L op) (step_run_called L q op h)

theorem Qhull_default_run_called (L : QhLib) (q0 : Qhull) (h : Qhull.Qhull_default L = .ok q0) :
    q0.run_called = false := by
  unfold Qhull.Qhull_default Qhull.allocateQhullQh at h
  split at h
  · cases h
  · next q hq =>
    cases h
    split at hq
    · cases hq
    · cases hq; rfl

theorem Qhull_points_run_called (L : QhLib) (inputComment2 : cstring)
    (pointDimension pointCount : Int) (pointCoordinates : pointArray) (qhullCommand2 : cstring)
    (qc : Qhull)
    (h : Qhull.Qhull_points L inputComment2 pointDimension pointCount pointCoordinates
      qhullCommand2 = .ok qc) : qc.run_called = true := by
  unfold Qhull.Qhull_points at h
  split at h
  · cases h
  · split at h
    · cases h
    · next q1 hq1 =>
      cases h
      have := congrArg (fun r => r.1.run_called) hq1
      simp only at this
      rw [← this]
      exact runQhull_run_called L _ _ _ _ _ _

theorem Qhull_rbox_run_called (L : QhLib) (rboxPoints : RboxPoints) (qhullCommand2 : cstring)
    (qc : Qhull) (h : Qhull.Qhull_rbox L rboxPoints qhullCommand2 = .ok qc) :
    qc.run_called = true := by
  unfold Qhull.Qhull_rbox Qhull.runQhull_rbox at h
  split at h
  · cases h
  · split at h
    · cases h
    · next q1 hq1 =>
      cases h
      have := congrArg (fun r => r.1.run_called) hq1
      simp only at this
      rw [← this]
      exact runQhull_run_called L _ _ _ _ _ _

theorem step_run_called_eq (L : QhLib) (q : Qhull) (op : Op) (h : op.isRunQhull = false) :
    (q.step L op).run_called = q.run_called := by
  have hd : ∀ s : Qhull, s.data = q.data → s.run_called = q.run_called := by
    intro s hs
    show s.data.2.1 = q.data.2.1
    rw [hs]
  cases op with
  | runQhull c d n p cmd => cases h
  | runQhull_rbox r cmd => cases h
  | setFeasiblePoint c => rfl
  | feasiblePoint => rfl
  | area => exact hd _ (area_data L q)
  | volume => exact hd _ (volume_data L q)
  | defineVertexNeighborFacets => exact hd _ (defineVertexNeighborFacets_data L q)
  | outputQhull => exact hd _ (outputQhull_data L q)
  | outputQhull_flags f => exact hd _ (outputQhull_flags_data L q f)
  | prepareVoronoi => exact hd _ (prepareVoronoi_data L q)

theorem steps_run_called_eq (L : QhLib) (ops : List Op) (q : Qhull)
    (h : ∀ op ∈ ops, op.isRunQhull = false) : (q.steps L ops).run_called = q.run_called := by
  induction ops generalizing q with
  | nil => rfl
  | cons op rest ih =>
    have h1 := step_run_called_eq L q op (h op (List.mem_cons_self _ _))
    have h2 := ih (q.step L op) (fun o ho => h o (List.mem_cons_of_mem _ ho))
    exact h2.trans h1

theorem runQhull_rejected_iff (L : QhLib) (q : Qhull) (inputComment2 : cstring)
    (pointDimension pointCount : Int) (pointCoordinates : pointArray) (qhullCommand2 : cstring) :
    q.runQhull L inputComment2 pointDimension pointCount pointCoordinates qhullCommand2
      = (q, some error10027) ↔ q.run_called = true := by
  constructor
  · intro h
    have := runQhull_run_called L q inputComment2 pointDimension pointCount pointCoordinates
      qhullCommand2
    rw [h] at this
    exact this
  · exact runQhull_called L q _ _ _ _ _

/-- Claim C1.  `runQhull` may be entered once per object.  A call (either
overload) is rejected, throwing QhullError 10027 and leaving the object
untouched, if and only if `run_called` is set; the only other errors a call
throws are those `maybeThrowQhullMessage` reports after the processing.
`run_called` is set by every call, whether it returns or throws, no member
clears it and no member but `runQhull` sets it, so every later `runQhull` is
rejected.  A default-constructed
object has `run_called` clear and its first call is entered; an object built by
a constructor that runs qhull rejects every later `runQhull`. -/
theorem runQhull_once (L : QhLib) (q : Qhull) (c : cstring) (d n : Int) (p : pointArray)
    (cmd : cstring) :
    (q.runQhull L c d n p cmd = (q, some error10027) ↔ q.run_called = true)
    ∧ (∀ r, q.runQhull_rbox L r cmd = (q, some error10027) ↔ q.run_called = true)
    ∧ (∀ e, (q.runQhull L c d n p cmd).2 = some e →
        (q.run_called = true ∧ e = error10027)
        ∨ (q.run_called = false ∧ ∃ qh status, (L.maybeThrowQhullMessage qh status).2 = some e))
    ∧ (q.runQhull L c d n p cmd).1.run_called = true
    ∧ (∀ ops, q.run_called = true → (q.steps L ops).run_called = true)
    ∧ (∀ ops : List Op, (∀ op ∈ ops, op.isRunQhull = false) →
        (q.steps L ops).run_called = q.run_called)
    ∧ (∀ ops c' d' n' p' cmd',
        ((q.runQhull L c d n p cmd).1.steps L ops).runQhull L c' d' n' p' cmd'
          = ((q.runQhull L c d n p cmd).1.steps L ops, some error10027))
    ∧ (∀ q0, Qhull.Qhull_default L = .ok q0 →
        q0.run_called = false
        ∧ q0.runQhull L c d n p cmd ≠ (q0, some error10027)
        ∧ (q0.runQhull L c d n p cmd).1.run_called = true)
    ∧ (∀ qc, Qhull.Qhull_points L c d n p cmd = .ok qc → ∀ ops c' d' n' p' cmd',
        (qc.steps L ops).runQhull L c' d' n' p' cmd' = (qc.steps L ops, some error10027))
    ∧ (∀ r qc, Qhull.Qhull_rbox L r cmd = .ok qc → ∀ ops c' d' n' p' cmd',
        (qc.steps L ops).runQhull L c' d' n' p' cmd' = (qc.steps L ops, some error10027))
    ∧ error10027.code = 10027 := by
  refine ⟨runQhull_rejected_iff L q c d n p cmd, fun r => runQhull_rejected_iff L q _ _ _ _ cmd,
    ?_, runQhull_run_called L q c d n p cmd, fun ops h => steps_run_called L ops q h,
    fun ops h => steps_run_called_eq L ops q h, ?_, ?_, ?_, ?_, rfl⟩
  · intro e he
    cases h : q.run_called
    · obtain ⟨qh, status, hmt⟩ := (runQhull_first L q c d n p cmd h).2
      exact Or.inr ⟨rfl, qh, status, hmt ▸ he⟩
    · rw [runQhull_called L q c d n p cmd h] at he
      exact Or.inl ⟨rfl, (Option.some.inj he).symm⟩
  · intro ops c' d' n' p' cmd'
    exact runQhull_called L _ _ _ _ _ _
      (steps_run_called L ops _ (runQhull_run_called L q c d n p cmd))
  · intro q0 h0
    have hrc := Qhull_default_run_called L q0 h0
    refine ⟨hrc, fun hrej => ?_, runQhull_run_called L q0 c d n p cmd⟩
    rw [(runQhull_rejected_iff L q0 c d n p cmd).1 hrej] at hrc
    cases hrc
  · intro qc hqc ops c' d' n' p' cmd'
    exact runQhull_called L _ _ _ _ _ _
      (steps_run_called L ops _ (Qhull_points_run_called L c d n p cmd qc hqc))
  · intro r qc hqc ops c' d' n' p' cmd'
    exact runQhull_called L _ _ _ _ _ _
      (steps_run_called L ops _ (Qhull_rbox_run_called L r cmd qc hqc))

/-- Witness of C1: a default-constructed object accepts a first run of three
points in the plane, which returns, and rejects the next one; a first run that
fails (halfspaces without a feasible point, error 6209) is followed by a
rejection as well. -/
theorem runQhull_once_witness :
    Qhull.Qhull_default sampleLib = .ok Qhull.members
    ∧ (Qhull.members.runQhull sampleLib [] 2 3 {} []).2 = none
    ∧ ((Qhull.members.runQhull sampleLib [] 2 3 {} []).1.steps sampleLib [.area]).runQhull
        sampleLib [] 2 3 {} []
        = ((Qhull.members.runQhull sampleLib [] 2 3 {} []).1.steps sampleLib [.area],
            some error10027)
    ∧ (Qhull.members.runQhull sampleLib [] 3 4 {} "H".toList).2 = some ⟨6209, ""⟩
    ∧ ((Qhull.members.runQhull sampleLib [] 3 4 {} "H".toList).1.steps sampleLib []).runQhull
        sampleLib [] 3 4 {} "H".toList
        = ((Qhull.members.runQhull sampleLib [] 3 4 {} "H".toList).1.steps sampleLib [],
            some error10027) :=
  ⟨rfl, rfl, (runQhull_once sampleLib Qhull.members [] 2 3 {} []).2.2.2.2.2.2.1 _ _ _ _ _ _, rfl,
    (runQhull_once sampleLib Qhull.members [] 3 4 {} "H".toList).2.2.2.2.2.2.1 _ _ _ _ _ _⟩

/-! ## C6 to C9: the feasible point -/

theorem readCoordinates_take (c : List coordT) (n : Nat) (h : n ≤ c.length) :
    readCoordinates c n = some (c.take n) := by
  induction n generalizing c with
  | zero => cases c <;> rfl
  | succ n ih =>
    cases c with
    | nil => simp at h
    | cons x xs =>
      have hx : n ≤ xs.length := by simpa using h
      simp [readCoordinates, ih xs hx]

theorem set_after (pre : List coordT) (r p : coordT) (rs : List coordT) :
    (pre ++ r :: rs).set pre.length p = pre ++ p :: rs := by
  induction pre with
  | nil => rfl
  | cons x xs ih => simp [List.set, ih]

theorem copyCoordinates_append (src pre rest : List coordT) (h : src.length ≤ rest.length) :
    copyCoordinates (pre ++ rest) pre.length src = pre ++ src ++ rest.drop src.length := by
  induction src generalizing pre rest with
  | nil => simp [copyCoordinates]
  | cons p ps ih =>
    cases rest with
    | nil => simp at h
    | cons r rs =>
      have hrs : ps.length ≤ rs.length := by simpa using h
      have hstep := ih (pre ++ [p]) rs hrs
      rw [copyCoordinates, set_after]
      simp only [List.length_append, List.length_singleton, List.append_assoc,
        List.singleton_append] at hstep
      rw [hstep]
      simp

/-- The loop of Qhull.cpp:370-372 fills a block of the size of the feasible
point with its coordinates, in order. -/
theorem copyCoordinates_full (src block : List coordT) (h : block.length = src.length) :
    copyCoordinates block 0 src = src := by
  have := copyCoordinates_append src [] block (by omega)
  simp only [List.nil_append, List.length_nil] at this
  rw [this, List.drop_eq_nil_of_le (by omega), List.append_nil]

theorem size_t_of_nonneg (x : Int) (h0 : 0 ≤ x) (h1 : x < 2 ^ 64) : (size_t x : Int) = x := by
  unfold size_t
  rw [Int.emod_eq_of_lt h0 h1, Int.toNat_of_nonneg h0]

theorem size_t_of_neg (x : Int) (h0 : x < 0) (h1 : -2 ^ 31 ≤ x) :
    (2 : Int) ^ 63 ≤ size_t x := by
  unfold size_t
  have h2 : x % 2 ^ 64 = x + 2 ^ 64 := by omega
  rw [h2, Int.toNat_of_nonneg (by omega)]
  omega

/-- For an `int` dimension and a vector of admissible size, the comparison
`feasible_point.size()!=static_cast<size_t>(hulldim)` is the comparison of the
two numbers. -/
theorem size_ne_iff (len : Nat) (hulldim : Int) (hint : -2 ^ 31 ≤ hulldim ∧ hulldim < 2 ^ 31)
    (hlen : len < 2 ^ 63) : len ≠ size_t hulldim ↔ (len : Int) ≠ hulldim := by
  by_cases h0 : 0 ≤ hulldim
  · have := size_t_of_nonneg hulldim h0 (by omega)
    constructor
    · intro h heq
      apply h
      have : (len : Int) = (size_t hulldim : Int) := by rw [this]; exact heq
      exact_mod_cast this
    · intro h heq
      apply h
      rw [← this, heq]
  · have := size_t_of_neg hulldim (by omega) hint.1
    constructor
    · intro _ heq
      omega
    · intro _ heq
      have : (len : Int) = (size_t hulldim : Int) := by rw [heq]
      have hl : (len : Int) < 2 ^ 63 := by exact_mod_cast hlen
      omega

theorem initializeFeasiblePoint_setfeasible (L : QhLib) (q : Qhull) (hulldim : Int)
    (hfs : q.qh_qh.feasible_string ≠ none) :
    q.initializeFeasiblePoint L hulldim =
      Qhull.invoke { q with calls := q.calls ++ [.initializeFeasiblePoint hulldim] }
        (.qh_setfeasible hulldim) (fun qh => L.qh_setfeasible qh hulldim) := by
  have : q.qh_qh.feasible_string.isSome = true := by
    cases h : q.qh_qh.feasible_string
    · exact absurd h hfs
    · rfl
  simp [Qhull.initializeFeasiblePoint, this]

theorem initializeFeasiblePoint_missing (L : QhLib) (q : Qhull) (hulldim : Int)
    (hfs : q.qh_qh.feasible_string = none) (hc : q.feasible_point = []) :
    q.initializeFeasiblePoint L hulldim =
      .errexit qh_ERRmem
        { q with qh_qh := L.qh_errexit (L.qh_fprintf q.qh_qh 6209) qh_ERRmem,
                 calls := q.calls ++ [.initializeFeasiblePoint hulldim, .qh_fprintf 6209,
                   .qh_errexit qh_ERRmem] } := by
  simp [Qhull.initializeFeasiblePoint, hfs, hc, Qhull.qh_fprintf, Qhull.qh_errexit]

theorem initializeFeasiblePoint_wrongsize (L : QhLib) (q : Qhull) (hulldim : Int)
    (hfs : q.qh_qh.feasible_string = none) (hc : q.feasible_point ≠ [])
    (hsz : q.feasible_point.length ≠ size_t hulldim) :
    q.initializeFeasiblePoint L hulldim =
      .errexit qh_ERRmem
        { q with qh_qh := L.qh_errexit (L.qh_fprintf q.qh_qh 6210) qh_ERRmem,
                 calls := q.calls ++ [.initializeFeasiblePoint hulldim, .qh_fprintf 6210,
                   .qh_errexit qh_ERRmem] } := by
  simp [Qhull.initializeFeasiblePoint, hfs, hc, hsz, Qhull.qh_fprintf, Qhull.qh_errexit]

theorem initializeFeasiblePoint_nomem (L : QhLib) (q : Qhull) (hulldim : Int)
    (hfs : q.qh_qh.feasible_string = none) (hc : q.feasible_point ≠ [])
    (hsz : q.feasible_point.length = size_t hulldim)
    (hm : L.qh_malloc q.qh_qh ((size_t hulldim * sizeof_coordT) % 2 ^ 64) = none) :
    q.initializeFeasiblePoint L hulldim =
      .errexit qh_ERRmem
        { q with qh_qh := L.qh_errexit
                   (L.qh_fprintf { q.qh_qh with feasible_point := none } 6042) qh_ERRmem,
                 calls := q.calls ++ [.initializeFeasiblePoint hulldim,
                   .qh_malloc ((size_t hulldim * sizeof_coordT) % 2 ^ 64), .qh_fprintf 6042,
                   .qh_errexit qh_ERRmem] } := by
  have hp : (2 : Nat) ^ 64 = 18446744073709551616 := by norm_num
  rw [hp] at hm
  simp [Qhull.initializeFeasiblePoint, hfs, hc, hsz, hm, Qhull.qh_fprintf, Qhull.qh_errexit]

theorem initializeFeasiblePoint_stores (L : QhLib) (q : Qhull) (hulldim : Int)
    (hfs : q.qh_qh.feasible_string = none) (hc : q.feasible_point ≠ [])
    (hsz : q.feasible_point.length = size_t hulldim) (hbytes : size_t hulldim < 2 ^ 61)
    (t : List coordT)
    (hm : L.qh_malloc q.qh_qh ((size_t hulldim * sizeof_coordT) % 2 ^ 64) = some t) :
    q.initializeFeasiblePoint L hulldim =
      .ret { q with qh_qh := { q.qh_qh with feasible_point := some q.feasible_point },
                    calls := q.calls ++ [.initializeFeasiblePoint hulldim,
                      .qh_malloc ((size_t hulldim * sizeof_coordT) % 2 ^ 64)] } := by
  have hlen : t.length = q.feasible_point.length := by
    rw [L.qh_malloc_cells _ _ _ hm, hsz]
    unfold sizeof_coordT
    omega
  have hp : (2 : Nat) ^ 64 = 18446744073709551616 := by norm_num
  rw [hp] at hm
  simp [Qhull.initializeFeasiblePoint, hfs, hc, hsz, hm, copyCoordinates_full _ _ hlen]

/-- Claim C6.  If `qh.feasible_point` is null, `feasiblePoint()` returns the
member `feasible_point` of the object unchanged, which is the value given to
`setFeasiblePoint`, as on a default-constructed object before `runQhull` (if
`new QhullQh` leaves the pointer null).  If `qh.feasible_point` is not null and
holds at least `qh.hull_dim` coordinates, the result is exactly its first
`qh.hull_dim` coordinates, in order.  `feasiblePoint()` changes no state. -/
theorem feasiblePoint_spec (q : Qhull) :
    (q.qh_qh.feasible_point = none → q.feasiblePoint = some q.feasible_point)
    ∧ (∀ p, q.qh_qh.feasible_point = some p → q.qh_qh.hull_dim ≤ (p.length : Int) →
        q.feasiblePoint = some (p.take q.qh_qh.hull_dim.toNat))
    ∧ (∀ c, q.qh_qh.feasible_point = none → (q.setFeasiblePoint c).feasiblePoint = some c)
    ∧ (∀ (L : QhLib) (q0 : Qhull) (c : Coordinates), Qhull.Qhull_default L = .ok q0 →
        L.newQhullQh.feasible_point = none → (q0.setFeasiblePoint c).feasiblePoint = some c)
    ∧ (∀ L : QhLib, q.step L .feasiblePoint = q) := by
  refine ⟨fun h => ?_, fun p h hp => ?_, fun c h => ?_, fun L q0 c h0 hnew => ?_, fun L => rfl⟩
  · simp [Qhull.feasiblePoint, h]
  · have hle : q.qh_qh.hull_dim.toNat ≤ p.length := by omega
    simp [Qhull.feasiblePoint, h, Coordinates_append, readCoordinates_take p _ hle]
  · simp [Qhull.feasiblePoint, Qhull.setFeasiblePoint, h]
  · have hq0 : q0.qh_qh = L.newQhullQh := by
      unfold Qhull.Qhull_default Qhull.allocateQhullQh at h0
      split at h0
      · cases h0
      · next q hq =>
        cases h0
        split at hq
        · cases hq
        · cases hq; rfl
    simp [Qhull.feasiblePoint, Qhull.setFeasiblePoint, hq0, hnew]

/-- Witness of C6: the context of the object holds the block `[5, 6, 7]` and
`hull_dim` is 2; `feasiblePoint()` returns `[5, 6]`, whatever was given to
`setFeasiblePoint`; on a fresh object it returns what was given. -/
theorem feasiblePoint_spec_witness :
    feasible_sample.feasiblePoint = some [5, 6]
    ∧ (Qhull.members.setFeasiblePoint [1, 2]).feasiblePoint = some [1, 2] :=
  ⟨(feasiblePoint_spec feasible_sample).2.1 [5, 6, 7] rfl (by decide),
    (feasiblePoint_spec Qhull.members).2.2.1 [1, 2] rfl⟩

/-- Claim C8.  With `qh.feasible_string` null, `initializeFeasiblePoint(hulldim)`
takes the error exit if and only if the feasible point of the object is empty
(message 6209), or its size differs from `hulldim` (message 6210), or
`qh_malloc` returns null (message 6042); the empty check comes first, whatever
`hulldim` is.  On the 6209 and 6210 exits the context is the entry context
after `qh_fprintf` and `qh_errexit` only, no allocation was asked for, and
`qh.feasible_point` is as it was if these two routines do not write it.  With
`qh.feasible_string` not null the routine is the call of `qh_setfeasible`, and
the feasible point of the object has no influence.  (`hulldim` is an `int`, the
vector has fewer than 2^63 elements.) -/
theorem initializeFeasiblePoint_errors (L : QhLib) (q : Qhull) (hulldim : Int)
    (hint : -2 ^ 31 ≤ hulldim ∧ hulldim < 2 ^ 31) (hsize : q.feasible_point.length < 2 ^ 63) :
    (q.qh_qh.feasible_string = none →
      ((q.initializeFeasiblePoint L hulldim).isErrexit = true ↔
        (q.feasible_point = [] ∨ (q.feasible_point.length : Int) ≠ hulldim
          ∨ L.qh_malloc q.qh_qh ((size_t hulldim * sizeof_coordT) % 2 ^ 64) = none))
      ∧ (q.feasible_point = [] →
          q.initializeFeasiblePoint L hulldim = .errexit qh_ERRmem
            { q with qh_qh := L.qh_errexit (L.qh_fprintf q.qh_qh 6209) qh_ERRmem,
                     calls := q.calls ++ [.initializeFeasiblePoint hulldim, .qh_fprintf 6209,
                       .qh_errexit qh_ERRmem] })
      ∧ (q.feasible_point ≠ [] → (q.feasible_point.length : Int) ≠ hulldim →
          q.initializeFeasiblePoint L hulldim = .errexit qh_ERRmem
            { q with qh_qh := L.qh_errexit (L.qh_fprintf q.qh_qh 6210) qh_ERRmem,
                     calls := q.calls ++ [.initializeFeasiblePoint hulldim, .qh_fprintf 6210,
                       .qh_errexit qh_ERRmem] })
      ∧ (q.feasible_point ≠ [] → (q.feasible_point.length : Int) = hulldim →
          L.qh_malloc q.qh_qh ((size_t hulldim * sizeof_coordT) % 2 ^ 64) = none →
          q.initializeFeasiblePoint L hulldim = .errexit qh_ERRmem
            { q with qh_qh := L.qh_errexit
                       (L.qh_fprintf { q.qh_qh with feasible_point := none } 6042) qh_ERRmem,
                     calls := q.calls ++ [.initializeFeasiblePoint hulldim,
                       .qh_malloc ((size_t hulldim * sizeof_coordT) % 2 ^ 64), .qh_fprintf 6042,
                       .qh_errexit qh_ERRmem] })
      ∧ ((∀ qh msgcode, (L.qh_fprintf qh msgcode).feasible_point = qh.feasible_point) →
          (∀ qh exitcode, (L.qh_errexit qh exitcode).feasible_point = qh.feasible_point) →
          (q.feasible_point = [] ∨ (q.feasible_point.length : Int) ≠ hulldim) →
          (q.initializeFeasiblePoint L hulldim).state.qh_qh.feasible_point
            = q.qh_qh.feasible_point))
    ∧ (q.qh_qh.feasible_string ≠ none →
        q.initializeFeasiblePoint L hulldim
          = Qhull.invoke { q with calls := q.calls ++ [.initializeFeasiblePoint hulldim] }
              (.qh_setfeasible hulldim) (fun qh => L.qh_setfeasible qh hulldim)
        ∧ ∀ c, (q.setFeasiblePoint c).initializeFeasiblePoint L hulldim
            = (q.initializeFeasiblePoint L hulldim).map (fun s => s.setFeasiblePoint c)) := by
  have hcmp := size_ne_iff q.feasible_point.length hulldim hint hsize
  constructor
  · intro hfs
    have h6209 := initializeFeasiblePoint_missing L q hulldim hfs
    have h6210 : q.feasible_point ≠ [] → (q.feasible_point.length : Int) ≠ hulldim → _ :=
      fun hc hsz => initializeFeasiblePoint_wrongsize L q hulldim hfs hc (hcmp.2 hsz)
    have h6042 : q.feasible_point ≠ [] → (q.feasible_point.length : Int) = hulldim → _ :=
      fun hc hsz => initializeFeasiblePoint_nomem L q hulldim hfs hc
        (by by_contra hne; exact hcmp.1 hne hsz)
    refine ⟨?_, h6209, h6210, h6042, ?_⟩
    · by_cases hc : q.feasible_point = []
      · simp [h6209 hc, hc, QhExit.isErrexit]
      · by_cases hsz : (q.feasible_point.length : Int) = hulldim
        · cases hm : L.qh_malloc q.qh_qh ((size_t hulldim * sizeof_coordT) % 2 ^ 64) with
          | none => simp [h6042 hc hsz hm, QhExit.isErrexit]
          | some t =>
            have hsz' : q.feasible_point.length = size_t hulldim := by
              by_contra hne; exact hcmp.1 hne hsz
            have hbytes : size_t hulldim < 2 ^ 61 := by
              have : (size_t hulldim : Int) = hulldim :=
                size_t_of_nonneg hulldim (by omega) (by omega)
              omega
            rw [initializeFeasiblePoint_stores L q hulldim hfs hc hsz' hbytes t hm]
            simp [QhExit.isErrexit, hc, hsz]
        · simp [h6210 hc hsz, hsz, QhExit.isErrexit]
    · intro hf he hcase
      by_cases hc : q.feasible_point = []
      · rw [h6209 hc]
        simp [QhExit.state, hf, he]
      · rcases hcase with h | h
        · exact absurd h hc
        · rw [h6210 hc h]
          simp [QhExit.state, hf, he]
  · intro hfs
    refine ⟨initializeFeasiblePoint_setfeasible L q hulldim hfs, fun c => ?_⟩
    rw [initializeFeasiblePoint_setfeasible L q hulldim hfs,
      initializeFeasiblePoint_setfeasible L (q.setFeasiblePoint c) hulldim hfs]
    simp only [Qhull.invoke, Qhull.setFeasiblePoint]
    cases L.qh_setfeasible q.qh_qh hulldim <;> rfl

theorem andThen_ret {σ : Type} (s : σ) (k : σ → QhExit σ) : (QhExit.ret s).andThen k = k s := rfl

theorem andThen_errexit {σ : Type} (e : Int) (s : σ) (k : σ → QhExit σ) :
    (QhExit.errexit e s).andThen k = .errexit e s := rfl

theorem andThen_rel (R : Qhull → Qhull → Prop) (htrans : ∀ a b c, R a b → R b c → R a c)
    (q : Qhull) (r : QhExit Qhull) (k : Qhull → QhExit Qhull)
    (hr : R q r.state) (hk : ∀ s, R s (k s).state) : R q (r.andThen k).state := by
  cases r with
  | ret s => exact htrans _ _ _ hr (hk s)
  | errexit e s => exact hr

theorem QH_TRY_state (L : QhLib) (q : Qhull) (body : Qhull → QhExit Qhull)
    (h : q.qh_qh.NOerrexit = true) :
    (q.QH_TRY_ L body).1 = (body { q with qh_qh := { q.qh_qh with NOerrexit := false } }).state := by
  rw [QH_TRY_of_NOerrexit L q body h]
  cases body { q with qh_qh := { q.qh_qh with NOerrexit := false } } <;> rfl

/-- The object a first call of `runQhull` leaves: the record of calls is the one
of its `QH_TRY_` block, the context is the one of the block after `NOerrexit=
true` and `maybeThrowQhullMessage`. -/
theorem runQhull_first_state (L : QhLib) (q0 : Qhull) (cmt cmd : cstring) (pd pc : Int)
    (pts : pointArray) (hrc : q0.run_called = false) (hne : q0.qh_qh.NOerrexit = true) :
    (q0.runQhull L cmt pd pc pts cmd).1.calls
      = (q0.runQhull_entry.runQhull_try L ("qhull ".toList ++ cmd) cmt pd pc pts).state.calls
    ∧ ∃ status, (q0.runQhull L cmt pd pc pts cmd).1.qh_qh
      = (L.maybeThrowQhullMessage
          { (q0.runQhull_entry.runQhull_try L ("qhull ".toList ++ cmd) cmt pd pc pts).state.qh_qh
            with NOerrexit := true } status).1 := by
  have hst := QH_TRY_state L { q0 with run_called := true }
    (Qhull.runQhull_try L ("qhull ".toList ++ cmd) cmt pd pc pts) hne
  simp only [Qhull.runQhull, hrc, Bool.false_eq_true, if_false, Qhull.maybeThrowQhullMessage,
    Qhull.setNOerrexit]
  rw [hst]
  exact ⟨rfl, _, rfl⟩

theorem calls_subset_trans (a b c : Qhull) (h₁ : a.calls ⊆ b.calls) (h₂ : b.calls ⊆ c.calls) :
    a.calls ⊆ c.calls := fun _ h => h₂ (h₁ h)

theorem invoke_calls_subset (q : Qhull) (c : QhCall) (routine : QhullQh → QhExit QhullQh) :
    q.calls ⊆ (q.invoke c routine).state.calls := by
  rw [invoke_calls]
  exact List.subset_append_left _ _

theorem runQhull_build_calls (L : QhLib) (q : Qhull) (newPoints : pointArray)
    (pointCount newDimension : Int) (newIsMalloc : Bool) :
    q.calls ⊆ (q.runQhull_build L newPoints pointCount newDimension newIsMalloc).state.calls := by
  unfold Qhull.runQhull_build
  refine andThen_rel (fun a b => a.calls ⊆ b.calls) calls_subset_trans q _ _
    (invoke_calls_subset _ _ _) fun s => ?_
  refine andThen_rel (fun a b => a.calls ⊆ b.calls) calls_subset_trans s _ _
    (invoke_calls_subset _ _ _) fun s => ?_
  refine andThen_rel (fun a b => a.calls ⊆ b.calls) calls_subset_trans s _ _
    (invoke_calls_subset _ _ _) fun s => ?_
  refine andThen_rel (fun a b => a.calls ⊆ b.calls) calls_subset_trans s _ _
    (invoke_calls_subset _ _ _) fun s => ?_
  show s.calls ⊆ (if s.qh_qh.verifiesPoints = true then _ else _ : QhExit Qhull).state.calls
  split
  · exact invoke_calls_subset _ _ _
  · exact fun _ h => h

theorem runQhull_halfspace_calls (L : QhLib) (q : Qhull) (pd pc : Int) (pts : pointArray) :
    (q.initializeFeasiblePoint L (pd - 1)).state.calls
      ⊆ (q.runQhull_halfspace L pd pc pts).state.calls := by
  simp only [Qhull.runQhull_halfspace]
  cases h : q.initializeFeasiblePoint L (pd - 1) with
  | errexit e s =>
    rw [andThen_errexit]
    exact fun _ h => h
  | ret s =>
    rw [andThen_ret]
    refine andThen_rel (fun a b => a.calls ⊆ b.calls) calls_subset_trans s _ _
      (invoke_calls_subset _ _ _) fun s => ?_
    exact runQhull_build_calls _ _ _ _ _ _

theorem initializeFeasiblePoint_recorded (L : QhLib) (q : Qhull) (hulldim : Int) :
    QhCall.initializeFeasiblePoint hulldim ∈ (q.initializeFeasiblePoint L hulldim).state.calls := by
  unfold Qhull.initializeFeasiblePoint
  simp only
  split
  · rw [invoke_calls]; simp
  · split
    · simp [Qhull.qh_fprintf, Qhull.qh_errexit, QhExit.state]
    · split
      · simp [Qhull.qh_fprintf, Qhull.qh_errexit, QhExit.state]
      · split <;> simp [Qhull.qh_fprintf, Qhull.qh_errexit, QhExit.state]

theorem feasible_point_trans (a b c : Qhull)
    (h₁ : b.qh_qh.feasible_point = a.qh_qh.feasible_point)
    (h₂ : c.qh_qh.feasible_point = b.qh_qh.feasible_point) :
    c.qh_qh.feasible_point = a.qh_qh.feasible_point := h₂.trans h₁

theorem invoke_feasible_point (q : Qhull) (c : QhCall) (routine : QhullQh → QhExit QhullQh)
    (h : ∀ qh, (routine qh).state.feasible_point = qh.feasible_point) :
    (q.invoke c routine).state.qh_qh.feasible_point = q.qh_qh.feasible_point := by
  rw [invoke_qh_qh]
  exact h _

theorem runQhull_build_feasible_point (L : QhLib) (hL : L.keepsFeasiblePoint) (q : Qhull)
    (newPoints : pointArray) (pointCount newDimension : Int) (newIsMalloc : Bool) :
    (q.runQhull_build L newPoints pointCount newDimension newIsMalloc).state.qh_qh.feasible_point
      = q.qh_qh.feasible_point := by
  obtain ⟨_, hB, hq, hco, hpo, hcp, _⟩ := hL
  unfold Qhull.runQhull_build
  refine andThen_rel (fun a b => b.qh_qh.feasible_point = a.qh_qh.feasible_point)
    feasible_point_trans q _ _ (invoke_feasible_point _ _ _ fun qh => hB qh _ _ _ _) fun s => ?_
  refine andThen_rel (fun a b => b.qh_qh.feasible_point = a.qh_qh.feasible_point)
    feasible_point_trans s _ _ (invoke_feasible_point _ _ _ hq) fun s => ?_
  refine andThen_rel (fun a b => b.qh_qh.feasible_point = a.qh_qh.feasible_point)
    feasible_point_trans s _ _ (invoke_feasible_point _ _ _ hco) fun s => ?_
  refine andThen_rel (fun a b => b.qh_qh.feasible_point = a.qh_qh.feasible_point)
    feasible_point_trans s _ _ (invoke_feasible_point _ _ _ hpo) fun s => ?_
  show (if s.qh_qh.verifiesPoints = true then _ else _ : QhExit Qhull).state.qh_qh.feasible_point
    = _
  split
  · exact invoke_feasible_point _ _ _ hcp
  · rfl

theorem runQhull_halfspace_feasible_point (L : QhLib) (hL : L.keepsFeasiblePoint) (q s : Qhull)
    (pd pc : Int) (pts : pointArray) (h : q.initializeFeasiblePoint L (pd - 1) = .ret s) :
    (q.runQhull_halfspace L pd pc pts).state.qh_qh.feasible_point = s.qh_qh.feasible_point := by
  simp only [Qhull.runQhull_halfspace]
  rw [h, andThen_ret]
  refine andThen_rel (fun a b => b.qh_qh.feasible_point = a.qh_qh.feasible_point)
    feasible_point_trans s _ _ (invoke_feasible_point _ _ _ fun qh => hL.1 qh _ _ _ _) fun s => ?_
  exact runQhull_build_feasible_point L hL _ _ _ _ _

theorem runQhull_data (L : QhLib) (q : Qhull) (cmt cmd : cstring) (pd pc : Int)
    (pts : pointArray) :
    (q.runQhull L cmt pd pc pts cmd).1.feasible_point = q.feasible_point := by
  cases h : q.run_called
  · simp only [Qhull.runQhull, h, Bool.false_eq_true, if_false]
    show (Qhull.QH_TRY_ L _ _).1.data.2.2 = _
    rw [QH_TRY_data L _ _ (runQhull_try_data L _ _ _ _ _)]
    rfl
  · rw [runQhull_called L q _ _ _ _ _ h]

/-- Claim C7, as amended.  A first call of `runQhull` reaches Qhull.cpp:323 in the
state `q` with `qh.HALFspace` set and `qh.feasible_string` null; the feasible
point given to `setFeasiblePoint` has exactly `pointDimension-1` coordinates
`c`; `qh_malloc` returns a block.  Then `runQhull` calls
`initializeFeasiblePoint` with `hulldim = pointDimension-1`; the call stores
`c[i]` at `qh.feasible_point[i]` for every `i < n`, in order; right after it,
and (if the routines called later do not write `qh.feasible_point`) after
`runQhull`, `feasiblePoint()` returns `c` when `qh.hull_dim =
pointDimension-1`.  (`pointDimension` is an `int`.) -/
theorem feasiblePoint_roundtrip (L : QhLib) (q0 q : Qhull) (c : Coordinates)
    (cmt cmd : cstring) (pd pc : Int) (pts : pointArray)
    (hrc : q0.run_called = false) (hne : q0.qh_qh.NOerrexit = true)
    (hc : q0.feasible_point = c)
    (hflags : q0.runQhull_entry.runQhull_flags L ("qhull ".toList ++ cmd) cmt = .ret q)
    (hH : q.qh_qh.HALFspace = true) (hfs : q.qh_qh.feasible_string = none)
    (hn : (c.length : Int) = pd - 1) (hpd : pd < 2 ^ 31)
    (hm : L.qh_malloc q.qh_qh ((size_t (pd - 1) * sizeof_coordT) % 2 ^ 64) ≠ none) :
    QhCall.initializeFeasiblePoint (pd - 1) ∈ (q0.runQhull L cmt pd pc pts cmd).1.calls
    ∧ (∀ i (hi : i < c.length), ∃ block,
        (q.initializeFeasiblePoint L (pd - 1)).state.qh_qh.feasible_point = some block
        ∧ block[i]? = some (c.get ⟨i, hi⟩))
    ∧ ((q.initializeFeasiblePoint L (pd - 1)).state.qh_qh.hull_dim = pd - 1 →
        (q.initializeFeasiblePoint L (pd - 1)).state.feasiblePoint = some c)
    ∧ (L.keepsFeasiblePoint → (q0.runQhull L cmt pd pc pts cmd).1.qh_qh.hull_dim = pd - 1 →
        (q0.runQhull L cmt pd pc pts cmd).1.feasiblePoint = some c) := by
  -- the feasible point of the object reaches Qhull.cpp:323 unchanged
  have hqc : q.feasible_point = c := by
    have := runQhull_flags_data L ("qhull ".toList ++ cmd) cmt q0.runQhull_entry
    rw [hflags] at this
    have h3 : q.data.2.2 = q0.runQhull_entry.data.2.2 := by
      rw [show q.data = q0.runQhull_entry.data from this]
    exact h3.trans hc
  -- the block of `runQhull` from Qhull.cpp:323 on
  have htry : q0.runQhull_entry.runQhull_try L ("qhull ".toList ++ cmd) cmt pd pc pts
      = q.runQhull_halfspace L pd pc pts := by
    simp only [Qhull.runQhull_try]
    rw [hflags, andThen_ret, if_pos hH]
  obtain ⟨hcalls, status, hqh⟩ := runQhull_first_state L q0 cmt cmd pd pc pts hrc hne
  rw [htry] at hcalls hqh
  have hsize : (size_t (pd - 1) : Int) = pd - 1 :=
    size_t_of_nonneg (pd - 1) (by omega) (by omega)
  -- a total coordinate-wise reading of `feasiblePoint` when `hull_dim` is the size of `c`
  have hread : ∀ s : Qhull, (c = [] ∨ s.qh_qh.feasible_point = some c) →
      s.feasible_point = c → s.qh_qh.hull_dim = pd - 1 → s.feasiblePoint = some c := by
    intro s hs hsc hd
    have hdn : s.qh_qh.hull_dim.toNat = c.length := by omega
    unfold Qhull.feasiblePoint
    rcases hs with hnil | hsome
    · subst hnil
      have h0 : s.qh_qh.hull_dim.toNat = 0 := by simpa using hdn
      cases hp : s.qh_qh.feasible_point with
      | none => simp [hsc]
      | some p => simp [Coordinates_append, h0, readCoordinates]
    · simp [hsome, Coordinates_append, hdn, readCoordinates_take c c.length (le_refl _)]
  by_cases hnil : c = []
  · -- an empty point: nothing to store, and `hull_dim` is 0
    refine ⟨?_, ?_, ?_, ?_⟩
    · rw [hcalls]
      exact runQhull_halfspace_calls L q pd pc pts (initializeFeasiblePoint_recorded L q _)
    · intro i hi
      rw [hnil] at hi
      exact absurd hi (Nat.not_lt_zero i)
    · intro hd
      refine hread _ (Or.inl hnil) ?_ hd
      have := initializeFeasiblePoint_data L q (pd - 1)
      have h3 : (q.initializeFeasiblePoint L (pd - 1)).state.data.2.2 = q.data.2.2 := by
        rw [this]
      exact h3.trans hqc
    · intro _ hd
      exact hread _ (Or.inl hnil) ((runQhull_data L q0 cmt cmd pd pc pts).trans hc) hd
  · -- the point is stored
    have hqne : q.feasible_point ≠ [] := by rw [hqc]; exact hnil
    have hsz : q.feasible_point.length = size_t (pd - 1) := by
      rw [hqc]
      have : ((c.length : Nat) : Int) = (size_t (pd - 1) : Int) := by rw [hsize]; exact hn
      exact_mod_cast this
    have hbytes : size_t (pd - 1) < 2 ^ 61 := by
      have : (size_t (pd - 1) : Int) < 2 ^ 61 := by rw [hsize]; omega
      exact_mod_cast this
    obtain ⟨t, ht⟩ := Option.ne_none_iff_exists'.1 hm
    have hinit := initializeFeasiblePoint_stores L q (pd - 1) hfs hqne hsz hbytes t ht
    rw [hqc] at hinit
    refine ⟨?_, ?_, ?_, ?_⟩
    · rw [hcalls]
      exact runQhull_halfspace_calls L q pd pc pts (initializeFeasiblePoint_recorded L q _)
    · intro i hi
      exact ⟨c, by rw [hinit]; rfl, by simp [hi]⟩
    · intro hd
      rw [hinit] at hd ⊢
      exact hread _ (Or.inr rfl) rfl hd
    · intro hL hd
      refine hread _ (Or.inr ?_) ?_ hd
      · rw [hqh, hL.2.2.2.2.2.2]
        show (q.runQhull_halfspace L pd pc pts).state.qh_qh.feasible_point = some c
        rw [runQhull_halfspace_feasible_point L hL q _ pd pc pts hinit]
      · exact (runQhull_data L q0 cmt cmd pd pc pts).trans hc

theorem sampleLib_keepsFeasiblePoint : sampleLib.keepsFeasiblePoint := by
  refine ⟨fun _ _ _ _ _ => rfl, fun _ _ _ _ _ => rfl, fun _ => rfl, fun _ => rfl, fun _ => rfl,
    fun _ => rfl, fun qh status => ?_⟩
  show (sample_maybeThrowQhullMessage qh status).1.feasible_point = qh.feasible_point
  unfold sample_maybeThrowQhullMessage
  by_cases hs : qh.qhull_status = qh_ERRnone <;> by_cases hst : status = qh_ERRnone <;>
    simp [hs, hst]

/-- Witness of C7 (amended): with option `H`, three-dimensional halfspaces and the
feasible point `(1, 2)`, `runQhull` calls `initializeFeasiblePoint(2)` and
`feasiblePoint()` returns `(1, 2)` afterwards. -/
theorem feasiblePoint_roundtrip_witness :
    QhCall.initializeFeasiblePoint 2
      ∈ (halfspace_object.runQhull sampleLib [] 3 4 {} "H".toList).1.calls
    ∧ (halfspace_object.runQhull sampleLib [] 3 4 {} "H".toList).1.qh_qh.feasible_point
        = some [1, 2]
    ∧ (halfspace_object.runQhull sampleLib [] 3 4 {} "H".toList).1.feasiblePoint
        = some [1, 2] :=
  ⟨(feasiblePoint_roundtrip sampleLib halfspace_object (halfspace_at323 sampleLib) [1, 2] []
      "H".toList 3 4 {} rfl rfl rfl rfl rfl rfl (by decide) (by decide)
      (fun h => Option.noConfusion h)).1,
    rfl,
    (feasiblePoint_roundtrip sampleLib halfspace_object (halfspace_at323 sampleLib) [1, 2] []
      "H".toList 3 4 {} rfl rfl rfl rfl rfl rfl (by decide) (by decide)
      (fun h => Option.noConfusion h)).2.2.2 sampleLib_keepsFeasiblePoint rfl⟩

/-- Claim C7 as stated fails when `qh_malloc` returns null: `qh.HALFspace` is set,
`qh.feasible_string` is null, the feasible point `(1, 2)` has
`pointDimension-1 = 2` coordinates and `runQhull` calls
`initializeFeasiblePoint(2)`, but the call takes the error exit (message 6042)
and `qh.feasible_point` is null, so that no `c[i]` is stored. -/
theorem feasiblePoint_roundtrip_nomem :
    halfspace_object.run_called = false
    ∧ (halfspace_at323 sampleLib_nomem).qh_qh.HALFspace = true
    ∧ (halfspace_at323 sampleLib_nomem).qh_qh.feasible_string = none
    ∧ (halfspace_at323 sampleLib_nomem).feasible_point = [1, 2]
    ∧ ((halfspace_at323 sampleLib_nomem).feasible_point.length : Int) = 3 - 1
    ∧ QhCall.initializeFeasiblePoint 2
        ∈ (halfspace_object.runQhull sampleLib_nomem [] 3 4 {} "H".toList).1.calls
    ∧ ((halfspace_at323 sampleLib_nomem).initializeFeasiblePoint sampleLib_nomem 2).exitcode?
        = some qh_ERRmem
    ∧ QhCall.qh_fprintf 6042
        ∈ ((halfspace_at323 sampleLib_nomem).initializeFeasiblePoint sampleLib_nomem 2).state.calls
    ∧ ((halfspace_at323 sampleLib_nomem).initializeFeasiblePoint
        sampleLib_nomem 2).state.qh_qh.feasible_point = none
    ∧ (halfspace_object.runQhull sampleLib_nomem [] 3 4 {} "H".toList).1.qh_qh.feasible_point
        = none
    ∧ ¬ ∀ i (hi : i < [(1 : coordT), 2].length), ∃ block,
        ((halfspace_at323 sampleLib_nomem).initializeFeasiblePoint
          sampleLib_nomem 2).state.qh_qh.feasible_point = some block
        ∧ block[i]? = some ([(1 : coordT), 2].get ⟨i, hi⟩) := by
  refine ⟨rfl, rfl, rfl, rfl, rfl, by decide, rfl, by decide, rfl, rfl, ?_⟩
  intro h
  obtain ⟨block, hb, _⟩ := h 0 (by decide)
  have hnone : ((halfspace_at323 sampleLib_nomem).initializeFeasiblePoint
      sampleLib_nomem 2).state.qh_qh.feasible_point = none := rfl
  rw [hnone] at hb
  cases hb

/-- Witness of C8: a feasible point of three coordinates for `hulldim = 2` is
rejected, and an empty one for `hulldim = 0` is rejected with message 6209. -/
theorem initializeFeasiblePoint_errors_witness :
    ((Qhull.members.setFeasiblePoint [1, 2, 3]).initializeFeasiblePoint sampleLib 2).isErrexit
      = true
    ∧ Qhull.members.initializeFeasiblePoint sampleLib 0 = .errexit qh_ERRmem
        { Qhull.members with
          qh_qh := sampleLib.qh_errexit (sampleLib.qh_fprintf Qhull.members.qh_qh 6209) qh_ERRmem,
          calls := Qhull.members.calls ++ [.initializeFeasiblePoint 0, .qh_fprintf 6209,
            .qh_errexit qh_ERRmem] } :=
  ⟨((initializeFeasiblePoint_errors sampleLib (Qhull.members.setFeasiblePoint [1, 2, 3]) 2
      (by decide) (by decide)).1 rfl).1.2 (Or.inr (Or.inl (by decide))),
    ((initializeFeasiblePoint_errors sampleLib Qhull.members 0 (by decide) (by decide)).1
      rfl).2.1 rfl⟩

/-- Claim C9, evaluated.  With halfspaces requested and `hulldim = 2`, a missing
feasible point (message 6209) and a feasible point of three coordinates
(message 6210) both leave `initializeFeasiblePoint` through
`qh_errexit(qh, qh_ERRmem, ...)`: the exit status is `qh_ERRmem` (4), the code
of OutOfMemoryError, and not `qh_ERRinput` (1), the code of InputError; the
status that `QH_TRY_` hands to `maybeThrowQhullMessage` in `runQhull` is 4. -/
theorem initializeFeasiblePoint_status :
    (Qhull.members.initializeFeasiblePoint sampleLib 2).exitcode? = some qh_ERRmem
    ∧ (Qhull.members.initializeFeasiblePoint sampleLib 2).state.calls
        = [.initializeFeasiblePoint 2, .qh_fprintf 6209, .qh_errexit 4]
    ∧ ((Qhull.members.setFeasiblePoint [1, 2, 3]).initializeFeasiblePoint sampleLib 2).exitcode?
        = some qh_ERRmem
    ∧ ((Qhull.members.setFeasiblePoint [1, 2, 3]).initializeFeasiblePoint sampleLib 2).state.calls
        = [.initializeFeasiblePoint 2, .qh_fprintf 6210, .qh_errexit 4]
    ∧ (Qhull.QH_TRY_ sampleLib { Qhull.members.setFeasiblePoint [1, 2, 3] with run_called := true }
        (Qhull.runQhull_try sampleLib ("qhull ".toList ++ "H".toList) [] 3 4 {})).2 = 4
    ∧ qh_ERRmem ≠ qh_ERRinput
    ∧ ErrorKind.InputError.status = qh_ERRinput
    ∧ ErrorKind.OutOfMemoryError.status = qh_ERRmem := by
  refine ⟨rfl, rfl, rfl, rfl, ?_, by decide, rfl, rfl⟩
  rfl

/-! ## C3, concluded: the flag `qh.NOerrexit` between two calls -/

/-- Every member that opens a `QH_TRY_` block sets `qh.NOerrexit` again before it
returns or throws: if `maybeThrowQhullMessage` does not write the flag, a call
that starts with `qh.NOerrexit` set ends with it set. -/
theorem step_NOerrexit (L : QhLib)
    (hmt : ∀ qh status, (L.maybeThrowQhullMessage qh status).1.NOerrexit = qh.NOerrexit)
    (q : Qhull) (op : Op) (h : q.qh_qh.NOerrexit = true) :
    (q.step L op).qh_qh.NOerrexit = true := by
  have hfinish : ∀ (s : Qhull) (status : Int),
      (s.setNOerrexit.maybeThrowQhullMessage L status).1.qh_qh.NOerrexit = true := by
    intro s status
    show (L.maybeThrowQhullMessage _ status).1.NOerrexit = true
    rw [hmt]
    rfl
  have hrun : ∀ c d n p cmd, (q.runQhull L c d n p cmd).1.qh_qh.NOerrexit = true := by
    intro c d n p cmd
    cases hrc : q.run_called
    · simp only [Qhull.runQhull, hrc, Bool.false_eq_true, if_false]
      show (L.maybeThrowQhullMessage _ _).1.NOerrexit = true
      rw [hmt]
      rfl
    · rw [runQhull_called L q _ _ _ _ _ hrc]
      exact h
  cases op with
  | runQhull c d n p cmd => exact hrun c d n p cmd
  | runQhull_rbox r cmd => exact hrun _ _ _ _ cmd
  | setFeasiblePoint c => exact h
  | feasiblePoint => exact h
  | area =>
    show (q.area L).1.qh_qh.NOerrexit = true
    cases hinit : L.initialized q
    · simp [Qhull.area, checkIfQhullInitialized_false L q hinit, h]
    · cases hA : q.qh_qh.hasAreaVolume
      · rw [(area_unfold L q hinit hA).1]
        exact hfinish _ _
      · rw [area_cached L q hinit hA]
        exact h
  | volume =>
    show (q.volume L).1.qh_qh.NOerrexit = true
    cases hinit : L.initialized q
    · simp [Qhull.volume, checkIfQhullInitialized_false L q hinit, h]
    · cases hA : q.qh_qh.hasAreaVolume
      · rw [(volume_unfold L q hinit hA).1]
        exact hfinish _ _
      · rw [volume_cached L q hinit hA]
        exact h
  | defineVertexNeighborFacets =>
    show (q.defineVertexNeighborFacets L).1.qh_qh.NOerrexit = true
    cases hinit : L.initialized q
    · simp [Qhull.defineVertexNeighborFacets, checkIfQhullInitialized_false L q hinit, h]
    · cases hA : q.qh_qh.hasAreaVolume
      · rw [defineVertexNeighborFacets_unfold L q hinit hA]
        exact hfinish _ _
      · rw [defineVertexNeighborFacets_hasAreaVolume L q hinit hA]
        exact h
  | outputQhull =>
    show (q.outputQhull L).1.qh_qh.NOerrexit = true
    cases hinit : L.initialized q
    · simp [Qhull.outputQhull, checkIfQhullInitialized_false L q hinit, h]
    · simp only [Qhull.outputQhull, checkIfQhullInitialized_true L q hinit]
      exact hfinish _ _
  | outputQhull_flags f =>
    show (q.outputQhull_flags L f).1.qh_qh.NOerrexit = true
    cases hinit : L.initialized q
    · simp [Qhull.outputQhull_flags, checkIfQhullInitialized_false L q hinit, h]
    · simp only [Qhull.outputQhull_flags, checkIfQhullInitialized_true L q hinit]
      exact hfinish _ _
  | prepareVoronoi => exact hfinish _ _

theorem steps_NOerrexit (L : QhLib)
    (hmt : ∀ qh status, (L.maybeThrowQhullMessage qh status).1.NOerrexit = qh.NOerrexit)
    (ops : List Op) (q : Qhull) (h : q.qh_qh.NOerrexit = true) :
    (q.steps L ops).qh_qh.NOerrexit = true := by
  induction ops generalizing q with
  | nil => exact h
  | cons op rest ih => exact ih (q.step L op) (step_NOerrexit L hmt q op h)

/-- Claim C13.  For a ridge whose top and bottom are distinct and a facet that
is its top or its bottom, `otherfacet_(ridge, facet)` is the other incident
facet: the bottom if the facet is the top, the top if the facet is the bottom;
hence `otherfacet_(ridge, otherfacet_(ridge, facet))` is the facet. -/
theorem otherfacet_involution (ridge : ridgeT) (facet : Option Nat)
    (hdistinct : ridge.top ≠ ridge.bottom)
    (hincident : facet = ridge.top ∨ facet = ridge.bottom) :
    (facet = ridge.top → otherfacet_ ridge facet = ridge.bottom)
    ∧ (facet = ridge.bottom → otherfacet_ ridge facet = ridge.top)
    ∧ otherfacet_ ridge facet ≠ facet
    ∧ otherfacet_ ridge (otherfacet_ ridge facet) = facet := by
  unfold otherfacet_
  rcases hincident with h | h
  · subst h
    simp [hdistinct, hdistinct.symm]
  · subst h
    simp [hdistinct, hdistinct.symm]

/-- Witness of C13: the ridge between the facets at addresses 7 and 9. -/
theorem otherfacet_involution_witness :
    otherfacet_ { top := some 7, bottom := some 9 } (some 7) = some 9
    ∧ otherfacet_ { top := some 7, bottom := some 9 }
        (otherfacet_ { top := some 7, bottom := some 9 } (some 9)) = some 9 :=
  ⟨(otherfacet_involution { top := some 7, bottom := some 9 } (some 7) (by decide)
      (Or.inl rfl)).1 rfl,
    (otherfacet_involution { top := some 7, bottom := some 9 } (some 9) (by decide)
      (Or.inr rfl)).2.2.2⟩

/-! ## C14: `getid_` -/

theorem int_of_unsigned_small (u : Nat) (h : u < 2 ^ 31) : int_of_unsigned u = (u : Int) := by
  unfold int_of_unsigned
  have h1 : u % 2 ^ 32 = u := Nat.mod_eq_of_lt (by omega)
  rw [h1, if_pos h]

/-- Claim C14.  `getid_(p)` is `qh_IDunknown` (-1) if `p` is NULL, 0 if `p` is
a sentinel (id 0), and for every `p` that is not NULL and whose id is below
2^31 it is that id, a non-negative `int`; two such objects with distinct ids
get distinct results, and none of them gets the result of NULL. -/
theorem getid_spec {α : Type} (id : α → Nat) :
    getid_ id none = -1
    ∧ qh_IDunknown = -1
    ∧ (∀ tail : α, id tail = 0 → getid_ id (some tail) = 0)
    ∧ (∀ p : α, id p < 2 ^ 31 → getid_ id (some p) = (id p : Int) ∧ 0 ≤ getid_ id (some p))
    ∧ (∀ p p' : α, id p < 2 ^ 31 → id p' < 2 ^ 31 → id p ≠ id p' →
        getid_ id (some p) ≠ getid_ id (some p'))
    ∧ (∀ p : α, id p < 2 ^ 31 → getid_ id (some p) ≠ getid_ id none) := by
  have hsmall : ∀ p : α, id p < 2 ^ 31 → getid_ id (some p) = (id p : Int) :=
    fun p h => int_of_unsigned_small (id p) h
  refine ⟨rfl, rfl, fun tail h => ?_, fun p h => ⟨hsmall p h, ?_⟩, fun p p' h h' hne => ?_,
    fun p h => ?_⟩
  · rw [hsmall tail (by rw [h]; norm_num), h]
    rfl
  · rw [hsmall p h]
    exact Int.natCast_nonneg _
  · rw [hsmall p h, hsmall p' h']
    exact fun heq => hne (by exact_mod_cast heq)
  · rw [hsmall p h]
    show (id p : Int) ≠ -1
    have := Int.natCast_nonneg (id p)
    omega

/-- Witness of C14 on facets: the id of the second facet of the triangle, the
sentinel, and the null pointer. -/
theorem getid_spec_witness :
    getid_ facetT.id (some ({ id := 2 } : facetT)) = 2
    ∧ getid_ facetT.id (some ({ id := 0 } : facetT)) = 0
    ∧ getid_ facetT.id none = -1 :=
  ⟨((getid_spec facetT.id).2.2.2.1 { id := 2 } (by decide)).1,
    (getid_spec facetT.id).2.2.1 { id := 0 } rfl, (getid_spec facetT.id).1⟩

/-! ## C15: `FORALLfacets` and `FORALLvertices` -/

theorem FORALLfacets_isList {σ : Type} (next : Nat → Option Nat) (body : σ → Nat → σ)
    (elements : List Nat) (first tail : Nat) (s : σ) (fuel : Nat)
    (h : isList next first elements tail = true) (hfuel : elements.length < fuel) :
    FORALLfacets next body fuel (some first) s = some (elements.foldl body s) := by
  induction elements generalizing first s fuel with
  | nil =>
    cases fuel with
    | zero => simp at hfuel
    | succ fuel =>
      simp only [isList, Bool.and_eq_true, beq_iff_eq, Option.isNone_iff_eq_none] at h
      obtain ⟨rfl, hnext⟩ := h
      simp [FORALLfacets, hnext]
  | cons e es ih =>
    cases fuel with
    | zero => simp at hfuel
    | succ fuel =>
      simp only [isList, Bool.and_eq_true, beq_iff_eq] at h
      obtain ⟨rfl, hrest⟩ := h
      cases hn : next first with
      | none => simp [hn] at hrest
      | some second =>
        simp only [hn] at hrest
        have hlen : es.length < fuel := by simpa using hfuel
        simp only [FORALLfacets, hn, List.foldl_cons]
        exact ih second (body s first) fuel hrest hlen

theorem FORALLvertices_eq {σ : Type} (next : Nat → Option Nat) (body : σ → Nat → σ)
    (fuel : Nat) (first : Option Nat) (s : σ) :
    FORALLvertices next body fuel first s = FORALLfacets next body fuel first s := by
  induction fuel generalizing first s with
  | zero => rfl
  | succ fuel ih =>
    cases first with
    | none => rfl
    | some v =>
      simp only [FORALLvertices, FORALLfacets]
      cases next v with
      | none => rfl
      | some v' => exact ih _ _

theorem isList_next_tail (next : Nat → Option Nat) (elements : List Nat) (first tail : Nat)
    (h : isList next first elements tail = true) : next tail = none := by
  induction elements generalizing first with
  | nil =>
    simp only [isList, Bool.and_eq_true, beq_iff_eq, Option.isNone_iff_eq_none] at h
    exact h.2
  | cons e es ih =>
    simp only [isList, Bool.and_eq_true, beq_iff_eq] at h
    obtain ⟨rfl, hrest⟩ := h
    cases hn : next first with
    | none => simp [hn] at hrest
    | some second =>
      simp only [hn] at hrest
      exact ih second hrest

theorem isList_tail_not_mem (next : Nat → Option Nat) (elements : List Nat) (first tail : Nat)
    (h : isList next first elements tail = true) : tail ∉ elements := by
  have hnext := isList_next_tail next elements first tail h
  induction elements generalizing first with
  | nil => simp
  | cons e es ih =>
    simp only [isList, Bool.and_eq_true, beq_iff_eq] at h
    obtain ⟨rfl, hrest⟩ := h
    cases hn : next first with
    | none => simp [hn] at hrest
    | some second =>
      simp only [hn] at hrest
      intro hmem
      rcases List.mem_cons.1 hmem with heq | hmem'
      · rw [heq, hn] at hnext
        cases hnext
      · exact ih second hrest hmem'

/-- Claim C15.  Let the fields `next` lead from `qh.facet_list` (resp.
`qh.vertex_list`) through the elements `elements` to a sentinel whose `next`
is NULL.  Then `FORALLfacets` (resp. `FORALLvertices`) terminates: with more
fuel than there are elements it ends, having run its body exactly once for
each element, in list order (the state is the fold of the body over
`elements`), and never for the sentinel, which is not among them.  If the
head is NULL, or the sentinel itself, the body runs zero times. -/
theorem FORALL_visits_elements {σ : Type} (next : Nat → Option Nat) (body : σ → Nat → σ)
    (elements : List Nat) (first tail : Nat) (s : σ)
    (h : isList next first elements tail = true) :
    (∀ fuel, elements.length < fuel →
      FORALLfacets next body fuel (some first) s = some (elements.foldl body s)
      ∧ FORALLvertices next body fuel (some first) s = some (elements.foldl body s))
    ∧ (∀ fuel, elements.length < fuel →
      FORALLfacets next (fun visited facet => visited ++ [facet]) fuel (some first) []
        = some elements
      ∧ FORALLvertices next (fun visited vertex => visited ++ [vertex]) fuel (some first) []
        = some elements)
    ∧ tail ∉ elements
    ∧ (∀ fuel, FORALLfacets next body (fuel + 1) none s = some s
      ∧ FORALLvertices next body (fuel + 1) none s = some s)
    ∧ (first = tail → ∀ fuel, FORALLfacets next body (fuel + 1) (some first) s = some s
      ∧ FORALLvertices next body (fuel + 1) (some first) s = some s) := by
  have hcollect : ∀ (l acc : List Nat),
      l.foldl (fun visited facet => visited ++ [facet]) acc = acc ++ l := by
    intro l
    induction l with
    | nil => intro acc; simp
    | cons x xs ih => intro acc; simp [ih]
  refine ⟨fun fuel hf => ?_, fun fuel hf => ?_, isList_tail_not_mem next elements first tail h,
    fun fuel => ⟨rfl, rfl⟩, fun hft fuel => ?_⟩
  · rw [FORALLvertices_eq]
    exact ⟨FORALLfacets_isList next body elements first tail s fuel h hf,
      FORALLfacets_isList next body elements first tail s fuel h hf⟩
  · rw [FORALLvertices_eq, FORALLfacets_isList next _ elements first tail [] fuel h hf,
      hcollect]
    exact ⟨rfl, rfl⟩
  · have hnext := isList_next_tail next elements first tail h
    rw [← hft] at hnext
    rw [FORALLvertices_eq]
    simp [FORALLfacets, hnext]

/-- Witness of C15: in the memory `1 → 2 → 3 → 0` the loop visits 1, 2, 3. -/
theorem FORALL_visits_elements_witness :
    isList sample_next 1 [1, 2, 3] 0 = true
    ∧ FORALLfacets sample_next (fun visited facet => visited ++ [facet]) 4 (some 1) []
        = some [1, 2, 3]
    ∧ FORALLvertices sample_next (fun visited vertex => visited ++ [vertex]) 9 (some 1) []
        = some [1, 2, 3] :=
  ⟨rfl, ((FORALL_visits_elements sample_next (fun visited facet => visited ++ [facet])
      [1, 2, 3] 1 0 [] rfl).2.1 4 (by decide)).1,
    ((FORALL_visits_elements sample_next (fun visited vertex => visited ++ [vertex])
      [1, 2, 3] 1 0 [] rfl).2.1 9 (by decide)).2⟩

/-! ## C12: the facets marked good by `outputQhull(outputflags)` -/

theorem andThen_assoc {σ : Type} (r : QhExit σ) (k k' : σ → QhExit σ) :
    (r.andThen k).andThen k' = r.andThen fun s => (k s).andThen k' := by
  cases r <;> rfl

theorem outputQhull_try_eq (L : QhLib) (command : cstring) (q : Qhull) :
    q.outputQhull_try L command =
      (q.outputQhull_parse L command).andThen fun s =>
        (if s.qh_qh.keepsFacets L then s.outputQhull_goodFacets L else .ret s).andThen fun s =>
          s.outputQhull_produce L := by
  unfold Qhull.outputQhull_try Qhull.outputQhull_parse Qhull.outputQhull_produce
  simp only [andThen_assoc]

theorem FORALLfacet_length (body : facetT → facetT) (l : List facetT) :
    (FORALLfacet_ body l).length = l.length := by
  induction l with
  | nil => rfl
  | cons x xs ih =>
    cases xs with
    | nil => rfl
    | cons y ys => simp only [FORALLfacet_, List.length_cons] at ih ⊢; omega

theorem FORALLfacet_getElem? (body : facetT → facetT) (l : List facetT) (i : Nat) :
    (FORALLfacet_ body l)[i]? = (l[i]?).map fun f => if i + 1 < l.length then body f else f := by
  induction l generalizing i with
  | nil => simp [FORALLfacet_]
  | cons x xs ih =>
    cases xs with
    | nil =>
      cases i with
      | zero => simp [FORALLfacet_]
      | succ i => simp [FORALLfacet_]
    | cons y ys =>
      cases i with
      | zero => simp [FORALLfacet_]
      | succ i =>
        simp only [FORALLfacet_, List.getElem?_cons_succ, List.length_cons]
        rw [ih i]
        simp only [List.length_cons]
        congr 1
        funext f
        simp

theorem invoke_ret_or_errexit (q : Qhull) (c : QhCall) (routine : QhullQh → QhExit QhullQh) :
    (∃ s, q.invoke c routine = .ret s ∧ s.calls = q.calls ++ [c])
    ∨ (∃ e s, q.invoke c routine = .errexit e s ∧ s.calls = q.calls ++ [c]) := by
  unfold Qhull.invoke
  cases routine q.qh_qh with
  | ret qh => exact Or.inl ⟨_, rfl, rfl⟩
  | errexit e qh => exact Or.inr ⟨_, _, rfl, rfl⟩

/-- The calls a block adds all satisfy `S`. -/
theorem andThen_added (S : QhCall → Prop) (q : Qhull) (r : QhExit Qhull)
    (k : Qhull → QhExit Qhull)
    (hr : ∃ l, r.state.calls = q.calls ++ l ∧ ∀ e ∈ l, S e)
    (hk : ∀ s, ∃ l, (k s).state.calls = s.calls ++ l ∧ ∀ e ∈ l, S e) :
    ∃ l, (r.andThen k).state.calls = q.calls ++ l ∧ ∀ e ∈ l, S e := by
  obtain ⟨l, hl, hS⟩ := hr
  cases r with
  | errexit e s => exact ⟨l, hl, hS⟩
  | ret s =>
    obtain ⟨l', hl', hS'⟩ := hk s
    refine ⟨l ++ l', ?_, ?_⟩
    · rw [andThen_ret, hl']
      show s.calls ++ l' = _
      rw [show s.calls = q.calls ++ l from hl, List.append_assoc]
    · intro e he
      rcases List.mem_append.1 he with h | h
      · exact hS e h
      · exact hS' e h

theorem invoke_added (S : QhCall → Prop) (q : Qhull) (c : QhCall)
    (routine : QhullQh → QhExit QhullQh) (hc : S c) :
    ∃ l, (q.invoke c routine).state.calls = q.calls ++ l ∧ ∀ e ∈ l, S e :=
  ⟨[c], invoke_calls q c routine, fun e he => by rw [List.mem_singleton.1 he]; exact hc⟩

theorem runQhull_build_added (L : QhLib) (q : Qhull) (newPoints : pointArray)
    (pointCount newDimension : Int) (newIsMalloc : Bool) :
    ∃ rest, (q.runQhull_build L newPoints pointCount newDimension newIsMalloc).state.calls
        = q.calls ++ QhCall.qh_init_B newPoints pointCount newDimension newIsMalloc :: rest
      ∧ ∀ e ∈ rest, e.is_qh_init_B = false := by
  unfold Qhull.runQhull_build
  rcases invoke_ret_or_errexit q (.qh_init_B newPoints pointCount newDimension newIsMalloc)
    (fun qh => L.qh_init_B qh newPoints pointCount newDimension newIsMalloc) with
    ⟨s, hs, hcalls⟩ | ⟨e, s, hs, hcalls⟩
  · rw [hs, andThen_ret]
    have hrest : ∃ l, ((s.invoke .qh_qhull L.qh_qhull).andThen fun q =>
        (q.invoke .qh_check_output L.qh_check_output).andThen fun q =>
        (q.invoke .qh_prepare_output L.qh_prepare_output).andThen fun q =>
        if q.qh_qh.verifiesPoints then q.invoke .qh_check_points L.qh_check_points
        else .ret q).state.calls = s.calls ++ l ∧ ∀ e ∈ l, e.is_qh_init_B = false := by
      refine andThen_added _ s _ _ (invoke_added _ _ _ _ rfl) fun s => ?_
      refine andThen_added _ s _ _ (invoke_added _ _ _ _ rfl) fun s => ?_
      refine andThen_added _ s _ _ (invoke_added _ _ _ _ rfl) fun s => ?_
      split
      · exact invoke_added _ _ _ _ rfl
      · exact ⟨[], by simp [QhExit.state], by simp⟩
    obtain ⟨l, hl, hS⟩ := hrest
    exact ⟨l, by rw [hl, hcalls]; simp, hS⟩
  · rw [hs, andThen_errexit]
    exact ⟨[], by simp [QhExit.state, hcalls], by simp⟩

theorem initializeFeasiblePoint_added (L : QhLib) (q : Qhull) (hulldim : Int) :
    ∃ l, (q.initializeFeasiblePoint L hulldim).state.calls = q.calls ++ l
      ∧ ∀ e ∈ l, e.is_qh_init_B = false := by
  unfold Qhull.initializeFeasiblePoint
  simp only
  split
  · refine ⟨[.initializeFeasiblePoint hulldim, .qh_setfeasible hulldim], ?_, ?_⟩
    · rw [invoke_calls]; simp
    · intro e he; simp at he; rcases he with rfl | rfl <;> rfl
  · split
    · refine ⟨[.initializeFeasiblePoint hulldim, .qh_fprintf 6209, .qh_errexit qh_ERRmem], ?_, ?_⟩
      · simp [Qhull.qh_fprintf, Qhull.qh_errexit, QhExit.state]
      · intro e he; simp at he; rcases he with rfl | rfl | rfl <;> rfl
    · split
      · refine ⟨[.initializeFeasiblePoint hulldim, .qh_fprintf 6210, .qh_errexit qh_ERRmem],
          ?_, ?_⟩
        · simp [Qhull.qh_fprintf, Qhull.qh_errexit, QhExit.state]
        · intro e he; simp at he; rcases he with rfl | rfl | rfl <;> rfl
      · split
        · refine ⟨[.initializeFeasiblePoint hulldim,
            .qh_malloc ((size_t hulldim * sizeof_coordT) % 2 ^ 64), .qh_fprintf 6042,
            .qh_errexit qh_ERRmem], ?_, ?_⟩
          · simp [Qhull.qh_fprintf, Qhull.qh_errexit, QhExit.state]
          · intro e he; simp at he; rcases he with rfl | rfl | rfl | rfl <;> rfl
        · refine ⟨[.initializeFeasiblePoint hulldim,
            .qh_malloc ((size_t hulldim * sizeof_coordT) % 2 ^ 64)], ?_, ?_⟩
          · simp [QhExit.state]
          · intro e he; simp at he; rcases he with rfl | rfl <;> rfl

theorem runQhull_halfspace_added (L : QhLib) (q : Qhull) (pd pc : Int) (pts : pointArray) :
    ∃ added, (q.runQhull_halfspace L pd pc pts).state.calls = q.calls ++ added
      ∧ (∀ p n d m, QhCall.qh_init_B p n d m ∈ added →
          m = true ∧ n = pc ∧ d = pd - 1
          ∧ ∃ s, q.initializeFeasiblePoint L (pd - 1) = .ret s
            ∧ p = L.qh_sethalfspace_all_result s.qh_qh pd pc pts s.qh_qh.feasible_point)
      ∧ (∀ s, q.initializeFeasiblePoint L (pd - 1) = .ret s →
          (L.qh_sethalfspace_all s.qh_qh pd pc pts s.qh_qh.feasible_point).isErrexit = false →
          QhCall.qh_init_B
            (L.qh_sethalfspace_all_result s.qh_qh pd pc pts s.qh_qh.feasible_point)
            pc (pd - 1) true ∈ added) := by
  obtain ⟨l1, hl1, hS1⟩ := initializeFeasiblePoint_added L q (pd - 1)
  simp only [Qhull.runQhull_halfspace]
  cases hinit : q.initializeFeasiblePoint L (pd - 1) with
  | errexit e s =>
    rw [andThen_errexit]
    rw [hinit] at hl1
    refine ⟨l1, hl1, fun p n d m hmem => ?_, fun s hs => by cases hs⟩
    have := hS1 _ hmem
    cases this
  | ret s =>
    rw [andThen_ret]
    rw [hinit] at hl1
    have hs : s.calls = q.calls ++ l1 := hl1
    cases hr : L.qh_sethalfspace_all s.qh_qh pd pc pts s.qh_qh.feasible_point with
    | errexit e qh =>
      refine ⟨l1 ++ [.qh_sethalfspace_all pd pc pts s.qh_qh.feasible_point], ?_,
        fun p n d m hmem => ?_, fun s' hs' hne => ?_⟩
      · simp only [Qhull.invoke, hr, andThen_errexit, QhExit.state, hs, List.append_assoc]
      · rcases List.mem_append.1 hmem with h | h
        · have := hS1 _ h
          cases this
        · simp at h
      · cases hs'
        rw [hr] at hne
        cases hne
    | ret qh =>
      obtain ⟨rest, hrest, hSrest⟩ := runQhull_build_added L
        { s with qh_qh := qh,
                 calls := s.calls ++ [.qh_sethalfspace_all pd pc pts s.qh_qh.feasible_point] }
        (L.qh_sethalfspace_all_result s.qh_qh pd pc pts s.qh_qh.feasible_point) pc (pd - 1) true
      refine ⟨l1 ++ .qh_sethalfspace_all pd pc pts s.qh_qh.feasible_point
        :: .qh_init_B (L.qh_sethalfspace_all_result s.qh_qh pd pc pts s.qh_qh.feasible_point)
            pc (pd - 1) true :: rest, ?_, fun p n d m hmem => ?_, fun s' hs' _ => ?_⟩
      · simp only [Qhull.invoke, hr, andThen_ret]
        rw [hrest]
        simp [hs]
      · rcases List.mem_append.1 hmem with h | h
        · have := hS1 _ h
          cases this
        · rcases List.mem_cons.1 h with h | h
          · cases h
          · rcases List.mem_cons.1 h with h | h
            · cases h
              exact ⟨rfl, rfl, rfl, s, rfl, rfl⟩
            · have := hSrest _ h
              cases this
      · cases hs'
        simp

/-- Claim C16, the run on which it fails.  A fresh object runs on four points
given with three coordinates, of which the library projects one away, so that
`qh.input_dim` is 3 and `qh.hull_dim` is 2.  The run returns without an error
and has appended `hull_dim` = 2 zeros to `origin_point` (Qhull.cpp:338-340);
`inputOrigin()` returns a point of dimension `input_dim` = 3 over that storage,
whose first two coordinates are stored zeros and whose third coordinate is not
backed by any stored coordinate of `origin_point`. -/
theorem inputOrigin_unbacked :
    (Qhull.members.runQhull sampleLib_project [] 3 4 flat_points "Qb0:0B0:0".toList).2 = none
    ∧ (Qhull.members.runQhull sampleLib_project [] 3 4 flat_points
        "Qb0:0B0:0".toList).1.qh_qh.input_dim = 3
    ∧ (Qhull.members.runQhull sampleLib_project [] 3 4 flat_points
        "Qb0:0B0:0".toList).1.qh_qh.hull_dim = 2
    ∧ (Qhull.members.runQhull sampleLib_project [] 3 4 flat_points
        "Qb0:0B0:0".toList).1.origin_point = [0, 0]
    ∧ (Qhull.members.runQhull sampleLib_project [] 3 4 flat_points
        "Qb0:0B0:0".toList).1.inputOrigin.point_dimension = 3
    ∧ (Qhull.members.runQhull sampleLib_project [] 3 4 flat_points
        "Qb0:0B0:0".toList).1.inputOrigin.coordinate 0 = some 0
    ∧ (Qhull.members.runQhull sampleLib_project [] 3 4 flat_points
        "Qb0:0B0:0".toList).1.inputOrigin.coordinate 1 = some 0
    ∧ (Qhull.members.runQhull sampleLib_project [] 3 4 flat_points
        "Qb0:0B0:0".toList).1.inputOrigin.coordinate 2 = none := by
  refine ⟨rfl, rfl, rfl, rfl, rfl, rfl, rfl, rfl⟩

/-! ## The determinant of the model and general position -/

theorem list_range_sum (f : Nat → realT) (n : Nat) :
    ((List.range n).map f).sum = ∑ i in Finset.range n, f i := by
  induction n with
  | zero => simp
  | succ n ih =>
    rw [List.range_succ, List.map_append, List.sum_append, ih, Finset.sum_range_succ]
    simp

theorem getD_eraseIdx (l : List realT) (j k : Nat) :
    (l.eraseIdx j).getD k 0 = l.getD (if k < j then k else k + 1) 0 := by
  simp only [List.getD_eq_getElem?_getD, List.getElem?_eraseIdx]
  split <;> rfl

theorem getD_map_eraseIdx (rows : List (List realT)) (j i : Nat) :
    (rows.map fun r => r.eraseIdx j).getD i [] = (rows.getD i []).eraseIdx j := by
  simp only [List.getD_eq_getElem?_getD, List.getElem?_map]
  cases rows[i]? <;> simp

theorem spec_det_eq_det (n : Nat) (rows : List (List realT)) :
    spec_det n rows
      = Matrix.det (Matrix.of fun (i j : Fin n) => (rows.getD i []).getD j 0) := by
  induction n generalizing rows with
  | zero => simp [spec_det]
  | succ n ih =>
    cases rows with
    | nil =>
      have hz : (Matrix.of fun (i j : Fin (n + 1)) => (([] : List (List realT)).getD i []).getD j 0)
          = 0 := by
        ext i j
        simp
      rw [hz, Matrix.det_zero ⟨0⟩]
      rfl
    | cons row rest =>
      rw [Matrix.det_succ_row_zero]
      simp only [spec_det]
      rw [list_range_sum, Finset.sum_range]
      refine Finset.sum_congr rfl fun j _ => ?_
      rw [ih]
      have hA : (Matrix.of fun (i k : Fin (n + 1)) => ((row :: rest).getD i []).getD k 0) 0 j
          = row.getD j 0 := by
        simp
      have hsub : ((Matrix.of fun (i k : Fin (n + 1)) =>
            ((row :: rest).getD i []).getD k 0).submatrix Fin.succ j.succAbove)
          = Matrix.of fun (i k : Fin n) =>
              ((rest.map fun r => r.eraseIdx j).getD i []).getD k 0 := by
        ext i k
        simp only [Matrix.of_apply, Matrix.submatrix_apply, getD_map_eraseIdx, getD_eraseIdx,
          Fin.val_succ, List.getD_cons_succ]
        congr 1
        simp only [Fin.succAbove, Fin.lt_def, Fin.coe_castSucc]
        split <;> simp
      rw [hA, hsub]

theorem spec_point_length (D : Nat) (pts : pointArray) (hlen : pts.cells.length = (D + 1) * D)
    (i : Nat) (hi : i ≤ D) : (spec_point D pts i).length = D := by
  unfold spec_point
  rw [List.length_take, List.length_drop, hlen]
  have h : i * D + D ≤ (D + 1) * D := by
    have : (i + 1) * D ≤ (D + 1) * D := Nat.mul_le_mul_right D (by omega)
    rw [Nat.add_mul, Nat.one_mul] at this
    exact this
  omega

theorem spec_sub_getD (p q : List coordT) (j : Nat) (hp : j < p.length) (hq : j < q.length) :
    (spec_sub p q).getD j 0 = p.getD j 0 - q.getD j 0 := by
  unfold spec_sub
  simp only [List.getD_eq_getElem?_getD, List.getElem?_zipWith, List.getElem?_eq_getElem hp,
    List.getElem?_eq_getElem hq]
  rfl

/-- Points in general position form a non-degenerate simplex: `D+1` points of
dimension `D` that no hyperplane `a . x = c` contains have linearly independent
differences to the first point. -/
theorem spec_nondegenerate_of_general_position (D : Nat) (pts : pointArray)
    (hlen : pts.cells.length = (D + 1) * D)
    (hgen : ∀ (a : Fin D → realT) (c : realT),
      (∀ i, i ≤ D → ∑ j : Fin D, a j * (spec_point D pts i).getD j 0 = c) → a = 0) :
    spec_nondegenerate D pts (List.range (D + 1)) = true := by
  rw [List.range_succ_eq_map]
  simp only [spec_nondegenerate, decide_eq_true_eq]
  intro hdet
  rw [spec_det_eq_det] at hdet
  obtain ⟨v, hv, hMv⟩ := Matrix.exists_mulVec_eq_zero_iff.2 hdet
  apply hv
  apply hgen v (∑ j : Fin D, v j * (spec_point D pts 0).getD j 0)
  intro i hi
  cases i with
  | zero => rfl
  | succ k =>
    have hk : k < D := by omega
    have hrow := congrFun hMv ⟨k, hk⟩
    simp only [Matrix.mulVec, Matrix.dotProduct, Matrix.of_apply, Pi.zero_apply] at hrow
    have hentry : ∀ j : Fin D,
        ((((List.range D).map Nat.succ).map fun p =>
            spec_sub (spec_point D pts p) (spec_point D pts 0)).getD k []).getD j 0
          = (spec_point D pts (k + 1)).getD j 0 - (spec_point D pts 0).getD j 0 := by
      intro j
      have h1 : (((List.range D).map Nat.succ).map fun p =>
            spec_sub (spec_point D pts p) (spec_point D pts 0)).getD k []
          = spec_sub (spec_point D pts (k + 1)) (spec_point D pts 0) := by
        simp [List.getD_eq_getElem?_getD, List.getElem?_map, List.getElem?_range hk]
      rw [h1]
      apply spec_sub_getD
      · rw [spec_point_length D pts hlen _ hi]
        exact j.2
      · rw [spec_point_length D pts hlen _ (Nat.zero_le D)]
        exact j.2
    simp only [hentry] at hrow
    have hsplit : ∑ j : Fin D, v j * (spec_point D pts (k + 1)).getD j 0
        = ∑ j : Fin D, ((spec_point D pts (k + 1)).getD j 0 - (spec_point D pts 0).getD j 0) * v j
          + ∑ j : Fin D, v j * (spec_point D pts 0).getD j 0 := by
      rw [← Finset.sum_add_distrib]
      refine Finset.sum_congr rfl fun j _ => ?_
      ring
    rw [hsplit, hrow, zero_add]

/-! ## C17-C19: the hull computation of the specification under the wrapper -/

theorem runQhull_of_try (L : QhLib) (q0 : Qhull) (cmt cmd : cstring) (pd pc : Int)
    (pts : pointArray) (hrc : q0.run_called = false) (hne : q0.qh_qh.NOerrexit = true) :
    q0.runQhull L cmt pd pc pts cmd =
      match q0.runQhull_entry.runQhull_try L ("qhull ".toList ++ cmd) cmt pd pc pts with
      | .ret s =>
        Qhull.maybeThrowQhullMessage L
          { s.setNOerrexit with
            origin_point := appendOrigin (s.qh_qh.hull_dim % 2 ^ 32).toNat s.origin_point } 0
      | .errexit e s =>
        Qhull.maybeThrowQhullMessage L
          { s.setNOerrexit with
            origin_point := appendOrigin (s.qh_qh.hull_dim % 2 ^ 32).toNat s.origin_point }
          (setjmp_value e) := by
  have hne1 : ({ q0 with run_called := true } : Qhull).qh_qh.NOerrexit = true := hne
  have h1 : q0.runQhull L cmt pd pc pts cmd =
      (fun r : Qhull × Int =>
        Qhull.maybeThrowQhullMessage L
          { r.1.setNOerrexit with
            origin_point := appendOrigin (r.1.qh_qh.hull_dim % 2 ^ 32).toNat r.1.origin_point }
          r.2)
        (Qhull.QH_TRY_ L { q0 with run_called := true }
          (Qhull.runQhull_try L ("qhull ".toList ++ cmd) cmt pd pc pts)) := by
    simp only [Qhull.runQhull, hrc, Bool.false_eq_true, if_false]
    rfl
  have h2 : Qhull.QH_TRY_ L { q0 with run_called := true }
      (Qhull.runQhull_try L ("qhull ".toList ++ cmd) cmt pd pc pts) =
      match q0.runQhull_entry.runQhull_try L ("qhull ".toList ++ cmd) cmt pd pc pts with
      | .ret q2 => (q2, 0)
      | .errexit exitcode q2 => (q2, setjmp_value exitcode) :=
    QH_TRY_of_NOerrexit L _ _ hne1
  rw [h1, h2]
  cases q0.runQhull_entry.runQhull_try L ("qhull ".toList ++ cmd) cmt pd pc pts <;> rfl

theorem sample_maybeThrowQhullMessage_graph (qh : QhullQh) (exitCode : Int) :
    (sample_maybeThrowQhullMessage qh exitCode).1.facet_list = qh.facet_list
    ∧ (sample_maybeThrowQhullMessage qh exitCode).1.vertex_list = qh.vertex_list
    ∧ (sample_maybeThrowQhullMessage qh exitCode).1.num_facets = qh.num_facets
    ∧ (sample_maybeThrowQhullMessage qh exitCode).1.num_vertices = qh.num_vertices
    ∧ (sample_maybeThrowQhullMessage qh exitCode).1.first_point = qh.first_point := by
  unfold sample_maybeThrowQhullMessage
  by_cases h : (if qh.qhull_status = qh_ERRnone then exitCode else qh.qhull_status) ≠ qh_ERRnone
  · simp [if_pos h]
  · simp [if_neg h]

theorem sample_maybeThrowQhullMessage_error (qh : QhullQh) (exitCode : Int) :
    (sample_maybeThrowQhullMessage qh exitCode).2
      = if (if qh.qhull_status = qh_ERRnone then exitCode else qh.qhull_status) ≠ qh_ERRnone then
          some ⟨if qh.qhull_status = qh_ERRnone then exitCode else qh.qhull_status,
            String.mk qh.qhull_message⟩
        else none := by
  unfold sample_maybeThrowQhullMessage
  by_cases h : (if qh.qhull_status = qh_ERRnone then exitCode else qh.qhull_status) ≠ qh_ERRnone
  · simp only [if_pos h]
  · simp only [if_neg h]

/-- The statements of Qhull.cpp:329-335 with the library of the specification,
when `qh_init_B` and `qh_qhull` return. -/
theorem runQhull_build_spec_ret (K : SpecKernel) (clock : Int) (q : Qhull) (pts : pointArray)
    (pc pd : Int) (m : Bool) (qh1 qh2 : QhullQh)
    (h1 : spec_init_B K q.qh_qh pts pc pd m = .ret qh1)
    (h2 : spec_qhull K clock sampleLib.REALmax qh1 = .ret qh2) :
    ∃ s, q.runQhull_build (specLib K clock) pts pc pd m = .ret s
      ∧ s.qh_qh = qh2 ∧ s.origin_point = q.origin_point := by
  have e1 : (specLib K clock).qh_init_B q.qh_qh pts pc pd m = .ret qh1 := h1
  have e2 : (specLib K clock).qh_qhull qh1 = .ret qh2 := h2
  simp only [Qhull.runQhull_build, Qhull.invoke, e1, e2, andThen_ret]
  have e3 : (specLib K clock).qh_check_output qh2 = .ret qh2 := rfl
  have e4 : (specLib K clock).qh_prepare_output qh2 = .ret qh2 := rfl
  have e5 : (specLib K clock).qh_check_points qh2 = .ret qh2 := rfl
  simp only [e3, e4, andThen_ret, e5]
  split <;> exact ⟨_, rfl, rfl, rfl⟩

/-- The statements of Qhull.cpp:329-335 with the library of the specification,
when `qh_init_B` returns and `qh_qhull` ends with an error. -/
theorem runQhull_build_spec_errexit (K : SpecKernel) (clock : Int) (q : Qhull) (pts : pointArray)
    (pc pd : Int) (m : Bool) (qh1 qh2 : QhullQh) (e : Int)
    (h1 : spec_init_B K q.qh_qh pts pc pd m = .ret qh1)
    (h2 : spec_qhull K clock sampleLib.REALmax qh1 = .errexit e qh2) :
    ∃ s, q.runQhull_build (specLib K clock) pts pc pd m = .errexit e s
      ∧ s.qh_qh = qh2 ∧ s.origin_point = q.origin_point := by
  have e1 : (specLib K clock).qh_init_B q.qh_qh pts pc pd m = .ret qh1 := h1
  have e2 : (specLib K clock).qh_qhull qh1 = .errexit e qh2 := h2
  simp only [Qhull.runQhull_build, Qhull.invoke, e1, e2, andThen_ret, andThen_errexit]
  exact ⟨_, rfl, rfl, rfl⟩

theorem spec_rerun_of_ret (K : SpecKernel) (random : Bool) (seed : Int) (joggle : Bool)
    (checkpoint qh : QhullQh) (remaining attempt : Nat)
    (h : spec_attempt K random seed checkpoint attempt = .ret qh) :
    spec_rerun K random seed joggle checkpoint remaining attempt = .ret qh := by
  cases remaining with
  | zero => simp only [spec_rerun, h, spec_unwind]
  | succ n => simp only [spec_rerun, h]

theorem spec_nextpoint_none (K : SpecKernel) (random : Bool) (seed : Int) (step : Nat)
    (facet_list : List facetT) (h : ∀ f ∈ facet_list, f.outsideset = []) :
    spec_nextpoint K random seed step facet_list = none := by
  unfold spec_nextpoint
  cases random with
  | true =>
    have hc : (facet_list.map fun f => f.outsideset.map fun p => (f.id, p)).flatten = [] := by
      rw [List.flatten_eq_nil_iff]
      intro l hl
      obtain ⟨f, hf, rfl⟩ := List.mem_map.1 hl
      rw [h f hf]
      rfl
    simp [hc]
  | false =>
    have hf : (facet_list.find? fun f => !f.outsideset.isEmpty) = none := by
      rw [List.find?_eq_none]
      intro f hf
      simp [h f hf]
    simp [hf]

theorem spec_buildhull_of_no_outside (K : SpecKernel) (random : Bool) (seed : Int) (steps : Nat)
    (qh : QhullQh) (h : ∀ f ∈ qh.facet_list, f.outsideset = []) :
    spec_buildhull K random seed steps qh = .ret qh := by
  cases steps with
  | zero => simp only [spec_buildhull, spec_nextpoint_none K random seed _ _ h]
  | succ n => simp only [spec_buildhull, spec_nextpoint_none K random seed _ _ h]

theorem spec_simplex_facets_outsideset (size : Nat) :
    ∀ f ∈ spec_simplex_facets size, f.outsideset = [] := by
  intro f hf
  unfold spec_simplex_facets at hf
  rcases List.mem_append.1 hf with h | h
  · obtain ⟨k, _, rfl⟩ := List.mem_map.1 h
    rfl
  · rw [List.mem_singleton.1 h]

theorem sublistsLen_range_succ (D : Nat) :
    (List.range (D + 1)).sublistsLen (D + 1) = [List.range (D + 1)] := by
  have h := List.sublistsLen_length (List.range (D + 1))
  rw [List.length_range] at h
  exact h

theorem spec_initialhull_simplex (qh : QhullQh) (D : Nat) (hdim : qh.hull_dim = D)
    (hnum : qh.num_points = (D : Int) + 1)
    (hnd : spec_nondegenerate D qh.first_point (List.range (D + 1)) = true) :
    spec_initialhull qh = .ret { qh with
      interior_point := spec_centroid D qh.first_point (List.range (D + 1))
      vertex_list := spec_simplex_vertices (List.range (D + 1))
      facet_list := spec_simplex_facets (D + 1)
      num_vertices := ((D + 1 : Nat) : Int)
      num_facets := ((D + 1 : Nat) : Int)
      facet_id := D + 1 + 1
      vertex_id := D + 1 + 1 } := by
  have h1 : qh.hull_dim.toNat = D := by rw [hdim]; exact Int.toNat_ofNat D
  have h2 : qh.num_points.toNat = D + 1 := by rw [hnum]; omega
  have h3 : ((List.range (D + 1)).filter fun p => !(List.range (D + 1)).contains p) = [] := by
    rw [List.filter_eq_nil_iff]
    intro p hp
    simp [hp]
  unfold spec_initialhull
  simp only [h1, h2, lt_irrefl, if_false, sublistsLen_range_succ, List.find?, hnd, h3,
    List.foldl_nil, List.length_range]

theorem spec_initialhull_singular (qh : QhullQh) (D : Nat) (hdim : qh.hull_dim = D)
    (hnum : qh.num_points = (D : Int) + 1)
    (hnd : spec_nondegenerate D qh.first_point (List.range (D + 1)) = false) :
    spec_initialhull qh = .errexit qh_ERRsingular qh := by
  have h1 : qh.hull_dim.toNat = D := by rw [hdim]; exact Int.toNat_ofNat D
  have h2 : qh.num_points.toNat = D + 1 := by rw [hnum]; omega
  unfold spec_initialhull
  simp only [h1, h2, lt_irrefl, if_false, sublistsLen_range_succ, List.find?, hnd]

theorem spec_qhull_simplex (K : SpecKernel) (clock : Int) (REALmax : realT) (qh : QhullQh)
    (D : Nat) (hdim : qh.hull_dim = D) (hnum : qh.num_points = (D : Int) + 1)
    (hnd : spec_nondegenerate D qh.first_point (List.range (D + 1)) = true) :
    spec_qhull K clock REALmax qh = .ret { qh with
      interior_point := spec_centroid D qh.first_point (List.range (D + 1))
      vertex_list := spec_simplex_vertices (List.range (D + 1))
      facet_list := spec_simplex_facets (D + 1)
      num_vertices := ((D + 1 : Nat) : Int)
      num_facets := ((D + 1 : Nat) : Int)
      facet_id := D + 1 + 1
      vertex_id := D + 1 + 1 } := by
  unfold spec_qhull
  apply spec_rerun_of_ret
  unfold spec_attempt
  simp only [if_true]
  rw [spec_initialhull_simplex qh D hdim hnum hnd, andThen_ret]
  exact spec_buildhull_of_no_outside K _ _ _ _ (spec_simplex_facets_outsideset _)

theorem spec_qhull_singular (K : SpecKernel) (clock : Int) (REALmax : realT) (qh : QhullQh)
    (D : Nat) (hdim : qh.hull_dim = D) (hnum : qh.num_points = (D : Int) + 1)
    (hjoggle : ¬ qh.JOGGLEmax < REALmax / 2)
    (hnd : spec_nondegenerate D qh.first_point (List.range (D + 1)) = false) :
    spec_qhull K clock REALmax qh = .errexit qh_ERRsingular
      { qh with facet_list := [], vertex_list := [], num_facets := 0, num_vertices := 0 } := by
  unfold spec_qhull
  simp only [hjoggle, decide_False, Bool.false_eq_true, if_false, spec_rerun, spec_attempt,
    if_true]
  rw [spec_initialhull_singular qh D hdim hnum hnd, andThen_errexit]
  rfl

theorem spec_init_B_hull (K : SpecKernel) (qh : QhullQh) (points : pointArray)
    (numpoints dim : Int) (ismalloc : Bool) (hdim : K.wrong_dimension dim = false)
    (hdel : qh.DELAUNAY = false) :
    spec_init_B K qh points numpoints dim ismalloc
      = .ret { qh with first_point := points, num_points := numpoints, hull_dim := dim,
                       input_dim := dim, POINTSmalloc := ismalloc } := by
  simp [spec_init_B, hdim, hdel]

/-- What a first call of `runQhull` with the library of the specification
leaves, when the block of Qhull.cpp:312-336 returned in the state `s`. -/
theorem runQhull_spec_of_ret (K : SpecKernel) (clock : Int) (q0 s : Qhull) (cmt cmd : cstring)
    (pd pc : Int) (pts : pointArray) (hrc : q0.run_called = false)
    (hne : q0.qh_qh.NOerrexit = true)
    (htry : q0.runQhull_entry.runQhull_try (specLib K clock) ("qhull ".toList ++ cmd) cmt pd pc pts
      = .ret s) :
    (q0.runQhull (specLib K clock) cmt pd pc pts cmd).1.qh_qh.facet_list = s.qh_qh.facet_list
    ∧ (q0.runQhull (specLib K clock) cmt pd pc pts cmd).1.qh_qh.vertex_list
        = s.qh_qh.vertex_list
    ∧ (q0.runQhull (specLib K clock) cmt pd pc pts cmd).1.qh_qh.num_facets = s.qh_qh.num_facets
    ∧ (q0.runQhull (specLib K clock) cmt pd pc pts cmd).1.qh_qh.num_vertices
        = s.qh_qh.num_vertices
    ∧ (q0.runQhull (specLib K clock) cmt pd pc pts cmd).1.qh_qh.first_point
        = s.qh_qh.first_point
    ∧ (s.qh_qh.qhull_status = qh_ERRnone →
        (q0.runQhull (specLib K clock) cmt pd pc pts cmd).2 = none) := by
  rw [runQhull_of_try _ q0 cmt cmd pd pc pts hrc hne, htry]
  have hg := sample_maybeThrowQhullMessage_graph { s.qh_qh with NOerrexit := true } 0
  have he := sample_maybeThrowQhullMessage_error { s.qh_qh with NOerrexit := true } 0
  refine ⟨hg.1, hg.2.1, hg.2.2.1, hg.2.2.2.1, hg.2.2.2.2, fun hq => ?_⟩
  refine he.trans ?_
  show (if (if s.qh_qh.qhull_status = qh_ERRnone then (0 : Int) else s.qh_qh.qhull_status)
      ≠ qh_ERRnone then _ else none) = none
  rw [if_pos hq, if_neg]
  exact fun h => h rfl

/-- What a first call of `runQhull` with the library of the specification
leaves, when the block of Qhull.cpp:312-336 ended with `qh_errexit(exitcode)`. -/
theorem runQhull_spec_of_errexit (K : SpecKernel) (clock : Int) (q0 s : Qhull)
    (cmt cmd : cstring) (pd pc : Int) (pts : pointArray) (exitcode : Int)
    (hrc : q0.run_called = false) (hne : q0.qh_qh.NOerrexit = true) (hcode : exitcode ≠ 0)
    (htry : q0.runQhull_entry.runQhull_try (specLib K clock) ("qhull ".toList ++ cmd) cmt pd pc pts
      = .errexit exitcode s) :
    (q0.runQhull (specLib K clock) cmt pd pc pts cmd).1.qh_qh.facet_list = s.qh_qh.facet_list
    ∧ (q0.runQhull (specLib K clock) cmt pd pc pts cmd).1.qh_qh.vertex_list
        = s.qh_qh.vertex_list
    ∧ (q0.runQhull (specLib K clock) cmt pd pc pts cmd).1.qh_qh.num_facets = s.qh_qh.num_facets
    ∧ (q0.runQhull (specLib K clock) cmt pd pc pts cmd).1.qh_qh.num_vertices
        = s.qh_qh.num_vertices
    ∧ ∃ e, (q0.runQhull (specLib K clock) cmt pd pc pts cmd).2 = some e
        ∧ (s.qh_qh.qhull_status = qh_ERRnone → e.code = exitcode) := by
  rw [runQhull_of_try _ q0 cmt cmd pd pc pts hrc hne, htry]
  have hg := sample_maybeThrowQhullMessage_graph { s.qh_qh with NOerrexit := true }
    (setjmp_value exitcode)
  have he := sample_maybeThrowQhullMessage_error { s.qh_qh with NOerrexit := true }
    (setjmp_value exitcode)
  have hsv : setjmp_value exitcode = exitcode := by simp [setjmp_value, hcode]
  refine ⟨hg.1, hg.2.1, hg.2.2.1, hg.2.2.2.1, ?_⟩
  by_cases hq : s.qh_qh.qhull_status = qh_ERRnone
  · refine ⟨⟨exitcode, String.mk s.qh_qh.qhull_message⟩, he.trans ?_, fun _ => rfl⟩
    show (if (if s.qh_qh.qhull_status = qh_ERRnone then setjmp_value exitcode
        else s.qh_qh.qhull_status) ≠ qh_ERRnone then
          some (⟨if s.qh_qh.qhull_status = qh_ERRnone then setjmp_value exitcode
            else s.qh_qh.qhull_status, String.mk s.qh_qh.qhull_message⟩ : QhullError)
        else none) = _
    have hcode1 : exitcode ≠ qh_ERRnone := hcode
    rw [if_pos hq, hsv, if_pos hcode1]
  · refine ⟨⟨s.qh_qh.qhull_status, String.mk s.qh_qh.qhull_message⟩, he.trans ?_,
      fun h => absurd h hq⟩
    show (if (if s.qh_qh.qhull_status = qh_ERRnone then setjmp_value exitcode
        else s.qh_qh.qhull_status) ≠ qh_ERRnone then
          some (⟨if s.qh_qh.qhull_status = qh_ERRnone then setjmp_value exitcode
            else s.qh_qh.qhull_status, String.mk s.qh_qh.qhull_message⟩ : QhullError)
        else none) = _
    rw [if_neg hq, if_pos hq]

theorem spec_simplex_facet_vertices_length (D k : Nat) (hk : k < D + 1) :
    (spec_simplex_facet (D + 1) k).vertices.length = D := by
  simp only [spec_simplex_facet, List.length_map]
  rw [← List.Nodup.erase_eq_filter (List.nodup_reverse.2 (List.nodup_range (D + 1))) k,
    List.length_erase_of_mem (by simp [hk]), List.length_reverse, List.length_range]
  rfl

theorem runQhull_try_hull (L : QhLib) (q0 q : Qhull) (cmt command : cstring) (pd pc : Int)
    (pts : pointArray) (hflags : q0.runQhull_flags L command cmt = .ret q)
    (hhalf : q.qh_qh.HALFspace = false) :
    q0.runQhull_try L command cmt pd pc pts = q.runQhull_build L pts pc pd false := by
  simp only [Qhull.runQhull_try]
  rw [hflags, andThen_ret, hhalf]
  rfl

theorem spec_det_two (a b c d : realT) : spec_det 2 [[a, b], [c, d]] = a * d - b * c := by
  simp [spec_det, List.range_succ]
  ring

theorem collinear_cross (x1 y1 x2 y2 x3 y3 a b c : realT) (hline : a ≠ 0 ∨ b ≠ 0)
    (h1 : a * x1 + b * y1 = c) (h2 : a * x2 + b * y2 = c) (h3 : a * x3 + b * y3 = c) :
    (x2 - x1) * (y3 - y1) - (y2 - y1) * (x3 - x1) = 0 := by
  have e2 : a * (x2 - x1) + b * (y2 - y1) = 0 := by linear_combination h2 - h1
  have e3 : a * (x3 - x1) + b * (y3 - y1) = 0 := by linear_combination h3 - h1
  rcases hline with ha | hb
  · apply mul_left_cancel₀ ha
    linear_combination (y3 - y1) * e2 - (y2 - y1) * e3
  · apply mul_left_cancel₀ hb
    linear_combination (x2 - x1) * e3 - (x3 - x1) * e2

theorem spec_nondegenerate_collinear (addr : Nat) (x1 y1 x2 y2 x3 y3 : coordT) (a b c : realT)
    (hline : a ≠ 0 ∨ b ≠ 0)
    (h1 : a * x1 + b * y1 = c) (h2 : a * x2 + b * y2 = c) (h3 : a * x3 + b * y3 = c) :
    spec_nondegenerate 2 { addr := addr, cells := [x1, y1, x2, y2, x3, y3] } (List.range (2 + 1))
      = false := by
  have hr : List.range (2 + 1) = [0, 1, 2] := rfl
  rw [hr]
  simp only [spec_nondegenerate, List.map, decide_eq_false_iff_not, not_not]
  have hp0 : spec_point 2 { addr := addr, cells := [x1, y1, x2, y2, x3, y3] } 0 = [x1, y1] := rfl
  have hp1 : spec_point 2 { addr := addr, cells := [x1, y1, x2, y2, x3, y3] } 1 = [x2, y2] := rfl
  have hp2 : spec_point 2 { addr := addr, cells := [x1, y1, x2, y2, x3, y3] } 2 = [x3, y3] := rfl
  rw [hp0, hp1, hp2]
  have hs1 : spec_sub [x2, y2] [x1, y1] = [x2 - x1, y2 - y1] := rfl
  have hs2 : spec_sub [x3, y3] [x1, y1] = [x3 - x1, y3 - y1] := rfl
  rw [hs1, hs2, spec_det_two]
  exact collinear_cross x1 y1 x2 y2 x3 y3 a b c hline h1 h2 h3

theorem spec_buildhull_seed (K : SpecKernel) (seed1 seed2 : Int) (steps : Nat) (qh : QhullQh) :
    spec_buildhull K false seed1 steps qh = spec_buildhull K false seed2 steps qh := by
  induction steps generalizing qh with
  | zero => rfl
  | succ n ih =>
    have hn : spec_nextpoint K false seed1 (n + 1) qh.facet_list
        = spec_nextpoint K false seed2 (n + 1) qh.facet_list := rfl
    simp only [spec_buildhull, hn]
    cases spec_nextpoint K false seed2 (n + 1) qh.facet_list with
    | none => rfl
    | some fp =>
      have hk : spec_buildhull K false seed1 n = spec_buildhull K false seed2 n :=
        funext fun s => ih s
      simp only [hk]

/-- The computation of the specification gives the same result at any two
times, when no randomized option is set or the seed is fixed. -/
theorem spec_qhull_clock (K : SpecKernel) (clock1 clock2 : Int) (REALmax : realT) (qh : QhullQh)
    (hfixed : (qh.RANDOMoutside = false ∧ ¬ qh.JOGGLEmax < REALmax / 2)
      ∨ (qh.ROTATErandom ≠ -1 ∧ qh.ROTATErandom ≠ 0)) :
    spec_qhull K clock1 REALmax qh = spec_qhull K clock2 REALmax qh := by
  rcases hfixed with ⟨hr, hj⟩ | ⟨h1, h0⟩
  · unfold spec_qhull
    simp only [hr, hj, decide_False, Bool.false_eq_true, if_false, spec_rerun, spec_attempt,
      if_true]
    have hk : spec_buildhull K false (spec_seed clock1 qh) K.max_steps
        = spec_buildhull K false (spec_seed clock2 qh) K.max_steps :=
      funext fun s => spec_buildhull_seed K _ _ _ s
    rw [hk]
  · have hs : spec_seed clock1 qh = spec_seed clock2 qh := by
      simp [spec_seed, h1, h0]
    unfold spec_qhull
    rw [hs]

theorem spec_init_B_randomOptions (K : SpecKernel) (qh qh1 : QhullQh) (points : pointArray)
    (numpoints dim : Int) (ismalloc : Bool)
    (h : spec_init_B K qh points numpoints dim ismalloc = .ret qh1) :
    qh1.randomOptions = qh.randomOptions := by
  unfold spec_init_B at h
  split at h
  · cases h
  · split at h <;> cases h <;> rfl

/-- The statements of Qhull.cpp:329-335 give the same result at any two times. -/
theorem runQhull_build_clock (K : SpecKernel) (clock1 clock2 : Int) (q : Qhull)
    (pts : pointArray) (pc pd : Int) (m : Bool)
    (hfixed : (q.qh_qh.RANDOMoutside = false ∧ ¬ q.qh_qh.JOGGLEmax < sampleLib.REALmax / 2)
      ∨ (q.qh_qh.ROTATErandom ≠ -1 ∧ q.qh_qh.ROTATErandom ≠ 0)) :
    q.runQhull_build (specLib K clock1) pts pc pd m
      = q.runQhull_build (specLib K clock2) pts pc pd m := by
  cases h : spec_init_B K q.qh_qh pts pc pd m with
  | errexit e qh1 =>
    have e1 : (specLib K clock1).qh_init_B q.qh_qh pts pc pd m = .errexit e qh1 := h
    have e2 : (specLib K clock2).qh_init_B q.qh_qh pts pc pd m = .errexit e qh1 := h
    simp only [Qhull.runQhull_build, Qhull.invoke, e1, e2, andThen_errexit]
  | ret qh1 =>
    have e1 : (specLib K clock1).qh_init_B q.qh_qh pts pc pd m = .ret qh1 := h
    have e2 : (specLib K clock2).qh_init_B q.qh_qh pts pc pd m = .ret qh1 := h
    have ho := spec_init_B_randomOptions K q.qh_qh qh1 pts pc pd m h
    have hR : qh1.RANDOMoutside = q.qh_qh.RANDOMoutside := congrArg (fun o => o.1) ho
    have hJ : qh1.JOGGLEmax = q.qh_qh.JOGGLEmax := congrArg (fun o => o.2.1) ho
    have hS : qh1.ROTATErandom = q.qh_qh.ROTATErandom := congrArg (fun o => o.2.2) ho
    have e3 : (specLib K clock1).qh_qhull qh1 = (specLib K clock2).qh_qhull qh1 :=
      spec_qhull_clock K clock1 clock2 sampleLib.REALmax qh1 (by rw [hR, hJ, hS]; exact hfixed)
    simp only [Qhull.runQhull_build, Qhull.invoke, e1, e2, e3, andThen_ret]
    rfl

theorem sample_fprintf_randomOptions (L : QhLib) (hL : L.qh_fprintf = sampleLib.qh_fprintf)
    (qh : QhullQh) (msgcode : Int) :
    (L.qh_fprintf qh msgcode).randomOptions = qh.randomOptions := by
  rw [hL]
  show (if qh.qhull_status = qh_ERRnone ∧ 6000 ≤ msgcode ∧ msgcode < 7000 then
    { qh with qhull_status := msgcode } else qh).randomOptions = _
  split <;> rfl

theorem initializeFeasiblePoint_randomOptions (K : SpecKernel) (clock : Int) (q : Qhull)
    (hulldim : Int) :
    (q.initializeFeasiblePoint (specLib K clock) hulldim).state.qh_qh.randomOptions
      = q.qh_qh.randomOptions := by
  have hf := sample_fprintf_randomOptions (specLib K clock) rfl
  unfold Qhull.initializeFeasiblePoint
  simp only
  split
  · rw [invoke_qh_qh]
    rfl
  · split
    · exact hf _ _
    · split
      · exact hf _ _
      · split
        · exact hf _ _
        · rfl

theorem initializeFeasiblePoint_clock (K : SpecKernel) (clock1 clock2 : Int) (q : Qhull)
    (hulldim : Int) :
    q.initializeFeasiblePoint (specLib K clock1) hulldim
      = q.initializeFeasiblePoint (specLib K clock2) hulldim := rfl

/-- The statements of Qhull.cpp:324-335 for halfspaces give the same result at
any two times. -/
theorem runQhull_halfspace_clock (K : SpecKernel) (clock1 clock2 : Int) (q : Qhull)
    (pts : pointArray) (pc pd : Int)
    (hfixed : (q.qh_qh.RANDOMoutside = false ∧ ¬ q.qh_qh.JOGGLEmax < sampleLib.REALmax / 2)
      ∨ (q.qh_qh.ROTATErandom ≠ -1 ∧ q.qh_qh.ROTATErandom ≠ 0)) :
    q.runQhull_halfspace (specLib K clock1) pd pc pts
      = q.runQhull_halfspace (specLib K clock2) pd pc pts := by
  have ho := initializeFeasiblePoint_randomOptions K clock2 q (pd - 1)
  simp only [Qhull.runQhull_halfspace, initializeFeasiblePoint_clock K clock1 clock2]
  cases h : q.initializeFeasiblePoint (specLib K clock2) (pd - 1) with
  | errexit e s => rfl
  | ret s =>
    rw [h] at ho
    have hR : s.qh_qh.RANDOMoutside = q.qh_qh.RANDOMoutside := congrArg (fun o => o.1) ho
    have hJ : s.qh_qh.JOGGLEmax = q.qh_qh.JOGGLEmax := congrArg (fun o => o.2.1) ho
    have hS : s.qh_qh.ROTATErandom = q.qh_qh.ROTATErandom := congrArg (fun o => o.2.2) ho
    simp only [andThen_ret]
    have hi1 : ∀ c, s.invoke c (fun qh => (specLib K clock1).qh_sethalfspace_all qh pd pc pts
          qh.feasible_point)
        = .ret { s with calls := s.calls ++ [c] } := fun _ => rfl
    have hi2 : ∀ c, s.invoke c (fun qh => (specLib K clock2).qh_sethalfspace_all qh pd pc pts
          qh.feasible_point)
        = .ret { s with calls := s.calls ++ [c] } := fun _ => rfl
    rw [hi1, hi2, andThen_ret, andThen_ret]
    have hres : (specLib K clock1).qh_sethalfspace_all_result s.qh_qh pd pc pts
          s.qh_qh.feasible_point
        = (specLib K clock2).qh_sethalfspace_all_result s.qh_qh pd pc pts
          s.qh_qh.feasible_point := rfl
    rw [hres]
    exact runQhull_build_clock K clock1 clock2 _ _ _ _ _ (by
      show (s.qh_qh.RANDOMoutside = false ∧ ¬ s.qh_qh.JOGGLEmax < sampleLib.REALmax / 2)
        ∨ (s.qh_qh.ROTATErandom ≠ -1 ∧ s.qh_qh.ROTATErandom ≠ 0)
      rw [hR, hJ, hS]
      exact hfixed)

theorem spec_nondegenerate_triangle (addr : Nat) :
    spec_nondegenerate 2 { addr := addr, cells := [0, 0, 1, 0, 0, 1] } (List.range (2 + 1))
      = true := by
  have hr : List.range (2 + 1) = [0, 1, 2] := rfl
  rw [hr]
  simp only [spec_nondegenerate, List.map, decide_eq_true_eq]
  have hp0 : spec_point 2 { addr := addr, cells := [0, 0, 1, 0, 0, 1] } 0 = [0, 0] := rfl
  have hp1 : spec_point 2 { addr := addr, cells := [0, 0, 1, 0, 0, 1] } 1 = [1, 0] := rfl
  have hp2 : spec_point 2 { addr := addr, cells := [0, 0, 1, 0, 0, 1] } 2 = [0, 1] := rfl
  rw [hp0, hp1, hp2]
  have hs1 : spec_sub [1, 0] [0, 0] = [(1 : realT) - 0, 0 - 0] := rfl
  have hs2 : spec_sub [0, 1] [0, 0] = [(0 : realT) - 0, 1 - 0] := rfl
  rw [hs1, hs2, spec_det_two]
  norm_num

/-- The computation of the specification with joggle-retry enabled and the time
as the seed, on three points of a line: the first attempt fails, the rerun
works on the input joggled from the seed `clock`. -/
theorem spec_qhull_joggle (clock : Int) (qh : QhullQh) (hdim : qh.hull_dim = 2)
    (hnum : qh.num_points = 3) (hpts : qh.first_point = collinear_points)
    (hJ : qh.JOGGLEmax = 0) (hR : qh.ROTATErandom = -1) (hO : qh.RANDOMoutside = false) :
    spec_qhull joggleKernel clock sampleLib.REALmax qh
      = spec_unwind (spec_attempt joggleKernel false clock qh 1) := by
  have hmax : (0 : realT) < sampleLib.REALmax / 2 := by
    simp only [sampleLib]
    positivity
  have hnd : spec_nondegenerate 2 qh.first_point (List.range (2 + 1)) = false := by
    rw [hpts]
    exact spec_nondegenerate_collinear _ 0 0 1 1 2 2 1 (-1) 0 (Or.inl one_ne_zero)
      (by norm_num) (by norm_num) (by norm_num)
  have hseed : spec_seed clock qh = clock := by simp [spec_seed, hR]
  have h0 : spec_attempt joggleKernel false clock qh 0 = .errexit qh_ERRsingular qh := by
    unfold spec_attempt
    simp only [if_true]
    rw [spec_initialhull_singular qh 2 hdim hnum hnd, andThen_errexit]
  have hm : joggleKernel.max_attempts = 1 := rfl
  unfold spec_qhull
  simp only [hJ, hmax, decide_True, if_true, hseed, hO, hm, spec_rerun, h0]
  rfl

theorem spec_attempt_joggle_one (qh : QhullQh) (hdim : qh.hull_dim = 2)
    (hnum : qh.num_points = 3) :
    ∃ s, spec_attempt joggleKernel false 1 qh 1 = .ret s
      ∧ s.qhull_status = qh.qhull_status := by
  have hval : spec_attempt joggleKernel false 1 qh 1
      = (spec_initialhull
          { qh with first_point := { addr := 8192, cells := [0, 0, 1, 0, 0, 1] } }).andThen
        (spec_buildhull joggleKernel false 1 joggleKernel.max_steps) := rfl
  have hi := spec_initialhull_simplex
    { qh with first_point := { addr := 8192, cells := [0, 0, 1, 0, 0, 1] } } 2 hdim hnum
    (spec_nondegenerate_triangle 8192)
  rw [hval, hi, andThen_ret]
  exact ⟨_, spec_buildhull_of_no_outside _ _ _ _ _ (spec_simplex_facets_outsideset _), rfl⟩

theorem spec_attempt_joggle_two (qh : QhullQh) (hdim : qh.hull_dim = 2)
    (hnum : qh.num_points = 3) :
    ∃ s, spec_attempt joggleKernel false 2 qh 1 = .errexit qh_ERRsingular s
      ∧ s.qhull_status = qh.qhull_status := by
  have hval : spec_attempt joggleKernel false 2 qh 1
      = (spec_initialhull
          { qh with first_point := { addr := 8192, cells := [0, 0, 1, 1, 2, 2] } }).andThen
        (spec_buildhull joggleKernel false 2 joggleKernel.max_steps) := rfl
  have hi := spec_initialhull_singular
    { qh with first_point := { addr := 8192, cells := [0, 0, 1, 1, 2, 2] } } 2 hdim hnum
    (spec_nondegenerate_collinear 8192 0 0 1 1 2 2 1 (-1) 0 (Or.inl one_ne_zero)
      (by norm_num) (by norm_num) (by norm_num))
  rw [hval, hi, andThen_errexit]
  exact ⟨_, rfl, rfl⟩

/-- With a randomized option and the time as the seed the result depends on the
time of the run: joggle-retry enabled (`QJ`) and seed by time (`QR-1`), on
three points of a line, with a joggle that yields a triangle for seed 1 only.
The run at time 1 returns a hull, the run at time 2 ends with
`SingularInputError`. -/
theorem runQhull_randomized_differs :
    (joggle_object.runQhull (specLib joggleKernel 1) [] 2 3 collinear_points []).2 = none
    ∧ (∃ e, (joggle_object.runQhull (specLib joggleKernel 2) [] 2 3 collinear_points []).2
        = some e ∧ e.code = qh_ERRsingular)
    ∧ joggle_object.runQhull (specLib joggleKernel 1) [] 2 3 collinear_points []
      ≠ joggle_object.runQhull (specLib joggleKernel 2) [] 2 3 collinear_points [] := by
  have hinit : ∀ q : Qhull, q.qh_qh.DELAUNAY = false →
      spec_init_B joggleKernel q.qh_qh collinear_points 3 2 false
        = .ret { q.qh_qh with first_point := collinear_points, num_points := 3, hull_dim := 2,
                              input_dim := 2, POINTSmalloc := false } :=
    fun q hq => spec_init_B_hull joggleKernel q.qh_qh collinear_points 3 2 false rfl hq
  have h1 : (joggle_object.runQhull (specLib joggleKernel 1) [] 2 3 collinear_points []).2
      = none := by
    have hq := spec_qhull_joggle 1
      { (joggle_object.runQhull_entry.runQhull_flags (specLib joggleKernel 1)
          ("qhull ".toList ++ []) []).state.qh_qh with
        first_point := collinear_points, num_points := 3, hull_dim := 2, input_dim := 2,
        POINTSmalloc := false } rfl rfl rfl rfl rfl rfl
    obtain ⟨s1, ha, hst⟩ := spec_attempt_joggle_one
      { (joggle_object.runQhull_entry.runQhull_flags (specLib joggleKernel 1)
          ("qhull ".toList ++ []) []).state.qh_qh with
        first_point := collinear_points, num_points := 3, hull_dim := 2, input_dim := 2,
        POINTSmalloc := false } rfl rfl
    rw [ha] at hq
    obtain ⟨s, hs, hsq, _⟩ := runQhull_build_spec_ret joggleKernel 1 _ collinear_points 3 2
      false _ _ (hinit _ rfl) hq
    have htry := runQhull_try_hull (specLib joggleKernel 1) joggle_object.runQhull_entry _ []
      ("qhull ".toList ++ []) 2 3 collinear_points rfl rfl
    refine (runQhull_spec_of_ret joggleKernel 1 joggle_object s [] [] 2 3 collinear_points
      rfl rfl (htry.trans hs)).2.2.2.2.2 ?_
    rw [hsq]
    exact hst
  have h2 : ∃ e, (joggle_object.runQhull (specLib joggleKernel 2) [] 2 3 collinear_points []).2
      = some e ∧ e.code = qh_ERRsingular := by
    have hq := spec_qhull_joggle 2
      { (joggle_object.runQhull_entry.runQhull_flags (specLib joggleKernel 2)
          ("qhull ".toList ++ []) []).state.qh_qh with
        first_point := collinear_points, num_points := 3, hull_dim := 2, input_dim := 2,
        POINTSmalloc := false } rfl rfl rfl rfl rfl rfl
    obtain ⟨s2, ha, hst⟩ := spec_attempt_joggle_two
      { (joggle_object.runQhull_entry.runQhull_flags (specLib joggleKernel 2)
          ("qhull ".toList ++ []) []).state.qh_qh with
        first_point := collinear_points, num_points := 3, hull_dim := 2, input_dim := 2,
        POINTSmalloc := false } rfl rfl
    rw [ha] at hq
    obtain ⟨s, hs, hsq, _⟩ := runQhull_build_spec_errexit joggleKernel 2 _ collinear_points 3 2
      false _ _ _ (hinit _ rfl) hq
    have htry := runQhull_try_hull (specLib joggleKernel 2) joggle_object.runQhull_entry _ []
      ("qhull ".toList ++ []) 2 3 collinear_points rfl rfl
    obtain ⟨_, _, _, _, e, he, hcode⟩ :=
      runQhull_spec_of_errexit joggleKernel 2 joggle_object s [] [] 2 3 collinear_points
        qh_ERRsingular rfl rfl (by decide) (htry.trans hs)
    refine ⟨e, he, hcode ?_⟩
    rw [hsq]
    exact hst
  refine ⟨h1, h2, fun heq => ?_⟩
  obtain ⟨e, he, _⟩ := h2
  rw [heq, he] at h1
  cases h1

/-! ## C23: `initializeFeasiblePoint` is executed at most once -/

theorem QH_TRY_added (P : List QhCall → Prop) (hnil : P []) (L : QhLib) (q : Qhull)
    (body : Qhull → QhExit Qhull)
    (hbody : ∀ s, ∃ l, (body s).state.calls = s.calls ++ l ∧ P l) :
    ∃ l, (q.QH_TRY_ L body).1.calls = q.calls ++ l ∧ P l := by
  cases hN : q.qh_qh.NOerrexit
  · rw [QH_TRY_of_not_NOerrexit L q body hN]
    split
    · obtain ⟨l, hl, hP⟩ := hbody q
      refine ⟨l, ?_, hP⟩
      cases hb : body q <;> simp [hb, QhExit.state] at hl ⊢ <;> exact hl
    · exact ⟨[], by simp, hnil⟩
  · rw [QH_TRY_of_NOerrexit L q body hN]
    obtain ⟨l, hl, hP⟩ := hbody { q with qh_qh := { q.qh_qh with NOerrexit := false } }
    refine ⟨l, ?_, hP⟩
    cases hb : body { q with qh_qh := { q.qh_qh with NOerrexit := false } } <;>
      simp [hb, QhExit.state] at hl ⊢ <;> exact hl

theorem sameCounts_refl (a : Qhull) : a.sameCounts a := ⟨rfl, rfl⟩

theorem sameCounts_trans (a b c : Qhull) (h₁ : a.sameCounts b) (h₂ : b.sameCounts c) :
    a.sameCounts c := ⟨h₂.1.trans h₁.1, h₂.2.trans h₁.2⟩

theorem sameCounts_of_calls (a b : Qhull) (h : b.calls = a.calls) : a.sameCounts b := by
  unfold Qhull.sameCounts Qhull.initializations Qhull.allocations
  rw [h]
  exact ⟨rfl, rfl⟩

theorem invoke_sameCounts (q : Qhull) (c : QhCall) (routine : QhullQh → QhExit QhullQh)
    (h1 : c.is_initializeFeasiblePoint = false) (h2 : c.is_qh_malloc = false) :
    q.sameCounts (q.invoke c routine).state := by
  unfold Qhull.sameCounts Qhull.initializations Qhull.allocations
  rw [invoke_calls]
  simp [List.countP_append, h1, h2]

theorem QH_TRY_sameCounts (L : QhLib) (q : Qhull) (body : Qhull → QhExit Qhull)
    (hbody : ∀ s : Qhull, s.sameCounts (body s).state) : q.sameCounts (q.QH_TRY_ L body).1 := by
  cases hN : q.qh_qh.NOerrexit
  · rw [QH_TRY_of_not_NOerrexit L q body hN]
    split
    · have := hbody q
      cases hb : body q <;> rw [hb] at this <;> exact this
    · exact sameCounts_refl q
  · rw [QH_TRY_of_NOerrexit L q body hN]
    have := hbody { q with qh_qh := { q.qh_qh with NOerrexit := false } }
    cases hb : body { q with qh_qh := { q.qh_qh with NOerrexit := false } } <;>
      rw [hb] at this <;> exact this

theorem finish_sameCounts (L : QhLib) (q s : Qhull) (status : Int) (h : q.sameCounts s) :
    q.sameCounts (s.setNOerrexit.maybeThrowQhullMessage L status).1 := h

theorem member_sameCounts (L : QhLib) (q : Qhull) (body : Qhull → QhExit Qhull)
    (hbody : ∀ s : Qhull, s.sameCounts (body s).state) :
    q.sameCounts
      ((q.QH_TRY_ L body).1.setNOerrexit.maybeThrowQhullMessage L (q.QH_TRY_ L body).2).1 :=
  finish_sameCounts L q _ _ (QH_TRY_sameCounts L q body hbody)

theorem area_sameCounts (L : QhLib) (q : Qhull) : q.sameCounts (q.area L).1 := by
  cases hinit : L.initialized q
  · simp [Qhull.area, checkIfQhullInitialized_false L q hinit, sameCounts_refl]
  · cases hA : q.qh_qh.hasAreaVolume
    · rw [(area_unfold L q hinit hA).1]
      exact member_sameCounts L q _ fun s => invoke_sameCounts _ _ _ rfl rfl
    · rw [area_cached L q hinit hA]
      exact sameCounts_refl q

theorem volume_sameCounts (L : QhLib) (q : Qhull) : q.sameCounts (q.volume L).1 := by
  cases hinit : L.initialized q
  · simp [Qhull.volume, checkIfQhullInitialized_false L q hinit, sameCounts_refl]
  · cases hA : q.qh_qh.hasAreaVolume
    · rw [(volume_unfold L q hinit hA).1]
      exact member_sameCounts L q _ fun s => invoke_sameCounts _ _ _ rfl rfl
    · rw [volume_cached L q hinit hA]
      exact sameCounts_refl q

theorem defineVertexNeighborFacets_sameCounts (L : QhLib) (q : Qhull) :
    q.sameCounts (q.defineVertexNeighborFacets L).1 := by
  cases hinit : L.initialized q
  · simp [Qhull.defineVertexNeighborFacets, checkIfQhullInitialized_false L q hinit,
      sameCounts_refl]
  · cases hA : q.qh_qh.hasAreaVolume
    · rw [defineVertexNeighborFacets_unfold L q hinit hA]
      exact member_sameCounts L q _ fun s => invoke_sameCounts _ _ _ rfl rfl
    · rw [defineVertexNeighborFacets_hasAreaVolume L q hinit hA]
      exact sameCounts_refl q

theorem outputQhull_sameCounts (L : QhLib) (q : Qhull) : q.sameCounts (q.outputQhull L).1 := by
  cases hinit : L.initialized q
  · simp [Qhull.outputQhull, checkIfQhullInitialized_false L q hinit, sameCounts_refl]
  · simp only [Qhull.outputQhull, checkIfQhullInitialized_true L q hinit]
    exact member_sameCounts L q _ fun s => invoke_sameCounts _ _ _ rfl rfl

theorem outputQhull_try_sameCounts (L : QhLib) (command : cstring) (q : Qhull) :
    q.sameCounts (q.outputQhull_try L command).state := by
  unfold Qhull.outputQhull_try
  refine andThen_rel Qhull.sameCounts sameCounts_trans q _ _
    (invoke_sameCounts _ _ _ rfl rfl) fun s => ?_
  simp only
  refine andThen_rel Qhull.sameCounts sameCounts_trans s _ _
    (invoke_sameCounts _ _ _ rfl rfl) fun s => ?_
  refine andThen_rel Qhull.sameCounts sameCounts_trans s _ _
    (invoke_sameCounts _ _ _ rfl rfl) fun s => ?_
  refine andThen_rel Qhull.sameCounts sameCounts_trans s _ _
    (invoke_sameCounts _ _ _ rfl rfl) fun s => ?_
  refine andThen_rel Qhull.sameCounts sameCounts_trans s _ _ ?_ fun s => ?_
  · split
    · exact invoke_sameCounts _ _ _ rfl rfl
    · exact sameCounts_refl s
  refine andThen_rel Qhull.sameCounts sameCounts_trans s _ _
    (invoke_sameCounts _ _ _ rfl rfl) fun s => ?_
  split
  · exact invoke_sameCounts _ _ _ rfl rfl
  · exact sameCounts_refl s

theorem outputQhull_flags_sameCounts (L : QhLib) (q : Qhull) (outputflags : cstring) :
    q.sameCounts (q.outputQhull_flags L outputflags).1 := by
  cases hinit : L.initialized q
  · simp [Qhull.outputQhull_flags, checkIfQhullInitialized_false L q hinit, sameCounts_refl]
  · simp only [Qhull.outputQhull_flags, checkIfQhullInitialized_true L q hinit]
    exact member_sameCounts L q _ (outputQhull_try_sameCounts L _)

theorem prepareVoronoi_vertices_sameCounts (L : QhLib) (vertex_list : List vertexT)
    (q : Qhull) : q.sameCounts (Qhull.prepareVoronoi_vertices L vertex_list q).state := by
  induction vertex_list generalizing q with
  | nil => exact sameCounts_refl q
  | cons vertex rest ih =>
    cases rest with
    | nil => exact sameCounts_refl q
    | cons next rest =>
      simp only [Qhull.prepareVoronoi_vertices]
      exact andThen_rel Qhull.sameCounts sameCounts_trans q _ _
        (invoke_sameCounts _ _ _ rfl rfl) fun s => ih s

theorem prepareVoronoi_sameCounts (L : QhLib) (q : Qhull) :
    q.sameCounts (q.prepareVoronoi L).1 := by
  simp only [Qhull.prepareVoronoi]
  refine member_sameCounts L q _ fun s => ?_
  unfold Qhull.prepareVoronoi_try
  refine andThen_rel Qhull.sameCounts sameCounts_trans s _ _
    (invoke_sameCounts _ _ _ rfl rfl) fun s => ?_
  refine andThen_rel Qhull.sameCounts sameCounts_trans s _ _
    (prepareVoronoi_vertices_sameCounts L _ s) fun s => ?_
  exact invoke_sameCounts _ _ _ rfl rfl

theorem runQhull_flags_sameCounts (L : QhLib) (command inputComment2 : cstring) (q : Qhull) :
    q.sameCounts (q.runQhull_flags L command inputComment2).state := by
  unfold Qhull.runQhull_flags
  refine andThen_rel Qhull.sameCounts sameCounts_trans q _ _
    (invoke_sameCounts _ _ _ rfl rfl) fun s => ?_
  refine andThen_rel Qhull.sameCounts sameCounts_trans s _ _
    (invoke_sameCounts _ _ _ rfl rfl) fun s => ?_
  simp only
  split <;> exact sameCounts_of_calls _ _ rfl

theorem runQhull_build_sameCounts (L : QhLib) (q : Qhull) (newPoints : pointArray)
    (pointCount newDimension : Int) (newIsMalloc : Bool) :
    q.sameCounts (q.runQhull_build L newPoints pointCount newDimension newIsMalloc).state := by
  unfold Qhull.runQhull_build
  refine andThen_rel Qhull.sameCounts sameCounts_trans q _ _
    (invoke_sameCounts _ _ _ rfl rfl) fun s => ?_
  refine andThen_rel Qhull.sameCounts sameCounts_trans s _ _
    (invoke_sameCounts _ _ _ rfl rfl) fun s => ?_
  refine andThen_rel Qhull.sameCounts sameCounts_trans s _ _
    (invoke_sameCounts _ _ _ rfl rfl) fun s => ?_
  refine andThen_rel Qhull.sameCounts sameCounts_trans s _ _
    (invoke_sameCounts _ _ _ rfl rfl) fun s => ?_
  split
  · exact invoke_sameCounts _ _ _ rfl rfl
  · exact sameCounts_refl s

/-- One execution of `initializeFeasiblePoint` is recorded as one execution, with
at most one allocation. -/
theorem initializeFeasiblePoint_counts (L : QhLib) (q : Qhull) (hulldim : Int) :
    (q.initializeFeasiblePoint L hulldim).state.initializations = q.initializations + 1
    ∧ (q.initializeFeasiblePoint L hulldim).state.allocations ≤ q.allocations + 1 := by
  unfold Qhull.initializeFeasiblePoint
  simp only
  split
  · unfold Qhull.initializations Qhull.allocations
    rw [invoke_calls]
    simp [List.countP_append, QhCall.is_initializeFeasiblePoint, QhCall.is_qh_malloc]
  · split
    · simp [Qhull.initializations, Qhull.allocations, Qhull.qh_fprintf, Qhull.qh_errexit,
        QhExit.state, List.countP_append, List.countP_cons, QhCall.is_initializeFeasiblePoint,
        QhCall.is_qh_malloc]
    · split
      · simp [Qhull.initializations, Qhull.allocations, Qhull.qh_fprintf, Qhull.qh_errexit,
          QhExit.state, List.countP_append, List.countP_cons,
          QhCall.is_initializeFeasiblePoint, QhCall.is_qh_malloc]
      · split
        · simp [Qhull.initializations, Qhull.allocations, Qhull.qh_fprintf, Qhull.qh_errexit,
            QhExit.state, List.countP_append, List.countP_cons,
            QhCall.is_initializeFeasiblePoint, QhCall.is_qh_malloc]
        · simp [Qhull.initializations, Qhull.allocations, QhExit.state, List.countP_append,
            List.countP_cons, QhCall.is_initializeFeasiblePoint, QhCall.is_qh_malloc]

theorem runQhull_halfspace_counts (L : QhLib) (q : Qhull) (pd pc : Int) (pts : pointArray) :
    (q.runQhull_halfspace L pd pc pts).state.initializations = q.initializations + 1
    ∧ (q.runQhull_halfspace L pd pc pts).state.allocations ≤ q.allocations + 1 := by
  have hi := initializeFeasiblePoint_counts L q (pd - 1)
  simp only [Qhull.runQhull_halfspace]
  cases h : q.initializeFeasiblePoint L (pd - 1) with
  | errexit e s =>
    rw [h] at hi
    exact hi
  | ret s =>
    rw [h] at hi
    rw [andThen_ret]
    have hrest : s.sameCounts
        ((s.invoke
            (.qh_sethalfspace_all pd pc pts s.qh_qh.feasible_point)
            (fun qh => L.qh_sethalfspace_all qh pd pc pts qh.feasible_point)).andThen fun q =>
          q.runQhull_build L
            (L.qh_sethalfspace_all_result s.qh_qh pd pc pts s.qh_qh.feasible_point) pc (pd - 1)
            true).state :=
      andThen_rel Qhull.sameCounts sameCounts_trans s _ _
        (invoke_sameCounts _ _ _ rfl rfl) fun s' => runQhull_build_sameCounts L s' _ _ _ _
    rw [hrest.1, hrest.2]
    exact hi

/-- The block of Qhull.cpp:312-336 executes `initializeFeasiblePoint` once when
the flags are parsed with `qh.HALFspace` set, and not at all otherwise. -/
theorem runQhull_try_counts (L : QhLib) (command cmt : cstring) (pd pc : Int)
    (pts : pointArray) (q : Qhull) :
    (q.runQhull_try L command cmt pd pc pts).state.initializations
      = q.initializations
        + (match q.runQhull_flags L command cmt with
          | .ret s => if s.qh_qh.HALFspace then 1 else 0
          | .errexit _ _ => 0)
    ∧ (q.runQhull_try L command cmt pd pc pts).state.allocations ≤ q.allocations + 1 := by
  have hf := runQhull_flags_sameCounts L command cmt q
  simp only [Qhull.runQhull_try]
  cases h : q.runQhull_flags L command cmt with
  | errexit e s =>
    rw [h] at hf
    rw [andThen_errexit]
    exact ⟨hf.1, by rw [hf.2]; exact Nat.le_succ _⟩
  | ret s =>
    rw [h] at hf
    rw [andThen_ret]
    cases hH : s.qh_qh.HALFspace with
    | true =>
      have hh := runQhull_halfspace_counts L s pd pc pts
      simp only [hH, if_true]
      refine ⟨?_, ?_⟩
      · rw [hh.1]
        exact congrArg (fun n => n + 1) hf.1
      · refine hh.2.trans ?_
        rw [show s.allocations = q.allocations from hf.2]
    | false =>
      have hb := runQhull_build_sameCounts L s pts pc pd false
      simp only [hH, Bool.false_eq_true, if_false]
      refine ⟨?_, ?_⟩
      · rw [hb.1]
        exact hf.1
      · rw [hb.2, show s.allocations = q.allocations from hf.2]
        exact Nat.le_succ _

theorem QH_TRY_counts (L : QhLib) (q : Qhull) (body : Qhull → QhExit Qhull)
    (hbody : ∀ s : Qhull, (body s).state.initializations ≤ s.initializations + 1
      ∧ (body s).state.allocations ≤ s.allocations + 1) :
    (q.QH_TRY_ L body).1.initializations ≤ q.initializations + 1
    ∧ (q.QH_TRY_ L body).1.allocations ≤ q.allocations + 1 := by
  cases hN : q.qh_qh.NOerrexit
  · rw [QH_TRY_of_not_NOerrexit L q body hN]
    split
    · have := hbody q
      cases hb : body q <;> rw [hb] at this <;> exact this
    · exact ⟨Nat.le_succ _, Nat.le_succ _⟩
  · rw [QH_TRY_of_NOerrexit L q body hN]
    have := hbody { q with qh_qh := { q.qh_qh with NOerrexit := false } }
    cases hb : body { q with qh_qh := { q.qh_qh with NOerrexit := false } } <;>
      rw [hb] at this <;> exact this

/-- A call of `runQhull` on an object on which `runQhull` was called changes no
count; a first call executes `initializeFeasiblePoint` at most once. -/
theorem runQhull_counts (L : QhLib) (q : Qhull) (cmt : cstring) (pd pc : Int)
    (pts : pointArray) (cmd : cstring) :
    (q.run_called = true → q.sameCounts (q.runQhull L cmt pd pc pts cmd).1)
    ∧ (q.runQhull L cmt pd pc pts cmd).1.initializations ≤ q.initializations + 1
    ∧ (q.runQhull L cmt pd pc pts cmd).1.allocations ≤ q.allocations + 1 := by
  cases hrc : q.run_called
  · refine ⟨fun h => Bool.noConfusion h, ?_⟩
    have hP := QH_TRY_counts L { q with run_called := true }
      (Qhull.runQhull_try L ("qhull ".toList ++ cmd) cmt pd pc pts) fun s => by
        have h := runQhull_try_counts L ("qhull ".toList ++ cmd) cmt pd pc pts s
        refine ⟨?_, h.2⟩
        rw [h.1]
        apply Nat.add_le_add_left
        split
        · split
          · exact Nat.le_refl _
          · exact Nat.zero_le _
        · exact Nat.zero_le _
    simp only [Qhull.runQhull, hrc, Bool.false_eq_true, if_false]
    exact hP
  · rw [runQhull_called L q _ _ _ _ _ hrc]
    exact ⟨fun _ => sameCounts_refl q, Nat.le_succ _, Nat.le_succ _⟩

theorem step_counts (L : QhLib) (q : Qhull) (op : Op)
    (h : q.initializations ≤ 1 ∧ q.allocations ≤ 1
      ∧ (q.run_called = false → q.initializations = 0 ∧ q.allocations = 0)) :
    (q.step L op).initializations ≤ 1 ∧ (q.step L op).allocations ≤ 1
    ∧ ((q.step L op).run_called = false →
        (q.step L op).initializations = 0 ∧ (q.step L op).allocations = 0) := by
  have hrun : ∀ c d n p cmd,
      (q.runQhull L c d n p cmd).1.initializations ≤ 1
      ∧ (q.runQhull L c d n p cmd).1.allocations ≤ 1
      ∧ ((q.runQhull L c d n p cmd).1.run_called = false →
          (q.runQhull L c d n p cmd).1.initializations = 0
          ∧ (q.runQhull L c d n p cmd).1.allocations = 0) := by
    intro c d n p cmd
    have hc := runQhull_counts L q c d n p cmd
    have hset := runQhull_run_called L q c d n p cmd
    refine ⟨?_, ?_, fun hf => by rw [hset] at hf; cases hf⟩
    · cases hrc : q.run_called
      · have h0 := (h.2.2 hrc).1
        rw [h0] at hc
        exact hc.2.1
      · rw [(hc.1 hrc).1]
        exact h.1
    · cases hrc : q.run_called
      · have h0 := (h.2.2 hrc).2
        rw [h0] at hc
        exact hc.2.2
      · rw [(hc.1 hrc).2]
        exact h.2.1
  have hsame : ∀ s : Qhull, q.sameCounts s → s.run_called = q.run_called →
      s.initializations ≤ 1 ∧ s.allocations ≤ 1
      ∧ (s.run_called = false → s.initializations = 0 ∧ s.allocations = 0) := by
    intro s hs hr
    rw [hs.1, hs.2, hr]
    exact h
  cases op with
  | runQhull c d n p cmd => exact hrun c d n p cmd
  | runQhull_rbox r cmd => exact hrun _ _ _ _ cmd
  | setFeasiblePoint c => exact h
  | feasiblePoint => exact h
  | area => exact hsame _ (area_sameCounts L q) (step_run_called_eq L q .area rfl)
  | volume => exact hsame _ (volume_sameCounts L q) (step_run_called_eq L q .volume rfl)
  | defineVertexNeighborFacets =>
    exact hsame _ (defineVertexNeighborFacets_sameCounts L q)
      (step_run_called_eq L q .defineVertexNeighborFacets rfl)
  | outputQhull =>
    exact hsame _ (outputQhull_sameCounts L q) (step_run_called_eq L q .outputQhull rfl)
  | outputQhull_flags f =>
    exact hsame _ (outputQhull_flags_sameCounts L q f)
      (step_run_called_eq L q (.outputQhull_flags f) rfl)
  | prepareVoronoi =>
    exact hsame _ (prepareVoronoi_sameCounts L q) (step_run_called_eq L q .prepareVoronoi rfl)

theorem steps_counts (L : QhLib) (ops : List Op) (q : Qhull)
    (h : q.initializations ≤ 1 ∧ q.allocations ≤ 1
      ∧ (q.run_called = false → q.initializations = 0 ∧ q.allocations = 0)) :
    (q.steps L ops).initializations ≤ 1 ∧ (q.steps L ops).allocations ≤ 1 := by
  induction ops generalizing q with
  | nil => exact ⟨h.1, h.2.1⟩
  | cons op rest ih => exact ih (q.step L op) (step_counts L q op h)

theorem step_sameCounts_of_run_called (L : QhLib) (q : Qhull) (op : Op)
    (h : q.run_called = true) : q.sameCounts (q.step L op) := by
  cases op with
  | runQhull c d n p cmd => exact (runQhull_counts L q c d n p cmd).1 h
  | runQhull_rbox r cmd => exact (runQhull_counts L q _ _ _ _ cmd).1 h
  | setFeasiblePoint c => exact sameCounts_refl q
  | feasiblePoint => exact sameCounts_refl q
  | area => exact area_sameCounts L q
  | volume => exact volume_sameCounts L q
  | defineVertexNeighborFacets => exact defineVertexNeighborFacets_sameCounts L q
  | outputQhull => exact outputQhull_sameCounts L q
  | outputQhull_flags f => exact outputQhull_flags_sameCounts L q f
  | prepareVoronoi => exact prepareVoronoi_sameCounts L q

theorem steps_sameCounts_of_run_called (L : QhLib) (ops : List Op) (q : Qhull)
    (h : q.run_called = true) : q.sameCounts (q.steps L ops) := by
  induction ops generalizing q with
  | nil => exact sameCounts_refl q
  | cons op rest ih =>
    exact sameCounts_trans _ _ _ (step_sameCounts_of_run_called L q op h)
      (ih (q.step L op) (step_run_called L q op h))

theorem allocateQhullQh_counts (L : QhLib) :
    (Qhull.members.allocateQhullQh L).1.initializations = 0
    ∧ (Qhull.members.allocateQhullQh L).1.allocations = 0 := by
  unfold Qhull.allocateQhullQh
  simp only
  split <;> exact ⟨rfl, rfl⟩

theorem Qhull_default_counts (L : QhLib) (q0 : Qhull) (h : Qhull.Qhull_default L = .ok q0) :
    q0.initializations = 0 ∧ q0.allocations = 0 := by
  have ha := allocateQhullQh_counts L
  unfold Qhull.Qhull_default at h
  split at h
  · cases h
  · next q hq =>
    cases h
    rw [hq] at ha
    exact ha

theorem Qhull_points_counts (L : QhLib) (c : cstring) (d n : Int) (p : pointArray)
    (cmd : cstring) (qc : Qhull) (h : Qhull.Qhull_points L c d n p cmd = .ok qc) :
    qc.initializations ≤ 1 ∧ qc.allocations ≤ 1 := by
  have ha := allocateQhullQh_counts L
  unfold Qhull.Qhull_points at h
  split at h
  · cases h
  · next q hq =>
    rw [hq] at ha
    have hc := runQhull_counts L q c d n p cmd
    split at h
    · cases h
    · next q1 hq1 =>
      cases h
      rw [hq1, ha.1, ha.2] at hc
      exact hc.2

theorem Qhull_rbox_counts (L : QhLib) (r : RboxPoints) (cmd : cstring) (qc : Qhull)
    (h : Qhull.Qhull_rbox L r cmd = .ok qc) :
    qc.initializations ≤ 1 ∧ qc.allocations ≤ 1 := by
  have ha := allocateQhullQh_counts L
  unfold Qhull.Qhull_rbox Qhull.runQhull_rbox at h
  split at h
  · cases h
  · next q hq =>
    rw [hq] at ha
    have hc := runQhull_counts L q r.comment r.dimension r.count r.coordinates cmd
    split at h
    · cases h
    · next q1 hq1 =>
      cases h
      rw [hq1, ha.1, ha.2] at hc
      exact hc.2

/-- Claim C23.  `initializeFeasiblePoint` is executed at most once on one
object.  After any of the three constructors and any sequence of calls of the
public members (`runQhull` in both overloads, `setFeasiblePoint`,
`feasiblePoint`, `area`, `volume`, `defineVertexNeighborFacets`, `outputQhull`
in both overloads, `prepareVoronoi`), whether they return or throw, the record
of the object holds at most one execution of `initializeFeasiblePoint` and at
most one call of `qh_malloc`, the allocation of `qh.feasible_point` at
Qhull.cpp:363.  Once `runQhull` was called no member executes it again; a first
call of `runQhull` executes it once when the flags are parsed with
`qh.HALFspace` set and not at all otherwise. -/
theorem initializeFeasiblePoint_once (L : QhLib) (ops : List Op) :
    (∀ q0, Qhull.Qhull_default L = .ok q0 →
      (q0.steps L ops).initializations ≤ 1 ∧ (q0.steps L ops).allocations ≤ 1)
    ∧ (∀ c d n p cmd qc, Qhull.Qhull_points L c d n p cmd = .ok qc →
      (qc.steps L ops).initializations ≤ 1 ∧ (qc.steps L ops).allocations ≤ 1)
    ∧ (∀ r cmd qc, Qhull.Qhull_rbox L r cmd = .ok qc →
      (qc.steps L ops).initializations ≤ 1 ∧ (qc.steps L ops).allocations ≤ 1)
    ∧ (∀ q : Qhull, q.run_called = true →
      (q.steps L ops).initializations = q.initializations
      ∧ (q.steps L ops).allocations = q.allocations)
    ∧ (∀ (q : Qhull) cmt pd pc pts cmd, q.run_called = false → q.qh_qh.NOerrexit = true →
      (q.runQhull L cmt pd pc pts cmd).1.initializations
        = q.initializations
          + (match q.runQhull_entry.runQhull_flags L ("qhull ".toList ++ cmd) cmt with
            | .ret s => if s.qh_qh.HALFspace then 1 else 0
            | .errexit _ _ => 0)) := by
  refine ⟨fun q0 h0 => ?_, fun c d n p cmd qc hqc => ?_, fun r cmd qc hqc => ?_,
    fun q hq => steps_sameCounts_of_run_called L ops q hq, ?_⟩
  · have h := Qhull_default_counts L q0 h0
    exact steps_counts L ops q0 ⟨by rw [h.1]; exact Nat.zero_le _, by rw [h.2]; exact Nat.zero_le _,
      fun _ => h⟩
  · have h := Qhull_points_counts L c d n p cmd qc hqc
    have hrc := Qhull_points_run_called L c d n p cmd qc hqc
    exact steps_counts L ops qc ⟨h.1, h.2, fun hf => by rw [hrc] at hf; cases hf⟩
  · have h := Qhull_rbox_counts L r cmd qc hqc
    have hrc := Qhull_rbox_run_called L r cmd qc hqc
    exact steps_counts L ops qc ⟨h.1, h.2, fun hf => by rw [hrc] at hf; cases hf⟩
  · intro q cmt pd pc pts cmd hrc hne
    have hs := (runQhull_first_state L q cmt cmd pd pc pts hrc hne).1
    have ht := (runQhull_try_counts L ("qhull ".toList ++ cmd) cmt pd pc pts q.runQhull_entry).1
    unfold Qhull.initializations at ht ⊢
    rw [hs, ht]
    rfl

/-- Witness of C23: a default-constructed object, given a feasible point, runs a
halfspace intersection, which executes `initializeFeasiblePoint` once and
allocates once; the calls that follow, a second `runQhull` among them, execute
it no more. -/
theorem initializeFeasiblePoint_once_witness :
    Qhull.Qhull_default sampleLib = .ok Qhull.members
    ∧ (Qhull.members.steps sampleLib
        [.setFeasiblePoint [1, 2], .runQhull [] 3 4 {} "H".toList]).initializations = 1
    ∧ (Qhull.members.steps sampleLib
        [.setFeasiblePoint [1, 2], .runQhull [] 3 4 {} "H".toList]).allocations = 1
    ∧ (Qhull.members.steps sampleLib
        [.setFeasiblePoint [1, 2], .runQhull [] 3 4 {} "H".toList, .area,
          .runQhull [] 3 4 {} "H".toList, .prepareVoronoi]).initializations ≤ 1
    ∧ ((Qhull.members.steps sampleLib
          [.setFeasiblePoint [1, 2], .runQhull [] 3 4 {} "H".toList]).steps sampleLib
        [.area, .runQhull [] 3 4 {} "H".toList, .prepareVoronoi]).initializations
      = (Qhull.members.steps sampleLib
          [.setFeasiblePoint [1, 2], .runQhull [] 3 4 {} "H".toList]).initializations :=
  ⟨rfl, rfl, rfl, ((initializeFeasiblePoint_once sampleLib _).1 Qhull.members rfl).1,
    ((initializeFeasiblePoint_once sampleLib _).2.2.2.1 _ rfl).1⟩

/-! ## The incorporation step of the specification: the lists -/
theorem spec_findhorizon_walk_spec (outside : Nat → Bool) (neighbors : Nat → List Nat)
    (fuel : Nat) : ∀ (stack visible : List Nat), visible.Nodup →
      (∀ v ∈ visible, outside v = true) →
      (spec_findhorizon_walk outside neighbors fuel stack visible).Nodup
        ∧ ∀ v ∈ spec_findhorizon_walk outside neighbors fuel stack visible, outside v = true := by
  induction fuel with
  | zero =>
    intro stack visible hnd hout
    exact ⟨hnd, hout⟩
  | succ fuel ih =>
    intro stack visible hnd hout
    cases stack with
    | nil => exact ⟨hnd, hout⟩
    | cons facet stack =>
      simp only [spec_findhorizon_walk]
      by_cases hc : (visible.contains facet || !outside facet) = true
      · rw [if_pos hc]
        exact ih stack visible hnd hout
      · rw [if_neg hc]
        simp at hc
        apply ih
        · rw [List.nodup_append]
          refine ⟨hnd, List.nodup_singleton _, ?_⟩
          intro a ha hb
          rw [List.mem_singleton] at hb
          subst hb
          simp_all
        · intro v hv
          rw [List.mem_append, List.mem_singleton] at hv
          rcases hv with hv | rfl
          · exact hout v hv
          · simp_all

theorem spec_facet_some (facets : List facetT) (id : Nat) (g : facetT)
    (h : spec_facet facets id = some g) : g ∈ facets ∧ g.id = id := by
  unfold spec_facet at h
  have h1 := List.find?_some h
  exact ⟨List.mem_of_find?_eq_some h, by simpa using h1⟩

/-- The visible facets of `FindHorizon` are distinct facets of the facet list. -/
theorem spec_visible_spec (qh : QhullQh) (facet p : Nat) :
    (spec_visible qh facet p).Nodup
      ∧ ∀ v ∈ spec_visible qh facet p, ∃ g ∈ qh.facet_list.dropLast, g.id = v := by
  have h := spec_findhorizon_walk_spec
    (fun f => match spec_facet qh.facet_list.dropLast f with
      | some g => decide (0 < spec_facetdist qh g p)
      | none => false)
    (fun f => ((spec_facet qh.facet_list.dropLast f).map fun g => g.neighbors).getD [])
    (qh.facet_list.dropLast.length * (qh.hull_dim.toNat + 1) + 1) [facet] [] List.nodup_nil
    (fun v hv => absurd hv (List.not_mem_nil v))
  refine ⟨h.1, fun v hv => ?_⟩
  have h2 := h.2 v hv
  cases hf : spec_facet qh.facet_list.dropLast v with
  | none => simp [hf] at h2
  | some g => exact ⟨g, spec_facet_some _ _ _ hf⟩

theorem spec_facet_of_mem (facets : List facetT) (id : Nat) (h : ∃ g ∈ facets, g.id = id) :
    ∃ g, spec_facet facets id = some g := by
  obtain ⟨g, hg, hid⟩ := h
  cases hf : spec_facet facets id with
  | some g1 => exact ⟨g1, rfl⟩
  | none =>
    unfold spec_facet at hf
    rw [List.find?_eq_none] at hf
    have := hf g hg
    simp [hid] at this

theorem spec_appendvisible_concat (F : List facetT) (t : facetT) (v : Nat) (g : facetT)
    (hg : spec_facet F v = some g) :
    spec_appendvisible (F ++ [t]) v
      = (F.filter (fun f => f.id != v) ++ [{ g with visible := true }]) ++ [t] := by
  unfold spec_appendvisible
  rw [List.dropLast_concat, hg]
  simp

theorem spec_facet_filter_ne (F : List facetT) (v w : Nat) (g1 : facetT) (hne : w ≠ v) :
    spec_facet (F.filter (fun f => f.id != v) ++ [g1]) w
      = (spec_facet F w).or (if g1.id = w then some g1 else none) := by
  unfold spec_facet
  rw [List.find?_append, List.find?_filter]
  have e : (fun a : facetT => decide ((a.id != v) = true ∧ (a.id == w) = true))
      = fun a => a.id == w := by
    funext a
    by_cases h : a.id = w
    · simp [h, hne]
    · simp [h]
  rw [e]
  congr 1
  by_cases h : g1.id = w
  · simp [h]
  · simp [h]

/-- The facet list after the visible facets `V` have been moved to its end. -/
theorem foldl_appendvisible (V : List Nat) : ∀ (F : List facetT) (t : facetT), V.Nodup →
    (∀ v ∈ V, ∃ g ∈ F, g.id = v) →
    V.foldl spec_appendvisible (F ++ [t])
      = F.filter (fun f => !V.contains f.id)
        ++ V.filterMap (fun v => (spec_facet F v).map fun f : facetT => { f with visible := true })
        ++ [t] := by
  induction V with
  | nil =>
    intro F t _ _
    simp
  | cons v V ih =>
    intro F t hnd hmem
    obtain ⟨g, hg⟩ := spec_facet_of_mem F v (hmem v (List.mem_cons_self v V))
    have hgid : g.id = v := (spec_facet_some F v g hg).2
    rw [List.foldl_cons, spec_appendvisible_concat F t v g hg]
    have hv : v ∉ V := (List.nodup_cons.1 hnd).1
    rw [ih _ t (List.nodup_cons.1 hnd).2]
    · have e1 : (F.filter (fun f : facetT => f.id != v) ++ [{ g with visible := true }]).filter
          (fun f : facetT => !V.contains f.id)
          = F.filter (fun f : facetT => !(v :: V).contains f.id)
            ++ [{ g with visible := true }] := by
        rw [List.filter_append, List.filter_filter]
        congr 1
        · apply List.filter_congr
          intro f _
          by_cases h1 : f.id ∈ V <;> by_cases h2 : f.id = v <;> simp [h1, h2]
        · simp [hgid, hv]
      have e2 : V.filterMap (fun w =>
            (spec_facet (F.filter (fun f => f.id != v) ++ [{ g with visible := true }]) w).map
              fun f : facetT => { f with visible := true })
          = V.filterMap (fun w =>
            (spec_facet F w).map fun f : facetT => { f with visible := true }) := by
        apply List.filterMap_congr
        intro w hw
        have hne : w ≠ v := fun h => hv (h ▸ hw)
        obtain ⟨g2, hg2⟩ := spec_facet_of_mem F w (hmem w (List.mem_cons_of_mem v hw))
        rw [spec_facet_filter_ne F v w _ hne, hg2]
        rfl
      rw [e1, e2, List.filterMap_cons, hg]
      simp
    · intro w hw
      have hne : w ≠ v := fun h => hv (h ▸ hw)
      obtain ⟨g2, hg2, hid⟩ := hmem w (List.mem_cons_of_mem v hw)
      refine ⟨g2, ?_, hid⟩
      rw [List.mem_append]
      left
      rw [List.mem_filter]
      exact ⟨hg2, by simp [hid, hne]⟩

theorem dropWhile_append_of_forall {α : Type} (p : α → Bool) (l1 l2 : List α)
    (h : ∀ a ∈ l1, p a = true) : (l1 ++ l2).dropWhile p = l2.dropWhile p := by
  induction l1 with
  | nil => rfl
  | cons a l1 ih =>
    rw [List.cons_append, List.dropWhile_cons, h a (List.mem_cons_self a l1)]
    exact ih fun b hb => h b (List.mem_cons_of_mem a hb)

theorem takeWhile_append_of_forall {α : Type} (p : α → Bool) (l1 l2 : List α)
    (h : ∀ a ∈ l1, p a = true) : (l1 ++ l2).takeWhile p = l1 ++ l2.takeWhile p := by
  induction l1 with
  | nil => rfl
  | cons a l1 ih =>
    rw [List.cons_append, List.takeWhile_cons, h a (List.mem_cons_self a l1)]
    simp only [if_true, List.cons_append]
    rw [ih fun b hb => h b (List.mem_cons_of_mem a hb)]

/-- The visible facets as they are moved: the facets with the ids `V`, marked. -/
theorem visible_facets_spec (F : List facetT) (V : List Nat) (h : ∀ v ∈ V, ∃ g ∈ F, g.id = v) :
    (V.filterMap fun v => (spec_facet F v).map fun f : facetT => { f with visible := true }).map
        (fun f => f.id) = V
      ∧ ∀ g ∈ V.filterMap fun v =>
          (spec_facet F v).map fun f : facetT => { f with visible := true },
        ∃ f ∈ F, f.id ∈ V ∧ g = { f with visible := true } := by
  constructor
  · induction V with
    | nil => rfl
    | cons v V ih =>
      obtain ⟨g, hg⟩ := spec_facet_of_mem F v (h v (List.mem_cons_self v V))
      rw [List.filterMap_cons, hg]
      simp only [Option.map_some', List.map_cons]
      rw [ih fun w hw => h w (List.mem_cons_of_mem v hw), (spec_facet_some F v g hg).2]
  · intro g hg
    rw [List.mem_filterMap] at hg
    obtain ⟨v, hv, hg⟩ := hg
    cases hf : spec_facet F v with
    | none => simp [hf] at hg
    | some f =>
      rw [hf] at hg
      have hfs := spec_facet_some F v f hf
      refine ⟨f, hfs.1, hfs.2 ▸ hv, ?_⟩
      simpa using hg.symm

/-- The facet list after `FindHorizon`: the facets that are not visible in
their order, then the visible facets, marked, then the sentinel. -/
theorem spec_findhorizon_shape (qh : QhullQh) (facet p : Nat) (F : List facetT) (t : facetT)
    (h : qh.facet_list = F ++ [t]) :
    ∃ Vf, (spec_findhorizon qh facet p).facet_list
        = F.filter (fun f => !(spec_visible qh facet p).contains f.id) ++ Vf ++ [t]
      ∧ Vf.map (fun f => f.id) = spec_visible qh facet p
      ∧ ∀ g ∈ Vf, ∃ f ∈ F, f.id ∈ spec_visible qh facet p ∧ g = { f with visible := true } := by
  have hV := spec_visible_spec qh facet p
  rw [h, List.dropLast_concat] at hV
  have hs := visible_facets_spec F (spec_visible qh facet p) hV.2
  refine ⟨_, ?_, hs.1, hs.2⟩
  show (spec_visible qh facet p).foldl spec_appendvisible qh.facet_list = _
  rw [h]
  exact foldl_appendvisible _ F t hV.1 hV.2

theorem filter_visible_append (R Vf : List facetT) (hR : ∀ f ∈ R, f.visible = false)
    (hV : ∀ f ∈ Vf, f.visible = true) :
    (R ++ Vf).filter (fun f => f.visible) = Vf
      ∧ (R ++ Vf).filter (fun f => !f.visible) = R := by
  constructor
  · rw [List.filter_append, List.filter_eq_nil_iff.2 (fun f hf => by simp [hR f hf]),
      List.filter_eq_self.2 hV, List.nil_append]
  · rw [List.filter_append, List.filter_eq_self.2 (fun f hf => by simp [hR f hf]),
      List.filter_eq_nil_iff.2 (fun f hf => by simp [hV f hf]), List.append_nil]

theorem spec_attachhorizon_visible (V : List Nat) (N : List facetT) (f : facetT)
    (h : f.visible = true) : spec_attachhorizon V N f = f := by
  simp [spec_attachhorizon, h]

/-- The state after `BuildCone`, when it returns: the facets that are not
visible, linked to the new facets, then the visible facets, then the new
facets, linked to each other, then the sentinel. -/
theorem spec_makecone_shape (qh1 : QhullQh) (p : Nat) (R Vf : List facetT) (t : facetT)
    (s : QhullQh) (h : qh1.facet_list = R ++ Vf ++ [t]) (hR : ∀ f ∈ R, f.visible = false)
    (hV : ∀ f ∈ Vf, f.visible = true) (hs : spec_makecone qh1 p = .ret s) :
    s.facet_list
        = R.map (spec_attachhorizon (Vf.map fun f => f.id)
            (spec_makenewfacets (R ++ Vf) qh1.facet_id qh1.vertex_id))
          ++ Vf
          ++ (spec_makenewfacets (R ++ Vf) qh1.facet_id qh1.vertex_id).map
              (spec_matchnewfacets (spec_makenewfacets (R ++ Vf) qh1.facet_id qh1.vertex_id))
          ++ [t]
      ∧ ((spec_makenewfacets (R ++ Vf) qh1.facet_id qh1.vertex_id).all fun n =>
          n.vertices.tail.all fun r =>
            (spec_opposite (spec_makenewfacets (R ++ Vf) qh1.facet_id qh1.vertex_id) n r).isSome)
          = true
      ∧ s.facet_id
          = qh1.facet_id + (spec_makenewfacets (R ++ Vf) qh1.facet_id qh1.vertex_id).length
      ∧ s.vertex_id = qh1.vertex_id + 1 ∧ s.hull_dim = qh1.hull_dim
      ∧ s.newfacet_list
          = (((spec_makenewfacets (R ++ Vf) qh1.facet_id qh1.vertex_id).head?).map
              fun n => n.id).getD 0
      ∧ s.visible_list
          = if qh1.visible_list = 0 then
              (((spec_makenewfacets (R ++ Vf) qh1.facet_id qh1.vertex_id).head?).map
                fun n => n.id).getD 0
            else qh1.visible_list := by
  have hd : qh1.facet_list.dropLast = R ++ Vf := by rw [h, List.dropLast_concat]
  have hl : qh1.facet_list.getLast?.toList = [t] := by rw [h]; simp
  have hf := filter_visible_append R Vf hR hV
  unfold spec_makecone at hs
  simp only [hd, hl, hf.1] at hs
  split at hs
  · rename_i hc
    injection hs with hs
    subst hs
    refine ⟨?_, hc, rfl, rfl, rfl, rfl, rfl⟩
    show List.map _ (R ++ Vf) ++ _ ++ [t] = _
    rw [List.map_append]
    congr 2
    congr 1
    exact List.map_congr_left (fun f hf => spec_attachhorizon_visible _ _ f (hV f hf)) |>.trans
      (List.map_id _)
  · cases hs

theorem dropWhile_of_head (L : List facetT) (v : Nat)
    (h : L.head?.map (fun f => f.id) = some v) : L.dropWhile (fun f => f.id != v) = L := by
  cases L with
  | nil => simp at h
  | cons a L =>
    simp only [List.head?_cons, Option.map_some', Option.some.injEq] at h
    simp [List.dropWhile_cons, h]

theorem takeWhile_of_forall_not (L : List facetT) (h : ∀ f ∈ L, f.visible = false) :
    L.takeWhile (fun f => f.visible) = [] := by
  cases L with
  | nil => rfl
  | cons a L => simp [List.takeWhile_cons, h a (List.mem_cons_self a L)]

/-- The layout of a facet list that consists of facets without flags, then
visible facets, then new facets, then the sentinel, when `qh.visible_list` and
`qh.newfacet_list` are the ids of the first facets of their lists. -/
theorem spec_makenewfacets_mem (G : List facetT) (fid apex : Nat) (n : facetT) :
    n ∈ spec_makenewfacets G fid apex ↔
      ∃ i, i < (spec_horizon G).length
        ∧ n = spec_newfacet fid apex i ((spec_horizon G).getD i (0, [])) := by
  unfold spec_makenewfacets
  rw [List.mem_map]
  constructor
  · rintro ⟨i, hi, rfl⟩
    exact ⟨i, List.mem_range.1 hi, rfl⟩
  · rintro ⟨i, hi, rfl⟩
    exact ⟨i, List.mem_range.2 hi, rfl⟩

theorem spec_makenewfacets_flags (G : List facetT) (fid apex : Nat) (n : facetT)
    (hn : n ∈ spec_makenewfacets G fid apex) :
    fid ≤ n.id ∧ n.visible = false ∧ n.newfacet = true ∧ n.simplicial = true := by
  obtain ⟨i, _, rfl⟩ := (spec_makenewfacets_mem G fid apex n).1 hn
  exact ⟨Nat.le_add_right fid i, rfl, rfl, rfl⟩

theorem spec_attachhorizon_fields (V : List Nat) (N : List facetT) (f : facetT) :
    (spec_attachhorizon V N f).id = f.id ∧ (spec_attachhorizon V N f).vertices = f.vertices
      ∧ (spec_attachhorizon V N f).visible = f.visible
      ∧ (spec_attachhorizon V N f).newfacet = f.newfacet
      ∧ (spec_attachhorizon V N f).simplicial = f.simplicial := by
  unfold spec_attachhorizon
  split
  · exact ⟨rfl, rfl, rfl, rfl, rfl⟩
  · split <;> exact ⟨rfl, rfl, rfl, rfl, rfl⟩

theorem ne_headD_of_not_mem (V : List Nat) (a : Nat) (h : a ∉ V) (h0 : 0 < a) :
    a ≠ V.headD 0 := by
  cases V with
  | nil =>
    intro h1
    simp only [List.headD_nil] at h1
    omega
  | cons v V => exact fun h1 => h (h1 ▸ List.mem_cons_self v V)

theorem head_visible_facets (Vf : List facetT) (N : List facetT) (t : facetT) (V : List Nat)
    (hV : Vf.map (fun f => f.id) = V) (hN : N = []) (ht : t.id = 0) :
    (Vf ++ N ++ [t]).head?.map (fun f => f.id) = some (V.headD 0) := by
  subst hV hN
  cases Vf with
  | nil => simp [ht]
  | cons g Vf => simp

theorem head_id_ne (P S : List facetT) (t : facetT) (x : Nat)
    (hnd : ((P ++ S).map fun f => f.id).Nodup) (hpos : ∀ f ∈ P, 0 < f.id) (ht : t.id = 0)
    (hx : (S ++ [t]).head?.map (fun f => f.id) = some x) : ∀ f ∈ P, f.id ≠ x := by
  intro f hf
  cases S with
  | nil =>
    simp only [List.nil_append, List.head?_cons, Option.map_some', Option.some.injEq] at hx
    have := hpos f hf
    omega
  | cons a S =>
    simp only [List.cons_append, List.head?_cons, Option.map_some', Option.some.injEq] at hx
    rw [List.map_append, List.nodup_append] at hnd
    intro hfa
    exact hnd.2.2 (List.mem_map_of_mem (fun f => f.id) hf)
      (by rw [hfa, ← hx]; exact List.mem_map_of_mem (fun f => f.id) (List.mem_cons_self a S))

theorem segments_dropLast (qh : QhullQh) (A V N : List facetT) (t : facetT)
    (h : qh.segments A V N t) : qh.facet_list.dropLast = A ++ V ++ N := by
  rw [h.1, List.dropLast_concat]

theorem segments_getLast (qh : QhullQh) (A V N : List facetT) (t : facetT)
    (h : qh.segments A V N t) : qh.facet_list.getLast? = some t := by
  rw [h.1, List.getLast?_concat]

theorem segments_live (qh : QhullQh) (A V N : List facetT) (t : facetT)
    (h : qh.segments A V N t) : qh.live = A ++ N := by
  obtain ⟨hl, -, -, -, -, -, hA, hV, hN, -, -⟩ := h
  unfold QhullQh.live
  rw [hl, List.dropLast_concat, List.filter_append, List.filter_append,
    List.filter_eq_self.2 (fun f hf => by simp [(hA f hf).1]),
    List.filter_eq_nil_iff.2 (fun f hf => by simp [hV f hf]),
    List.filter_eq_self.2 (fun f hf => by simp [(hN f hf).2]), List.append_nil]

theorem segments_facetsFrom_visible (qh : QhullQh) (A V N : List facetT) (t : facetT)
    (h : qh.segments A V N t) : qh.facetsFrom qh.visible_list = V ++ N ++ [t] := by
  obtain ⟨hl, ht, -, -, hnd, hpos, hA, hV, hN, hvis, hnew⟩ := h
  unfold QhullQh.facetsFrom
  rw [hl, List.append_assoc (A ++ V) N [t], List.append_assoc A V (N ++ [t]),
    dropWhile_append_of_forall _ A _, ← List.append_assoc V N [t], dropWhile_of_head _ _ hvis]
  intro f hf
  have := head_id_ne A (V ++ N) t qh.visible_list (by rwa [← List.append_assoc])
    (fun f hf => hpos f (by simp [hf])) ht hvis f hf
  simpa using this

theorem segments_facetsFrom_newfacet (qh : QhullQh) (A V N : List facetT) (t : facetT)
    (h : qh.segments A V N t) : qh.facetsFrom qh.newfacet_list = N ++ [t] := by
  obtain ⟨hl, ht, -, -, hnd, hpos, hA, hV, hN, hvis, hnew⟩ := h
  unfold QhullQh.facetsFrom
  rw [hl, List.append_assoc (A ++ V) N [t],
    dropWhile_append_of_forall _ (A ++ V) _, dropWhile_of_head _ _ hnew]
  intro f hf
  have := head_id_ne (A ++ V) N t qh.newfacet_list hnd
    (fun f hf => hpos f (by simp only [List.mem_append] at hf ⊢; tauto)) ht hnew f hf
  simpa using this

theorem segments_visibles (qh : QhullQh) (A V N : List facetT) (t : facetT)
    (h : qh.segments A V N t) : qh.visibles = V := by
  unfold QhullQh.visibles
  rw [segments_facetsFrom_visible qh A V N t h]
  obtain ⟨hl, ht, htv, -, hnd, hpos, hA, hV, hN, hvis, hnew⟩ := h
  rw [List.append_assoc V N [t], takeWhile_append_of_forall _ V _ (fun f hf => hV f hf),
    takeWhile_of_forall_not, List.append_nil]
  intro f hf
  rcases List.mem_append.1 hf with hf | hf
  · exact (hN f hf).2
  · rw [List.mem_singleton.1 hf]
    exact htv

theorem segments_newfacets (qh : QhullQh) (A V N : List facetT) (t : facetT)
    (h : qh.segments A V N t) : qh.newfacets = N := by
  unfold QhullQh.newfacets
  rw [segments_facetsFrom_newfacet qh A V N t h, List.dropLast_concat]

/-- A facet list in segments is well formed and has the sublist layout. -/
theorem lists_ok_of_segments (qh : QhullQh) (A V N : List facetT) (t : facetT)
    (h : qh.segments A V N t) : qh.lists_ok := by
  have hd := segments_dropLast qh A V N t h
  have hg := segments_getLast qh A V N t h
  have hfv := segments_facetsFrom_visible qh A V N t h
  have hfn := segments_facetsFrom_newfacet qh A V N t h
  have hvs := segments_visibles qh A V N t h
  have hns := segments_newfacets qh A V N t h
  obtain ⟨hl, ht, htv, htn, hnd, hpos, hA, hV, hN, hvis, hnew⟩ := h
  refine ⟨⟨?_, ?_, ?_⟩, ?_, ?_, ?_, ?_, ?_⟩
  · rw [hg]
    simp [ht, htv, htn]
  · rw [hd]
    exact hnd
  · rw [hd]
    exact hpos
  · rw [hd, hfv, List.filter_append, List.filter_append,
      List.filter_eq_self.2 (fun f hf => by simp [(hA f hf).1, (hA f hf).2]),
      List.filter_eq_nil_iff.2 (fun f hf => by simp [hV f hf]),
      List.filter_eq_nil_iff.2 (fun f hf => by simp [(hN f hf).1]), List.append_nil,
      List.append_nil, hl]
    simp
  · rw [hfv, hvs, hfn]
    simp
  · rw [hfn, hns, hg]
    rfl
  · rw [hvs]
    exact hV
  · rw [hns]
    exact hN

theorem head_dropWhile_id (L : List facetT) (x : Nat) (a : facetT)
    (h : (L.dropWhile fun f => f.id != x).head? = some a) : a.id = x := by
  induction L with
  | nil => simp at h
  | cons b L ih =>
    rw [List.dropWhile_cons] at h
    split at h
    · exact ih h
    · rename_i hb
      simp only [List.head?_cons, Option.some.injEq] at h
      subst h
      simpa using hb

/-- A well-formed facet list with the sublist layout is in segments: the
facets without a flag, the visible list, the new-facet list, the sentinel. -/
theorem segments_of_lists_ok (qh : QhullQh) (h : qh.lists_ok) :
    ∃ t, qh.segments (qh.facet_list.dropLast.filter fun f => !f.visible && !f.newfacet)
      qh.visibles qh.newfacets t := by
  obtain ⟨⟨hlast, hnd, hpos⟩, h1, h2, h3, h4, h5⟩ := h
  cases hg : qh.facet_list.getLast? with
  | none => rw [hg] at hlast; simp at hlast
  | some t =>
    rw [hg] at hlast h3
    simp only [Option.map_some', Option.some.injEq, Prod.mk.injEq] at hlast
    simp only [Option.toList] at h3
    have hl : qh.facet_list
        = (qh.facet_list.dropLast.filter fun f => !f.visible && !f.newfacet)
          ++ qh.visibles ++ qh.newfacets ++ [t] := by
      conv_lhs => rw [h1, h2, h3]
      simp
    have hd : qh.facet_list.dropLast
        = (qh.facet_list.dropLast.filter fun f => !f.visible && !f.newfacet)
          ++ qh.visibles ++ qh.newfacets := by
      conv_lhs => rw [hl, List.dropLast_concat]
    refine ⟨t, hl, hlast.1, hlast.2.1, hlast.2.2, ?_, ?_, ?_, h4, h5, ?_, ?_⟩
    · rw [← hd]
      exact hnd
    · rw [← hd]
      exact hpos
    · intro f hf
      have := (List.mem_filter.1 hf).2
      simpa using this
    · have e : qh.visibles ++ qh.newfacets ++ [t] = qh.facetsFrom qh.visible_list := by
        rw [h2, h3]
        simp
      rw [e]
      cases hh : (qh.facetsFrom qh.visible_list).head? with
      | none =>
        rw [← e] at hh
        simp at hh
      | some a =>
        rw [Option.map_some', head_dropWhile_id qh.facet_list qh.visible_list a hh]
    · rw [← h3]
      cases hh : (qh.facetsFrom qh.newfacet_list).head? with
      | none =>
        rw [h3] at hh
        simp at hh
      | some a =>
        rw [Option.map_some', head_dropWhile_id qh.facet_list qh.newfacet_list a hh]

theorem eq_of_id_eq_of_nodup (F : List facetT) (hnd : (F.map fun f => f.id).Nodup)
    (a b : facetT) (ha : a ∈ F) (hb : b ∈ F) (h : a.id = b.id) : a = b :=
  List.inj_on_of_nodup_map hnd ha hb h

theorem spec_facet_eq_of_nodup (F : List facetT) (hnd : (F.map fun f => f.id).Nodup)
    (a : facetT) (ha : a ∈ F) : spec_facet F a.id = some a := by
  obtain ⟨g, hg⟩ := spec_facet_of_mem F a.id ⟨a, ha, rfl⟩
  have h1 := spec_facet_some F a.id g hg
  rw [hg, eq_of_id_eq_of_nodup F hnd g a h1.1 ha h1.2]

theorem filter_id_ne_of_forall (F : List facetT) (id : Nat) (h : ∀ f ∈ F, f.id ≠ id) :
    F.filter (fun f => f.id != id) = F :=
  List.filter_eq_self.2 fun f hf => by simpa using h f hf

theorem nodup_map_filter (F : List facetT) (p : facetT → Bool)
    (hnd : (F.map fun f => f.id).Nodup) : ((F.filter p).map fun f => f.id).Nodup :=
  hnd.sublist ((List.filter_sublist F).map _)

/-- Taking a facet that is not on the visible list out of a facet list in
segments. -/
theorem segments_removefacet (qh : QhullQh) (A V N : List facetT) (t : facetT) (id : Nat)
    (h : qh.segments A V N t) (hid : 0 < id) (hV : ∀ f ∈ V, f.id ≠ id) :
    (spec_removefacet qh id).segments (A.filter fun f => f.id != id) V
      (N.filter fun f => f.id != id) t := by
  have hd := segments_dropLast qh A V N t h
  have hg := segments_getLast qh A V N t h
  obtain ⟨hl, ht, htv, htn, hnd, hpos, hA, hV1, hN, hvis, hnew⟩ := h
  have hsub : (A.filter (fun f => f.id != id) ++ V ++ N.filter fun f => f.id != id).Sublist
      (A ++ V ++ N) :=
    ((List.filter_sublist A).append (List.Sublist.refl V)).append (List.filter_sublist N)
  -- the new-facet pointer
  have hnew2 : ((N.filter fun f => f.id != id) ++ [t]).head?.map (fun f => f.id)
      = some (if qh.newfacet_list = id then
          (((qh.facetsFrom id).tail.head?).map fun f => f.id).getD 0 else qh.newfacet_list) := by
    cases N with
    | nil =>
      simp only [List.nil_append, List.head?_cons, Option.map_some', Option.some.injEq] at hnew
      have : ¬ qh.newfacet_list = id := by omega
      rw [if_neg this, ← hnew]
      rfl
    | cons n N1 =>
      simp only [List.cons_append, List.head?_cons, Option.map_some', Option.some.injEq] at hnew
      by_cases hn : n.id = id
      · have hnd1 := hnd
        rw [List.map_append, List.nodup_append] at hnd1
        have hN1 : ∀ f ∈ N1, f.id ≠ id := by
          intro f hf hfi
          have h2 := hnd1.2.1
          simp only [List.map_cons, List.nodup_cons] at h2
          exact h2.1 (by rw [hn, ← hfi]; exact List.mem_map_of_mem (fun f => f.id) hf)
        have hAV : ∀ f ∈ A ++ V, f.id ≠ id := by
          intro f hf hfi
          exact hnd1.2.2 (List.mem_map_of_mem (fun f => f.id) hf)
            (by rw [hfi, ← hn]; exact List.mem_map_of_mem (fun f => f.id) (List.mem_cons_self n N1))
        have hfrom : qh.facetsFrom id = n :: N1 ++ [t] := by
          unfold QhullQh.facetsFrom
          rw [hl, List.append_assoc (A ++ V) _ [t], dropWhile_append_of_forall _ (A ++ V) _
            (fun f hf => by simpa using hAV f hf)]
          simp [List.dropWhile_cons, hn]
        rw [hfrom, List.filter_cons, filter_id_ne_of_forall N1 id hN1]
        simp only [hn, bne_self_eq_false, Bool.false_eq_true, if_false, ← hnew, if_true,
          List.cons_append, List.tail_cons]
        cases N1 <;> simp
      · have : ¬ qh.newfacet_list = id := by rw [← hnew]; exact hn
        simp [List.filter_cons, hn, this, hnew]
  refine ⟨?_, ht, htv, htn, ?_, ?_, ?_, hV1, ?_, ?_, hnew2⟩
  · show qh.facet_list.dropLast.filter (fun f => f.id != id) ++ qh.facet_list.getLast?.toList = _
    rw [hd, hg, List.filter_append, List.filter_append, filter_id_ne_of_forall V id hV]
    rfl
  · exact hnd.sublist (hsub.map _)
  · exact fun f hf => hpos f (hsub.subset hf)
  · exact fun f hf => hA f (List.mem_of_mem_filter hf)
  · exact fun f hf => hN f (List.mem_of_mem_filter hf)
  · show _ = some (if qh.visible_list = id then _ else qh.visible_list)
    cases V with
    | nil =>
      simp only [List.nil_append] at hvis ⊢
      have e : qh.visible_list = qh.newfacet_list := by
        rw [hvis] at hnew
        exact Option.some.inj hnew
      rw [e]
      exact hnew2
    | cons v V1 =>
      simp only [List.cons_append, List.head?_cons, Option.map_some', Option.some.injEq] at hvis
      have : ¬ qh.visible_list = id := by
        rw [← hvis]
        exact hV v (List.mem_cons_self v V1)
      simp [this, hvis]

/-- Putting a visible facet in front of the visible list of a facet list in
segments. -/
theorem segments_prependvisible (qh : QhullQh) (A V N : List facetT) (t : facetT) (f : facetT)
    (h : qh.segments A V N t) (hid : 0 < f.id) (hf : f.visible = true)
    (hfresh : ∀ g ∈ A ++ V ++ N, g.id ≠ f.id) :
    (spec_prependvisible qh f).segments A (f :: V) N t := by
  have hfv := segments_facetsFrom_visible qh A V N t h
  obtain ⟨hl, ht, htv, htn, hnd, hpos, hA, hV1, hN, hvis, hnew⟩ := h
  have hAne := head_id_ne A (V ++ N) t qh.visible_list (by rwa [← List.append_assoc])
    (fun f hf => hpos f (by simp [hf])) ht hvis
  refine ⟨?_, ht, htv, htn, ?_, ?_, hA, ?_, hN, ?_, hnew⟩
  · show (qh.facet_list.takeWhile fun f => f.id != qh.visible_list) ++ [f]
      ++ qh.facetsFrom qh.visible_list = _
    rw [hfv, hl, List.append_assoc (A ++ V) N [t], List.append_assoc A V (N ++ [t]),
      takeWhile_append_of_forall _ A _ (fun g hg => by simpa using hAne g hg)]
    have : (V ++ (N ++ [t])).takeWhile (fun f => f.id != qh.visible_list) = [] := by
      rw [← List.append_assoc]
      cases hh : V ++ N ++ [t] with
      | nil => rfl
      | cons a L =>
        rw [hh] at hvis
        simp only [List.head?_cons, Option.map_some', Option.some.injEq] at hvis
        simp [List.takeWhile_cons, hvis]
    rw [this]
    simp
  · have e : (A ++ f :: V ++ N).Perm (f :: (A ++ V ++ N)) := by
      simp only [List.append_assoc]
      exact List.perm_middle
    rw [(e.map _).nodup_iff, List.map_cons, List.nodup_cons]
    refine ⟨?_, hnd⟩
    intro hm
    obtain ⟨g, hg, hgi⟩ := List.mem_map.1 hm
    exact hfresh g hg hgi
  · intro g hg
    simp only [List.mem_append, List.mem_cons] at hg
    rcases hg with (hg | hg | hg) | hg
    · exact hpos g (by simp [hg])
    · rw [hg]; exact hid
    · exact hpos g (by simp [hg])
    · exact hpos g (by simp [hg])
  · intro g hg
    rcases List.mem_cons.1 hg with hg | hg
    · rw [hg]; exact hf
    · exact hV1 g hg
  · simp [spec_prependvisible]

/-- Putting a new facet at the end of a facet list in segments. -/
theorem segments_appendfacet (qh : QhullQh) (A V N : List facetT) (t : facetT) (f : facetT)
    (h : qh.segments A V N t) (hid : 0 < f.id) (hf : f.newfacet = true ∧ f.visible = false)
    (hfresh : ∀ g ∈ A ++ V ++ N, g.id ≠ f.id) :
    (spec_appendfacet qh f).segments A V (N ++ [f]) t := by
  have hd := segments_dropLast qh A V N t h
  have hg := segments_getLast qh A V N t h
  obtain ⟨hl, ht, htv, htn, hnd, hpos, hA, hV1, hN, hvis, hnew⟩ := h
  have hnew2 : (N ++ [f] ++ [t]).head?.map (fun f => f.id)
      = some (if qh.newfacet_list = 0 then f.id else qh.newfacet_list) := by
    cases N with
    | nil =>
      simp only [List.nil_append, List.head?_cons, Option.map_some', Option.some.injEq] at hnew
      simp [← hnew, ht]
    | cons n N1 =>
      simp only [List.cons_append, List.head?_cons, Option.map_some', Option.some.injEq] at hnew
      have := hpos n (by simp)
      have : ¬ qh.newfacet_list = 0 := by omega
      simp [this, hnew]
  refine ⟨?_, ht, htv, htn, ?_, ?_, hA, hV1, ?_, ?_, hnew2⟩
  · show qh.facet_list.dropLast ++ [f] ++ qh.facet_list.getLast?.toList = _
    rw [hd, hg]
    simp
  · rw [← List.append_assoc, List.map_append, List.nodup_append]
    refine ⟨hnd, by simp, ?_⟩
    intro x hx hx2
    simp only [List.map_cons, List.map_nil, List.mem_singleton] at hx2
    obtain ⟨g, hg, hgi⟩ := List.mem_map.1 hx
    exact hfresh g hg (hgi.trans hx2)
  · intro g hg
    rw [← List.append_assoc] at hg
    rcases List.mem_append.1 hg with hg | hg
    · exact hpos g hg
    · rw [List.mem_singleton.1 hg]; exact hid
  · intro g hg
    rcases List.mem_append.1 hg with hg | hg
    · exact hN g hg
    · rw [List.mem_singleton.1 hg]; exact hf
  · show _ = some (if qh.visible_list = 0 then f.id else qh.visible_list)
    cases V with
    | nil =>
      simp only [List.nil_append] at hvis ⊢
      have e : qh.visible_list = qh.newfacet_list := by
        rw [hvis] at hnew
        exact Option.some.inj hnew
      rw [e]
      exact hnew2
    | cons v V1 =>
      simp only [List.cons_append, List.head?_cons, Option.map_some', Option.some.injEq] at hvis
      have := hpos v (by simp)
      have : ¬ qh.visible_list = 0 := by omega
      simp [this, hvis]

/-- A change of the facets that keeps ids and flags keeps the segments. -/
theorem segments_map (qh s : QhullQh) (A V N : List facetT) (t : facetT) (g : facetT → facetT)
    (h : qh.segments A V N t)
    (hg : ∀ f ∈ qh.facet_list, (g f).id = f.id ∧ (g f).visible = f.visible
      ∧ (g f).newfacet = f.newfacet)
    (hl : s.facet_list = qh.facet_list.map g) (hv : s.visible_list = qh.visible_list)
    (hn : s.newfacet_list = qh.newfacet_list) :
    s.segments (A.map g) (V.map g) (N.map g) (g t) := by
  obtain ⟨hl1, ht, htv, htn, hnd, hpos, hA, hV1, hN, hvis, hnew⟩ := h
  have hmem : ∀ f ∈ A ++ V ++ N ++ [t], (g f).id = f.id ∧ (g f).visible = f.visible
      ∧ (g f).newfacet = f.newfacet := by rwa [← hl1]
  have hidmap : ∀ L : List facetT, (∀ f ∈ L, f ∈ A ++ V ++ N ++ [t]) →
      (L.map g).map (fun f => f.id) = L.map fun f => f.id := by
    intro L hL
    rw [List.map_map]
    exact List.map_congr_left fun f hf => (hmem f (hL f hf)).1
  have hhead : ∀ L : List facetT, (∀ f ∈ L, f ∈ A ++ V ++ N ++ [t]) →
      (L.map g).head?.map (fun f => f.id) = L.head?.map fun f => f.id := by
    intro L hL
    cases L with
    | nil => rfl
    | cons a L => simp [(hmem a (hL a (List.mem_cons_self a L))).1]
  refine ⟨?_, ?_, ?_, ?_, ?_, ?_, ?_, ?_, ?_, ?_, ?_⟩
  · rw [hl, hl1]
    simp
  · rw [(hmem t (by simp)).1, ht]
  · rw [(hmem t (by simp)).2.1, htv]
  · rw [(hmem t (by simp)).2.2, htn]
  · rw [← List.map_append, ← List.map_append, hidmap _ (fun f hf => by simp at hf ⊢; tauto)]
    exact hnd
  · intro f hf
    rw [← List.map_append, ← List.map_append] at hf
    obtain ⟨f0, hf0, rfl⟩ := List.mem_map.1 hf
    rw [(hmem f0 (by simp at hf0 ⊢; tauto)).1]
    exact hpos f0 hf0
  · intro f hf
    obtain ⟨f0, hf0, rfl⟩ := List.mem_map.1 hf
    have := hmem f0 (by simp [hf0])
    rw [this.2.1, this.2.2]
    exact hA f0 hf0
  · intro f hf
    obtain ⟨f0, hf0, rfl⟩ := List.mem_map.1 hf
    have := hmem f0 (by simp [hf0])
    rw [this.2.1]
    exact hV1 f0 hf0
  · intro f hf
    obtain ⟨f0, hf0, rfl⟩ := List.mem_map.1 hf
    have := hmem f0 (by simp [hf0])
    rw [this.2.1, this.2.2]
    exact hN f0 hf0
  · rw [hv, ← hvis]
    have := hhead (V ++ N ++ [t]) (fun f hf => by simp at hf ⊢; tauto)
    simpa using this
  · rw [hn, ← hnew]
    have := hhead (N ++ [t]) (fun f hf => by simp at hf ⊢; tauto)
    simpa using this

theorem spec_makeridges_fields (f : facetT) :
    (spec_makeridges f).id = f.id ∧ (spec_makeridges f).vertices = f.vertices
      ∧ (spec_makeridges f).neighbors = f.neighbors
      ∧ (spec_makeridges f).visible = f.visible ∧ (spec_makeridges f).newfacet = f.newfacet
      ∧ (spec_makeridges f).simplicial = false := by
  unfold spec_makeridges
  split
  · exact ⟨rfl, rfl, rfl, rfl, rfl, rfl⟩
  · rename_i h
    exact ⟨rfl, rfl, rfl, rfl, rfl, by simpa using h⟩

theorem segments_not_visible_ne (qh : QhullQh) (A V N : List facetT) (t : facetT) (f : facetT)
    (h : qh.segments A V N t) (hf : f ∈ A ++ N) : ∀ g ∈ V, g.id ≠ f.id := by
  obtain ⟨hl, ht, htv, htn, hnd, hpos, hA, hV1, hN, hvis, hnew⟩ := h
  intro g hg hgi
  have e := eq_of_id_eq_of_nodup (A ++ V ++ N) hnd g f (by simp [hg])
    (by simp only [List.mem_append] at hf ⊢; tauto) hgi
  have hv := hV1 g hg
  rw [e] at hv
  rcases List.mem_append.1 hf with hf | hf
  · rw [(hA f hf).1] at hv; cases hv
  · rw [(hN f hf).2] at hv; cases hv

theorem segments_spec_facet (qh : QhullQh) (A V N : List facetT) (t : facetT) (f : facetT)
    (h : qh.segments A V N t) (hf : f ∈ A ++ V ++ N) :
    spec_facet qh.facet_list.dropLast f.id = some f := by
  rw [segments_dropLast qh A V N t h]
  exact spec_facet_eq_of_nodup _ h.2.2.2.2.1 f hf

/-- A facet that is not visible becomes visible and moves to the front of the
visible list. -/
theorem segments_willdelete (qh : QhullQh) (A V N : List facetT) (t : facetT) (f : facetT)
    (id : Nat) (h : qh.segments A V N t) (hf : f ∈ A ++ N) (hfid : f.id = id) :
    (spec_willdelete qh id).segments (A.filter fun g => g.id != id)
      ({ f with visible := true } :: V) (N.filter fun g => g.id != id) t := by
  subst hfid
  have hmem : f ∈ A ++ V ++ N := by simp only [List.mem_append] at hf ⊢; tauto
  have hVne := segments_not_visible_ne qh A V N t f h hf
  have hpos : 0 < f.id := h.2.2.2.2.2.1 f hmem
  unfold spec_willdelete
  rw [segments_spec_facet qh A V N t f h hmem]
  refine segments_prependvisible _ _ _ _ _ _
    (segments_removefacet qh A V N t f.id h hpos hVne) hpos rfl ?_
  intro g hg
  simp only [List.mem_append, List.mem_filter] at hg
  rcases hg with (hg | hg) | hg
  · simpa using hg.2
  · exact hVne g hg
  · simpa using hg.2

/-- A facet that is not visible moves to the end of the new-facet list. -/
theorem segments_tonewfacet (qh : QhullQh) (A V N : List facetT) (t : facetT) (f : facetT)
    (id : Nat) (h : qh.segments A V N t) (hf : f ∈ A ++ N) (hfid : f.id = id) :
    (spec_tonewfacet qh id).segments (A.filter fun g => g.id != id) V
      ((N.filter fun g => g.id != id) ++ [{ f with newfacet := true }]) t := by
  subst hfid
  have hmem : f ∈ A ++ V ++ N := by simp only [List.mem_append] at hf ⊢; tauto
  have hVne := segments_not_visible_ne qh A V N t f h hf
  have hpos : 0 < f.id := h.2.2.2.2.2.1 f hmem
  have hvis : f.visible = false := by
    rcases List.mem_append.1 hf with hf | hf
    · exact (h.2.2.2.2.2.2.1 f hf).1
    · exact (h.2.2.2.2.2.2.2.2.1 f hf).2
  unfold spec_tonewfacet
  rw [segments_spec_facet qh A V N t f h hmem]
  refine segments_appendfacet _ _ _ _ _ _
    (segments_removefacet qh A V N t f.id h hpos hVne) hpos ⟨rfl, hvis⟩ ?_
  intro g hg
  simp only [List.mem_append, List.mem_filter] at hg
  rcases hg with (hg | hg) | hg
  · simpa using hg.2
  · exact hVne g hg
  · simpa using hg.2

theorem filter_map_rewire (L : List facetT) (g : facetT → facetT) (x y : Nat)
    (hgid : ∀ f ∈ L, (g f).id = f.id)
    (hg : ∀ f ∈ L, f.id ≠ x → f.id ≠ y → g f = spec_rewire x y f) :
    ((L.map g).filter fun f => f.id != x).filter (fun f => f.id != y)
      = (L.filter fun f => f.id != x && f.id != y).map (spec_rewire x y) := by
  induction L with
  | nil => rfl
  | cons a L ih =>
    have ih1 := ih (fun f hf => hgid f (List.mem_cons_of_mem a hf))
      (fun f hf => hg f (List.mem_cons_of_mem a hf))
    have ha := hgid a (List.mem_cons_self a L)
    by_cases hx : a.id = x
    · simp only [List.map_cons, List.filter_cons, ha, hx, bne_self_eq_false, Bool.false_eq_true,
        if_false, Bool.false_and]
      exact ih1
    · by_cases hy : a.id = y
      · simp only [List.map_cons, List.filter_cons, ha, hy, bne_self_eq_false,
          Bool.false_eq_true, if_false, Bool.and_false]
        split
        · simp only [List.filter_cons, ha, hy, bne_self_eq_false, Bool.false_eq_true, if_false]
          exact ih1
        · exact ih1
      · have h1 : (a.id != x) = true := by simpa using hx
        have h2 : (a.id != y) = true := by simpa using hy
        simp only [List.map_cons, List.filter_cons, ha, h1, h2, if_true, Bool.and_self,
          List.cons.injEq]
        exact ⟨hg a (List.mem_cons_self a L) hx hy, ih1⟩

theorem filter_filter_id (L : List facetT) (x y : Nat) :
    (L.filter fun f => f.id != x).filter (fun f => f.id != y)
      = L.filter fun f => f.id != x && f.id != y := by
  rw [List.filter_filter]
  congr 1
  funext f
  exact Bool.and_comm _ _

/-- The merge execution on a facet list in segments: the facet that is absorbed
is put in front of the visible list, the facet that survives at the end of the
new-facet list; the other facets keep their places. -/
theorem segments_mergefacet (qh : QhullQh) (A V N : List facetT) (t : facetT) (a s : facetT)
    (h : qh.segments A V N t) (ha : a ∈ A ++ N) (hs : s ∈ A ++ N) (hne : a.id ≠ s.id) :
    (spec_mergefacet qh a.id s.id).segments
      ((A.filter fun f => f.id != a.id && f.id != s.id).map (spec_rewire a.id s.id))
      ({ spec_makeridges a with visible := true } :: V.map (spec_rewire a.id s.id))
      ((N.filter fun f => f.id != a.id && f.id != s.id).map (spec_rewire a.id s.id)
        ++ [{ spec_mergedfacet (spec_makeridges a) (spec_makeridges s) with newfacet := true }])
      (spec_rewire a.id s.id t) := by
  have hma : a ∈ A ++ V ++ N := by simp only [List.mem_append] at ha ⊢; tauto
  have hms : s ∈ A ++ V ++ N := by simp only [List.mem_append] at hs ⊢; tauto
  have hnd := h.2.2.2.2.1
  have hposa : 0 < a.id := h.2.2.2.2.2.1 a hma
  have hposs : 0 < s.id := h.2.2.2.2.2.1 s hms
  have hVa := segments_not_visible_ne qh A V N t a h ha
  have hVs := segments_not_visible_ne qh A V N t s h hs
  unfold spec_mergefacet
  rw [segments_spec_facet qh A V N t a h hma, segments_spec_facet qh A V N t s h hms]
  simp only
  generalize hgdef : (fun f : facetT =>
      if f.id = s.id then spec_mergedfacet (spec_makeridges a) (spec_makeridges s)
      else if f.id = a.id then spec_makeridges a else spec_rewire a.id s.id f) = g
  have hga : g a = spec_makeridges a := by
    rw [← hgdef]
    simp [hne]
  have hgs : g s = spec_mergedfacet (spec_makeridges a) (spec_makeridges s) := by
    rw [← hgdef]
    simp
  have hgo : ∀ f : facetT, f.id ≠ a.id → f.id ≠ s.id → g f = spec_rewire a.id s.id f := by
    intro f h1 h2
    rw [← hgdef]
    simp [h1, h2]
  have hgt : g t = spec_rewire a.id s.id t :=
    hgo t (by rw [h.2.1]; omega) (by rw [h.2.1]; omega)
  have hgf : ∀ f ∈ A ++ V ++ N ++ [t], (g f).id = f.id ∧ (g f).visible = f.visible
      ∧ (g f).newfacet = f.newfacet := by
    intro f hf
    by_cases h2 : f.id = s.id
    · have hft : f ∈ A ++ V ++ N := by
        rcases List.mem_append.1 hf with hf | hf
        · exact hf
        · rw [List.mem_singleton.1 hf, h.2.1] at h2
          omega
      have e := eq_of_id_eq_of_nodup _ hnd f s hft hms h2
      rw [e, hgs]
      exact ⟨(spec_makeridges_fields s).1, (spec_makeridges_fields s).2.2.2.1,
        (spec_makeridges_fields s).2.2.2.2.1⟩
    · by_cases h1 : f.id = a.id
      · have hft : f ∈ A ++ V ++ N := by
          rcases List.mem_append.1 hf with hf | hf
          · exact hf
          · rw [List.mem_singleton.1 hf, h.2.1] at h1
            omega
        have e := eq_of_id_eq_of_nodup _ hnd f a hft hma h1
        rw [e, hga]
        exact ⟨(spec_makeridges_fields a).1, (spec_makeridges_fields a).2.2.2.1,
          (spec_makeridges_fields a).2.2.2.2.1⟩
      · rw [hgo f h1 h2]
        exact ⟨rfl, rfl, rfl⟩
  have h1 := segments_map qh { qh with facet_list := qh.facet_list.map g } A V N t g h
    (by rw [h.1]; exact hgf) rfl rfl rfl
  have hida : (g a).id = a.id := by rw [hga]; exact (spec_makeridges_fields a).1
  have hids : (g s).id = s.id := (hgf s (List.mem_append_left _ hms)).1
  have h2 := segments_willdelete _ _ _ _ _ (g a) a.id h1
    (by simp only [List.mem_append, List.mem_map] at ha ⊢
        rcases ha with ha | ha
        · exact Or.inl ⟨a, ha, rfl⟩
        · exact Or.inr ⟨a, ha, rfl⟩) hida
  have h3 := segments_tonewfacet _ _ _ _ _ (g s) s.id h2
    (by simp only [List.mem_append, List.mem_filter, List.mem_map] at hs ⊢
        rcases hs with hs | hs
        · exact Or.inl ⟨⟨s, hs, rfl⟩, by rw [hids]; simpa using Ne.symm hne⟩
        · exact Or.inr ⟨⟨s, hs, rfl⟩, by rw [hids]; simpa using Ne.symm hne⟩) hids
  have hsub : ∀ L : List facetT, (∀ f ∈ L, f ∈ A ++ V ++ N ++ [t]) →
      ((L.map g).filter fun f => f.id != a.id).filter (fun f => f.id != s.id)
        = (L.filter fun f => f.id != a.id && f.id != s.id).map (spec_rewire a.id s.id) :=
    fun L hL => filter_map_rewire L g a.id s.id (fun f hf => (hgf f (hL f hf)).1)
      (fun f hf => hgo f)
  rw [hsub A (fun f hf => by simp [hf]), hsub N (fun f hf => by simp [hf]), hga, hgs, hgt] at h3
  have hV : V.map g = V.map (spec_rewire a.id s.id) :=
    List.map_congr_left fun f hf => hgo f (hVa f hf) (hVs f hf)
  rw [hV] at h3
  exact h3

theorem lists_clear_split (qh : QhullQh) (hc : qh.lists_clear) :
    ∃ F t, qh.facet_list = F ++ [t] ∧ t.id = 0 ∧ t.visible = false ∧ t.newfacet = false
      ∧ (F.map fun f => f.id).Nodup
      ∧ ∀ f ∈ F, 0 < f.id ∧ f.id < qh.facet_id ∧ f.visible = false ∧ f.newfacet = false := by
  obtain ⟨⟨h1, hnd, hpos⟩, h2⟩ := hc
  cases hl : qh.facet_list.getLast? with
  | none => simp [hl] at h1
  | some t =>
    have hsplit : qh.facet_list = qh.facet_list.dropLast ++ [t] :=
      (List.dropLast_append_getLast? t hl).symm
    rw [hl] at h1
    simp only [Option.map_some', Option.some.injEq, Prod.mk.injEq] at h1
    exact ⟨_, t, hsplit, h1.1, h1.2.1, h1.2.2, hnd, fun f hf => ⟨hpos f hf, h2 f hf⟩⟩

theorem spec_makenewfacets_ids (G : List facetT) (fid apex : Nat) :
    (spec_makenewfacets G fid apex).map (fun f => f.id)
      = (List.range (spec_makenewfacets G fid apex).length).map fun i => fid + i := by
  unfold spec_makenewfacets
  rw [List.map_map, List.length_map, List.length_range]
  rfl

theorem spec_makenewfacets_nodup (G : List facetT) (fid apex : Nat) :
    ((spec_makenewfacets G fid apex).map fun f => f.id).Nodup := by
  rw [spec_makenewfacets_ids]
  exact (List.nodup_range _).map fun a b hab => by simpa using hab

theorem spec_horizon_nil : spec_horizon [] = [] := rfl

theorem spec_matchnewfacets_fields (N : List facetT) (f : facetT) :
    (spec_matchnewfacets N f).id = f.id ∧ (spec_matchnewfacets N f).vertices = f.vertices
      ∧ (spec_matchnewfacets N f).visible = f.visible
      ∧ (spec_matchnewfacets N f).newfacet = f.newfacet
      ∧ (spec_matchnewfacets N f).simplicial = f.simplicial
      ∧ (spec_matchnewfacets N f).ridges = f.ridges :=
  ⟨rfl, rfl, rfl, rfl, rfl, rfl⟩

/-- The facet list after `FindHorizon`, in segments: the facets that are not
visible, then the visible facets, marked; no facet is new. -/
theorem spec_findhorizon_segments (qh : QhullQh) (facet p : Nat) (F : List facetT) (t : facetT)
    (hF : qh.facet_list = F ++ [t]) (ht : t.id = 0) (htv : t.visible = false)
    (htn : t.newfacet = false) (hnd : (F.map fun f => f.id).Nodup)
    (hall : ∀ f ∈ F, 0 < f.id ∧ f.visible = false ∧ f.newfacet = false) :
    ∃ Vf, (spec_findhorizon qh facet p).segments
        (F.filter fun f => !(spec_visible qh facet p).contains f.id) Vf [] t
      ∧ Vf.map (fun f => f.id) = spec_visible qh facet p
      ∧ ∀ g ∈ Vf, ∃ f ∈ F, f.id ∈ spec_visible qh facet p ∧ g = { f with visible := true } := by
  obtain ⟨Vf, hs1, hVid, hVf⟩ := spec_findhorizon_shape qh facet p F t hF
  have hVnd := (spec_visible_spec qh facet p).1
  refine ⟨Vf, ⟨by rw [hs1, List.append_nil], ht, htv, htn, ?_, ?_, ?_, ?_, ?_, ?_, ?_⟩, hVid, hVf⟩
  · rw [List.append_nil, List.map_append, List.nodup_append]
    refine ⟨nodup_map_filter F _ hnd, by rw [hVid]; exact hVnd, ?_⟩
    intro x hx hx2
    rw [hVid] at hx2
    obtain ⟨f, hf, rfl⟩ := List.mem_map.1 hx
    have := (List.mem_filter.1 hf).2
    simp only [Bool.not_eq_true', List.contains_eq_any_beq, List.any_eq_false, beq_iff_eq] at this
    exact this f.id hx2 rfl
  · intro f hf
    rw [List.append_nil] at hf
    rcases List.mem_append.1 hf with hf | hf
    · exact (hall f (List.mem_of_mem_filter hf)).1
    · obtain ⟨f0, hf0, -, rfl⟩ := hVf f hf
      exact (hall f0 hf0).1
  · exact fun f hf => (hall f (List.mem_of_mem_filter hf)).2
  · intro g hg
    obtain ⟨f0, hf0, -, rfl⟩ := hVf g hg
    rfl
  · exact fun f hf => absurd hf (List.not_mem_nil f)
  · exact head_visible_facets Vf [] t _ hVid rfl ht
  · simp [spec_findhorizon, ht]

/-- The facet list after `BuildCone`, in segments: the facets that are not
visible, linked to the new facets, then the visible facets, then the new
facets. -/
theorem spec_makecone_segments (qh1 : QhullQh) (p : Nat) (R Vf : List facetT) (t : facetT)
    (s : QhullQh) (h : qh1.segments R Vf [] t) (hlt : ∀ f ∈ R ++ Vf, f.id < qh1.facet_id)
    (hs : spec_makecone qh1 p = .ret s) :
    s.segments
      (R.map (spec_attachhorizon (Vf.map fun f => f.id)
        (spec_makenewfacets (R ++ Vf) qh1.facet_id qh1.vertex_id)))
      Vf
      ((spec_makenewfacets (R ++ Vf) qh1.facet_id qh1.vertex_id).map
        (spec_matchnewfacets (spec_makenewfacets (R ++ Vf) qh1.facet_id qh1.vertex_id)))
      t := by
  obtain ⟨hl, ht, htv, htn, hnd, hpos, hA, hV, hN, hvis, hnew⟩ := h
  rw [List.append_nil] at hl hnd hpos hvis
  obtain ⟨hfl, _, hfid, _, _, hnl, hvl⟩ := spec_makecone_shape qh1 p R Vf t s hl
    (fun f hf => (hA f hf).1) hV hs
  have hN0nd := spec_makenewfacets_nodup (R ++ Vf) qh1.facet_id qh1.vertex_id
  have hfidpos : ∀ n ∈ spec_makenewfacets (R ++ Vf) qh1.facet_id qh1.vertex_id,
      0 < qh1.facet_id := by
    intro n hn
    cases hRV : R ++ Vf with
    | nil =>
      rw [hRV] at hn
      simp [spec_makenewfacets, spec_horizon_nil] at hn
    | cons a L =>
      have := hlt a (by rw [hRV]; exact List.mem_cons_self a L)
      omega
  generalize hN0 : spec_makenewfacets (R ++ Vf) qh1.facet_id qh1.vertex_id = N0
    at hfl hfid hnl hvl hN0nd hfidpos
  have hNf : ∀ n ∈ N0, qh1.facet_id ≤ n.id ∧ n.visible = false ∧ n.newfacet = true
      ∧ n.simplicial = true := by
    intro n hn
    rw [← hN0] at hn
    exact spec_makenewfacets_flags _ _ _ n hn
  have hidR : (R.map (spec_attachhorizon (Vf.map fun f => f.id) N0)).map (fun f => f.id)
      = R.map fun f => f.id := by
    rw [List.map_map]
    exact List.map_congr_left fun f _ => (spec_attachhorizon_fields _ _ f).1
  have hidN : (N0.map (spec_matchnewfacets N0)).map (fun f => f.id) = N0.map fun f => f.id := by
    rw [List.map_map]
    rfl
  have hnew2 : (N0.map (spec_matchnewfacets N0) ++ [t]).head?.map (fun f => f.id)
      = some s.newfacet_list := by
    rw [hnl]
    cases N0 with
    | nil => simp [ht]
    | cons n N0 => simp [spec_matchnewfacets]
  refine ⟨hfl, ht, htv, htn, ?_, ?_, ?_, hV, ?_, ?_, hnew2⟩
  · rw [List.map_append, List.map_append, hidR, hidN, ← List.map_append, List.nodup_append]
    refine ⟨hnd, hN0nd, ?_⟩
    intro x hx hx2
    obtain ⟨f, hf, rfl⟩ := List.mem_map.1 hx
    obtain ⟨n, hn, hnid⟩ := List.mem_map.1 hx2
    have h1 := (hNf n hn).1
    have h2 := hlt f hf
    have h3 : n.id = f.id := hnid
    omega
  · intro f hf
    simp only [List.mem_append, List.mem_map] at hf
    rcases hf with (⟨f0, hf0, rfl⟩ | hf) | ⟨n, hn, rfl⟩
    · rw [(spec_attachhorizon_fields _ _ f0).1]
      exact hpos f0 (by simp [hf0])
    · exact hpos f (by simp [hf])
    · have h1 := (hNf n hn).1
      have h2 := hfidpos n hn
      show 0 < n.id
      omega
  · intro f hf
    obtain ⟨f0, hf0, rfl⟩ := List.mem_map.1 hf
    obtain ⟨-, -, e3, e4, -⟩ := spec_attachhorizon_fields (Vf.map fun f => f.id) N0 f0
    rw [e3, e4]
    exact hA f0 hf0
  · intro f hf
    obtain ⟨n, hn, rfl⟩ := List.mem_map.1 hf
    exact ⟨(hNf n hn).2.2.1, (hNf n hn).2.1⟩
  · rw [hvl]
    cases Vf with
    | nil =>
      simp only [List.nil_append, List.head?_cons, Option.map_some', Option.some.injEq] at hvis
      rw [List.nil_append, ← hvis, ht, if_pos rfl, ← hnl]
      exact hnew2
    | cons g Vf =>
      simp only [List.cons_append, List.head?_cons, Option.map_some', Option.some.injEq] at hvis
      have := hpos g (by simp)
      rw [← hvis, if_neg (Nat.pos_iff_ne_zero.1 this)]
      simp

theorem andThen_eq_ret {σ : Type} (r : QhExit σ) (k : σ → QhExit σ) (s : σ)
    (h : r.andThen k = .ret s) : ∃ s1, r = .ret s1 ∧ k s1 = .ret s := by
  cases r with
  | ret s1 => exact ⟨s1, rfl, h⟩
  | errexit c s1 => cases h

/-- A redundant facet and its neighbor are a pair that can be merged. -/
theorem spec_redundant_mergeable (qh : QhullQh) (f g : Nat)
    (h : spec_redundant qh = some (f, g)) : spec_mergeable qh f g = true := by
  unfold spec_redundant at h
  have hm := List.mem_of_mem_head? h
  rw [List.mem_filterMap] at hm
  obtain ⟨a, ha, hm⟩ := hm
  cases hb : (qh.live.find? fun g =>
      g.id != a.id && a.neighbors.contains g.id
        && a.vertices.all fun v => g.vertices.contains v) with
  | none => rw [hb] at hm; cases hm
  | some b =>
    rw [hb] at hm
    simp only [Option.map_some', Option.some.injEq, Prod.mk.injEq] at hm
    have hbm := List.mem_of_find?_eq_some hb
    have hbp := List.find?_some hb
    simp only [Bool.and_eq_true, bne_iff_ne, ne_eq] at hbp
    unfold spec_mergeable
    simp only [Bool.and_eq_true, bne_iff_ne, ne_eq, List.any_eq_true, beq_iff_eq]
    refine ⟨⟨?_, a, ha, hm.1, ?_⟩, b, hbm, hm.2⟩
    · rw [← hm.1, ← hm.2]
      exact fun e => hbp.1.1 e.symm
    · rw [← hm.2]
      exact hbp.1.2

/-- When no facet is redundant, no facet that is not visible has its vertices
in a neighbor that is not visible. -/
theorem spec_redundant_none (qh : QhullQh) (h : spec_redundant qh = none) :
    ∀ f ∈ qh.live, ∀ g ∈ qh.live, g.id ≠ f.id → g.id ∈ f.neighbors →
      ¬ ∀ v ∈ f.vertices, v ∈ g.vertices := by
  intro f hf g hg hne hnb hsub
  unfold spec_redundant at h
  rw [List.head?_eq_none_iff, List.filterMap_eq_nil_iff] at h
  have h1 := h f hf
  rw [Option.map_eq_none', List.find?_eq_none] at h1
  have h2 := h1 g hg
  apply h2
  simp only [Bool.and_eq_true, bne_iff_ne, ne_eq, List.all_eq_true]
  refine ⟨⟨hne, ?_⟩, fun v hv => ?_⟩
  · simpa using hnb
  · simpa using hsub v hv

theorem spec_mergeable_spec (qh : QhullQh) (f1 f2 : Nat) (h : spec_mergeable qh f1 f2 = true) :
    ∃ a ∈ qh.live, ∃ s ∈ qh.live, a.id = f1 ∧ s.id = f2 ∧ a.id ≠ s.id
      ∧ f2 ∈ a.neighbors := by
  unfold spec_mergeable at h
  simp only [Bool.and_eq_true, bne_iff_ne, ne_eq, List.any_eq_true, beq_iff_eq] at h
  obtain ⟨⟨hne, a, ha, ha1, ha2⟩, s, hs, hs2⟩ := h
  exact ⟨a, ha, s, hs, ha1, hs2, by rw [ha1, hs2]; exact hne, by simpa using ha2⟩

/-- What every merge keeps, the removal of the redundant facets keeps; when it
returns, no facet is redundant. -/
theorem spec_reduce_inv (P : QhullQh → Prop)
    (hP : ∀ qh f1 f2, P qh → spec_mergeable qh f1 f2 = true → P (spec_mergefacet qh f1 f2)) :
    ∀ (n : Nat) (qh s : QhullQh), P qh → spec_reduce n qh = .ret s →
      P s ∧ spec_redundant s = none := by
  intro n
  induction n with
  | zero =>
    intro qh s h hs
    unfold spec_reduce at hs
    split at hs
    · rename_i hr
      injection hs with hs
      subst hs
      exact ⟨h, hr⟩
    · cases hs
  | succ n ih =>
    intro qh s h hs
    unfold spec_reduce at hs
    split at hs
    · rename_i hr
      injection hs with hs
      subst hs
      exact ⟨h, hr⟩
    · rename_i f g hr
      exact ih _ s (hP qh f g h (spec_redundant_mergeable qh f g hr)) hs

/-- What every merge keeps, the merge engine keeps; when it returns after a
merge, no facet is redundant. -/
theorem spec_mergeloop_inv (P : QhullQh → Prop)
    (hP : ∀ qh f1 f2, P qh → spec_mergeable qh f1 f2 = true → P (spec_mergefacet qh f1 f2))
    (M : SpecMerge) :
    ∀ (n : Nat) (qh s : QhullQh), P qh → spec_mergeloop M n qh = .ret s →
      P s ∧ (s = qh ∨ spec_redundant s = none) := by
  intro n
  induction n with
  | zero =>
    intro qh s h hs
    unfold spec_mergeloop at hs
    split at hs
    · injection hs with hs
      subst hs
      exact ⟨h, Or.inl rfl⟩
    · cases hs
  | succ n ih =>
    intro qh s h hs
    unfold spec_mergeloop at hs
    split at hs
    · injection hs with hs
      subst hs
      exact ⟨h, Or.inl rfl⟩
    · rename_i f1 f2 hr
      split at hs
      · rename_i hm
        obtain ⟨s1, hs1, hs2⟩ := andThen_eq_ret _ _ s hs
        have h1 := spec_reduce_inv P hP _ _ s1 (hP qh f1 f2 h hm) hs1
        have h2 := ih s1 s h1.1 hs2
        refine ⟨h2.1, Or.inr ?_⟩
        rcases h2.2 with e | e
        · rw [e]; exact h1.2
        · exact e
      · cases hs

/-- The merge execution keeps the lists well formed and in their layout; the
facet that is absorbed is the first of the visible list and the survivor the
last of the new-facet list. -/
theorem spec_mergefacet_lists (qh : QhullQh) (f1 f2 : Nat) (h : qh.lists_ok)
    (hm : spec_mergeable qh f1 f2 = true) :
    (spec_mergefacet qh f1 f2).lists_ok
      ∧ (spec_mergefacet qh f1 f2).visibles.head?.map (fun f => f.id) = some f1
      ∧ (spec_mergefacet qh f1 f2).newfacets.getLast?.map (fun f => f.id) = some f2 := by
  obtain ⟨t, hseg⟩ := segments_of_lists_ok qh h
  obtain ⟨a, ha, s, hs, ha1, hs2, hne, -⟩ := spec_mergeable_spec qh f1 f2 hm
  rw [segments_live qh _ _ _ t hseg] at ha hs
  have hseg2 := segments_mergefacet qh _ _ _ t a s hseg ha hs hne
  rw [ha1, hs2] at hseg2
  refine ⟨lists_ok_of_segments _ _ _ _ _ hseg2, ?_, ?_⟩
  · rw [segments_visibles _ _ _ _ _ hseg2, List.head?_cons, Option.map_some']
    exact congrArg some ((spec_makeridges_fields a).1.trans ha1)
  · rw [segments_newfacets _ _ _ _ _ hseg2, List.getLast?_concat, Option.map_some']
    exact congrArg some ((spec_makeridges_fields s).1.trans hs2)

/-- The merge execution keeps the lists well formed and in their layout. -/
theorem spec_mergefacet_lists_ok (qh : QhullQh) (f1 f2 : Nat) (h : qh.lists_ok)
    (hm : spec_mergeable qh f1 f2 = true) : (spec_mergefacet qh f1 f2).lists_ok :=
  (spec_mergefacet_lists qh f1 f2 h hm).1

/-- The step `MergeIfNeeded` keeps the lists well formed and in their layout. -/
theorem spec_mergeifneeded_lists_ok (M : SpecMerge) (qh s : QhullQh) (h : qh.lists_ok)
    (hs : spec_mergeifneeded M qh = .ret s) : s.lists_ok := by
  unfold spec_mergeifneeded at hs
  split at hs
  · exact (spec_mergeloop_inv QhullQh.lists_ok spec_mergefacet_lists_ok M _ qh s h hs).1
  · injection hs with hs
    subst hs
    exact h

/-! ## The incorporation step of the specification: the facet graph -/

theorem getD_range_map (n k : Nat) (f : Nat → Nat) (hk : k < n) :
    ((List.range n).map f).getD k 0 = f k := by
  rw [List.getD_eq_getElem?_getD, List.getElem?_map, List.getElem?_range hk]
  rfl

theorem getD_map_of_lt (l : List Nat) (f : Nat → Nat) (j : Nat) (hj : j < l.length) :
    (l.map f).getD j 0 = f (l.getD j 0) := by
  rw [List.getD_eq_getElem?_getD, List.getElem?_map, List.getD_eq_getElem?_getD,
    List.getElem?_eq_getElem hj]
  rfl

theorem getD_mem_of_lt {α : Type} (l : List α) (j : Nat) (d : α) (hj : j < l.length) :
    l.getD j d ∈ l := by
  rw [List.getD_eq_getElem?_getD, List.getElem?_eq_getElem hj]
  exact List.getElem_mem hj

theorem exists_getD_of_mem {α : Type} (l : List α) (a d : α) (h : a ∈ l) :
    ∃ i, i < l.length ∧ l.getD i d = a := by
  obtain ⟨i, hi, he⟩ := List.getElem_of_mem h
  refine ⟨i, hi, ?_⟩
  rw [List.getD_eq_getElem?_getD, List.getElem?_eq_getElem hi]
  exact he

theorem mem_eraseIdx_of_ne (l : List Nat) (k v : Nat) (hv : v ∈ l) (hne : v ≠ l.getD k 0) :
    v ∈ l.eraseIdx k := by
  obtain ⟨i, hi, he⟩ := List.getElem_of_mem hv
  rw [List.mem_eraseIdx_iff_getElem]
  refine ⟨i, hi, ?_, he⟩
  intro hik
  subst hik
  apply hne
  rw [List.getD_eq_getElem?_getD, List.getElem?_eq_getElem hi]
  exact he.symm

theorem getD_not_mem_eraseIdx (l : List Nat) (k : Nat) (hnd : l.Nodup) (hk : k < l.length) :
    l.getD k 0 ∉ l.eraseIdx k := by
  rw [List.mem_eraseIdx_iff_getElem]
  rintro ⟨i, hi, hik, he⟩
  rw [List.getD_eq_getElem?_getD, List.getElem?_eq_getElem hk] at he
  exact hik ((List.Nodup.getElem_inj_iff hnd).1 he)

theorem mem_of_mem_eraseIdx (l : List Nat) (k v : Nat) (hv : v ∈ l.eraseIdx k) : v ∈ l :=
  (List.eraseIdx_sublist l k).subset hv

theorem spec_opposite_some (N : List facetT) (f other : facetT) (r : Nat)
    (h : spec_opposite N f r = some other) :
    other ∈ N ∧ (∀ v ∈ f.vertices, v ≠ r → v ∈ other.vertices) ∧ r ∉ other.vertices := by
  unfold spec_opposite at h
  split at h
  · rename_i o ho
    injection h with h
    subst h
    have hm : o ∈ N.filter fun other =>
        (f.vertices.all fun v => v == r || other.vertices.contains v)
          && !other.vertices.contains r := by
      rw [ho]
      exact List.mem_singleton_self o
    rw [List.mem_filter] at hm
    obtain ⟨hm1, hm2⟩ := hm
    simp only [Bool.and_eq_true, List.all_eq_true, Bool.or_eq_true, beq_iff_eq,
      List.contains_eq_any_beq, List.any_eq_true, Bool.not_eq_true', Bool.not_eq_eq_eq_not,
      Bool.not_true] at hm2
    refine ⟨hm1, ?_, ?_⟩
    · intro v hv hne
      rcases hm2.1 v hv with h1 | ⟨w, hw, hwv⟩
      · exact absurd h1 hne
      · exact hwv ▸ hw
    · intro hr
      have := hm2.2
      simp only [List.any_eq_false, beq_iff_eq] at this
      exact this r hr rfl
  · cases h

/-- A simplicial facet with the correspondence is attached to its neighbors. -/
theorem attached_of_correspondence (L : List facetT) (D : Nat) (f : facetT)
    (hnd : (L.map fun f => f.id).Nodup) (hf : f ∈ L) (hv : f.vertices.Nodup)
    (h : f.correspondence L D) : f.attached L D := by
  obtain ⟨h1, h2, h3⟩ := h
  refine ⟨hv, h1, h2, fun k hk => ?_⟩
  obtain ⟨g, hg, hgid, hcov, hnot⟩ := h3 k hk
  refine ⟨g, hg, hgid, ?_, hcov⟩
  intro e
  have := eq_of_id_eq_of_nodup L hnd g f hg hf e
  rw [this] at hnot
  exact hnot (getD_mem_of_lt f.vertices k 0 (by omega))

/-- The state `facets_ok` from the correspondence of the simplicial facets. -/
theorem facets_ok_intro (D fid vid : Nat) (L : List facetT)
    (hnd : (L.map fun f => f.id).Nodup)
    (h : ∀ f ∈ L, 0 < f.id ∧ f.id < fid ∧ (∀ v ∈ f.vertices, v < vid) ∧ f.ridges_ok D
      ∧ (f.simplicial = true → f.vertices.Nodup ∧ f.correspondence L D)) :
    facets_ok D fid vid L :=
  ⟨⟨hnd, fun f hf => ⟨(h f hf).1, (h f hf).2.1, (h f hf).2.2.1, (h f hf).2.2.2.1,
      fun hs => attached_of_correspondence L D f hnd hf ((h f hf).2.2.2.2 hs).1
        ((h f hf).2.2.2.2 hs).2⟩⟩,
    fun f hf hs => ((h f hf).2.2.2.2 hs).2⟩

/-- The state `facets_wf` depends on the ids, the vertices, the neighbors and
the `simplicial` flags of the facets and on the vertices of their ridges only,
not on their order. -/
theorem facets_wf_of_sim (D fid vid : Nat) (F1 F2 : List facetT)
    (hnd : (F2.map fun f => f.id).Nodup)
    (h21 : ∀ f2 ∈ F2, ∃ f1 ∈ F1, f2.id = f1.id ∧ f2.vertices = f1.vertices
      ∧ f2.neighbors = f1.neighbors ∧ f2.simplicial = f1.simplicial
      ∧ ∀ r ∈ f2.ridges, ∃ r1 ∈ f1.ridges, r.vertices = r1.vertices)
    (h12 : ∀ f1 ∈ F1, ∃ f2 ∈ F2, f2.id = f1.id ∧ f2.vertices = f1.vertices)
    (h : facets_wf D fid vid F1) : facets_wf D fid vid F2 := by
  obtain ⟨-, hall⟩ := h
  refine ⟨hnd, fun f2 hf2 => ?_⟩
  obtain ⟨f1, hf1, e1, e2, e3, e4, e5⟩ := h21 f2 hf2
  obtain ⟨a1, a2, a3, a4, a5⟩ := hall f1 hf1
  rw [e1, e2, e4]
  refine ⟨a1, a2, a3, ?_, fun hs => ?_⟩
  · intro r hr
    obtain ⟨r1, hr1, er⟩ := e5 r hr
    rw [er, e2]
    exact a4 r1 hr1
  · obtain ⟨b1, b2, b3, b4⟩ := a5 hs
    unfold facetT.attached
    rw [e2, e3, e1]
    refine ⟨b1, b2, b3, fun k hk => ?_⟩
    obtain ⟨g, hg, hgid, hgne, hcov⟩ := b4 k hk
    obtain ⟨g2, hg2, d1, d2⟩ := h12 g hg
    exact ⟨g2, hg2, d1.trans hgid, by rw [d1]; exact hgne, by rw [d2]; exact hcov⟩

/-- The state `facets_ok` depends on the ids, the vertices, the neighbors and
the `simplicial` flags of the facets and on the vertices of their ridges only,
not on their order. -/
theorem facets_ok_of_sim (D fid vid : Nat) (F1 F2 : List facetT)
    (hnd : (F2.map fun f => f.id).Nodup)
    (h21 : ∀ f2 ∈ F2, ∃ f1 ∈ F1, f2.id = f1.id ∧ f2.vertices = f1.vertices
      ∧ f2.neighbors = f1.neighbors ∧ f2.simplicial = f1.simplicial
      ∧ ∀ r ∈ f2.ridges, ∃ r1 ∈ f1.ridges, r.vertices = r1.vertices)
    (h12 : ∀ f1 ∈ F1, ∃ f2 ∈ F2, f2.id = f1.id ∧ f2.vertices = f1.vertices)
    (h : facets_ok D fid vid F1) : facets_ok D fid vid F2 := by
  refine ⟨facets_wf_of_sim D fid vid F1 F2 hnd h21 h12 h.1, fun f2 hf2 hs => ?_⟩
  obtain ⟨f1, hf1, e1, e2, e3, e4, e5⟩ := h21 f2 hf2
  obtain ⟨b2, b3, b4⟩ := h.2 f1 hf1 (e4 ▸ hs)
  unfold facetT.correspondence facetT.opposite
  rw [e2, e3]
  refine ⟨b2, b3, fun k hk => ?_⟩
  obtain ⟨g, hg, hgid, hcov, hnot⟩ := b4 k hk
  obtain ⟨g2, hg2, d1, d2⟩ := h12 g hg
  exact ⟨g2, hg2, d1.trans hgid, by rw [d2]; exact hcov, by rw [d2]; exact hnot⟩

/-- The state `facets_ok` with larger bounds on the ids. -/
theorem facets_ok_mono (D fid vid fid2 vid2 : Nat) (L : List facetT) (h1 : fid ≤ fid2)
    (h2 : vid ≤ vid2) (h : facets_ok D fid vid L) : facets_ok D fid2 vid2 L :=
  ⟨⟨h.1.1, fun f hf => ⟨(h.1.2 f hf).1, Nat.lt_of_lt_of_le (h.1.2 f hf).2.1 h1,
      fun v hv => Nat.lt_of_lt_of_le ((h.1.2 f hf).2.2.1 v hv) h2, (h.1.2 f hf).2.2.2⟩⟩, h.2⟩

theorem spec_setother_vertices (r : ridgeT) (f : Nat) (o : Option Nat) :
    (spec_setother r f o).vertices = r.vertices := by
  unfold spec_setother
  split <;> rfl

/-- The horizon ridges of a list of facets. -/
theorem spec_horizon_mem (G : List facetT) (e : Nat × List Nat) :
    e ∈ spec_horizon G ↔ ∃ H ∈ G, H.visible = false
      ∧ ((H.simplicial = true ∧ ∃ k, k < H.neighbors.length
          ∧ ((G.filter fun f => f.visible).map fun f => f.id).contains (H.neighbors.getD k 0)
            = true
          ∧ e = (H.id, H.vertices.eraseIdx k))
        ∨ (H.simplicial = false ∧ ∃ r ∈ H.ridges,
          spec_across ((G.filter fun f => f.visible).map fun f => f.id) r H.id = true
          ∧ e = (H.id, r.vertices))) := by
  unfold spec_horizon
  simp only [List.mem_flatten, List.mem_map, List.mem_filter]
  constructor
  · rintro ⟨l, ⟨H, ⟨hH, hv⟩, rfl⟩, he⟩
    refine ⟨H, hH, by simpa using hv, ?_⟩
    by_cases hs : H.simplicial = true
    · rw [if_pos hs, List.mem_map] at he
      obtain ⟨k, hk, rfl⟩ := he
      rw [List.mem_filter, List.mem_range] at hk
      exact Or.inl ⟨hs, k, hk.1, hk.2, rfl⟩
    · rw [if_neg hs, List.mem_map] at he
      obtain ⟨r, hr, rfl⟩ := he
      rw [List.mem_filter] at hr
      exact Or.inr ⟨by simpa using hs, r, hr.1, hr.2, rfl⟩
  · rintro ⟨H, hH, hv, h⟩
    refine ⟨_, ⟨H, ⟨hH, by simp [hv]⟩, rfl⟩, ?_⟩
    rcases h with ⟨hs, k, hk, hc, rfl⟩ | ⟨hs, r, hr, hc, rfl⟩
    · rw [if_pos hs, List.mem_map]
      exact ⟨k, by rw [List.mem_filter, List.mem_range]; exact ⟨hk, hc⟩, rfl⟩
    · rw [if_neg (by simp [hs]), List.mem_map]
      exact ⟨r, by rw [List.mem_filter]; exact ⟨hr, hc⟩, rfl⟩

theorem spec_attachhorizon_ridges (V : List Nat) (N : List facetT) (f : facetT) :
    ∀ r ∈ (spec_attachhorizon V N f).ridges, ∃ r1 ∈ f.ridges, r.vertices = r1.vertices := by
  intro r hr
  unfold spec_attachhorizon at hr
  split at hr
  · exact ⟨r, hr, rfl⟩
  · split at hr
    · exact ⟨r, hr, rfl⟩
    · obtain ⟨r1, hr1, rfl⟩ := List.mem_map.1 hr
      refine ⟨r1, hr1, ?_⟩
      split
      · exact spec_setother_vertices _ _ _
      · rfl

/-- The facets that an incorporation keeps and builds are in the state
`facets_ok`: the facets `R` that are not visible, linked to the new facets,
and the new facets `N0`, linked to each other. -/
theorem facets_ok_cone (D fid vid : Nat) (F R Vf N0 : List facetT) (V : List Nat)
    (hF : facets_ok D fid vid F) (hFv : ∀ f ∈ F, f.visible = false)
    (hR : R = F.filter (fun f => !V.contains f.id))
    (hVid : Vf.map (fun f => f.id) = V)
    (hVf : ∀ g ∈ Vf, ∃ f ∈ F, f.id ∈ V ∧ g = { f with visible := true })
    (hN0 : N0 = spec_makenewfacets (R ++ Vf) fid vid)
    (hcheck : (N0.all fun n => n.vertices.tail.all fun r => (spec_opposite N0 n r).isSome)
      = true) :
    facets_ok D (fid + N0.length) (vid + 1)
      (R.map (spec_attachhorizon V N0) ++ N0.map (spec_matchnewfacets N0)) := by
  obtain ⟨⟨hnd, hall⟩, hcor⟩ := hF
  have hRmem : ∀ H, H ∈ R ↔ H ∈ F ∧ H.id ∉ V := by
    intro H
    rw [hR, List.mem_filter]
    simp
  have hRv : ∀ f ∈ R, f.visible = false := fun f hf => hFv f ((hRmem f).1 hf).1
  have hVv : ∀ g ∈ Vf, g.visible = true := by
    intro g hg
    obtain ⟨f, _, _, rfl⟩ := hVf g hg
    rfl
  have hvis : ((R ++ Vf).filter fun f => f.visible).map (fun f => f.id) = V := by
    rw [(filter_visible_append R Vf hRv hVv).1, hVid]
  -- the horizon ridges come from the facets that stay
  have hor : ∀ e, e ∈ spec_horizon (R ++ Vf) ↔ ∃ H ∈ R,
      ((H.simplicial = true ∧ ∃ k, k < H.neighbors.length
          ∧ V.contains (H.neighbors.getD k 0) = true ∧ e = (H.id, H.vertices.eraseIdx k))
        ∨ (H.simplicial = false ∧ ∃ r ∈ H.ridges, spec_across V r H.id = true
          ∧ e = (H.id, r.vertices))) := by
    intro e
    rw [spec_horizon_mem, hvis]
    constructor
    · rintro ⟨H, hH, hv, h⟩
      rcases List.mem_append.1 hH with hH | hH
      · exact ⟨H, hH, h⟩
      · rw [hVv H hH] at hv
        cases hv
    · rintro ⟨H, hH, h⟩
      exact ⟨H, List.mem_append_left _ hH, hRv H hH, h⟩
  have hridge : ∀ e ∈ spec_horizon (R ++ Vf), ∃ H ∈ R, e.1 = H.id ∧ e.2.Nodup
      ∧ e.2.length + 1 = D ∧ ∀ v ∈ e.2, v ∈ H.vertices := by
    intro e he
    obtain ⟨H, hH, h⟩ := (hor e).1 he
    have hHF := ((hRmem H).1 hH).1
    refine ⟨H, hH, ?_⟩
    rcases h with ⟨hs, k, hk, hc, rfl⟩ | ⟨hs, r, hr, hc, rfl⟩
    · obtain ⟨b1, b2, b3, -⟩ := (hall H hHF).2.2.2.2 hs
      refine ⟨rfl, (List.eraseIdx_sublist _ _).nodup b1, ?_,
        fun v hv => mem_of_mem_eraseIdx _ _ _ hv⟩
      show (H.vertices.eraseIdx k).length + 1 = D
      rw [List.length_eraseIdx, if_pos (by omega)]
      omega
    · exact ⟨rfl, (hall H hHF).2.2.2.1 r hr⟩
  have hN : ∀ n ∈ N0, ∃ i, i < N0.length ∧ ∃ H ∈ R, ∃ ridge : List Nat,
      n = spec_newfacet fid vid i (H.id, ridge) ∧ ridge.Nodup ∧ ridge.length + 1 = D
        ∧ ∀ v ∈ ridge, v ∈ H.vertices := by
    intro n hn
    rw [hN0, spec_makenewfacets_mem] at hn
    obtain ⟨i, hi, hn⟩ := hn
    have hmem := getD_mem_of_lt (spec_horizon (R ++ Vf)) i (0, []) hi
    obtain ⟨H, hH, e1, e2, e3, e4⟩ := hridge _ hmem
    refine ⟨i, ?_, H, hH, ((spec_horizon (R ++ Vf)).getD i (0, [])).2, ?_, e2, e3, e4⟩
    · rw [hN0]
      unfold spec_makenewfacets
      rw [List.length_map, List.length_range]
      exact hi
    · rw [hn, ← e1]
  have hNex : ∀ H ∈ R, H.simplicial = true → ∀ k, k < H.neighbors.length →
      V.contains (H.neighbors.getD k 0) = true →
      ∃ n ∈ N0, ∃ i, n = spec_newfacet fid vid i (H.id, H.vertices.eraseIdx k) := by
    intro H hH hs k hk hc
    have hmem : (H.id, H.vertices.eraseIdx k) ∈ spec_horizon (R ++ Vf) :=
      (hor _).2 ⟨H, hH, Or.inl ⟨hs, k, hk, hc, rfl⟩⟩
    obtain ⟨i, hi, he⟩ := exists_getD_of_mem _ _ (0, []) hmem
    refine ⟨_, ?_, i, rfl⟩
    rw [hN0, spec_makenewfacets_mem]
    exact ⟨i, hi, by rw [he]⟩
  -- membership in the list that results
  have hinA : ∀ H ∈ R, spec_attachhorizon V N0 H
      ∈ R.map (spec_attachhorizon V N0) ++ N0.map (spec_matchnewfacets N0) :=
    fun H hH => List.mem_append_left _ (List.mem_map_of_mem _ hH)
  have hinN : ∀ n ∈ N0, spec_matchnewfacets N0 n
      ∈ R.map (spec_attachhorizon V N0) ++ N0.map (spec_matchnewfacets N0) :=
    fun n hn => List.mem_append_right _ (List.mem_map_of_mem _ hn)
  apply facets_ok_intro
  · -- the ids are unique
    have e : (R.map (spec_attachhorizon V N0) ++ N0.map (spec_matchnewfacets N0)).map
        (fun f => f.id) = R.map (fun f => f.id) ++ N0.map (fun f => f.id) := by
      rw [List.map_append, List.map_map, List.map_map]
      congr 1
      apply List.map_congr_left
      intro H _
      exact (spec_attachhorizon_fields V N0 H).1
    rw [e, List.nodup_append]
    refine ⟨?_, ?_, ?_⟩
    · rw [hR]
      exact (List.Sublist.map _ (List.filter_sublist F)).nodup hnd
    · rw [hN0]
      exact spec_makenewfacets_nodup _ _ _
    · intro a ha1 ha2
      obtain ⟨H, hH, rfl⟩ := List.mem_map.1 ha1
      obtain ⟨n, hn, hid⟩ := List.mem_map.1 ha2
      obtain ⟨i, _, _, _, _, rfl, _⟩ := hN n hn
      have := (hall H ((hRmem H).1 hH).1).2.1
      simp only [spec_newfacet] at hid
      omega
  · intro f hf
    rcases List.mem_append.1 hf with hf1 | hf1
    · -- a facet that stays
      obtain ⟨H, hH, rfl⟩ := List.mem_map.1 hf1
      have hHF := ((hRmem H).1 hH).1
      obtain ⟨h1, h2, h7, hrd, hatt⟩ := hall H hHF
      have h4 := hFv H hHF
      obtain ⟨e1, e2, e3, _, e5⟩ := spec_attachhorizon_fields V N0 H
      rw [e1, e2, e5]
      refine ⟨h1, by omega, fun v hv => Nat.lt_succ_of_lt (h7 v hv), ?_, fun h3 => ?_⟩
      · intro r hr
        obtain ⟨r1, hr1, er⟩ := spec_attachhorizon_ridges V N0 H r hr
        rw [er, e2]
        exact hrd r1 hr1
      obtain ⟨h6, h8, h9, -⟩ := hatt h3
      obtain ⟨-, -, h10⟩ := hcor H hHF h3
      have hnb : (spec_attachhorizon V N0 H).neighbors
          = (List.range H.neighbors.length).map fun k =>
            if V.contains (H.neighbors.getD k 0) then
              (spec_newfacet_on N0 H.id (H.vertices.eraseIdx k)).getD 0
            else H.neighbors.getD k 0 := by
        unfold spec_attachhorizon
        rw [if_neg (by simp [h4]), if_pos h3]
      refine ⟨h6, ?_⟩
      unfold facetT.correspondence
      rw [e2]
      refine ⟨by rw [hnb]; simpa using h8, h9, ?_⟩
      intro k hk
      have hk1 : k < H.neighbors.length := h8 ▸ hk
      have hk2 : k < H.vertices.length := h9 ▸ hk
      rw [hnb, getD_range_map _ _ _ hk1]
      by_cases hc : V.contains (H.neighbors.getD k 0) = true
      · rw [if_pos hc]
        obtain ⟨n, hn, i, hni⟩ := hNex H hH h3 k hk1 hc
        have hp : (fun n : facetT => n.neighbors.head? == some H.id
            && n.vertices.tail == H.vertices.eraseIdx k) n = true := by
          rw [hni]
          simp [spec_newfacet]
        unfold spec_newfacet_on
        cases hfind : N0.find? fun n : facetT =>
            n.neighbors.head? == some H.id && n.vertices.tail == H.vertices.eraseIdx k with
        | none =>
          rw [List.find?_eq_none] at hfind
          exact absurd hp (hfind n hn)
        | some n1 =>
          have hn1 := List.mem_of_find?_eq_some hfind
          have hp1 := List.find?_some hfind
          obtain ⟨i1, _, H1, _, ridge1, hn1e, _⟩ := hN n1 hn1
          have hv1 : n1.vertices = vid :: H.vertices.eraseIdx k := by
            rw [hn1e] at hp1 ⊢
            simp only [spec_newfacet, Bool.and_eq_true, beq_iff_eq, List.tail_cons] at hp1 ⊢
            rw [hp1.2]
          refine ⟨_, hinN n1 hn1, rfl, ?_⟩
          unfold facetT.opposite
          show (∀ v ∈ (spec_attachhorizon V N0 H).vertices,
              v ≠ (spec_attachhorizon V N0 H).vertices.getD k 0 → v ∈ n1.vertices)
            ∧ (spec_attachhorizon V N0 H).vertices.getD k 0 ∉ n1.vertices
          rw [e2, hv1]
          refine ⟨fun v hv hne => List.mem_cons_of_mem _ (mem_eraseIdx_of_ne _ _ _ hv hne), ?_⟩
          intro hm
          rcases List.mem_cons.1 hm with hm | hm
          · have := h7 _ (getD_mem_of_lt H.vertices k 0 hk2)
            omega
          · exact getD_not_mem_eraseIdx _ _ h6 hk2 hm
      · rw [if_neg hc]
        obtain ⟨g, hg, hgid, hopp⟩ := h10 k hk
        have hgR : g ∈ R := by
          rw [hRmem]
          refine ⟨hg, ?_⟩
          rw [hgid]
          simpa using hc
        refine ⟨_, hinA g hgR, (spec_attachhorizon_fields V N0 g).1.trans hgid, ?_⟩
        unfold facetT.opposite at hopp ⊢
        rw [e2, (spec_attachhorizon_fields V N0 g).2.1]
        exact hopp
    · -- a new facet
      obtain ⟨n, hn, rfl⟩ := List.mem_map.1 hf1
      obtain ⟨i, hi, H, hH, ridge, hne, hrnd, hlen, hsub⟩ := hN n hn
      have hHF := ((hRmem H).1 hH).1
      obtain ⟨h1, h2, h7, -, -⟩ := hall H hHF
      have hnv : n.vertices = vid :: ridge := by rw [hne]; rfl
      have hnn : (spec_matchnewfacets N0 n).neighbors
          = H.id :: ridge.map fun r =>
            ((spec_opposite N0 n r).map fun other => other.id).getD 0 := by
        unfold spec_matchnewfacets
        rw [hnv, hne]
        rfl
      have hnid : n.id = fid + i := by rw [hne]; rfl
      have hnr : n.ridges = [] := by rw [hne]; rfl
      refine ⟨by show 0 < n.id; omega, by show n.id < _; omega, ?_, ?_, fun _ => ⟨?_, ?_⟩⟩
      · show ∀ v ∈ n.vertices, v < vid + 1
        rw [hnv]
        intro v hv
        rcases List.mem_cons.1 hv with hv | hv
        · omega
        · exact Nat.lt_succ_of_lt (h7 v (hsub v hv))
      · intro r hr
        have : r ∈ n.ridges := hr
        rw [hnr] at this
        cases this
      · show n.vertices.Nodup
        rw [hnv, List.nodup_cons]
        refine ⟨fun hm => ?_, hrnd⟩
        have := h7 _ (hsub _ hm)
        omega
      · refine ⟨by show (spec_matchnewfacets N0 n).neighbors.length = D;
                   rw [hnn, List.length_cons, List.length_map]; omega,
          by show n.vertices.length = D; rw [hnv, List.length_cons]; omega, ?_⟩
        intro j hj
        show ∃ g ∈ _, g.id = (spec_matchnewfacets N0 n).neighbors.getD j 0 ∧ _
        rw [hnn]
        cases j with
        | zero =>
          refine ⟨_, hinA H hH, (spec_attachhorizon_fields V N0 H).1, ?_⟩
          unfold facetT.opposite
          show (∀ v ∈ n.vertices, v ≠ n.vertices.getD 0 0 →
              v ∈ (spec_attachhorizon V N0 H).vertices)
            ∧ n.vertices.getD 0 0 ∉ (spec_attachhorizon V N0 H).vertices
          rw [hnv, (spec_attachhorizon_fields V N0 H).2.1]
          simp only [List.getD_cons_zero]
          refine ⟨fun v hv hne1 => ?_, fun hm => ?_⟩
          · rcases List.mem_cons.1 hv with hv | hv
            · exact absurd hv hne1
            · exact hsub v hv
          · have := h7 _ hm
            omega
        | succ j =>
          have hj1 : j < ridge.length := by omega
          rw [List.getD_cons_succ, getD_map_of_lt _ _ _ hj1]
          have hr : ridge.getD j 0 ∈ n.vertices.tail := by
            rw [hnv]
            exact getD_mem_of_lt _ _ _ hj1
          have hsome := List.all_eq_true.1 (List.all_eq_true.1 hcheck n hn) _ hr
          cases ho : spec_opposite N0 n (ridge.getD j 0) with
          | none => rw [ho] at hsome; cases hsome
          | some other =>
            obtain ⟨ho1, ho2, ho3⟩ := spec_opposite_some N0 n other _ ho
            refine ⟨_, hinN other ho1, rfl, ?_⟩
            unfold facetT.opposite
            show (∀ v ∈ n.vertices, v ≠ n.vertices.getD (j + 1) 0 → v ∈ other.vertices)
              ∧ n.vertices.getD (j + 1) 0 ∉ other.vertices
            rw [hnv, List.getD_cons_succ]
            rw [hnv] at ho2
            exact ⟨ho2, ho3⟩

theorem spec_willdelete_fields (qh : QhullQh) (id : Nat) :
    (spec_willdelete qh id).facet_id = qh.facet_id
      ∧ (spec_willdelete qh id).vertex_id = qh.vertex_id
      ∧ (spec_willdelete qh id).hull_dim = qh.hull_dim
      ∧ (spec_willdelete qh id).vertex_list = qh.vertex_list
      ∧ (spec_willdelete qh id).PREmerge = qh.PREmerge := by
  unfold spec_willdelete
  split <;> exact ⟨rfl, rfl, rfl, rfl, rfl⟩

theorem spec_tonewfacet_fields (qh : QhullQh) (id : Nat) :
    (spec_tonewfacet qh id).facet_id = qh.facet_id
      ∧ (spec_tonewfacet qh id).vertex_id = qh.vertex_id
      ∧ (spec_tonewfacet qh id).hull_dim = qh.hull_dim
      ∧ (spec_tonewfacet qh id).vertex_list = qh.vertex_list
      ∧ (spec_tonewfacet qh id).PREmerge = qh.PREmerge := by
  unfold spec_tonewfacet
  split <;> exact ⟨rfl, rfl, rfl, rfl, rfl⟩

/-- The merge execution changes the facet list and the two list pointers
only. -/
theorem spec_mergefacet_fields (qh : QhullQh) (f1 f2 : Nat) :
    (spec_mergefacet qh f1 f2).facet_id = qh.facet_id
      ∧ (spec_mergefacet qh f1 f2).vertex_id = qh.vertex_id
      ∧ (spec_mergefacet qh f1 f2).hull_dim = qh.hull_dim
      ∧ (spec_mergefacet qh f1 f2).vertex_list = qh.vertex_list
      ∧ (spec_mergefacet qh f1 f2).PREmerge = qh.PREmerge := by
  unfold spec_mergefacet
  split
  · have hw := fun q => spec_willdelete_fields q f1
    have ht := fun q => spec_tonewfacet_fields q f2
    exact ⟨((ht _).1).trans (hw _).1, ((ht _).2.1).trans (hw _).2.1,
      ((ht _).2.2.1).trans (hw _).2.2.1, ((ht _).2.2.2.1).trans (hw _).2.2.2.1,
      ((ht _).2.2.2.2).trans (hw _).2.2.2.2⟩
  · exact ⟨rfl, rfl, rfl, rfl, rfl⟩

theorem mem_mergedfacet_vertices (a s : facetT) (v : Nat) :
    v ∈ (spec_mergedfacet (spec_makeridges a) (spec_makeridges s)).vertices
      ↔ v ∈ s.vertices ∨ v ∈ a.vertices := by
  show v ∈ List.insertionSort _ _ ↔ _
  rw [(List.perm_insertionSort _ _).mem_iff, List.mem_dedup, List.mem_append,
    (spec_makeridges_fields s).2.1, (spec_makeridges_fields a).2.1]

/-- The explicit ridges that `qh_makeridges` creates are ridges of the facet. -/
theorem spec_makeridges_ridges_ok (L : List facetT) (D : Nat) (f : facetT)
    (hr : f.ridges_ok D) (hs : f.simplicial = true → f.attached L D) :
    ∀ r ∈ (spec_makeridges f).ridges, r.vertices.Nodup ∧ r.vertices.length + 1 = D
      ∧ ∀ v ∈ r.vertices, v ∈ f.vertices := by
  intro r hrm
  unfold spec_makeridges at hrm
  split at hrm
  · rename_i h
    obtain ⟨b1, b2, b3, -⟩ := hs h
    obtain ⟨k, hk, rfl⟩ := List.mem_map.1 hrm
    rw [List.mem_range] at hk
    refine ⟨(List.eraseIdx_sublist _ _).nodup b1, ?_, fun v hv => mem_of_mem_eraseIdx _ _ _ hv⟩
    show (f.vertices.eraseIdx k).length + 1 = D
    rw [List.length_eraseIdx, if_pos (by omega)]
    omega
  · exact hr r hrm

theorem spec_replace_ne (a s x : Nat) (h : x ≠ a) : spec_replace a s x = x := by
  unfold spec_replace
  rw [if_neg h]

theorem spec_replace_self (a s : Nat) : spec_replace a s a = s := by
  unfold spec_replace
  rw [if_pos rfl]

/-- A merge keeps the state `facets_wf` of the facets that are not visible:
the facets other than the two refer to the survivor instead of the absorbed
facet, and the survivor holds the vertices of both. -/
theorem facets_wf_merge (D fid vid : Nat) (L L2 : List facetT) (a s : facetT)
    (ha : a ∈ L) (hs : s ∈ L) (h : facets_wf D fid vid L)
    (hnd2 : (L2.map fun f => f.id).Nodup)
    (hmem : ∀ x, x ∈ L2 ↔
      x = ({ spec_mergedfacet (spec_makeridges a) (spec_makeridges s) with
              newfacet := true } : facetT)
        ∨ ∃ f ∈ L, f.id ≠ a.id ∧ f.id ≠ s.id ∧ x = spec_rewire a.id s.id f) :
    facets_wf D fid vid L2 := by
  obtain ⟨hnd, hall⟩ := h
  have hM : ({ spec_mergedfacet (spec_makeridges a) (spec_makeridges s) with
      newfacet := true } : facetT) ∈ L2 := (hmem _).2 (Or.inl rfl)
  have hMid : ({ spec_mergedfacet (spec_makeridges a) (spec_makeridges s) with
      newfacet := true } : facetT).id = s.id := (spec_makeridges_fields s).1
  refine ⟨hnd2, fun x hx => ?_⟩
  rcases (hmem x).1 hx with rfl | ⟨f, hf, h1, h2, rfl⟩
  · obtain ⟨s1, s2, s3, s4, s5⟩ := hall s hs
    obtain ⟨a1, a2, a3, a4, a5⟩ := hall a ha
    refine ⟨by rw [hMid]; exact s1, by rw [hMid]; exact s2, ?_, ?_, ?_⟩
    · intro v hv
      rcases (mem_mergedfacet_vertices a s v).1 hv with hv | hv
      · exact s3 v hv
      · exact a3 v hv
    · intro r hr
      have hr1 : r ∈ ((((spec_makeridges s).ridges ++ (spec_makeridges a).ridges).map
          (spec_rewire_ridge (spec_makeridges a).id (spec_makeridges s).id)).filter
            fun r => r.top != r.bottom) := hr
      obtain ⟨r0, hr0, rfl⟩ := List.mem_map.1 (List.mem_of_mem_filter hr1)
      show r0.vertices.Nodup ∧ r0.vertices.length + 1 = D ∧ ∀ v ∈ r0.vertices,
        v ∈ (spec_mergedfacet (spec_makeridges a) (spec_makeridges s)).vertices
      rcases List.mem_append.1 hr0 with hr0 | hr0
      · obtain ⟨c1, c2, c3⟩ := spec_makeridges_ridges_ok L D s s4 s5 r0 hr0
        exact ⟨c1, c2, fun v hv => (mem_mergedfacet_vertices a s v).2 (Or.inl (c3 v hv))⟩
      · obtain ⟨c1, c2, c3⟩ := spec_makeridges_ridges_ok L D a a4 a5 r0 hr0
        exact ⟨c1, c2, fun v hv => (mem_mergedfacet_vertices a s v).2 (Or.inr (c3 v hv))⟩
    · intro hsim
      have : (spec_mergedfacet (spec_makeridges a) (spec_makeridges s)).simplicial = false := rfl
      rw [this] at hsim
      cases hsim
  · obtain ⟨f1, f2, f3, f4, f5⟩ := hall f hf
    refine ⟨f1, f2, f3, ?_, fun hsim => ?_⟩
    · intro r hr
      obtain ⟨r0, hr0, rfl⟩ := List.mem_map.1 hr
      exact f4 r0 hr0
    · have hsim1 : f.simplicial = true := hsim
      obtain ⟨b1, b2, b3, b4⟩ := f5 hsim1
      have hnb : (spec_rewire a.id s.id f).neighbors
          = f.neighbors.map (spec_replace a.id s.id) := by
        unfold spec_rewire
        simp only [hsim1, if_true]
      refine ⟨b1, by rw [hnb, List.length_map]; exact b2, b3, fun k hk => ?_⟩
      rw [hnb, getD_map_of_lt _ _ _ (by omega)]
      obtain ⟨g, hg, hgid, hgne, hcov⟩ := b4 k hk
      show ∃ g2 ∈ L2, g2.id = _ ∧ g2.id ≠ f.id ∧ ∀ v ∈ f.vertices, _ → v ∈ g2.vertices
      rw [← hgid]
      by_cases ga : g.id = a.id
      · have e := eq_of_id_eq_of_nodup L hnd g a hg ha ga
        rw [ga, spec_replace_self]
        refine ⟨_, hM, hMid, by rw [hMid]; exact Ne.symm h2, fun v hv hvk => ?_⟩
        exact (mem_mergedfacet_vertices a s v).2 (Or.inr (e ▸ hcov v hv hvk))
      · rw [spec_replace_ne _ _ _ ga]
        by_cases gs : g.id = s.id
        · have e := eq_of_id_eq_of_nodup L hnd g s hg hs gs
          refine ⟨_, hM, hMid.trans gs.symm, by rw [hMid]; exact Ne.symm h2, fun v hv hvk => ?_⟩
          exact (mem_mergedfacet_vertices a s v).2 (Or.inl (e ▸ hcov v hv hvk))
        · exact ⟨_, (hmem _).2 (Or.inr ⟨g, hg, ga, gs, rfl⟩), rfl, hgne, hcov⟩

theorem sublist_drop_middle {α : Type} (A V N : List α) : (A ++ N).Sublist (A ++ V ++ N) := by
  rw [List.append_assoc]
  exact (List.Sublist.refl A).append (List.sublist_append_right V N)

/-- The merge execution keeps the state `merging_ok`. -/
theorem spec_mergefacet_merging_ok (qh : QhullQh) (f1 f2 : Nat) (h : qh.merging_ok)
    (hm : spec_mergeable qh f1 f2 = true) : (spec_mergefacet qh f1 f2).merging_ok := by
  obtain ⟨hl, hlt, hwf⟩ := h
  obtain ⟨t, hseg⟩ := segments_of_lists_ok qh hl
  obtain ⟨a, ha, s, hs, ha1, hs2, hne, -⟩ := spec_mergeable_spec qh f1 f2 hm
  have hlive := segments_live qh _ _ _ t hseg
  have hdl := segments_dropLast qh _ _ _ t hseg
  rw [hlive] at ha hs hwf
  rw [hdl] at hlt
  have hseg2 := segments_mergefacet qh _ _ _ t a s hseg ha hs hne
  obtain ⟨e1, e2, e3, -, -⟩ := spec_mergefacet_fields qh f1 f2
  rw [← ha1, ← hs2] at e1 e2 e3 ⊢
  generalize hA : (qh.facet_list.dropLast.filter fun f => !f.visible && !f.newfacet) = A
    at hseg hlive hdl ha hs hwf hlt hseg2
  generalize qh.visibles = V at hseg hlive hdl ha hs hwf hlt hseg2
  generalize qh.newfacets = N at hseg hlive hdl ha hs hwf hlt hseg2
  refine ⟨lists_ok_of_segments _ _ _ _ _ hseg2, ?_, ?_⟩
  · rw [segments_dropLast _ _ _ _ _ hseg2, e1]
    intro x hx
    simp only [List.mem_append, List.mem_map, List.mem_filter, List.mem_cons,
      List.not_mem_nil, or_false] at hx
    rcases hx with (⟨f, ⟨hf, -⟩, rfl⟩ | rfl | ⟨f, hf, rfl⟩) | ⟨f, ⟨hf, -⟩, rfl⟩ | rfl
    · exact hlt f (by simp [hf])
    · show (spec_makeridges a).id < _
      rw [(spec_makeridges_fields a).1]
      exact hlt a (by simp only [List.mem_append] at ha ⊢; tauto)
    · exact hlt f (by simp [hf])
    · exact hlt f (by simp [hf])
    · show (spec_makeridges s).id < _
      rw [(spec_makeridges_fields s).1]
      exact hlt s (by simp only [List.mem_append] at hs ⊢; tauto)
  · rw [segments_live _ _ _ _ _ hseg2, e1, e2, e3]
    refine facets_wf_merge _ _ _ (A ++ N) _ a s ha hs hwf ?_ ?_
    · exact hseg2.2.2.2.2.1.sublist ((sublist_drop_middle _ _ _).map _)
    · intro x
      simp only [List.mem_append, List.mem_map, List.mem_filter, List.mem_singleton,
        Bool.and_eq_true, bne_iff_ne, ne_eq]
      constructor
      · rintro (⟨f, ⟨hf, h1, h2⟩, rfl⟩ | ⟨f, ⟨hf, h1, h2⟩, rfl⟩ | rfl)
        · exact Or.inr ⟨f, Or.inl hf, h1, h2, rfl⟩
        · exact Or.inr ⟨f, Or.inr hf, h1, h2, rfl⟩
        · exact Or.inl rfl
      · rintro (rfl | ⟨f, hf | hf, h1, h2, rfl⟩)
        · exact Or.inr (Or.inr rfl)
        · exact Or.inl ⟨f, ⟨hf, h1, h2⟩, rfl⟩
        · exact Or.inr (Or.inl ⟨f, ⟨hf, h1, h2⟩, rfl⟩)

theorem merging_ok_of_cone_ok (qh : QhullQh) (h : qh.cone_ok) : qh.merging_ok :=
  ⟨h.1, h.2.1, h.2.2.1⟩

/-- When no facet is redundant, the simplicial facets that are attached to
their neighbors have the correspondence. -/
theorem cone_ok_of_merging_ok (qh : QhullQh) (h : qh.merging_ok)
    (hr : spec_redundant qh = none) : qh.cone_ok := by
  obtain ⟨hl, hlt, hwf⟩ := h
  refine ⟨hl, hlt, hwf, fun f hf hs => ?_⟩
  obtain ⟨b1, b2, b3, b4⟩ := (hwf.2 f hf).2.2.2.2 hs
  refine ⟨b2, b3, fun k hk => ?_⟩
  obtain ⟨g, hg, hgid, hgne, hcov⟩ := b4 k hk
  refine ⟨g, hg, hgid, hcov, fun hin => ?_⟩
  refine spec_redundant_none qh hr f hf g hg hgne ?_ fun v hv => ?_
  · rw [hgid]
    exact getD_mem_of_lt _ _ _ (by omega)
  · by_cases hv2 : v = f.vertices.getD k 0
    · rw [hv2]; exact hin
    · exact hcov v hv hv2

/-- The merge engine keeps the state `cone_ok`. -/
theorem spec_mergeloop_cone_ok (M : SpecMerge) (n : Nat) (qh s : QhullQh) (h : qh.cone_ok)
    (hs : spec_mergeloop M n qh = .ret s) : s.cone_ok := by
  obtain ⟨h1, h2⟩ := spec_mergeloop_inv QhullQh.merging_ok spec_mergefacet_merging_ok M n qh s
    (merging_ok_of_cone_ok qh h) hs
  rcases h2 with e | e
  · rw [e]; exact h
  · exact cone_ok_of_merging_ok s h1 e

/-- The step `MergeIfNeeded` keeps the state `cone_ok`. -/
theorem spec_mergeifneeded_cone_ok (M : SpecMerge) (qh s : QhullQh) (h : qh.cone_ok)
    (hs : spec_mergeifneeded M qh = .ret s) : s.cone_ok := by
  unfold spec_mergeifneeded at hs
  split at hs
  · exact spec_mergeloop_cone_ok M _ qh s h hs
  · injection hs with hs
    subst hs
    exact h

theorem graph_ok_split (qh : QhullQh) (hok : qh.graph_ok) :
    ∃ F t, qh.facet_list = F ++ [t] ∧ t.id = 0 ∧ t.visible = false ∧ t.newfacet = false
      ∧ (F.map fun f => f.id).Nodup
      ∧ (∀ f ∈ F, 0 < f.id ∧ f.id < qh.facet_id ∧ f.visible = false ∧ f.newfacet = false)
      ∧ facets_ok qh.hull_dim.toNat qh.facet_id qh.vertex_id F := by
  obtain ⟨F, t, h1, h2, h3, h4, h5, h6⟩ := lists_clear_split qh hok.1
  refine ⟨F, t, h1, h2, h3, h4, h5, h6, ?_⟩
  have := hok.2
  rwa [h1, List.dropLast_concat] at this

/-- The state after `FindHorizon` and `BuildCone`, from a state between two
incorporations: the lists have their layout and the facets that are not visible
are in the state `facets_ok`. -/
theorem spec_makecone_cone_ok (qh : QhullQh) (facet p : Nat) (s : QhullQh) (hok : qh.graph_ok)
    (hs : spec_makecone (spec_findhorizon qh facet p) p = .ret s) : s.cone_ok := by
  obtain ⟨F, t, hF, ht0, htv, htn, hnd, hall, hFok⟩ := graph_ok_split qh hok
  obtain ⟨Vf, hseg1, hVid, hVf⟩ := spec_findhorizon_segments qh facet p F t hF ht0 htv htn hnd
    (fun f hf => ⟨(hall f hf).1, (hall f hf).2.2⟩)
  have hlt1 : ∀ f ∈ F.filter (fun f => !(spec_visible qh facet p).contains f.id) ++ Vf,
      f.id < (spec_findhorizon qh facet p).facet_id := by
    intro f hf
    rcases List.mem_append.1 hf with hf | hf
    · exact (hall f (List.mem_of_mem_filter hf)).2.1
    · obtain ⟨f0, hf0, -, rfl⟩ := hVf f hf
      exact (hall f0 hf0).2.1
  have hseg2 := spec_makecone_segments (spec_findhorizon qh facet p) p _ Vf t s hseg1 hlt1 hs
  obtain ⟨-, hcheck, hfid, hvid, hdim, -, -⟩ := spec_makecone_shape (spec_findhorizon qh facet p)
    p _ Vf t s (by rw [hseg1.1, List.append_nil]) (fun f hf => (hseg1.2.2.2.2.2.2.1 f hf).1)
    hseg1.2.2.2.2.2.2.2.1 hs
  have hfid1 : (spec_findhorizon qh facet p).facet_id = qh.facet_id := rfl
  have hvid1 : (spec_findhorizon qh facet p).vertex_id = qh.vertex_id := rfl
  have hdim1 : (spec_findhorizon qh facet p).hull_dim = qh.hull_dim := rfl
  rw [hfid1, hvid1] at hseg2 hcheck hfid
  rw [hfid1] at hlt1
  rw [hvid1] at hvid
  rw [hdim1] at hdim
  generalize hRdef : F.filter (fun f => !(spec_visible qh facet p).contains f.id) = R
    at hseg1 hseg2 hcheck hfid hlt1
  generalize hN0 : spec_makenewfacets (R ++ Vf) qh.facet_id qh.vertex_id = N0
    at hseg2 hcheck hfid
  have hcone := facets_ok_cone qh.hull_dim.toNat qh.facet_id qh.vertex_id F R Vf N0
    (spec_visible qh facet p) hFok (fun f hf => (hall f hf).2.2.1) hRdef.symm hVid hVf hN0.symm
    hcheck
  refine ⟨lists_ok_of_segments _ _ _ _ _ hseg2, ?_, ?_⟩
  · rw [segments_dropLast _ _ _ _ _ hseg2, hfid]
    intro f hf
    simp only [List.mem_append, List.mem_map] at hf
    rcases hf with (⟨f0, hf0, rfl⟩ | hf) | ⟨n, hn, rfl⟩
    · rw [(spec_attachhorizon_fields _ _ f0).1]
      have := hlt1 f0 (by simp [hf0])
      omega
    · have := hlt1 f (by simp [hf])
      omega
    · have := (hcone.1.2 (spec_matchnewfacets N0 n)
        (List.mem_append_right _ (List.mem_map_of_mem _ hn))).2.1
      exact this
  · rw [segments_live _ _ _ _ _ hseg2, hfid, hvid, hdim, hVid]
    exact hcone

theorem core_eq_fields (a b : facetT) (h : a.core = b.core) :
    a.id = b.id ∧ a.vertices = b.vertices ∧ a.neighbors = b.neighbors ∧ a.newfacet = b.newfacet
      ∧ a.visible = b.visible ∧ a.simplicial = b.simplicial ∧ a.ridges = b.ridges := by
  have h1 : (a.core).id = (b.core).id := congrArg facetT.id h
  have h2 : (a.core).vertices = (b.core).vertices := congrArg facetT.vertices h
  have h3 : (a.core).neighbors = (b.core).neighbors := congrArg facetT.neighbors h
  have h4 : (a.core).newfacet = (b.core).newfacet := congrArg facetT.newfacet h
  have h5 : (a.core).visible = (b.core).visible := congrArg facetT.visible h
  have h6 : (a.core).simplicial = (b.core).simplicial := congrArg facetT.simplicial h
  have h7 : (a.core).ridges = (b.core).ridges := congrArg facetT.ridges h
  exact ⟨h1, h2, h3, h4, h5, h6, h7⟩

theorem exists_core_of_map_eq (F1 F2 : List facetT) (h : F2.map facetT.core = F1.map facetT.core)
    (f : facetT) (hf : f ∈ F2) : ∃ g ∈ F1, f.core = g.core := by
  have h1 : f.core ∈ F2.map facetT.core := List.mem_map_of_mem _ hf
  rw [h, List.mem_map] at h1
  obtain ⟨g, hg, he⟩ := h1
  exact ⟨g, hg, he.symm⟩

theorem map_id_of_core (F1 F2 : List facetT) (h : F2.map facetT.core = F1.map facetT.core) :
    F2.map (fun f => f.id) = F1.map fun f => f.id := by
  have e : ∀ F : List facetT, F.map (fun f => f.id) = (F.map facetT.core).map fun f => f.id := by
    intro F
    rw [List.map_map]
    rfl
  rw [e F2, h, ← e F1]

/-- The state `facets_ok` does not depend on the outside sets. -/
theorem facets_ok_of_core (D fid vid : Nat) (F1 F2 : List facetT)
    (h : F2.map facetT.core = F1.map facetT.core) (hok : facets_ok D fid vid F1) :
    facets_ok D fid vid F2 := by
  refine facets_ok_of_sim D fid vid F1 F2 ?_ ?_ ?_ hok
  · rw [map_id_of_core F1 F2 h]
    exact hok.1.1
  · intro f2 hf2
    obtain ⟨f, hf, he⟩ := exists_core_of_map_eq F1 F2 h f2 hf2
    obtain ⟨e1, e2, e3, e4, e5, e6, e7⟩ := core_eq_fields f2 f he
    exact ⟨f, hf, e1, e2, e3, e6, fun r hr => ⟨r, e7 ▸ hr, rfl⟩⟩
  · intro f1 hf1
    obtain ⟨f, hf, he⟩ := exists_core_of_map_eq F2 F1 h.symm f1 hf1
    obtain ⟨e1, e2, -⟩ := core_eq_fields f1 f he
    exact ⟨f, hf, e1.symm, e2.symm⟩

theorem graph_ok_of_parts (s : QhullQh) (kept : List facetT) (t : facetT)
    (h : s.facet_list = kept ++ [t]) (ht : t.id = 0 ∧ t.visible = false ∧ t.newfacet = false)
    (hnd : (kept.map fun f => f.id).Nodup)
    (hall : ∀ f ∈ kept, 0 < f.id ∧ f.id < s.facet_id ∧ f.visible = false ∧ f.newfacet = false)
    (hok : facets_ok s.hull_dim.toNat s.facet_id s.vertex_id kept) : s.graph_ok := by
  unfold QhullQh.graph_ok QhullQh.lists_clear QhullQh.facets_listed
  rw [h, List.dropLast_concat, List.getLast?_concat]
  exact ⟨⟨⟨by simp [ht.1, ht.2.1, ht.2.2], hnd, fun f hf => (hall f hf).1⟩,
    fun f hf => (hall f hf).2⟩, hok⟩

/-- The state `graph_ok` does not depend on the outside sets. -/
theorem graph_ok_of_core (qh s : QhullQh)
    (h : s.facet_list.map facetT.core = qh.facet_list.map facetT.core)
    (hd : s.hull_dim = qh.hull_dim) (hf : s.facet_id = qh.facet_id)
    (hv : s.vertex_id = qh.vertex_id) (hok : qh.graph_ok) : s.graph_ok := by
  obtain ⟨F, t, hF, ht0, htv, htn, hnd, hall, hFok⟩ := graph_ok_split qh hok
  have hlen : s.facet_list.length = F.length + 1 := by
    have := congrArg List.length h
    rw [List.length_map, List.length_map, hF, List.length_append] at this
    exact this
  have hne : s.facet_list ≠ [] := by
    intro h0
    rw [h0] at hlen
    simp at hlen
  have hsplit := (List.dropLast_append_getLast hne).symm
  have h2 := h
  rw [hF, hsplit, List.map_append, List.map_append] at h2
  have hl : (s.facet_list.dropLast.map facetT.core).length = (F.map facetT.core).length := by
    rw [List.length_map, List.length_map, List.length_dropLast, hlen]
    rfl
  obtain ⟨h3, h4⟩ := List.append_inj h2 hl
  simp only [List.map_cons, List.map_nil, List.cons.injEq, and_true] at h4
  obtain ⟨e1, _, _, e4, e5, _⟩ := core_eq_fields _ _ h4
  apply graph_ok_of_parts s _ _ hsplit ⟨e1.trans ht0, e5.trans htv, e4.trans htn⟩
  · rw [map_id_of_core F _ h3]
    exact hnd
  · intro f2 hf2
    obtain ⟨f, hf1, he⟩ := exists_core_of_map_eq F _ h3 f2 hf2
    obtain ⟨d1, -, -, d4, d5, -⟩ := core_eq_fields f2 f he
    rw [d1, d4, d5, hf]
    exact hall f hf1
  · rw [hd, hf, hv]
    exact facets_ok_of_core _ _ _ F _ h3 hFok

theorem spec_partitionvisible_core (qh : QhullQh) (facets : List facetT) (q : Nat) :
    (spec_partitionvisible qh facets q).map facetT.core = facets.map facetT.core := by
  unfold spec_partitionvisible
  split
  · rfl
  · rw [List.map_map]
    apply List.map_congr_left
    intro f _
    simp only [Function.comp]
    split <;> rfl

theorem foldl_partitionvisible_core (qh : QhullQh) (points : List Nat) :
    ∀ facets : List facetT,
      (points.foldl (spec_partitionvisible qh) facets).map facetT.core
        = facets.map facetT.core := by
  induction points with
  | nil => intro facets; rfl
  | cons q points ih =>
    intro facets
    rw [List.foldl_cons, ih, spec_partitionvisible_core]

/-- The deletion of the visible facets leads from the state `cone_ok` to the
state `graph_ok`, whatever the outside sets are. -/
theorem graph_ok_deletevisible (qh q1 : QhullQh) (P : List facetT) (hc : qh.cone_ok)
    (hl : q1.facet_list = P ++ qh.facet_list.getLast?.toList)
    (hP : P.map facetT.core = qh.facet_list.dropLast.map facetT.core)
    (hf : q1.facet_id = qh.facet_id) (hv : q1.vertex_id = qh.vertex_id)
    (hd : q1.hull_dim = qh.hull_dim) : (spec_deletevisible q1).graph_ok := by
  obtain ⟨hlo, hlt, hok⟩ := hc
  obtain ⟨t, hseg⟩ := segments_of_lists_ok qh hlo
  have hg := segments_getLast qh _ _ _ t hseg
  rw [hg] at hl
  simp only [Option.toList] at hl
  have hq1d : q1.facet_list.dropLast = P := by rw [hl, List.dropLast_concat]
  have hq1l : q1.facet_list.getLast?.toList = [t] := by rw [hl]; simp
  have hfl : (spec_deletevisible q1).facet_list
      = ((P.filter fun f => !f.visible).map fun f : facetT =>
          { f with
            newfacet := false
            ridges := f.ridges.filter fun r =>
              !spec_across ((P.filter fun f => f.visible).map fun f => f.id) r f.id }) ++ [t] := by
    show _ ++ q1.facet_list.getLast?.toList = _
    rw [hq1l, hq1d]
  have hids := map_id_of_core _ P hP
  have hnd : (P.map fun f => f.id).Nodup := by
    rw [hids]
    exact hlo.1.2.1
  apply graph_ok_of_parts _ _ t hfl ⟨hseg.2.1, hseg.2.2.1, hseg.2.2.2.1⟩
  · rw [List.map_map]
    exact hnd.sublist ((List.filter_sublist P).map _)
  · intro f2 hf2
    obtain ⟨p, hp, rfl⟩ := List.mem_map.1 hf2
    rw [List.mem_filter] at hp
    obtain ⟨f, hf1, he⟩ := exists_core_of_map_eq _ P hP p hp.1
    obtain ⟨d1, -⟩ := core_eq_fields p f he
    refine ⟨?_, ?_, by simpa using hp.2, rfl⟩
    · show 0 < p.id
      rw [d1]
      exact hlo.1.2.2 f hf1
    · show p.id < q1.facet_id
      rw [d1, hf]
      exact hlt f hf1
  · show facets_ok q1.hull_dim.toNat q1.facet_id q1.vertex_id _
    rw [hd, hf, hv]
    refine facets_ok_of_sim _ _ _ qh.live _ ?_ ?_ ?_ hok
    · rw [List.map_map]
      exact hnd.sublist ((List.filter_sublist P).map _)
    · intro f2 hf2
      obtain ⟨p, hp, rfl⟩ := List.mem_map.1 hf2
      rw [List.mem_filter] at hp
      obtain ⟨f, hf1, he⟩ := exists_core_of_map_eq _ P hP p hp.1
      obtain ⟨d1, d2, d3, d4, d5, d6, d7⟩ := core_eq_fields p f he
      refine ⟨f, ?_, d1, d2, d3, d6, fun r hr => ⟨r, ?_, rfl⟩⟩
      · unfold QhullQh.live
        rw [List.mem_filter]
        exact ⟨hf1, by rw [← d5]; exact hp.2⟩
      · rw [← d7]
        exact List.mem_of_mem_filter hr
    · intro f1 hf1
      unfold QhullQh.live at hf1
      rw [List.mem_filter] at hf1
      obtain ⟨p, hp, he⟩ := exists_core_of_map_eq P _ hP.symm f1 hf1.1
      obtain ⟨d1, d2, d3, d4, d5, d6, d7⟩ := core_eq_fields f1 p he
      refine ⟨_, List.mem_map_of_mem _ (List.mem_filter.2 ⟨hp, by rw [← d5]; exact hf1.2⟩),
        d1.symm, d2.symm⟩

/-- The step `Attach` leads from the state `cone_ok` to the state `graph_ok`. -/
theorem spec_attach_graph_ok (qh : QhullQh) (p : Nat) (hc : qh.cone_ok) :
    (spec_attach qh p).graph_ok :=
  graph_ok_deletevisible qh _ _ hc rfl (foldl_partitionvisible_core qh _ _) rfl rfl rfl

/-- The deletion of the visible facets leads from the state `cone_ok` to the
state `graph_ok`. -/
theorem spec_deletevisible_graph_ok (qh : QhullQh) (hc : qh.cone_ok) :
    (spec_deletevisible qh).graph_ok := by
  refine graph_ok_deletevisible qh qh qh.facet_list.dropLast hc ?_ rfl rfl rfl rfl
  obtain ⟨t, hseg⟩ := segments_of_lists_ok qh hc.1
  rw [segments_getLast qh _ _ _ t hseg]
  exact (List.dropLast_append_getLast? t (segments_getLast qh _ _ _ t hseg)).symm

/-- One incorporation keeps the state `graph_ok`, whatever the merge policy
is. -/
theorem spec_addpoint_graph_ok (M : SpecMerge) (qh : QhullQh) (facet p : Nat) (s : QhullQh)
    (hok : qh.graph_ok) (hs : spec_addpoint M qh facet p = .ret s) : s.graph_ok := by
  unfold spec_addpoint at hs
  split at hs
  · injection hs with hs
    subst hs
    refine graph_ok_of_core qh _ ?_ rfl rfl rfl hok
    show (qh.facet_list.map _).map facetT.core = _
    rw [List.map_map]
    rfl
  · obtain ⟨s1, hs1, hs⟩ := andThen_eq_ret _ _ s hs
    obtain ⟨s2, hs2, hs⟩ := andThen_eq_ret _ _ s hs
    injection hs with hs
    subst hs
    exact spec_attach_graph_ok s2 p
      (spec_mergeifneeded_cone_ok M s1 s2 (spec_makecone_cone_ok qh facet p s1 hok hs1) hs2)

/-- The post-merge pass keeps the state `graph_ok`, whatever the merge policy
is. -/
theorem spec_postmerge_graph_ok (M : SpecMerge) (qh s : QhullQh) (hok : qh.graph_ok)
    (hs : spec_postmerge M qh = .ret s) : s.graph_ok := by
  unfold spec_postmerge at hs
  split at hs
  · obtain ⟨s1, hs1, hs⟩ := andThen_eq_ret _ _ s hs
    injection hs with hs
    subst hs
    refine spec_deletevisible_graph_ok s1 (spec_mergeloop_cone_ok M _ _ s1 ?_ hs1)
    obtain ⟨F, t, hF, ht0, htv, htn, hnd, hall, hFok⟩ := graph_ok_split qh hok
    have hd : qh.facet_list.dropLast = F := by rw [hF, List.dropLast_concat]
    have hg : qh.facet_list.getLast?.toList = [t] := by rw [hF]; simp
    have hidm : (F.map fun f : facetT => ({ f with newfacet := true } : facetT)).map
        (fun f => f.id) = F.map fun f => f.id := by
      rw [List.map_map]
      rfl
    have hseg : QhullQh.segments
        { qh with
          facet_list := (qh.facet_list.dropLast.map fun f => { f with newfacet := true })
            ++ qh.facet_list.getLast?.toList
          visible_list := ((qh.facet_list.head?).map fun f => f.id).getD 0
          newfacet_list := ((qh.facet_list.head?).map fun f => f.id).getD 0 }
        [] [] (F.map fun f => { f with newfacet := true }) t := by
      have hhead : ((F.map fun f : facetT => ({ f with newfacet := true } : facetT)) ++ [t]).head?.map
          (fun f => f.id) = some (((qh.facet_list.head?).map fun f => f.id).getD 0) := by
        rw [hF]
        cases F with
        | nil => simp
        | cons a F => simp
      refine ⟨?_, ht0, htv, htn, ?_, ?_, ?_, ?_, ?_, ?_, hhead⟩
      · show _ ++ _ = _
        rw [hd, hg]
        rfl
      · rw [List.nil_append, List.nil_append, hidm]
        exact hnd
      · intro f hf
        rw [List.nil_append, List.nil_append] at hf
        obtain ⟨f0, hf0, rfl⟩ := List.mem_map.1 hf
        exact (hall f0 hf0).1
      · exact fun f hf => absurd hf (List.not_mem_nil f)
      · exact fun f hf => absurd hf (List.not_mem_nil f)
      · intro f hf
        obtain ⟨f0, hf0, rfl⟩ := List.mem_map.1 hf
        exact ⟨rfl, (hall f0 hf0).2.2.1⟩
      · exact hhead
    refine ⟨lists_ok_of_segments _ _ _ _ _ hseg, ?_, ?_⟩
    · rw [segments_dropLast _ _ _ _ _ hseg]
      intro f hf
      rw [List.nil_append, List.nil_append] at hf
      obtain ⟨f0, hf0, rfl⟩ := List.mem_map.1 hf
      exact (hall f0 hf0).2.1
    · rw [segments_live _ _ _ _ _ hseg, List.nil_append]
      refine facets_ok_of_sim _ _ _ F _ ?_ ?_ ?_ hFok
      · rw [hidm]
        exact hnd
      · intro f2 hf2
        obtain ⟨f0, hf0, rfl⟩ := List.mem_map.1 hf2
        exact ⟨f0, hf0, rfl, rfl, rfl, rfl, fun r hr => ⟨r, hr, rfl⟩⟩
      · intro f1 hf1
        exact ⟨_, List.mem_map_of_mem _ hf1, rfl, rfl⟩
  · injection hs with hs
    subst hs
    exact hok

theorem spec_simplex_facet_vertices_mem (n k v : Nat) :
    v ∈ (spec_simplex_facet n k).vertices ↔ ∃ i, i < n ∧ i ≠ k ∧ v = i + 1 := by
  simp only [spec_simplex_facet, List.mem_map, List.mem_filter, List.mem_reverse, List.mem_range]
  constructor
  · rintro ⟨i, ⟨hi, hne⟩, rfl⟩
    exact ⟨i, hi, by simpa using hne, rfl⟩
  · rintro ⟨i, hi, hne, rfl⟩
    exact ⟨i, ⟨hi, by simpa using hne⟩, rfl⟩

/-- The facets of the initial simplex are in the state `facets_ok`. -/
theorem simplex_facets_ok (D : Nat) :
    facets_ok D (D + 1 + 1) (D + 1 + 1)
      ((List.range (D + 1)).map fun k => spec_simplex_facet (D + 1) k) := by
  apply facets_ok_intro
  · rw [List.map_map]
    exact List.Nodup.map (fun a b h => Nat.succ.inj h) (List.nodup_range _)
  · intro f hf
    obtain ⟨k, hk, rfl⟩ := List.mem_map.1 hf
    rw [List.mem_range] at hk
    have hlen := spec_simplex_facet_vertices_length D k hk
    refine ⟨Nat.succ_pos k, Nat.succ_lt_succ hk, ?_, fun r hr => absurd hr (List.not_mem_nil r),
      fun _ => ⟨?_, hlen, hlen, ?_⟩⟩
    · intro v hv
      obtain ⟨i, hi, _, rfl⟩ := (spec_simplex_facet_vertices_mem _ _ _).1 hv
      omega
    · show (((List.range (D + 1)).reverse.filter fun j => j != k).map fun j => j + 1).Nodup
      exact List.Nodup.map (fun a b h => Nat.succ.inj h)
        (List.Nodup.filter _ (List.nodup_reverse.2 (List.nodup_range _)))
    · intro j hj
      have hjl : j < (spec_simplex_facet (D + 1) k).vertices.length := by rw [hlen]; exact hj
      have hm := getD_mem_of_lt (spec_simplex_facet (D + 1) k).vertices j 0 hjl
      obtain ⟨m, hm1, hm2, hm3⟩ := (spec_simplex_facet_vertices_mem _ _ _).1 hm
      refine ⟨spec_simplex_facet (D + 1) m,
        List.mem_map.2 ⟨m, List.mem_range.2 hm1, rfl⟩, hm3.symm, ?_⟩
      unfold facetT.opposite
      rw [hm3]
      constructor
      · intro w hw hne
        obtain ⟨i, hi1, hi2, rfl⟩ := (spec_simplex_facet_vertices_mem _ _ _).1 hw
        exact (spec_simplex_facet_vertices_mem _ _ _).2
          ⟨i, hi1, fun h => hne (by rw [h]), rfl⟩
      · intro hmem
        obtain ⟨i, _, hi2, hi3⟩ := (spec_simplex_facet_vertices_mem _ _ _).1 hmem
        exact hi2 (Nat.succ.inj hi3).symm

theorem spec_partitionpoint_core (dist : facetT → Nat → realT) (p : Nat) :
    ∀ L : List facetT,
      (spec_partitionpoint dist p L).map facetT.core = L.map facetT.core
  | [] => rfl
  | [_] => rfl
  | facet :: next :: rest => by
    unfold spec_partitionpoint
    split
    · rfl
    · rw [List.map_cons, List.map_cons, spec_partitionpoint_core dist p (next :: rest)]

theorem foldl_partitionpoint_core (dist : facetT → Nat → realT) (points : List Nat) :
    ∀ L : List facetT,
      (points.foldl (fun facets p => spec_partitionpoint dist p facets) L).map facetT.core
        = L.map facetT.core := by
  induction points with
  | nil => intro L; rfl
  | cons q points ih =>
    intro L
    rw [List.foldl_cons, ih, spec_partitionpoint_core]

/-- The initial simplex, when it is built, is in the state `graph_ok`. -/

theorem spec_initialhull_graph_ok (qh s : QhullQh) (hs : spec_initialhull qh = .ret s) :
    s.graph_ok := by
  unfold spec_initialhull at hs
  simp only at hs
  split at hs
  · cases hs
  · split at hs
    · cases hs
    · rename_i simplex hfind
      have hmem := List.mem_of_find?_eq_some hfind
      have hlen : simplex.length = qh.hull_dim.toNat + 1 := (List.mem_sublistsLen.1 hmem).2
      injection hs with hs
      subst hs
      refine graph_ok_of_core
        { qh with facet_list := spec_simplex_facets (qh.hull_dim.toNat + 1),
                  facet_id := qh.hull_dim.toNat + 1 + 1,
                  vertex_id := qh.hull_dim.toNat + 1 + 1 } _ ?_ rfl ?_ ?_ ?_
      · show (List.foldl _ (spec_simplex_facets simplex.length) _).map facetT.core = _
        rw [foldl_partitionpoint_core, hlen]
      · show simplex.length + 1 = _
        rw [hlen]
      · show simplex.length + 1 = _
        rw [hlen]
      · refine graph_ok_of_parts _ _ { id := 0 } rfl ⟨rfl, rfl, rfl⟩
          (simplex_facets_ok qh.hull_dim.toNat).1.1 ?_ (simplex_facets_ok qh.hull_dim.toNat)
        intro f hf
        obtain ⟨k, hk, rfl⟩ := List.mem_map.1 hf
        rw [List.mem_range] at hk
        exact ⟨Nat.succ_pos k, Nat.succ_lt_succ hk, rfl, rfl⟩

/-- The main loop keeps the state `graph_ok`, when every incorporation is the
one modelled from the specification. -/
theorem spec_buildhull_graph_ok (K : SpecKernel) (M : SpecMerge)
    (hadd : K.addpoint = spec_addpoint M)
    (random : Bool) (seed : Int) : ∀ (steps : Nat) (qh s : QhullQh), qh.graph_ok →
      spec_buildhull K random seed steps qh = .ret s → s.graph_ok := by
  intro steps
  induction steps with
  | zero =>
    intro qh s hok hs
    unfold spec_buildhull at hs
    split at hs
    · injection hs with hs
      exact hs ▸ hok
    · cases hs
  | succ steps ih =>
    intro qh s hok hs
    unfold spec_buildhull at hs
    split at hs
    · injection hs with hs
      exact hs ▸ hok
    · obtain ⟨s1, h1, h2⟩ := andThen_eq_ret _ _ _ hs
      rw [hadd] at h1
      exact ih s1 s (spec_addpoint_graph_ok M _ _ _ s1 hok h1) h2

theorem spec_attempt_graph_ok (K : SpecKernel) (M : SpecMerge)
    (hadd : K.addpoint = spec_addpoint M)
    (random : Bool) (seed : Int) (checkpoint : QhullQh) (attempt : Nat) (s : QhullQh)
    (hs : spec_attempt K random seed checkpoint attempt = .ret s) : s.graph_ok := by
  unfold spec_attempt at hs
  obtain ⟨s1, h1, h2⟩ := andThen_eq_ret _ _ _ hs
  exact spec_buildhull_graph_ok K M hadd random seed _ s1 s (spec_initialhull_graph_ok _ s1 h1) h2

theorem spec_unwind_eq_ret (r : QhExit QhullQh) (s : QhullQh) (h : spec_unwind r = .ret s) :
    r = .ret s := by
  cases r with
  | ret s1 => exact h
  | errexit e s1 => cases h

theorem spec_rerun_graph_ok (K : SpecKernel) (M : SpecMerge)
    (hadd : K.addpoint = spec_addpoint M)
    (random : Bool) (seed : Int) (joggle : Bool) (checkpoint : QhullQh) :
    ∀ (remaining attempt : Nat) (s : QhullQh),
      spec_rerun K random seed joggle checkpoint remaining attempt = .ret s → s.graph_ok := by
  intro remaining
  induction remaining with
  | zero =>
    intro attempt s hs
    unfold spec_rerun at hs
    exact spec_attempt_graph_ok K M hadd random seed checkpoint attempt s
      (spec_unwind_eq_ret _ s hs)
  | succ remaining ih =>
    intro attempt s hs
    unfold spec_rerun at hs
    split at hs
    · rename_i qh1 hatt
      injection hs with hs
      subst hs
      exact spec_attempt_graph_ok K M hadd random seed checkpoint attempt _ hatt
    · split at hs
      · exact ih _ s hs
      · cases hs

/-- The hull that `qh_qhull` returns is in the state `graph_ok`. -/
theorem spec_qhull_graph_ok (K : SpecKernel) (M : SpecMerge)
    (hadd : K.addpoint = spec_addpoint M) (clock : Int)
    (REALmax : realT) (qh s : QhullQh) (hs : spec_qhull K clock REALmax qh = .ret s) :
    s.graph_ok :=
  spec_rerun_graph_ok K M hadd _ _ _ qh _ 0 s hs

theorem runQhull_build_graph_ok (K : SpecKernel) (M : SpecMerge)
    (hadd : K.addpoint = spec_addpoint M)
    (clock : Int) (q s : Qhull) (pts : pointArray) (pc pd : Int) (m : Bool)
    (hs : q.runQhull_build (specLib K clock) pts pc pd m = .ret s) : s.qh_qh.graph_ok := by
  cases h1 : spec_init_B K q.qh_qh pts pc pd m with
  | errexit e qh1 =>
    have e1 : (specLib K clock).qh_init_B q.qh_qh pts pc pd m = .errexit e qh1 := h1
    simp only [Qhull.runQhull_build, Qhull.invoke, e1, andThen_errexit] at hs
    cases hs
  | ret qh1 =>
    cases h2 : spec_qhull K clock sampleLib.REALmax qh1 with
    | errexit e qh2 =>
      obtain ⟨s1, hs1, _⟩ := runQhull_build_spec_errexit K clock q pts pc pd m qh1 qh2 e h1 h2
      rw [hs1] at hs
      cases hs
    | ret qh2 =>
      obtain ⟨s1, hs1, hq, _⟩ := runQhull_build_spec_ret K clock q pts pc pd m qh1 qh2 h1 h2
      rw [hs1] at hs
      injection hs with hs
      rw [← hs, hq]
      exact spec_qhull_graph_ok K M hadd clock _ qh1 qh2 h2

theorem runQhull_try_graph_ok (K : SpecKernel) (M : SpecMerge)
    (hadd : K.addpoint = spec_addpoint M)
    (clock : Int) (q s : Qhull) (command cmt : cstring) (pd pc : Int) (pts : pointArray)
    (hs : q.runQhull_try (specLib K clock) command cmt pd pc pts = .ret s) :
    s.qh_qh.graph_ok := by
  unfold Qhull.runQhull_try at hs
  obtain ⟨q1, _, h1⟩ := andThen_eq_ret _ _ _ hs
  split at h1
  · unfold Qhull.runQhull_halfspace at h1
    obtain ⟨q2, _, h2⟩ := andThen_eq_ret _ _ _ h1
    obtain ⟨q3, _, h3⟩ := andThen_eq_ret _ _ _ h2
    exact runQhull_build_graph_ok K M hadd clock _ s _ _ _ _ h3
  · exact runQhull_build_graph_ok K M hadd clock _ s _ _ _ _ h1

theorem sample_maybeThrowQhullMessage_ids (qh : QhullQh) (exitCode : Int) :
    (sample_maybeThrowQhullMessage qh exitCode).1.facet_list = qh.facet_list
    ∧ (sample_maybeThrowQhullMessage qh exitCode).1.hull_dim = qh.hull_dim
    ∧ (sample_maybeThrowQhullMessage qh exitCode).1.facet_id = qh.facet_id
    ∧ (sample_maybeThrowQhullMessage qh exitCode).1.vertex_id = qh.vertex_id := by
  unfold sample_maybeThrowQhullMessage
  by_cases h : (if qh.qhull_status = qh_ERRnone then exitCode else qh.qhull_status) ≠ qh_ERRnone
  · simp [if_pos h]
  · simp [if_neg h]

/-- The state `graph_ok` holds the simplicial-facet correspondence. -/
theorem graph_ok_correspondence (qh : QhullQh) (hok : qh.graph_ok) :
    qh.simplicial_correspondence :=
  fun f hf hs => hok.2.2 f hf hs

/-- The hull that a first call of `runQhull` leaves when the block of
Qhull.cpp:312-336 returned is in the state `graph_ok`. -/
theorem runQhull_graph_ok (K : SpecKernel) (M : SpecMerge)
    (hadd : K.addpoint = spec_addpoint M) (clock : Int)
    (q0 s : Qhull) (cmt cmd : cstring) (pd pc : Int) (pts : pointArray)
    (hrc : q0.run_called = false) (hne : q0.qh_qh.NOerrexit = true)
    (htry : q0.runQhull_entry.runQhull_try (specLib K clock) ("qhull ".toList ++ cmd) cmt pd pc
      pts = .ret s) :
    (q0.runQhull (specLib K clock) cmt pd pc pts cmd).1.qh_qh.graph_ok := by
  have hok := runQhull_try_graph_ok K M hadd clock _ s _ _ _ _ _ htry
  rw [runQhull_of_try _ q0 cmt cmd pd pc pts hrc hne, htry]
  obtain ⟨h1, h2, h3, h4⟩ :=
    sample_maybeThrowQhullMessage_ids { s.qh_qh with NOerrexit := true } 0
  refine graph_ok_of_core s.qh_qh _ ?_ h2 h3 h4 hok
  exact congrArg (List.map facetT.core) h1

/-- The step `Attach` on a facet list with the layout: the facets that are not
visible stay, without a flag, and the visible list and the new-facet list are
empty. -/
theorem spec_attach_segments (qh : QhullQh) (p : Nat) (h : qh.lists_ok) :
    ∃ kept t, (spec_attach qh p).segments kept [] [] t := by
  obtain ⟨t, hseg⟩ := segments_of_lists_ok qh h
  have hg := segments_getLast qh _ _ _ t hseg
  generalize hPdef : ((((qh.facet_list.dropLast.filter fun f => f.visible).map
      fun f => f.outsideset).flatten.filter fun q => q != p).foldl
        (spec_partitionvisible qh) qh.facet_list.dropLast) = P
  have hP : P.map facetT.core = qh.facet_list.dropLast.map facetT.core := by
    rw [← hPdef]
    exact foldl_partitionvisible_core qh _ _
  have hq1d : (P ++ qh.facet_list.getLast?.toList).dropLast = P := by
    rw [hg]
    exact List.dropLast_concat
  have hfl : (spec_attach qh p).facet_list
      = ((P.filter fun f => !f.visible).map fun f : facetT =>
          { f with
            newfacet := false
            ridges := f.ridges.filter fun r =>
              !spec_across ((P.filter fun f => f.visible).map fun f => f.id) r f.id }) ++ [t] := by
    unfold spec_attach spec_deletevisible
    simp only [hPdef, hq1d, hg]
    simp
  have hnd : (P.map fun f => f.id).Nodup := by
    rw [map_id_of_core _ P hP]
    exact h.1.2.1
  refine ⟨(P.filter fun f => !f.visible).map fun f : facetT =>
      { f with
        newfacet := false
        ridges := f.ridges.filter fun r =>
          !spec_across ((P.filter fun f => f.visible).map fun f => f.id) r f.id }, t,
    ⟨by rw [hfl]; simp, hseg.2.1, hseg.2.2.1, hseg.2.2.2.1, ?_, ?_, ?_, ?_, ?_, ?_, ?_⟩⟩
  · rw [List.append_nil, List.append_nil, List.map_map]
    exact hnd.sublist ((List.filter_sublist P).map _)
  · intro f2 hf2
    rw [List.append_nil, List.append_nil] at hf2
    obtain ⟨f, hf, rfl⟩ := List.mem_map.1 hf2
    obtain ⟨f0, hf0, he⟩ := exists_core_of_map_eq _ P hP f (List.mem_of_mem_filter hf)
    show 0 < f.id
    rw [(core_eq_fields f f0 he).1]
    exact h.1.2.2 f0 hf0
  · intro f2 hf2
    obtain ⟨f, hf, rfl⟩ := List.mem_map.1 hf2
    exact ⟨by simpa using (List.mem_filter.1 hf).2, rfl⟩
  · exact fun f hf => absurd hf (List.not_mem_nil f)
  · exact fun f hf => absurd hf (List.not_mem_nil f)
  · show some t.id = some 0
    rw [hseg.2.1]
  · show some t.id = some 0
    rw [hseg.2.1]

/-- After `Attach` the lists are well formed, the visible list and the
new-facet list are empty, and no facet has a flag. -/
theorem spec_attach_lists (qh : QhullQh) (p : Nat) (h : qh.lists_ok) :
    (spec_attach qh p).lists_ok ∧ (spec_attach qh p).visibles = []
      ∧ (spec_attach qh p).newfacets = []
      ∧ ∀ f ∈ (spec_attach qh p).facet_list.dropLast, f.visible = false ∧ f.newfacet = false := by
  obtain ⟨kept, t, hseg⟩ := spec_attach_segments qh p h
  refine ⟨lists_ok_of_segments _ _ _ _ _ hseg, segments_visibles _ _ _ _ _ hseg,
    segments_newfacets _ _ _ _ _ hseg, ?_⟩
  rw [segments_dropLast _ _ _ _ _ hseg, List.append_nil, List.append_nil]
  exact hseg.2.2.2.2.2.2.1

/-- In a facet list with the layout, the flags tell which list a facet is
on. -/
theorem lists_ok_flags (qh : QhullQh) (h : qh.lists_ok) :
    ∀ f ∈ qh.facet_list.dropLast,
      (f ∈ qh.visibles ↔ f.visible = true)
        ∧ (f ∈ qh.newfacets ↔ f.newfacet = true ∧ f.visible = false) := by
  obtain ⟨t, hseg⟩ := segments_of_lists_ok qh h
  have hd := segments_dropLast qh _ _ _ t hseg
  obtain ⟨-, -, -, -, -, -, hA, hV, hN, -, -⟩ := hseg
  intro f hf
  rw [hd] at hf
  simp only [List.mem_append] at hf
  constructor
  · refine ⟨fun hm => hV f hm, fun hv => ?_⟩
    rcases hf with (hf | hf) | hf
    · rw [(hA f hf).1] at hv; cases hv
    · exact hf
    · rw [(hN f hf).2] at hv; cases hv
  · refine ⟨fun hm => hN f hm, fun hv => ?_⟩
    rcases hf with (hf | hf) | hf
    · rw [(hA f hf).2] at hv; cases hv.1
    · rw [hV f hf] at hv; cases hv.2
    · exact hf

/-! ## The hull of the unit square, computed by the model -/

theorem triangle_hull_dist (f : facetT) (a b : Nat) (x0 x1 y0 y1 : coordT) (hv : f.vertices = [a, b])
    (ha : spec_point 2 corner_points (spec_vertexpoint triangle_hull.vertex_list a) = [x0, x1])
    (hb : spec_point 2 corner_points (spec_vertexpoint triangle_hull.vertex_list b) = [y0, y1]) :
    spec_facetdist triangle_hull f 0
      = if (y0 - x0) * (1 / 3 - x1) - (y1 - x1) * (1 / 3 - x0) < 0
        then (y0 - x0) * (1 - x1) - (y1 - x1) * (1 - x0)
        else - ((y0 - x0) * (1 - x1) - (y1 - x1) * (1 - x0)) := by
  have h0 : spec_point 2 corner_points 0 = [1, 1] := rfl
  have hd : triangle_hull.hull_dim.toNat = 2 := rfl
  have hi : triangle_hull.interior_point = [1 / 3, 1 / 3] := rfl
  have hp : triangle_hull.first_point = corner_points := rfl
  simp only [spec_facetdist, spec_facetpoints, hv, hd, hi, hp, List.take, List.map, ha, hb, h0,
    spec_distplane, spec_sub, List.zipWith, List.append, List.nil_append, List.cons_append,
    spec_det_two]

/-- The point 0 of `corner_points` is outside of facet 1 of `triangle_hull`
and of no other facet. -/
theorem triangle_hull_visible : spec_visible triangle_hull 1 0 = [1] := by
  have hf : triangle_hull.facet_list.dropLast = [
      { id := 1, vertices := [3, 2], neighbors := [3, 2], simplicial := true, outsideset := [0] },
      { id := 2, vertices := [3, 1], neighbors := [3, 1], simplicial := true },
      { id := 3, vertices := [2, 1], neighbors := [2, 1], simplicial := true }] := rfl
  have h1 : spec_facetdist triangle_hull
      { id := 1, vertices := [3, 2], neighbors := [3, 2], simplicial := true, outsideset := [0] } 0
        = 1 := by
    rw [triangle_hull_dist _ 3 2 0 1 1 0 rfl rfl rfl]
    norm_num
  have h2 : spec_facetdist triangle_hull
      { id := 2, vertices := [3, 1], neighbors := [3, 1], simplicial := true } 0 = -1 := by
    rw [triangle_hull_dist _ 3 1 0 1 0 0 rfl rfl rfl]
    norm_num
  have h3 : spec_facetdist triangle_hull
      { id := 3, vertices := [2, 1], neighbors := [2, 1], simplicial := true } 0 = -1 := by
    rw [triangle_hull_dist _ 2 1 1 0 0 0 rfl rfl rfl]
    norm_num
  have e1 : spec_facet triangle_hull.facet_list.dropLast 1 = some
      { id := 1, vertices := [3, 2], neighbors := [3, 2], simplicial := true, outsideset := [0] } :=
    rfl
  have e2 : spec_facet triangle_hull.facet_list.dropLast 2 = some
      { id := 2, vertices := [3, 1], neighbors := [3, 1], simplicial := true } := rfl
  have e3 : spec_facet triangle_hull.facet_list.dropLast 3 = some
      { id := 3, vertices := [2, 1], neighbors := [2, 1], simplicial := true } := rfl
  have hlen : triangle_hull.facet_list.dropLast.length * (triangle_hull.hull_dim.toNat + 1) + 1
      = 10 := rfl
  simp only [spec_visible, hlen, spec_findhorizon_walk, e1, e2, e3, h1, h2, h3, List.contains_nil,
    List.nil_append, List.append_nil, Option.map_some', Option.getD_some, List.cons_append]
  norm_num

/-- `FindHorizon` and `BuildCone` on `triangle_hull` for the point 0. -/
theorem triangle_hull_makecone :
    spec_makecone (spec_findhorizon triangle_hull 1 0) 0 = .ret triangle_cone := by
  simp only [spec_findhorizon, triangle_hull_visible]
  rfl

/-- The incorporation of the point 0 into `triangle_hull`, without merging. -/
theorem triangle_hull_addpoint : spec_addpoint noMerge triangle_hull 1 0 = .ret square_hull := by
  simp only [spec_addpoint, triangle_hull_visible, triangle_hull_makecone]
  rfl

/-- The merge of the new facet 4 into the new facet 5 of `triangle_cone`. -/
theorem triangle_cone_mergefacet :
    spec_mergefacet { triangle_cone with PREmerge := true } 4 5 = triangle_merged := rfl

theorem spec_facetdist_congr (qh qh1 : QhullQh) (hd : qh.hull_dim = qh1.hull_dim)
    (hf : qh.first_point = qh1.first_point) (hi : qh.interior_point = qh1.interior_point)
    (hv : qh.vertex_list = qh1.vertex_list) : spec_facetdist qh = spec_facetdist qh1 := by
  funext g p
  unfold spec_facetdist spec_facetpoints
  rw [hd, hf, hi, hv]

theorem spec_visible_congr (qh qh1 : QhullQh) (hd : qh.hull_dim = qh1.hull_dim)
    (hf : qh.first_point = qh1.first_point) (hi : qh.interior_point = qh1.interior_point)
    (hv : qh.vertex_list = qh1.vertex_list) (hfl : qh.facet_list = qh1.facet_list)
    (facet p : Nat) : spec_visible qh facet p = spec_visible qh1 facet p := by
  unfold spec_visible
  rw [spec_facetdist_congr qh qh1 hd hf hi hv, hfl, hd]

/-- The incorporation of the point 0 into `triangle_hull` with merging during
the construction: the two new facets are merged into one. -/
theorem triangle_merge_addpoint :
    spec_addpoint sampleMerge { triangle_hull with PREmerge := true } 1 0 = .ret merged_hull := by
  have hvis : spec_visible { triangle_hull with PREmerge := true } 1 0 = [1] :=
    (spec_visible_congr _ triangle_hull rfl rfl rfl rfl rfl 1 0).trans triangle_hull_visible
  simp only [spec_addpoint, spec_findhorizon, hvis]
  rfl

/-- The initial simplex of `corner_points`: the triangle of the last three
points, with the point 0 outside of facet 1. -/
theorem corner_points_initialhull (qh : QhullQh) (hd : qh.hull_dim = 2)
    (hn : qh.num_points = 4) (hf : qh.first_point = corner_points) :
    spec_initialhull qh = .ret { qh with
      interior_point := triangle_hull.interior_point
      vertex_list := triangle_hull.vertex_list
      facet_list := triangle_hull.facet_list
      num_vertices := 3
      num_facets := 3
      facet_id := 4
      vertex_id := 4 } := by
  have hsub : (List.range 4).sublistsLen 3 = [[1, 2, 3], [0, 2, 3], [0, 1, 3], [0, 1, 2]] := by
    decide
  have hp0 : spec_point 2 corner_points 0 = [1, 1] := rfl
  have hp1 : spec_point 2 corner_points 1 = [0, 0] := rfl
  have hp2 : spec_point 2 corner_points 2 = [1, 0] := rfl
  have hp3 : spec_point 2 corner_points 3 = [0, 1] := rfl
  have hnd : spec_nondegenerate 2 corner_points [1, 2, 3] = true := by
    simp only [spec_nondegenerate, List.map, decide_eq_true_eq, hp1, hp2, hp3, spec_sub,
      List.zipWith, spec_det_two]
    norm_num
  have hfind : ((List.range 4).sublistsLen 3).find? (spec_nondegenerate 2 corner_points)
      = some [1, 2, 3] := by
    rw [hsub, List.find?_cons_of_pos _ hnd]
  have hcen : spec_centroid 2 corner_points [1, 2, 3] = [1 / 3, 1 / 3] := by
    have hr : List.range 2 = [0, 1] := rfl
    simp only [spec_centroid, hr, List.map, hp1, hp2, hp3, List.getD_cons_zero,
      List.getD_cons_succ, List.sum_cons, List.sum_nil, List.length_cons, List.length_nil]
    norm_num
  have hd1 : qh.hull_dim.toNat = 2 := by rw [hd]; rfl
  have hn1 : qh.num_points.toNat = 4 := by rw [hn]; rfl
  have hrem : ((List.range 4).filter fun p => !([1, 2, 3].contains p)) = [0] := by decide
  have hsf : spec_simplex_facets [1, 2, 3].length = [
      { id := 1, vertices := [3, 2], neighbors := [3, 2], simplicial := true },
      { id := 2, vertices := [3, 1], neighbors := [3, 1], simplicial := true },
      { id := 3, vertices := [2, 1], neighbors := [2, 1], simplicial := true }, { id := 0 }] := by
    decide
  have hdist : spec_distplane 2
      (List.map (fun v => spec_point 2 corner_points ([1, 2, 3].getD (v - 1) 0)) [3, 2])
      [1 / 3, 1 / 3] (spec_point 2 corner_points 0) = 1 := by
    have e3 : spec_point 2 corner_points ([1, 2, 3].getD (3 - 1) 0) = [0, 1] := rfl
    have e2 : spec_point 2 corner_points ([1, 2, 3].getD (2 - 1) 0) = [1, 0] := rfl
    simp only [List.map, e3, e2, hp0, spec_distplane, spec_sub, List.zipWith, List.nil_append,
      List.cons_append, spec_det_two]
    norm_num
  have hfl : List.foldl
      (fun facets p =>
        spec_partitionpoint
          (fun facet p =>
            spec_distplane 2
              (List.map (fun v => spec_point 2 corner_points ([1, 2, 3].getD (v - 1) 0))
                facet.vertices)
              [1 / 3, 1 / 3] (spec_point 2 corner_points p))
          p facets)
      (spec_simplex_facets [1, 2, 3].length)
      (List.filter (fun p => !([1, 2, 3].contains p)) (List.range 4))
      = triangle_hull.facet_list := by
    rw [hrem, hsf]
    simp only [List.foldl_cons, List.foldl_nil, spec_partitionpoint, hdist]
    norm_num
    rfl
  unfold spec_initialhull
  simp only [hd1, hn1, hf, hfind, hcen, hfl]
  rfl

/-- The incorporation of the point 0 of `corner_points` into the triangle of
the other three points, inside a `QH_TRY_` block, without merging. -/
theorem corner_points_addpoint :
    spec_addpoint noMerge { triangle_hull with NOerrexit := false } 1 0
      = .ret { square_hull with NOerrexit := false } := by
  have hvis : spec_visible { triangle_hull with NOerrexit := false } 1 0 = [1] :=
    (spec_visible_congr _ triangle_hull rfl rfl rfl rfl rfl 1 0).trans triangle_hull_visible
  simp only [spec_addpoint, spec_findhorizon, hvis]
  rfl

/-- The incorporation of the point 0 of `corner_points` into the triangle of
the other three points, inside a `QH_TRY_` block, with merging during the
construction. -/
theorem corner_points_merge_addpoint :
    spec_addpoint sampleMerge { triangle_hull with NOerrexit := false, PREmerge := true } 1 0
      = .ret { merged_hull with NOerrexit := false } := by
  have hvis : spec_visible { triangle_hull with NOerrexit := false, PREmerge := true } 1 0
      = [1] :=
    (spec_visible_congr _ triangle_hull rfl rfl rfl rfl rfl 1 0).trans triangle_hull_visible
  simp only [spec_addpoint, spec_findhorizon, hvis]
  rfl

/-- The main loop on the triangle of `corner_points`: one incorporation. -/
theorem corner_points_buildhull (seed : Int) :
    spec_buildhull coneKernel false seed coneKernel.max_steps
      { triangle_hull with NOerrexit := false } = .ret { square_hull with NOerrexit := false } := by
  have hsteps : coneKernel.max_steps = 63 + 1 := rfl
  have hnext : spec_nextpoint coneKernel false seed (63 + 1)
      ({ triangle_hull with NOerrexit := false } : QhullQh).facet_list = some (1, 0) := rfl
  have hadd : coneKernel.addpoint = spec_addpoint noMerge := rfl
  rw [hsteps]
  unfold spec_buildhull
  simp only [hnext, hadd, corner_points_addpoint, andThen_ret]
  apply spec_buildhull_of_no_outside
  decide

/-- The main loop on the triangle of `corner_points` with merging during the
construction: one incorporation, with one merge. -/
theorem corner_points_merge_buildhull (seed : Int) :
    spec_buildhull premergeKernel false seed premergeKernel.max_steps
      { triangle_hull with NOerrexit := false, PREmerge := true }
        = .ret { merged_hull with NOerrexit := false } := by
  have hsteps : premergeKernel.max_steps = 63 + 1 := rfl
  have hnext : spec_nextpoint premergeKernel false seed (63 + 1)
      ({ triangle_hull with NOerrexit := false, PREmerge := true } : QhullQh).facet_list
        = some (1, 0) := rfl
  have hadd : premergeKernel.addpoint = spec_addpoint sampleMerge := rfl
  rw [hsteps]
  unfold spec_buildhull
  simp only [hnext, hadd, corner_points_merge_addpoint, andThen_ret]
  apply spec_buildhull_of_no_outside
  decide

/-- The computation of the specification on `corner_points`, inside a
`QH_TRY_` block: the hull of the unit square. -/
theorem corner_points_qhull (clock : Int) (qh : QhullQh)
    (hqh : qh = { fresh_object.qh_qh with
      NOerrexit := false
      hull_dim := 2
      input_dim := 2
      num_points := 4
      first_point := corner_points }) :
    spec_qhull coneKernel clock sampleLib.REALmax qh
      = .ret { square_hull with NOerrexit := false } := by
  have hinit := corner_points_initialhull qh (by rw [hqh]) (by rw [hqh]) (by rw [hqh])
  have hstate : ({ qh with
      interior_point := triangle_hull.interior_point
      vertex_list := triangle_hull.vertex_list
      facet_list := triangle_hull.facet_list
      num_vertices := 3
      num_facets := 3
      facet_id := 4
      vertex_id := 4 } : QhullQh) = { triangle_hull with NOerrexit := false } := by
    rw [hqh]
    rfl
  rw [hstate] at hinit
  have hr : qh.RANDOMoutside = false := by rw [hqh]; rfl
  unfold spec_qhull
  apply spec_rerun_of_ret
  unfold spec_attempt
  simp only [if_true]
  rw [hinit, andThen_ret, hr]
  exact corner_points_buildhull _

/-- The computation of the specification on `corner_points` with merging
during the construction, inside a `QH_TRY_` block: the two facets at the fourth
corner are merged into one. -/
theorem corner_points_merge_qhull (clock : Int) (qh : QhullQh)
    (hqh : qh = { fresh_object.qh_qh with
      NOerrexit := false
      PREmerge := true
      hull_dim := 2
      input_dim := 2
      num_points := 4
      first_point := corner_points }) :
    spec_qhull premergeKernel clock sampleLib.REALmax qh
      = .ret { merged_hull with NOerrexit := false } := by
  have hinit := corner_points_initialhull qh (by rw [hqh]) (by rw [hqh]) (by rw [hqh])
  have hstate : ({ qh with
      interior_point := triangle_hull.interior_point
      vertex_list := triangle_hull.vertex_list
      facet_list := triangle_hull.facet_list
      num_vertices := 3
      num_facets := 3
      facet_id := 4
      vertex_id := 4 } : QhullQh) = { triangle_hull with NOerrexit := false, PREmerge := true } := by
    rw [hqh]
    rfl
  rw [hstate] at hinit
  have hr : qh.RANDOMoutside = false := by rw [hqh]; rfl
  unfold spec_qhull
  apply spec_rerun_of_ret
  unfold spec_attempt
  simp only [if_true]
  rw [hinit, andThen_ret, hr]
  exact corner_points_merge_buildhull _

/-- The hull of the unit square: a first call of `runQhull` on
`corner_points` with the incorporation step of the specification returns
without an error and leaves `square_hull`, after one incorporation. -/
theorem runQhull_square (clock : Int) :
    (∃ s, fresh_object.runQhull_entry.runQhull_try (specLib coneKernel clock)
        ("qhull ".toList ++ []) [] 2 4 corner_points = .ret s)
    ∧ (fresh_object.runQhull (specLib coneKernel clock) [] 2 4 corner_points []).1.qh_qh
        = square_hull
    ∧ (fresh_object.runQhull (specLib coneKernel clock) [] 2 4 corner_points []).2 = none := by
  have htry := runQhull_try_hull (specLib coneKernel clock) fresh_object.runQhull_entry
    (fresh_object.runQhull_entry.runQhull_flags (specLib coneKernel clock)
      ("qhull ".toList ++ []) []).state [] ("qhull ".toList ++ []) 2 4 corner_points rfl rfl
  have hinit := spec_init_B_hull coneKernel
    (fresh_object.runQhull_entry.runQhull_flags (specLib coneKernel clock)
      ("qhull ".toList ++ []) []).state.qh_qh corner_points 4 2 false rfl rfl
  have hq := corner_points_qhull clock _ rfl
  obtain ⟨s, hs, hsq, _⟩ := runQhull_build_spec_ret coneKernel clock _ corner_points 4 2 false
    _ _ hinit hq
  refine ⟨⟨s, htry.trans hs⟩, ?_⟩
  rw [runQhull_of_try _ fresh_object [] [] 2 4 corner_points rfl rfl, htry.trans hs]
  constructor
  · show (sample_maybeThrowQhullMessage { s.qh_qh with NOerrexit := true } 0).1 = square_hull
    rw [hsq]
    rfl
  · show (sample_maybeThrowQhullMessage { s.qh_qh with NOerrexit := true } 0).2 = none
    rw [hsq]
    rfl

/-- The hull of the unit square with merging during the construction: a first
call of `runQhull` on `corner_points` with the kernel `premergeKernel` returns
without an error and leaves `merged_hull`, after one incorporation with one
merge. -/
theorem runQhull_merged (clock : Int) :
    (∃ s, fresh_object.runQhull_entry.runQhull_try (specLib premergeKernel clock)
        ("qhull ".toList ++ "C-0".toList) [] 2 4 corner_points = .ret s)
    ∧ (fresh_object.runQhull (specLib premergeKernel clock) [] 2 4 corner_points
        "C-0".toList).1.qh_qh = merged_hull
    ∧ (fresh_object.runQhull (specLib premergeKernel clock) [] 2 4 corner_points
        "C-0".toList).2 = none := by
  have htry := runQhull_try_hull (specLib premergeKernel clock) fresh_object.runQhull_entry
    (fresh_object.runQhull_entry.runQhull_flags (specLib premergeKernel clock)
      ("qhull ".toList ++ "C-0".toList) []).state [] ("qhull ".toList ++ "C-0".toList) 2 4
    corner_points rfl rfl
  have hinit := spec_init_B_hull premergeKernel
    (fresh_object.runQhull_entry.runQhull_flags (specLib premergeKernel clock)
      ("qhull ".toList ++ "C-0".toList) []).state.qh_qh corner_points 4 2 false rfl rfl
  have hq := corner_points_merge_qhull clock _ rfl
  obtain ⟨s, hs, hsq, _⟩ := runQhull_build_spec_ret premergeKernel clock _ corner_points 4 2
    false _ _ hinit hq
  refine ⟨⟨s, htry.trans hs⟩, ?_⟩
  rw [runQhull_of_try _ fresh_object [] "C-0".toList 2 4 corner_points rfl rfl, htry.trans hs]
  constructor
  · show (sample_maybeThrowQhullMessage { s.qh_qh with NOerrexit := true } 0).1 = merged_hull
    rw [hsq]
    rfl
  · show (sample_maybeThrowQhullMessage { s.qh_qh with NOerrexit := true } 0).2 = none
    rw [hsq]
    rfl

/-! ## C22: the sublists of the facet list during an incorporation -/

/-- The lists after `FindHorizon` and after `BuildCone`, from a state between
two incorporations. -/
theorem spec_makecone_lists (qh : QhullQh) (facet p : Nat) (hok : qh.lists_clear) :
    (spec_findhorizon qh facet p).lists_ok
    ∧ (spec_findhorizon qh facet p).visibles.map (fun f => f.id) = spec_visible qh facet p
    ∧ (spec_findhorizon qh facet p).newfacets = []
    ∧ ∀ s, spec_makecone (spec_findhorizon qh facet p) p = .ret s →
        s.lists_ok ∧ s.visibles = (spec_findhorizon qh facet p).visibles
          ∧ s.newfacets.length = s.facet_id - qh.facet_id := by
  obtain ⟨F, t, hF, ht0, htv, htn, hnd, hall⟩ := lists_clear_split qh hok
  obtain ⟨Vf, hseg1, hVid, hVf⟩ := spec_findhorizon_segments qh facet p F t hF ht0 htv htn hnd
    (fun f hf => ⟨(hall f hf).1, (hall f hf).2.2⟩)
  have hv1 := segments_visibles _ _ _ _ _ hseg1
  refine ⟨lists_ok_of_segments _ _ _ _ _ hseg1, by rw [hv1, hVid],
    segments_newfacets _ _ _ _ _ hseg1, fun s hs => ?_⟩
  have hlt1 : ∀ f ∈ F.filter (fun f => !(spec_visible qh facet p).contains f.id) ++ Vf,
      f.id < (spec_findhorizon qh facet p).facet_id := by
    intro f hf
    rcases List.mem_append.1 hf with hf | hf
    · exact (hall f (List.mem_of_mem_filter hf)).2.1
    · obtain ⟨f0, hf0, -, rfl⟩ := hVf f hf
      exact (hall f0 hf0).2.1
  have hseg2 := spec_makecone_segments (spec_findhorizon qh facet p) p _ Vf t s hseg1 hlt1 hs
  obtain ⟨-, -, hfid, -, -, -, -⟩ := spec_makecone_shape (spec_findhorizon qh facet p)
    p _ Vf t s (by rw [hseg1.1, List.append_nil]) (fun f hf => (hseg1.2.2.2.2.2.2.1 f hf).1)
    hseg1.2.2.2.2.2.2.2.1 hs
  have hfid1 : (spec_findhorizon qh facet p).facet_id = qh.facet_id := rfl
  refine ⟨lists_ok_of_segments _ _ _ _ _ hseg2, ?_, ?_⟩
  · rw [segments_visibles _ _ _ _ _ hseg2, hv1]
  · rw [segments_newfacets _ _ _ _ _ hseg2, hfid, hfid1, List.length_map]
    omega

end orgQhull
